import Mathlib

/-!
# HomeKit ADK, Windows platform abstraction layer: the run loop

A shallow embedding of `PAL/Windows/HAPPlatformRunLoop.c`: the pending-timer queue, the
file-handle registry, the single-slot self-pipe mailbox and the run-loop state, together with
the API functions that act on them.

Modelling conventions.

* Addresses are natural numbers. `0` is `NULL`, `1` is `&runLoop.fileHandleSentinel`, and the
  `n`-th call of `calloc` (counted from zero) returns `n + 2` unless the environment makes it
  fail. A freed address is never handed out again, so a stale handle stays distinguishable from
  every live one.
* The singly linked timer list (`runLoop.timers`, `nextTimer`) is a `List`; the circular doubly
  linked file-handle list keeps its `prevFileHandle` / `nextFileHandle` pointers and lives in an
  address-indexed memory.
* A user callback is a function pointer (a number). What the pointed-to C function does when it
  is called is given by the environment as a `Prog`: a tree of run-loop API calls whose
  continuations receive the values those calls return.
* `HAPFatalError`, a failed `HAPPrecondition` / `HAPAssert` and an access to unallocated memory
  end the execution with a `Fault`. Loops that need not terminate take a fuel argument.
* `trace` is ghost state: every callback invocation is recorded with a snapshot of `runLoop`
  taken at the moment of the call.
-/

namespace HomeKitADK

/-! ## Data model -/

/-- HAPError codes returned by the run-loop API. -/
inductive HAPError where
  | kHAPError_None
  | kHAPError_Unknown
  | kHAPError_OutOfResources
  deriving DecidableEq, Repr

/-- Ways in which an execution ends without returning. -/
inductive Fault where
  /-- Reached `HAPFatalError()`. -/
  | fatalError
  /-- A `HAPPrecondition` failed. -/
  | preconditionFailure
  /-- A `HAPAssert` failed. -/
  | assertionFailure
  /-- A read or write through a pointer that is `NULL`, freed or out of bounds. -/
  | invalidAccess
  /-- The fuel of a bounded loop ran out (the model gave up; the C code would go on). -/
  | outOfFuel
  /-- An integer division by zero. -/
  | divisionByZero
  deriving DecidableEq, Repr

/-- Run loop state (`HAPPlatformRunLoopState`). -/
inductive HAPPlatformRunLoopState where
  | kHAPPlatformRunLoopState_Idle
  | kHAPPlatformRunLoopState_Running
  | kHAPPlatformRunLoopState_Stopping
  deriving DecidableEq, Repr

/-- Set of file handle events (`HAPPlatformFileHandleEvent`). -/
structure HAPPlatformFileHandleEvent where
  isReadyForReading : Bool
  isReadyForWriting : Bool
  hasErrorConditionPending : Bool
  deriving DecidableEq, Repr

/-- The constant `INVALID_SOCKET`, that is `(SOCKET)(~0)` with a 64-bit `SOCKET`. -/
def INVALID_SOCKET : Nat := 2 ^ 64 - 1

/-- The cast `(SOCKET) fileDescriptor` of an `int` to the unsigned 64-bit `SOCKET`. -/
def toSOCKET (fileDescriptor : Int) : Nat := (fileDescriptor % 2 ^ 64).toNat

/-- Internal file handle representation (`struct HAPPlatformFileHandle`). -/
structure HAPPlatformFileHandle where
  fileDescriptor : Nat
  interests : HAPPlatformFileHandleEvent
  /-- Function pointer, `0` for `NULL`. -/
  callback : Nat
  context : Nat
  /-- Address of the previous node, `0` for `NULL`. -/
  prevFileHandle : Nat
  /-- Address of the next node, `0` for `NULL`. -/
  nextFileHandle : Nat
  isAwaitingEvents : Bool
  deriving DecidableEq, Repr

/-- Internal timer representation (`struct HAPPlatformTimer`). The `nextTimer` link is the
position in the list `runLoop.timers`; `ptr` is the address of the node, which is the value of
the `HAPPlatformTimerRef` handed to the caller. -/
structure HAPPlatformTimer where
  ptr : Nat
  deadline : Nat
  callback : Nat
  context : Nat
  deriving DecidableEq, Repr

/-- The null pointer. -/
def NULL : Nat := 0

/-- Address of `runLoop.fileHandleSentinel`. -/
def sentinelAddr : Nat := 1

/-- Address returned by the `n`-th successful `calloc`. -/
def allocAddr (n : Nat) : Nat := n + 2

/-- The constant `UINT8_MAX`. -/
def UINT8_MAX : Nat := 255

/-- Value of `sizeof(HAPPlatformRunLoopCallback)`: a function pointer on 64-bit Windows. -/
def sizeofCallback : Nat := 8

/-- Size of `runLoop.selfPipeBytes`: `sizeof(HAPPlatformRunLoopCallback) + 1 + UINT8_MAX`. -/
def selfPipeBytesSize : Nat := sizeofCallback + 1 + UINT8_MAX

/-- Address-indexed memory holding the file-handle nodes (the sentinel included). -/
abbrev FileHandleMem := List (Nat × HAPPlatformFileHandle)

/-- Read the node at an address. -/
def memLoad : FileHandleMem → Nat → Option HAPPlatformFileHandle
  | [], _ => none
  | (a, v) :: m, addr => if a = addr then some v else memLoad m addr

/-- Write the node at an address (allocating the cell when it is new). -/
def memStore : FileHandleMem → Nat → HAPPlatformFileHandle → FileHandleMem
  | [], addr, v => [(addr, v)]
  | (a, u) :: m, addr, v => if a = addr then (a, v) :: m else (a, u) :: memStore m addr v

/-- Release the cell at an address. -/
def memFree : FileHandleMem → Nat → FileHandleMem
  | [], _ => []
  | (a, u) :: m, addr => if a = addr then memFree m addr else (a, u) :: memFree m addr

/-- The static `runLoop` structure, with the heap cells of the file-handle nodes. -/
structure RunLoop where
  /-- File-handle nodes by address; `fileHandleSentinel` is the cell at `sentinelAddr`. -/
  fileHandleMem : FileHandleMem
  /-- Pointer to the sentinel. -/
  fileHandles : Nat
  /-- Next node to visit in `ProcessSelectedFileHandles`. -/
  fileHandleCursor : Nat
  /-- Pending timers, head first. -/
  timers : List HAPPlatformTimer
  /-- Raw bytes of the mailbox slot. -/
  selfPipeBytes : List Nat
  numSelfPipeBytes : Nat
  state : HAPPlatformRunLoopState
  deriving DecidableEq, Repr

/-- One entry of the array handed to `WSAPoll` (`WSAPOLLFD`). -/
structure WSAPOLLFD where
  fd : Nat
  events : Nat
  revents : Nat
  deriving DecidableEq, Repr

/-- One recorded interaction: a callback invocation, with `runLoop` as it was when the callback
was entered, or a call by which `HAPPlatformRunLoopRun` blocks. -/
inductive Event where
  /-- Call `expiredTimer->callback(expiredTimer, expiredTimer->context)` in `ProcessExpiredTimers`. -/
  | timerCallback (expiredTimer : HAPPlatformTimer) (atCall : RunLoop)
  /-- Call `fileHandle->callback(fileHandle, fileHandleEvents, fileHandle->context)`. -/
  | fileHandleCallback (fileHandle : Nat) (callback : Nat)
      (fileHandleEvents : HAPPlatformFileHandleEvent) (context : Nat) (atCall : RunLoop)
  /-- Call `callback(contextBytes, numContextBytes)` in `SelfPipeHandleCallback`. -/
  | runLoopCallback (callback : Nat) (contextBytes : List Nat) (numContextBytes : Nat)
      (atCall : RunLoop)
  /-- A callback called `HAPPlatformRunLoopScheduleCallback`, which returned `result`. -/
  | scheduleCallback (callback : Nat) (result : HAPError)
  /-- The call `WSAPoll(pollFds, numFileHandles, timeout)` in `HAPPlatformRunLoopRun`. -/
  | poll (pollFds : List WSAPOLLFD) (timeout : Int)
  /-- The call `Sleep(milliseconds)` in `HAPPlatformRunLoopRun`. -/
  | sleep (milliseconds : Int)
  deriving DecidableEq, Repr

/-- Whole machine: the `runLoop` structure plus what surrounds it. -/
structure World where
  runLoop : RunLoop
  /-- Number of `calloc` calls made so far. -/
  numAllocs : Nat
  /-- Bytes sent on `selfPipeSocket1` and not yet received on `selfPipeSocket0`. -/
  selfPipeQueued : Nat
  /-- Memory of the application, read and written by callbacks. -/
  appState : Nat
  /-- Ghost record of the callback invocations so far, oldest first. -/
  trace : List Event
  deriving DecidableEq, Repr

/-- The statically initialised sentinel node. -/
def fileHandleSentinel : HAPPlatformFileHandle :=
  { fileDescriptor := INVALID_SOCKET
    interests :=
      { isReadyForReading := false, isReadyForWriting := false, hasErrorConditionPending := false }
    callback := NULL
    context := NULL
    prevFileHandle := sentinelAddr
    nextFileHandle := sentinelAddr
    isAwaitingEvents := false }

/-- The static initialiser of `runLoop` (zero-initialised where the source names no value). -/
def RunLoop.init : RunLoop :=
  { fileHandleMem := [(sentinelAddr, fileHandleSentinel)]
    fileHandles := sentinelAddr
    fileHandleCursor := sentinelAddr
    timers := []
    selfPipeBytes := List.replicate selfPipeBytesSize 0
    numSelfPipeBytes := 0
    state := HAPPlatformRunLoopState.kHAPPlatformRunLoopState_Idle }

/-- Machine at program start. -/
def World.init : World :=
  { runLoop := RunLoop.init, numAllocs := 0, selfPipeQueued := 0, appState := 0, trace := [] }

/-- Behaviour of a user callback: the run-loop API calls it makes, each continuation receiving
what the call returned. -/
inductive Prog where
  /-- The callback returns. -/
  | ret
  /-- Call `HAPPlatformTimerRegister(&timer, deadline, callback, context)`; the continuation gets the
  error code and the value left in `timer`. -/
  | timerRegister (deadline callback context : Nat) (k : HAPError → Nat → Prog)
  /-- Call `HAPPlatformTimerDeregister(timer)`. -/
  | timerDeregister (timer : Nat) (k : Prog)
  /-- Call `HAPPlatformFileHandleRegister(&fileHandle, fileDescriptor, interests, callback, context)`. -/
  | fileHandleRegister (fileDescriptor : Int) (interests : HAPPlatformFileHandleEvent)
      (callback context : Nat) (k : HAPError → Nat → Prog)
  /-- Call `HAPPlatformFileHandleUpdateInterests(fileHandle, interests, callback, context)`. -/
  | fileHandleUpdateInterests (fileHandle : Nat) (interests : HAPPlatformFileHandleEvent)
      (callback context : Nat) (k : Prog)
  /-- Call `HAPPlatformFileHandleDeregister(fileHandle)`. -/
  | fileHandleDeregister (fileHandle : Nat) (k : Prog)
  /-- Call `HAPPlatformRunLoopScheduleCallback(callback, context, contextSize)`; `context` is `none`
  for `NULL` and otherwise the bytes readable through the pointer. -/
  | scheduleCallback (callback : Nat) (context : Option (List Nat)) (contextSize : Nat)
      (k : HAPError → Prog)
  /-- Call `HAPPlatformRunLoopStop()`. -/
  | runLoopStop (k : Prog)
  /-- Read the application memory. -/
  | load (k : Nat → Prog)
  /-- Write the application memory. -/
  | store (value : Nat) (k : Prog)

/-- Everything the run loop does not control. -/
structure Env where
  /-- Body of the timer callback at a function address, given `(timer, context)`. -/
  timerCallback : Nat → Nat → Nat → Prog
  /-- Body of the file-handle callback at a function address, given
  `(fileHandle, fileHandleEvents, context)`. -/
  fileHandleCallback : Nat → Nat → HAPPlatformFileHandleEvent → Nat → Prog
  /-- Body of the run-loop callback at a function address, given `(context, contextSize)`. -/
  runLoopCallback : Nat → List Nat → Nat → Prog
  /-- Whether the `n`-th call of `calloc` returns `NULL`. -/
  callocFails : Nat → Bool

/-! ## Descriptor registry -/

/-- The function `HAPPlatformFileHandleRegister`: returns the error code, the value left in
`*fileHandle_` and the new machine. -/
def HAPPlatformFileHandleRegister (env : Env) (fileDescriptor : Int)
    (interests : HAPPlatformFileHandleEvent) (callback context : Nat) (w : World) :
    Except Fault (HAPError × Nat × World) :=
  let w0 := { w with numAllocs := w.numAllocs + 1 }
  if env.callocFails w.numAllocs then
    .ok (HAPError.kHAPError_OutOfResources, 0, w0)
  else
    let fileHandle := allocAddr w.numAllocs
    let rl := w.runLoop
    match memLoad rl.fileHandleMem rl.fileHandles with
    | none => .error Fault.invalidAccess
    | some head =>
      let node : HAPPlatformFileHandle :=
        { fileDescriptor := toSOCKET fileDescriptor
          interests := interests
          callback := callback
          context := context
          prevFileHandle := head.prevFileHandle
          nextFileHandle := rl.fileHandles
          isAwaitingEvents := false }
      let mem1 := memStore rl.fileHandleMem fileHandle node
      -- runLoop.fileHandles->prevFileHandle->nextFileHandle = fileHandle;
      match memLoad mem1 head.prevFileHandle with
      | none => .error Fault.invalidAccess
      | some last =>
        let mem2 := memStore mem1 head.prevFileHandle { last with nextFileHandle := fileHandle }
        -- runLoop.fileHandles->prevFileHandle = fileHandle;
        match memLoad mem2 rl.fileHandles with
        | none => .error Fault.invalidAccess
        | some head2 =>
          let mem3 := memStore mem2 rl.fileHandles { head2 with prevFileHandle := fileHandle }
          .ok (HAPError.kHAPError_None, fileHandle,
            { w0 with runLoop := { rl with fileHandleMem := mem3 } })

/-- The function `HAPPlatformFileHandleUpdateInterests`. -/
def HAPPlatformFileHandleUpdateInterests (fileHandle : Nat)
    (interests : HAPPlatformFileHandleEvent) (callback context : Nat) (w : World) :
    Except Fault World :=
  if fileHandle = NULL then .error Fault.preconditionFailure
  else
    match memLoad w.runLoop.fileHandleMem fileHandle with
    | none => .error Fault.invalidAccess
    | some node =>
      .ok { w with runLoop := { w.runLoop with
              fileHandleMem := memStore w.runLoop.fileHandleMem fileHandle
                { node with interests := interests, callback := callback, context := context } } }

/-- The function `HAPPlatformFileHandleDeregister`. The fields of the node are cleared and the
node is freed, which in the model releases its cell; freeing the statically allocated sentinel
is an invalid access. -/
def HAPPlatformFileHandleDeregister (fileHandle : Nat) (w : World) : Except Fault World :=
  if fileHandle = NULL then .error Fault.preconditionFailure
  else
    let rl := w.runLoop
    match memLoad rl.fileHandleMem fileHandle with
    | none => .error Fault.invalidAccess
    | some node =>
      if node.prevFileHandle = NULL then .error Fault.preconditionFailure
      else if node.nextFileHandle = NULL then .error Fault.preconditionFailure
      else
        let cursor :=
          if fileHandle = rl.fileHandleCursor then node.nextFileHandle else rl.fileHandleCursor
        -- fileHandle->prevFileHandle->nextFileHandle = fileHandle->nextFileHandle;
        match memLoad rl.fileHandleMem node.prevFileHandle with
        | none => .error Fault.invalidAccess
        | some before =>
          let mem1 := memStore rl.fileHandleMem node.prevFileHandle
            { before with nextFileHandle := node.nextFileHandle }
          -- fileHandle->nextFileHandle->prevFileHandle = fileHandle->prevFileHandle;
          match memLoad mem1 node.nextFileHandle with
          | none => .error Fault.invalidAccess
          | some after =>
            let mem2 := memStore mem1 node.nextFileHandle
              { after with prevFileHandle := node.prevFileHandle }
            -- HAPPlatformFreeSafe(fileHandle): the sentinel is not a heap cell.
            if fileHandle = sentinelAddr then .error Fault.invalidAccess
            else
              .ok { w with runLoop := { rl with
                      fileHandleMem := memFree mem2 fileHandle
                      fileHandleCursor := cursor } }

/-! ## Timer queue -/

/-- The insertion loop of `HAPPlatformTimerRegister`: walk the list and put `newTimer` in front
of the first node whose stored deadline is greater than the requested `deadline`, or at the end.
-/
def insertTimer (newTimer : HAPPlatformTimer) (deadline : Nat) :
    List HAPPlatformTimer → List HAPPlatformTimer
  | [] => [newTimer]
  | nextTimer :: rest =>
    if nextTimer.deadline > deadline then newTimer :: nextTimer :: rest
    else nextTimer :: insertTimer newTimer deadline rest

/-- The function `HAPPlatformTimerRegister`: returns the error code, the value left in `*timer_`
and the new machine. -/
def HAPPlatformTimerRegister (env : Env) (deadline callback context : Nat) (w : World) :
    Except Fault (HAPError × Nat × World) :=
  if callback = NULL then .error Fault.preconditionFailure
  else
    let w0 := { w with numAllocs := w.numAllocs + 1 }
    if env.callocFails w.numAllocs then
      .ok (HAPError.kHAPError_OutOfResources, NULL, w0)
    else
      let newTimer : HAPPlatformTimer :=
        { ptr := allocAddr w.numAllocs
          deadline := if deadline ≠ 0 then deadline else 1
          callback := callback
          context := context }
      .ok (HAPError.kHAPError_None, newTimer.ptr,
        { w0 with runLoop := { w.runLoop with
                    timers := insertTimer newTimer deadline w.runLoop.timers } })

/-- The search loop of `HAPPlatformTimerDeregister`: unlink the first node whose address is
`timer`; `none` when the loop runs off the end of the list. -/
def removeTimer (timer : Nat) : List HAPPlatformTimer → Option (List HAPPlatformTimer)
  | [] => none
  | nextTimer :: rest =>
    if nextTimer.ptr = timer then some rest
    else
      match removeTimer timer rest with
      | none => none
      | some rest' => some (nextTimer :: rest')

/-- The function `HAPPlatformTimerDeregister`. -/
def HAPPlatformTimerDeregister (timer : Nat) (w : World) : Except Fault World :=
  if timer = NULL then .error Fault.preconditionFailure
  else
    match removeTimer timer w.runLoop.timers with
    | some timers => .ok { w with runLoop := { w.runLoop with timers := timers } }
    | none => .error Fault.fatalError

/-! ## Cross-thread mailbox -/

/-- Object representation of a function pointer: eight bytes, least significant first. -/
def encodePtr (p : Nat) : List Nat :=
  (List.range sizeofCallback).map fun i => p / 256 ^ i % 256

/-- Value of a little-endian byte sequence. -/
def decodePtr : List Nat → Nat
  | [] => 0
  | b :: bs => b + 256 * decodePtr bs

/-- The call `HAPRawBufferCopyBytes(&dst[offset], src, src.length)`. -/
def copyBytes (dst : List Nat) (offset : Nat) (src : List Nat) : List Nat :=
  dst.take offset ++ src ++ dst.drop (offset + src.length)

/-- Conversion of a `uint8_t` value to `char` (signed, as with MSVC). -/
def charOfUInt8 (u : Nat) : Int := if u < 128 then (u : Int) else (u : Int) - 256

/-- Byte stored in memory for a `char` value. -/
def byteOfChar (c : Int) : Nat := (c % 256).toNat

/-- The `char` value read from a byte of memory. -/
def charOfByte (b : Nat) : Int := if b < 128 then (b : Int) else (b : Int) - 256

/-- Conversion of a `char` value to `uint8_t`. -/
def uint8OfChar (c : Int) : Nat := (c % 256).toNat

/-- The function `HAPPlatformRunLoopScheduleCallback`. `context` is `none` for a `NULL`
pointer, otherwise the bytes readable through it. -/
def HAPPlatformRunLoopScheduleCallback (callback : Nat) (context : Option (List Nat))
    (contextSize : Nat) (w : World) : Except Fault (HAPError × World) :=
  if callback = NULL then .error Fault.preconditionFailure
  else if contextSize ≠ 0 ∧ context = none then .error Fault.preconditionFailure
  else if ¬ contextSize ≤ UINT8_MAX then .error Fault.preconditionFailure
  else if w.runLoop.numSelfPipeBytes > 0 then
    .ok (HAPError.kHAPError_OutOfResources, w)
  else
    let bytes0 := copyBytes w.runLoop.selfPipeBytes 0 (encodePtr callback)
    let bytes1 := bytes0.set sizeofCallback (byteOfChar (charOfUInt8 (contextSize % 256)))
    let src := context.getD []
    if contextSize ≠ 0 ∧ src.length < contextSize then .error Fault.invalidAccess
    else
      let bytes2 :=
        if contextSize ≠ 0 then copyBytes bytes1 (sizeofCallback + 1) (src.take contextSize)
        else bytes1
      .ok (HAPError.kHAPError_None,
        { w with
          runLoop := { w.runLoop with
            selfPipeBytes := bytes2
            numSelfPipeBytes := sizeofCallback + 1 + contextSize }
          -- send(runLoop.selfPipeSocket1, &byte, 1, 0);
          selfPipeQueued := w.selfPipeQueued + 1 })

/-! ## Reactor driver -/

/-- The function `HAPPlatformRunLoopStop`. -/
def HAPPlatformRunLoopStop (w : World) : World :=
  if w.runLoop.state = HAPPlatformRunLoopState.kHAPPlatformRunLoopState_Running then
    { w with
      runLoop := { w.runLoop with
        state := HAPPlatformRunLoopState.kHAPPlatformRunLoopState_Stopping }
      selfPipeQueued := w.selfPipeQueued + 1 }
  else w

/-! ## Callbacks -/

/-- Execute the body of a user callback: each API call acts on the machine and its results are
passed to the continuation. A fault ends the execution. -/
def runProg (env : Env) : Prog → World → Except Fault World
  | Prog.ret, w => .ok w
  | Prog.timerRegister deadline callback context k, w =>
    match HAPPlatformTimerRegister env deadline callback context w with
    | .error f => .error f
    | .ok (err, timer, w1) => runProg env (k err timer) w1
  | Prog.timerDeregister timer k, w =>
    match HAPPlatformTimerDeregister timer w with
    | .error f => .error f
    | .ok w1 => runProg env k w1
  | Prog.fileHandleRegister fileDescriptor interests callback context k, w =>
    match HAPPlatformFileHandleRegister env fileDescriptor interests callback context w with
    | .error f => .error f
    | .ok (err, fileHandle, w1) => runProg env (k err fileHandle) w1
  | Prog.fileHandleUpdateInterests fileHandle interests callback context k, w =>
    match HAPPlatformFileHandleUpdateInterests fileHandle interests callback context w with
    | .error f => .error f
    | .ok w1 => runProg env k w1
  | Prog.fileHandleDeregister fileHandle k, w =>
    match HAPPlatformFileHandleDeregister fileHandle w with
    | .error f => .error f
    | .ok w1 => runProg env k w1
  | Prog.scheduleCallback callback context contextSize k, w =>
    match HAPPlatformRunLoopScheduleCallback callback context contextSize w with
    | .error f => .error f
    | .ok (err, w1) =>
      runProg env (k err)
        { w1 with trace := w1.trace ++ [Event.scheduleCallback callback err] }
  | Prog.runLoopStop k, w => runProg env k (HAPPlatformRunLoopStop w)
  | Prog.load k, w => runProg env (k w.appState) w
  | Prog.store value k, w => runProg env k { w with appState := value }

/-- The machine on which `ProcessExpiredTimers` invokes the callback of the head timer:
`runLoop.timers = runLoop.timers->nextTimer` has been executed, and the invocation is recorded
with the `runLoop` that the callback finds. -/
def fireHead (w : World) (expiredTimer : HAPPlatformTimer) (nextTimer : List HAPPlatformTimer) :
    World :=
  { w with
    runLoop := { w.runLoop with timers := nextTimer }
    trace := w.trace ++ [Event.timerCallback expiredTimer { w.runLoop with timers := nextTimer }] }

/-- The function `ProcessExpiredTimers`, with `now` the value that its call of
`HAPPlatformClockGetCurrent` returned. Each unit of fuel pays for one callback invocation. -/
def ProcessExpiredTimers (env : Env) (now : Nat) : Nat → World → Except Fault World
  | 0, _ => .error Fault.outOfFuel
  | fuel + 1, w =>
    match w.runLoop.timers with
    | [] => .ok w
    | expiredTimer :: nextTimer =>
      if expiredTimer.deadline > now then .ok w
      else
        match runProg env
            (env.timerCallback expiredTimer.callback expiredTimer.ptr expiredTimer.context)
            (fireHead w expiredTimer nextTimer) with
        | .error f => .error f
        | .ok w2 => ProcessExpiredTimers env now fuel w2

/-- The function `SelfPipeHandleCallback`. The callback receives the `numContextBytes` bytes
copied out of the slot (the rest of the local buffer is uninitialised). -/
def SelfPipeHandleCallback (env : Env) (fileHandleEvents : HAPPlatformFileHandleEvent)
    (w : World) : Except Fault World :=
  if fileHandleEvents.isReadyForReading then
    -- recv(runLoop.selfPipeSocket0, buffer, sizeof buffer, 0);
    let w1 := { w with selfPipeQueued := w.selfPipeQueued - min 256 w.selfPipeQueued }
    if w1.runLoop.numSelfPipeBytes > 0 then
      let callback := decodePtr (w1.runLoop.selfPipeBytes.take sizeofCallback)
      let numContextBytes := uint8OfChar (charOfByte (w1.runLoop.selfPipeBytes.getD sizeofCallback 0))
      let contextBytes :=
        if numContextBytes ≠ 0 then
          (w1.runLoop.selfPipeBytes.drop (sizeofCallback + 1)).take numContextBytes
        else []
      let rl := { w1.runLoop with numSelfPipeBytes := 0 }
      let w2 := { w1 with
        runLoop := rl
        trace := w1.trace ++ [Event.runLoopCallback callback contextBytes numContextBytes rl] }
      runProg env (env.runLoopCallback callback contextBytes numContextBytes) w2
    else .ok w1
  else .ok w

/-! ## Dispatch of ready file handles -/

/-- The flag `POLLIN` of `winsock2.h` (`POLLRDNORM | POLLRDBAND`). -/
def POLLIN : Nat := 0x0300

/-- The flag `POLLOUT` of `winsock2.h` (`POLLWRNORM`). -/
def POLLOUT : Nat := 0x0010

/-- The flag `POLLERR` of `winsock2.h`. -/
def POLLERR : Nat := 0x0001

/-- The flag `POLLHUP` of `winsock2.h`. -/
def POLLHUP : Nat := 0x0002

/-- The constant `INT_MAX` of a 32-bit `int`. -/
def INT_MAX : Nat := 2147483647

/-- The constant `SOCKET_ERROR` of `winsock2.h`. -/
def SOCKET_ERROR : Int := -1

/-- Address of the function `SelfPipeHandleCallback`, the one file-handle callback that is code
of the run loop itself. -/
def SelfPipeHandleCallbackAddr : Nat := 1

/-- The events handed to a file-handle callback: each interest of the handle that the `revents`
of its poll entry satisfy. -/
def fileHandleEventsOf (interests : HAPPlatformFileHandleEvent) (revents : Nat) :
    HAPPlatformFileHandleEvent :=
  { isReadyForReading := interests.isReadyForReading && (Nat.land revents POLLIN != 0)
    isReadyForWriting := interests.isReadyForWriting && (Nat.land revents POLLOUT != 0)
    hasErrorConditionPending :=
      interests.hasErrorConditionPending && (Nat.land revents (Nat.lor POLLERR POLLHUP) != 0) }

/-- The search `for (i = 0; i < numFds; i++) if (pollFds[i].fd == fd)`: the first entry of the
poll array with the given descriptor. -/
def findPollFd : List WSAPOLLFD → Nat → Option WSAPOLLFD
  | [], _ => none
  | entry :: rest, fd => if entry.fd = fd then some entry else findPollFd rest fd

/-- The call `fileHandle->callback(fileHandle, fileHandleEvents, fileHandle->context)`: the
invocation is recorded, then the body runs, which is `SelfPipeHandleCallback` for that address
and given by the environment otherwise. -/
def invokeFileHandleCallback (env : Env) (fileHandle : Nat) (node : HAPPlatformFileHandle)
    (fileHandleEvents : HAPPlatformFileHandleEvent) (w : World) : Except Fault World :=
  let w1 := { w with
    trace := w.trace ++
      [Event.fileHandleCallback fileHandle node.callback fileHandleEvents node.context w.runLoop] }
  if node.callback = SelfPipeHandleCallbackAddr then SelfPipeHandleCallback env fileHandleEvents w1
  else runProg env (env.fileHandleCallback node.callback fileHandle fileHandleEvents node.context) w1

/-- The `while` loop of `ProcessSelectedFileHandles`. Each unit of fuel pays for one visited
node. -/
def dispatchLoop (env : Env) (pollFds : List WSAPOLLFD) : Nat → World → Except Fault World
  | 0, _ => .error Fault.outOfFuel
  | fuel + 1, w =>
    if w.runLoop.fileHandleCursor = w.runLoop.fileHandles then .ok w
    else
      let fileHandle := w.runLoop.fileHandleCursor
      match memLoad w.runLoop.fileHandleMem fileHandle with
      | none => .error Fault.invalidAccess
      | some node =>
        -- runLoop.fileHandleCursor = fileHandle->nextFileHandle;
        let w1 := { w with runLoop := { w.runLoop with fileHandleCursor := node.nextFileHandle } }
        if node.isAwaitingEvents then
          if node.fileDescriptor = INVALID_SOCKET then .error Fault.assertionFailure
          else
            let node1 := { node with isAwaitingEvents := false }
            let w2 := { w1 with runLoop := { w1.runLoop with
              fileHandleMem := memStore w1.runLoop.fileHandleMem fileHandle node1 } }
            if node1.callback ≠ NULL then
              match findPollFd pollFds node1.fileDescriptor with
              | none => dispatchLoop env pollFds fuel w2
              | some entry =>
                let fileHandleEvents := fileHandleEventsOf node1.interests entry.revents
                if fileHandleEvents.isReadyForReading || fileHandleEvents.isReadyForWriting ||
                    fileHandleEvents.hasErrorConditionPending then
                  match invokeFileHandleCallback env fileHandle node1 fileHandleEvents w2 with
                  | .error f => .error f
                  | .ok w3 => dispatchLoop env pollFds fuel w3
                else dispatchLoop env pollFds fuel w2
            else dispatchLoop env pollFds fuel w2
        else dispatchLoop env pollFds fuel w1

/-- The function `ProcessSelectedFileHandles(pollFds, numFds)`, with `numFds` the length of
`pollFds`. -/
def ProcessSelectedFileHandles (env : Env) (pollFds : List WSAPOLLFD) (fuel : Nat) (w : World) :
    Except Fault World :=
  -- runLoop.fileHandleCursor = runLoop.fileHandles->nextFileHandle;
  match memLoad w.runLoop.fileHandleMem w.runLoop.fileHandles with
  | none => .error Fault.invalidAccess
  | some head =>
    dispatchLoop env pollFds fuel
      { w with runLoop := { w.runLoop with fileHandleCursor := head.nextFileHandle } }

/-! ## The run loop -/

/-- The poll timeout computed by `HAPPlatformRunLoopRun`, with `now` the value returned by its
call of `HAPPlatformClockGetCurrent` (made only when a timer is pending). The difference is
taken in unsigned 64-bit arithmetic. -/
def pollTimeout (timers : List HAPPlatformTimer) (now : Nat) : Int :=
  match timers with
  | [] => -1
  | timer :: _ =>
    if timer.deadline ≤ now then 0
    else
      let delta := (timer.deadline + 2 ^ 64 - now) % 2 ^ 64
      if delta < INT_MAX then (delta : Int) else (INT_MAX : Int)

/-- The loop `for (fileHandle = start; fileHandle != sentinel; fileHandle = fileHandle->
nextFileHandle)`: the addresses it visits. A walk that comes back to the sentinel visits every
cell at most once, so fuel equal to the number of cells is enough for every walk that ends. -/
def walkFileHandles (mem : FileHandleMem) (sentinel : Nat) : Nat → Nat → Except Fault (List Nat)
  | 0, a => if a = sentinel then .ok [] else .error Fault.outOfFuel
  | fuel + 1, a =>
    if a = sentinel then .ok []
    else
      match memLoad mem a with
      | none => .error Fault.invalidAccess
      | some node =>
        match walkFileHandles mem sentinel fuel node.nextFileHandle with
        | .error f => .error f
        | .ok rest => .ok (a :: rest)

/-- The requested events of a poll entry. -/
def pollEventsOf (interests : HAPPlatformFileHandleEvent) : Nat :=
  Nat.lor (if interests.isReadyForReading then POLLIN else 0)
    (if interests.isReadyForWriting then POLLOUT else 0)

/-- The loop of `HAPPlatformRunLoopRun` that builds the poll array: one entry per visited
handle, in visiting order, and each visited handle is marked as awaiting events. -/
def fillPollFds (mem : FileHandleMem) : List Nat → FileHandleMem × List WSAPOLLFD
  | [] => (mem, [])
  | fileHandle :: rest =>
    match memLoad mem fileHandle with
    | none => fillPollFds mem rest
    | some node =>
      let filled := fillPollFds (memStore mem fileHandle { node with isAwaitingEvents := true }) rest
      (filled.1,
        { fd := node.fileDescriptor, events := pollEventsOf node.interests, revents := 0 }
          :: filled.2)

/-- What `WSAPoll` returned: its result and the `revents` it wrote, entry by entry. -/
structure PollResult where
  numReady : Int
  revents : List Nat

/-- The poll array after `WSAPoll` wrote the `revents`. -/
def applyRevents : List WSAPOLLFD → List Nat → List WSAPOLLFD
  | [], _ => []
  | entry :: rest, [] => entry :: rest
  | entry :: rest, r :: rs => { entry with revents := r } :: applyRevents rest rs

/-- What the environment contributes to one cycle of the loop in `HAPPlatformRunLoopRun`. -/
structure CycleInput where
  /-- Value returned by `HAPPlatformClockGetCurrent` in `ProcessExpiredTimers`. -/
  nowExpired : Nat
  /-- Fuel of the `ProcessExpiredTimers` pass. -/
  timerFuel : Nat
  /-- Value returned by `HAPPlatformClockGetCurrent` in the timeout computation. -/
  nowTimeout : Nat
  /-- Outcome of `WSAPoll`. -/
  poll : PollResult
  /-- Fuel of the dispatch pass. -/
  dispatchFuel : Nat

/-- The part of a cycle up to and including the call of `WSAPoll`: expired timers, timeout,
poll array. The result is `none` when the cycle ends before polling (`continue`), and otherwise
the poll array as built. -/
def cycleUntilPoll (env : Env) (inp : CycleInput) (w : World) :
    Except Fault (World × Option (List WSAPOLLFD)) :=
  match ProcessExpiredTimers env inp.nowExpired inp.timerFuel w with
  | .error f => .error f
  | .ok w1 =>
    let timeout := pollTimeout w1.runLoop.timers inp.nowTimeout
    match memLoad w1.runLoop.fileHandleMem w1.runLoop.fileHandles with
    | none => .error Fault.invalidAccess
    | some head =>
      match walkFileHandles w1.runLoop.fileHandleMem w1.runLoop.fileHandles
          w1.runLoop.fileHandleMem.length head.nextFileHandle with
      | .error f => .error f
      | .ok handles =>
        if handles.length = 0 then
          -- Sleep(timeout >= 0 ? timeout : 100); continue;
          .ok ({ w1 with trace := w1.trace ++ [Event.sleep (if timeout ≥ 0 then timeout else 100)] },
            none)
        else
          -- pollFds = calloc(numFileHandles, sizeof(WSAPOLLFD));
          let w2 := { w1 with numAllocs := w1.numAllocs + 1 }
          if env.callocFails w1.numAllocs then .ok (w2, none)
          else
            let filled := fillPollFds w2.runLoop.fileHandleMem handles
            .ok ({ w2 with
                    runLoop := { w2.runLoop with fileHandleMem := filled.1 }
                    trace := w2.trace ++ [Event.poll filled.2 timeout] },
              some filled.2)

/-- One execution of the body of the `while` loop in `HAPPlatformRunLoopRun`. -/
def runLoopCycle (env : Env) (inp : CycleInput) (w : World) : Except Fault World :=
  match cycleUntilPoll env inp w with
  | .error f => .error f
  | .ok (w1, none) => .ok w1
  | .ok (w1, some pollFds) =>
    if inp.poll.numReady = SOCKET_ERROR then .ok w1
    else if inp.poll.numReady > 0 then
      ProcessSelectedFileHandles env (applyRevents pollFds inp.poll.revents) inp.dispatchFuel w1
    else .ok w1

/-- The `while (runLoop.state == kHAPPlatformRunLoopState_Running)` loop. The list of inputs is
its fuel: one element per cycle. -/
def runLoopWhile (env : Env) : List CycleInput → World → Except Fault World
  | [], w =>
    if w.runLoop.state = HAPPlatformRunLoopState.kHAPPlatformRunLoopState_Running then
      .error Fault.outOfFuel
    else .ok w
  | inp :: rest, w =>
    if w.runLoop.state = HAPPlatformRunLoopState.kHAPPlatformRunLoopState_Running then
      match runLoopCycle env inp w with
      | .error f => .error f
      | .ok w1 => runLoopWhile env rest w1
    else .ok w

/-- The function `HAPPlatformRunLoopRun`. -/
def HAPPlatformRunLoopRun (env : Env) (inputs : List CycleInput) (w : World) :
    Except Fault World :=
  if w.runLoop.state ≠ HAPPlatformRunLoopState.kHAPPlatformRunLoopState_Idle then
    .error Fault.preconditionFailure
  else
    match runLoopWhile env inputs
        { w with runLoop := { w.runLoop with
            state := HAPPlatformRunLoopState.kHAPPlatformRunLoopState_Running } } with
    | .error f => .error f
    | .ok w1 =>
      .ok { w1 with runLoop := { w1.runLoop with
              state := HAPPlatformRunLoopState.kHAPPlatformRunLoopState_Idle } }

/-! ## Clock -/

/-- The static variables of `HAPPlatformClockGetCurrent`. -/
structure ClockState where
  isInitialized : Bool
  previousNow : Nat
  frequency : Int
  startCounter : Int
  deriving DecidableEq, Repr

/-- The static initialisers (`frequency` and `startCounter` are zero-initialised). -/
def ClockState.init : ClockState :=
  { isInitialized := false, previousNow := 0, frequency := 0, startCounter := 0 }

/-- What the operating system answers during one call of `HAPPlatformClockGetCurrent`; `none`
is a failed call. -/
structure ClockInput where
  /-- Answer of `QueryPerformanceFrequency` (asked on the first call only). -/
  frequency : Option Int
  /-- Answer of the `QueryPerformanceCounter` call of the initialisation. -/
  startCounter : Option Int
  /-- Answer of the `QueryPerformanceCounter` call for the current counter. -/
  currentCounter : Option Int

/-- Reduction of an integer to the signed 64-bit `LONGLONG`. -/
def wrapInt64 (x : Int) : Int := (x + 2 ^ 63) % 2 ^ 64 - 2 ^ 63

/-- The elapsed milliseconds `(HAPTime)((elapsed * 1000) / frequency.QuadPart)`. -/
def elapsedMilliseconds (currentCounter startCounter frequency : Int) : Nat :=
  let elapsed := wrapInt64 (currentCounter - startCounter)
  ((Int.tdiv (wrapInt64 (elapsed * 1000)) frequency) % 2 ^ 64).toNat

/-- The two checks at the end of `HAPPlatformClockGetCurrent`, on the value `now` just computed
and the value `previousNow` returned last: the result is `now`, which is then the new
`previousNow`. -/
def clockCheck (previousNow now : Nat) : Except Fault Nat :=
  if now < previousNow then .error Fault.fatalError
  else if Nat.land now (2 ^ 63) ≠ 0 then .error Fault.fatalError
  else .ok now

/-- The function `HAPPlatformClockGetCurrent`: the returned time and the new static state. -/
def HAPPlatformClockGetCurrent (inp : ClockInput) (s : ClockState) :
    Except Fault (Nat × ClockState) :=
  let initialised : Except Fault ClockState :=
    if s.isInitialized then .ok s
    else
      match inp.frequency with
      | none => .error Fault.fatalError
      | some frequency =>
        match inp.startCounter with
        | none => .error Fault.fatalError
        | some startCounter =>
          .ok { s with isInitialized := true, frequency := frequency, startCounter := startCounter }
  match initialised with
  | .error f => .error f
  | .ok s1 =>
    match inp.currentCounter with
    | none => .error Fault.fatalError
    | some currentCounter =>
      if s1.frequency = 0 then .error Fault.divisionByZero
      else
        match clockCheck s1.previousNow
            (elapsedMilliseconds currentCounter s1.startCounter s1.frequency) with
        | .error f => .error f
        | .ok now => .ok (now, { s1 with previousNow := now })

/-! ## Executions -/

/-- One step of an execution on the run-loop thread. -/
inductive Step where
  /-- Code outside any callback makes the API calls of `p`. -/
  | call (p : Prog)
  /-- One pass of `ProcessExpiredTimers` with clock value `now`. -/
  | processExpiredTimers (now fuel : Nat)
  /-- One invocation of `SelfPipeHandleCallback`. -/
  | selfPipeHandleCallback (fileHandleEvents : HAPPlatformFileHandleEvent)
  /-- One call of `HAPPlatformRunLoopRun`, which runs through the given cycles. -/
  | runLoopRun (inputs : List CycleInput)

/-- Execute one step. -/
def Step.run (env : Env) : Step → World → Except Fault World
  | Step.call p, w => runProg env p w
  | Step.processExpiredTimers now fuel, w => ProcessExpiredTimers env now fuel w
  | Step.selfPipeHandleCallback fileHandleEvents, w => SelfPipeHandleCallback env fileHandleEvents w
  | Step.runLoopRun inputs, w => HAPPlatformRunLoopRun env inputs w

/-- Execute a sequence of steps, stopping at the first fault. -/
def runSteps (env : Env) : List Step → World → Except Fault World
  | [], w => .ok w
  | s :: rest, w =>
    match s.run env w with
    | .error f => .error f
    | .ok w1 => runSteps env rest w1

/-- The timers whose callbacks a trace records, in invocation order. -/
def firedTimers : List Event → List HAPPlatformTimer
  | [] => []
  | Event.timerCallback t _ :: es => t :: firedTimers es
  | _ :: es => firedTimers es

/-! ## File manager: the paths of a write -/

/-- The constant `MAX_PATH` of `windows.h`. -/
def MAX_PATH : Nat := 260

/-- The loop `for (char* p = path; *p; p++) if (*p == '/') *p = '\\';` on the bytes of a C
string: `47` is `'/'` and `92` is `'\\'`. -/
def normalizeSeparators (path : List Nat) : List Nat :=
  path.map fun c => if c = 47 then 92 else c

/-- A stand-in for `HAPStringWithFormat(bytes, maxBytes, format, ...)`, which is defined outside
the platform layer: `formatted` are the bytes that the format produces, and the call fails with
`kHAPError_OutOfResources` when they and the terminator do not fit in `maxBytes`. -/
def formatWithin (maxBytes : Nat) (formatted : List Nat) : Except HAPError (List Nat) :=
  if formatted.length < maxBytes then .ok formatted
  else .error HAPError.kHAPError_OutOfResources

/-- The loop of `HAPPlatformFileManagerWriteFile` that looks for the last separator:
`for (i = 0; i < filePathLength; ++i) if (targetDirPath[i] == '\\') { dirPathLength = i;
relativeFilePath = &filePath[i + 1]; }`, started with `dirPathLength = 0` and
`relativeFilePath = filePath`. -/
def splitFilePath (targetDirPath filePath : List Nat) : Nat × List Nat :=
  (List.range filePath.length).foldl
    (fun (acc : Nat × List Nat) (i : Nat) =>
      if targetDirPath.getD i 0 = 92 then (i, filePath.drop (i + 1)) else acc)
    (0, filePath)

/-- The strings that `HAPPlatformFileManagerWriteFile` computes from `filePath`. -/
structure WriteFilePaths where
  targetDirPath : List Nat
  relativeFilePath : List Nat
  tmpPath : List Nat
  finalPath : List Nat
  deriving DecidableEq, Repr

/-- The path computations of `HAPPlatformFileManagerWriteFile(filePath, bytes, numBytes)` when
the directory and file operations succeed. A C string is the list of its bytes before the
terminator, so that `HAPStringGetNumBytes` is the length; `withFormat` is
`HAPStringWithFormat`, given the size of the buffer and the bytes that the format produces. -/
def HAPPlatformFileManagerWriteFile (withFormat : Nat → List Nat → Except HAPError (List Nat))
    (filePath : List Nat) : Except Fault (Except HAPError WriteFilePaths) :=
  -- err = HAPStringWithFormat(targetDirPath, sizeof targetDirPath, "%s", filePath);
  match withFormat MAX_PATH filePath with
  | .error err =>
    if err = HAPError.kHAPError_OutOfResources then .ok (.error HAPError.kHAPError_Unknown)
    else .error Fault.assertionFailure
  | .ok copied =>
    let normalized := normalizeSeparators copied
    -- HAPPrecondition(filePathLength);
    if filePath.length = 0 then .error Fault.preconditionFailure
    else
      let split := splitFilePath normalized filePath
      -- if (dirPathLength > 0) targetDirPath[dirPathLength] = 0; else targetDirPath = ".";
      let targetDirPath := if split.1 > 0 then normalized.take split.1 else [46]
      let relativeFilePath := split.2
      -- HAPStringWithFormat(tmpPath, sizeof tmpPath, "%s\\%s-tmp", targetDirPath, relativeFilePath);
      match withFormat MAX_PATH
          (targetDirPath ++ [92] ++ relativeFilePath ++ [45, 116, 109, 112]) with
      | .error err =>
        if err = HAPError.kHAPError_OutOfResources then .ok (.error HAPError.kHAPError_Unknown)
        else .error Fault.assertionFailure
      | .ok tmpPath =>
        -- HAPStringWithFormat(finalPath, sizeof finalPath, "%s\\%s", targetDirPath, relativeFilePath);
        match withFormat MAX_PATH (targetDirPath ++ [92] ++ relativeFilePath) with
        | .error err =>
          if err = HAPError.kHAPError_OutOfResources then .ok (.error HAPError.kHAPError_Unknown)
          else .error Fault.assertionFailure
        | .ok finalPath =>
          .ok (.ok
            { targetDirPath := targetDirPath
              relativeFilePath := relativeFilePath
              tmpPath := normalizeSeparators tmpPath
              finalPath := normalizeSeparators finalPath })

/-! ## Invariants -/

/-- One change of the machine made by an API call of a callback body. -/
inductive ApiUpdate (env : Env) : World → World → Prop where
  | timerRegister {d cb ctx : Nat} {w w1 : World} {err : HAPError} {t : Nat} :
      HAPPlatformTimerRegister env d cb ctx w = .ok (err, t, w1) → ApiUpdate env w w1
  | timerDeregister {timer : Nat} {w w1 : World} :
      HAPPlatformTimerDeregister timer w = .ok w1 → ApiUpdate env w w1
  | fileHandleRegister {fd : Int} {i : HAPPlatformFileHandleEvent} {cb ctx : Nat} {w w1 : World}
      {err : HAPError} {fh : Nat} :
      HAPPlatformFileHandleRegister env fd i cb ctx w = .ok (err, fh, w1) → ApiUpdate env w w1
  | fileHandleUpdateInterests {fh : Nat} {i : HAPPlatformFileHandleEvent} {cb ctx : Nat}
      {w w1 : World} :
      HAPPlatformFileHandleUpdateInterests fh i cb ctx w = .ok w1 → ApiUpdate env w w1
  | fileHandleDeregister {fh : Nat} {w w1 : World} :
      HAPPlatformFileHandleDeregister fh w = .ok w1 → ApiUpdate env w w1
  | scheduleCallback {cb : Nat} {ctx : Option (List Nat)} {n : Nat} {w w1 : World}
      {err : HAPError} :
      HAPPlatformRunLoopScheduleCallback cb ctx n w = .ok (err, w1) →
      ApiUpdate env w { w1 with trace := w1.trace ++ [Event.scheduleCallback cb err] }
  | stop (w : World) : ApiUpdate env w (HAPPlatformRunLoopStop w)
  | store (w : World) (v : Nat) : ApiUpdate env w { w with appState := v }

/-- One primitive change of the machine made while `HAPPlatformRunLoopRun` is on the stack or
an API function is called: every execution is a sequence of such changes, so a property kept by
each of them holds along every execution. -/
inductive Update (env : Env) : World → World → Prop where
  /-- An API call of a callback body. -/
  | api {w w1 : World} : ApiUpdate env w w1 → Update env w w1
  /-- The head timer is unlinked in `ProcessExpiredTimers` and its callback is entered. -/
  | fireHead {w : World} {t : HAPPlatformTimer} {rest : List HAPPlatformTimer} :
      w.runLoop.timers = t :: rest → Update env w (fireHead w t rest)
  /-- The call of `recv` in `SelfPipeHandleCallback`. -/
  | selfPipeRecv (w : World) :
      Update env w { w with selfPipeQueued := w.selfPipeQueued - min 256 w.selfPipeQueued }
  /-- The slot is marked empty in `SelfPipeHandleCallback` and the stored callback is entered. -/
  | selfPipeDeliver {w : World} (callback : Nat) (contextBytes : List Nat)
      (numContextBytes : Nat) :
      0 < w.runLoop.numSelfPipeBytes →
      Update env w { w with
        runLoop := { w.runLoop with numSelfPipeBytes := 0 }
        trace := w.trace ++ [Event.runLoopCallback callback contextBytes numContextBytes
          { w.runLoop with numSelfPipeBytes := 0 }] }
  /-- A file-handle callback is entered by `ProcessSelectedFileHandles`. -/
  | enterFileHandleCallback {w : World} {node : HAPPlatformFileHandle} (fileHandle : Nat)
      (fileHandleEvents : HAPPlatformFileHandleEvent) :
      memLoad w.runLoop.fileHandleMem fileHandle = some node →
      Update env w { w with
        trace := w.trace ++
          [Event.fileHandleCallback fileHandle node.callback fileHandleEvents node.context
            w.runLoop] }
  /-- The cursor is set to the first node at the start of `ProcessSelectedFileHandles`. -/
  | dispatchStart {w : World} {head : HAPPlatformFileHandle} :
      memLoad w.runLoop.fileHandleMem w.runLoop.fileHandles = some head →
      Update env w
        { w with runLoop := { w.runLoop with fileHandleCursor := head.nextFileHandle } }
  /-- The dispatch loop passes a node that is not awaiting events. -/
  | visitIdle {w : World} {node : HAPPlatformFileHandle} :
      w.runLoop.fileHandleCursor ≠ w.runLoop.fileHandles →
      memLoad w.runLoop.fileHandleMem w.runLoop.fileHandleCursor = some node →
      node.isAwaitingEvents = false →
      Update env w
        { w with runLoop := { w.runLoop with fileHandleCursor := node.nextFileHandle } }
  /-- The dispatch loop passes a node that is awaiting events and clears its flag. -/
  | visitAwaiting {w : World} {node : HAPPlatformFileHandle} :
      w.runLoop.fileHandleCursor ≠ w.runLoop.fileHandles →
      memLoad w.runLoop.fileHandleMem w.runLoop.fileHandleCursor = some node →
      node.isAwaitingEvents = true →
      Update env w
        { w with runLoop := { w.runLoop with
            fileHandleCursor := node.nextFileHandle
            fileHandleMem := memStore w.runLoop.fileHandleMem w.runLoop.fileHandleCursor
              { node with isAwaitingEvents := false } } }
  /-- A cycle without file handles sleeps. -/
  | sleep (w : World) (milliseconds : Int) :
      Update env w { w with trace := w.trace ++ [Event.sleep milliseconds] }
  /-- The allocation of the poll array fails. -/
  | pollAllocFails (w : World) : Update env w { w with numAllocs := w.numAllocs + 1 }
  /-- The poll array is allocated and filled, the visited handles are marked as awaiting
  events, and `WSAPoll` is called. -/
  | pollSetup {w : World} {head : HAPPlatformFileHandle} {handles : List Nat} (timeout : Int) :
      memLoad w.runLoop.fileHandleMem w.runLoop.fileHandles = some head →
      walkFileHandles w.runLoop.fileHandleMem w.runLoop.fileHandles
        w.runLoop.fileHandleMem.length head.nextFileHandle = .ok handles →
      Update env w
        { w with
          numAllocs := w.numAllocs + 1
          runLoop := { w.runLoop with
            fileHandleMem := (fillPollFds w.runLoop.fileHandleMem handles).1 }
          trace := w.trace ++
            [Event.poll (fillPollFds w.runLoop.fileHandleMem handles).2 timeout] }

/-- A sequence of primitive changes. -/
def Updates (env : Env) : World → World → Prop := Relation.ReflTransGen (Update env)

/-- A sequence of changes made by API calls. -/
def ApiUpdates (env : Env) : World → World → Prop := Relation.ReflTransGen (ApiUpdate env)

/-- The machine with the run-loop state replaced. -/
def setState (state : HAPPlatformRunLoopState) (w : World) : World :=
  { w with runLoop := { w.runLoop with state := state } }


/-- The pending-timer list is in non-decreasing order of stored deadline. -/
def TimersOrdered (l : List HAPPlatformTimer) : Prop :=
  l.Pairwise fun a b => a.deadline ≤ b.deadline

/-- What an API call that does not touch the timer queue leaves unchanged. -/
structure TimerFrame (w w1 : World) : Prop where
  timers : w1.runLoop.timers = w.runLoop.timers
  allocs : w.numAllocs ≤ w1.numAllocs
  fired : firedTimers w1.trace = firedTimers w.trace
  events : ∀ t rl, Event.timerCallback t rl ∈ w1.trace → Event.timerCallback t rl ∈ w.trace

/-- Invariant of the timer queue and of the recorded timer callbacks. -/
structure TimerInv (w : World) : Prop where
  ordered : TimersOrdered w.runLoop.timers
  positive : ∀ t ∈ w.runLoop.timers, 1 ≤ t.deadline
  bounded : ∀ t ∈ w.runLoop.timers, 2 ≤ t.ptr ∧ t.ptr < allocAddr w.numAllocs
  nodup : (w.runLoop.timers.map HAPPlatformTimer.ptr).Nodup
  firedBounded : ∀ t ∈ firedTimers w.trace, 2 ≤ t.ptr ∧ t.ptr < allocAddr w.numAllocs
  firedDisjoint : ∀ t ∈ firedTimers w.trace, ∀ u ∈ w.runLoop.timers, u.ptr ≠ t.ptr
  firedNodup : ((firedTimers w.trace).map HAPPlatformTimer.ptr).Nodup
  snapshots : ∀ t rl, Event.timerCallback t rl ∈ w.trace →
    TimersOrdered rl.timers ∧ ∀ u ∈ rl.timers, u.ptr ≠ t.ptr

/-- The address `p` has been handed out and belongs neither to a pending timer nor to a timer
whose callback has been invoked. -/
def Retired (p : Nat) (w : World) : Prop :=
  p < allocAddr w.numAllocs ∧ (∀ u ∈ w.runLoop.timers, u.ptr ≠ p) ∧
    ∀ u ∈ firedTimers w.trace, u.ptr ≠ p

/-- The bytes of the slot after a successful `HAPPlatformRunLoopScheduleCallback`: the
callback, the length byte and the context copied over the old content `buf`. -/
def slotBytes (buf : List Nat) (callback : Nat) (context : Option (List Nat))
    (contextSize : Nat) : List Nat :=
  if contextSize ≠ 0 then
    copyBytes
      ((copyBytes buf 0 (encodePtr callback)).set sizeofCallback
        (byteOfChar (charOfUInt8 (contextSize % 256))))
      (sizeofCallback + 1) ((context.getD []).take contextSize)
  else
    (copyBytes buf 0 (encodePtr callback)).set sizeofCallback
      (byteOfChar (charOfUInt8 (contextSize % 256)))

/-- The run-loop callbacks that a trace records, in invocation order: callback, context bytes
and context size. -/
def deliveries : List Event → List (Nat × List Nat × Nat)
  | [] => []
  | Event.runLoopCallback callback contextBytes numContextBytes _ :: es =>
    (callback, contextBytes, numContextBytes) :: deliveries es
  | _ :: es => deliveries es

/-- The file-handle callbacks that a trace records, in invocation order: handle, callback and
events. -/
def dispatches : List Event → List (Nat × Nat × HAPPlatformFileHandleEvent)
  | [] => []
  | Event.fileHandleCallback fileHandle callback fileHandleEvents _ _ :: es =>
    (fileHandle, callback, fileHandleEvents) :: dispatches es
  | _ :: es => dispatches es

/-- The structure `runLoop` as found by each timer callback that a trace records, in
invocation order. -/
def timerCallbackSnapshots : List Event → List RunLoop
  | [] => []
  | Event.timerCallback _ atCall :: es => atCall :: timerCallbackSnapshots es
  | _ :: es => timerCallbackSnapshots es

/-- The calls of `WSAPoll` that a trace records, in order. -/
def polls : List Event → List (List WSAPOLLFD × Int)
  | [] => []
  | Event.poll pollFds timeout :: es => (pollFds, timeout) :: polls es
  | _ :: es => polls es

/-- The `nextFileHandle` pointer stored in the cell at an address. -/
def nextOf (mem : FileHandleMem) (a : Nat) : Option Nat :=
  (memLoad mem a).map HAPPlatformFileHandle.nextFileHandle

/-- The `prevFileHandle` pointer stored in the cell at an address. -/
def prevOf (mem : FileHandleMem) (a : Nat) : Option Nat :=
  (memLoad mem a).map HAPPlatformFileHandle.prevFileHandle

/-- The content of a node without its links. -/
def HAPPlatformFileHandle.payload (node : HAPPlatformFileHandle) : HAPPlatformFileHandle :=
  { node with prevFileHandle := NULL, nextFileHandle := NULL }

/-- The content, without links, of the cell at an address. -/
def payloadOf (mem : FileHandleMem) (a : Nat) : Option HAPPlatformFileHandle :=
  (memLoad mem a).map HAPPlatformFileHandle.payload

/-- The awaiting-events flag of the cell at an address. -/
def awaitingOf (mem : FileHandleMem) (a : Nat) : Option Bool :=
  (memLoad mem a).map HAPPlatformFileHandle.isAwaitingEvents

/-- The cells at `a` and `b` are neighbours: `a->nextFileHandle == b` and
`b->prevFileHandle == a`. -/
def Adjacent (mem : FileHandleMem) (a b : Nat) : Prop :=
  nextOf mem a = some b ∧ prevOf mem b = some a

/-- The cells `a`, then those of `l` in order, then `b` are linked to one another in both
directions. -/
def Linked (mem : FileHandleMem) : Nat → List Nat → Nat → Prop
  | a, [], b => Adjacent mem a b
  | a, h :: t, b => Adjacent mem a h ∧ Linked mem h t b

/-- The last element of `a :: l`. -/
def lastFrom (a : Nat) : List Nat → Nat
  | [] => a
  | h :: t => lastFrom h t

/-- The registry is the list `l` of handles: the sentinel and the cells of `l` form a circular
doubly linked list in that order, the handles are distinct heap addresses handed out earlier,
and the memory holds no other cell. -/
structure RegistryInv (w : World) (l : List Nat) : Prop where
  sentinel : w.runLoop.fileHandles = sentinelAddr
  linked : Linked w.runLoop.fileHandleMem sentinelAddr l sentinelAddr
  bounds : ∀ h ∈ l, 2 ≤ h ∧ h < allocAddr w.numAllocs
  nodup : l.Nodup
  cells : ∀ a node, memLoad w.runLoop.fileHandleMem a = some node → a = sentinelAddr ∨ a ∈ l

/-- State of a dispatch pass: the registry is `visited ++ pending`, the cursor is at the first
pending handle (at the sentinel when none is left), and no visited handle is awaiting events. -/
structure DispatchInv (w : World) (visited pending : List Nat) : Prop where
  registry : RegistryInv w (visited ++ pending)
  cursor : w.runLoop.fileHandleCursor = pending.headD sentinelAddr
  idle : ∀ h ∈ visited, awaitingOf w.runLoop.fileHandleMem h = some false

/-- The number of handles of a list that are awaiting events. -/
def awaitingCount (mem : FileHandleMem) (l : List Nat) : Nat :=
  (l.filter fun h => awaitingOf mem h == some true).length

/-- A dispatch pass is under way and at most `k` of the handles that it has yet to visit are
awaiting events. -/
def PassInv (w : World) (k : Nat) : Prop :=
  ∃ visited pending, DispatchInv w visited pending ∧
    awaitingCount w.runLoop.fileHandleMem pending ≤ k

/-- The machines that an execution started at program start can be in: any sequence of
primitive changes and of assignments to `runLoop.state`. -/
inductive Reachable (env : Env) : World → Prop where
  | init : Reachable env World.init
  | update {w w1 : World} : Reachable env w → Update env w w1 → Reachable env w1
  | state {w : World} (state : HAPPlatformRunLoopState) :
      Reachable env w → Reachable env (setState state w)

/-- The handle has been deregistered: its cell is released and its address was handed out by
an earlier allocation, so that no later allocation returns it. -/
def Gone (fileHandle : Nat) (w : World) : Prop :=
  memLoad w.runLoop.fileHandleMem fileHandle = none ∧ fileHandle < allocAddr w.numAllocs

/-- The callback invocations that a trace records for one file handle. -/
def dispatchesOf (fileHandle : Nat) (trace : List Event) :
    List (Nat × Nat × HAPPlatformFileHandleEvent) :=
  (dispatches trace).filter fun d => d.1 == fileHandle

/-- The structure `runLoop` with the field `state` blanked. -/
def RunLoop.eraseState (rl : RunLoop) : RunLoop :=
  { rl with state := HAPPlatformRunLoopState.kHAPPlatformRunLoopState_Idle }

/-- A recorded interaction with the field `state` of its snapshot blanked. -/
def Event.eraseState : Event → Event
  | Event.timerCallback expiredTimer atCall =>
    Event.timerCallback expiredTimer atCall.eraseState
  | Event.fileHandleCallback fileHandle callback fileHandleEvents context atCall =>
    Event.fileHandleCallback fileHandle callback fileHandleEvents context atCall.eraseState
  | Event.runLoopCallback callback contextBytes numContextBytes atCall =>
    Event.runLoopCallback callback contextBytes numContextBytes atCall.eraseState
  | e => e

/-- The machine without what `HAPPlatformRunLoopStop` writes: the field `runLoop.state`, also in
the recorded snapshots, and the count of bytes queued on the self pipe. Two machines with the
same image differ in nothing else. -/
def World.eraseStop (w : World) : World :=
  { w with
    runLoop := w.runLoop.eraseState
    selfPipeQueued := 0
    trace := w.trace.map Event.eraseState }

/-- The registry as `HAPPlatformRunLoopRun` traverses it to build the poll array: the handles
from `runLoop.fileHandles->nextFileHandle` up to the sentinel, in this order. -/
def registeredHandles (w : World) : Except Fault (List Nat) :=
  match memLoad w.runLoop.fileHandleMem w.runLoop.fileHandles with
  | none => .error Fault.invalidAccess
  | some head =>
    walkFileHandles w.runLoop.fileHandleMem w.runLoop.fileHandles
      w.runLoop.fileHandleMem.length head.nextFileHandle

/-- The poll entry that `HAPPlatformRunLoopRun` builds for a node. -/
def pollEntryOf (node : HAPPlatformFileHandle) : WSAPOLLFD :=
  { fd := node.fileDescriptor, events := pollEventsOf node.interests, revents := 0 }

/-- Whether a recorded interaction is the invocation of a file-handle callback. -/
def Event.isFileHandleCallback : Event → Bool
  | Event.fileHandleCallback _ _ _ _ _ => true
  | _ => false

/-- The recorded invocation of a file-handle callback follows the dispatch rule for the poll
array: in the `runLoop` that the callback finds, the node of the handle is not awaiting events
and has the invoked callback, which is not `NULL`, and the context handed over; its descriptor
is valid, and the events handed over are the interests of the node that the `revents` of the
first poll entry with that descriptor satisfy, at least one of them being set. -/
def DispatchedByRule (pollFds : List WSAPOLLFD) : Event → Prop
  | Event.fileHandleCallback fileHandle callback fileHandleEvents context atCall =>
    ∃ node entry,
      memLoad atCall.fileHandleMem fileHandle = some node ∧
      node.isAwaitingEvents = false ∧ node.callback = callback ∧ callback ≠ NULL ∧
      node.context = context ∧ node.fileDescriptor ≠ INVALID_SOCKET ∧
      findPollFd pollFds node.fileDescriptor = some entry ∧
      fileHandleEvents = fileHandleEventsOf node.interests entry.revents ∧
      (fileHandleEvents.isReadyForReading || fileHandleEvents.isReadyForWriting ||
        fileHandleEvents.hasErrorConditionPending) = true
  | _ => True

/-- The machine `w` of a dispatch pass that started in the machine `w0`: the registry is a
well-formed list, and every node either has been allocated since the start of the pass and is
not awaiting events, or was a node at the start of the pass and has kept its descriptor. -/
structure PassFrame (w0 w : World) : Prop where
  registry : ∃ l, RegistryInv w l
  allocs : w0.numAllocs ≤ w.numAllocs
  cells : ∀ a node, memLoad w.runLoop.fileHandleMem a = some node →
    (allocAddr w0.numAllocs ≤ a ∧ node.isAwaitingEvents = false) ∨
    (∃ node0, memLoad w0.runLoop.fileHandleMem a = some node0 ∧
      node.fileDescriptor = node0.fileDescriptor)

/-- The recorded invocation of a file-handle callback, made in a dispatch pass that started in
the machine `w0`, follows the dispatch rule, and its handle is not the sentinel and was a node
at the start of the pass, with the descriptor that it has at the invocation. -/
def PassRule (w0 : World) (pollFds : List WSAPOLLFD) (e : Event) : Prop :=
  DispatchedByRule pollFds e ∧
  match e with
  | Event.fileHandleCallback fileHandle _ _ _ atCall =>
    fileHandle ≠ sentinelAddr ∧
    ∃ node0 node, memLoad w0.runLoop.fileHandleMem fileHandle = some node0 ∧
      memLoad atCall.fileHandleMem fileHandle = some node ∧
      node.fileDescriptor = node0.fileDescriptor
  | _ => True

/-- The slot has the size of the array `runLoop.selfPipeBytes`. -/
def SlotSized (w : World) : Prop := w.runLoop.selfPipeBytes.length = selfPipeBytesSize

/-- What an API call that does not touch the mailbox leaves unchanged. -/
structure MailboxFrame (w w1 : World) : Prop where
  slot : w1.runLoop.numSelfPipeBytes = w.runLoop.numSelfPipeBytes
  trace : w1.trace = w.trace

/-- Result of the first `HAPPlatformRunLoopScheduleCallback` call that a trace records. -/
def firstScheduleResult : List Event → Option HAPError
  | [] => none
  | Event.scheduleCallback _ result :: _ => some result
  | _ :: es => firstScheduleResult es

/-- The arguments satisfy the preconditions of `HAPPlatformRunLoopScheduleCallback`, and the
context pointer gives access to `contextSize` bytes. -/
def ScheduleArgsValid (callback : Nat) (context : Option (List Nat)) (contextSize : Nat) :
    Prop :=
  callback ≠ NULL ∧ contextSize ≤ UINT8_MAX ∧
    (contextSize = 0 ∨ ∃ bytes, context = some bytes ∧ contextSize ≤ bytes.length)

/-! ## Example environments and programs -/

/-- A single call `HAPPlatformTimerRegister(&timer, deadline, callback, context)`. -/
def registerTimer (deadline callback context : Nat) : Prog :=
  Prog.timerRegister deadline callback context fun _ _ => Prog.ret

/-- Environment in which every allocation succeeds and every callback returns at once. -/
def idleEnv : Env :=
  { timerCallback := fun _ _ _ => Prog.ret
    fileHandleCallback := fun _ _ _ _ => Prog.ret
    runLoopCallback := fun _ _ _ => Prog.ret
    callocFails := fun _ => false }

/-- Environment in which the timer callback at address `7` registers a timer with its own
context as deadline and with the callback at address `8`, which returns at once. -/
def reenterEnv : Env :=
  { idleEnv with
    timerCallback := fun callback _ context =>
      if callback = 7 then registerTimer context 8 0 else Prog.ret }

/-- Environment in which the timer callback at address `7` deregisters its own timer. -/
def selfDeregisterEnv : Env :=
  { idleEnv with
    timerCallback := fun callback timer _ =>
      if callback = 7 then Prog.timerDeregister timer Prog.ret else Prog.ret }

/-- Environment in which every run-loop callback posts itself again, with the context it was
given, and returns. -/
def repostEnv : Env :=
  { idleEnv with
    runLoopCallback := fun callback contextBytes numContextBytes =>
      Prog.scheduleCallback callback (some contextBytes) numContextBytes fun _ => Prog.ret }

/-- Three registrations, a deregistration of the second timer, and a pass at clock value `6`
in which the callback of the first timer registers a further timer. -/
def reenterSteps : List Step :=
  [Step.call (registerTimer 5 7 9), Step.call (registerTimer 0 8 0),
   Step.call (registerTimer 20 8 0), Step.call (Prog.timerDeregister 3 Prog.ret),
   Step.processExpiredTimers 6 4]

/-- Five registrations with deadlines `1`, `0`, `5`, `5` and `3`. -/
def dueSteps : List Step :=
  [Step.call (registerTimer 1 8 0), Step.call (registerTimer 0 8 0),
   Step.call (registerTimer 5 8 0), Step.call (registerTimer 5 8 0),
   Step.call (registerTimer 3 8 0)]

/-- Registration of two file handles: descriptor `5` with read interest and callback `20`,
descriptor `6` with read and write interest and callback `21`. -/
def twoHandlesSteps : List Step :=
  [Step.call (Prog.fileHandleRegister 5 ⟨true, false, false⟩ 20 100 fun _ _ => Prog.ret),
   Step.call (Prog.fileHandleRegister 6 ⟨true, true, false⟩ 21 200 fun _ _ => Prog.ret)]

/-- A cycle in which no timer is due and `WSAPoll` fails. -/
def failedPollInput : CycleInput :=
  { nowExpired := 0, timerFuel := 1, nowTimeout := 0, poll := ⟨SOCKET_ERROR, []⟩,
    dispatchFuel := 0 }

/-- Environment in which the file-handle callback at address `20` deregisters the handle whose
address is its context, and the other callbacks return at once. -/
def deregisterOtherEnv : Env :=
  { idleEnv with
    fileHandleCallback := fun callback _ _ context =>
      if callback = 20 then Prog.fileHandleDeregister context Prog.ret else Prog.ret }

/-- Registration of three file handles, at the addresses `2`, `3` and `4` in this order: the
callback `20` of the first has the address of the second as context. -/
def threeHandlesSteps : List Step :=
  [Step.call (Prog.fileHandleRegister 5 ⟨true, false, false⟩ 20 3 fun _ _ => Prog.ret),
   Step.call (Prog.fileHandleRegister 6 ⟨true, false, false⟩ 21 0 fun _ _ => Prog.ret),
   Step.call (Prog.fileHandleRegister 7 ⟨true, false, false⟩ 22 0 fun _ _ => Prog.ret)]

/-- A cycle in which no timer is due and `WSAPoll` reports all three descriptors readable. -/
def allReadableInput : CycleInput :=
  { nowExpired := 0, timerFuel := 1, nowTimeout := 0, poll := ⟨3, [POLLIN, POLLIN, POLLIN]⟩,
    dispatchFuel := 4 }

/-- Environment in which the file-handle callback at address `20` calls
`HAPPlatformRunLoopStop`, and the other callbacks return at once. -/
def stopFromCallbackEnv : Env :=
  { idleEnv with
    fileHandleCallback := fun callback _ _ _ =>
      if callback = 20 then Prog.runLoopStop Prog.ret else Prog.ret }

/-- The poll array of a cycle over the three handles of `threeHandlesSteps`, all readable. -/
def threeReadableFds : List WSAPOLLFD :=
  [⟨5, POLLIN, POLLIN⟩, ⟨6, POLLIN, POLLIN⟩, ⟨7, POLLIN, POLLIN⟩]

/-- The machine in which the callback `20` of the first of three handles runs during a
dispatch pass: the loop is `Running`, the cursor is at the second handle, and the second and
third handle are awaiting events. -/
def midPassWorld : World :=
  match runSteps stopFromCallbackEnv threeHandlesSteps World.init with
  | .ok w =>
    { w with runLoop := { w.runLoop with
        state := HAPPlatformRunLoopState.kHAPPlatformRunLoopState_Running
        fileHandleCursor := 3
        fileHandleMem := (fillPollFds w.runLoop.fileHandleMem [3, 4]).1 } }
  | .error _ => World.init

/-- Environment in which the file-handle callback at address `20` withdraws the read interest
of the handle whose address is its context, and the other callbacks return at once. -/
def updateOtherEnv : Env :=
  { idleEnv with
    fileHandleCallback := fun callback _ _ context =>
      if callback = 20 then
        Prog.fileHandleUpdateInterests context ⟨false, true, false⟩ 21 0 Prog.ret
      else Prog.ret }

/-- The machine at the start of a dispatch pass over the three handles of `threeHandlesSteps`,
all of them awaiting events. -/
def allAwaitingWorld : World :=
  match runSteps updateOtherEnv threeHandlesSteps World.init with
  | .ok w =>
    { w with runLoop := { w.runLoop with
        state := HAPPlatformRunLoopState.kHAPPlatformRunLoopState_Running
        fileHandleMem := (fillPollFds w.runLoop.fileHandleMem [2, 3, 4]).1 } }
  | .error _ => World.init

/-- Environment in which the file-handle callback at address `20` registers a further handle,
for the descriptor `8` with the callback `23`, and the other callbacks return at once. -/
def registerInCallbackEnv : Env :=
  { idleEnv with
    fileHandleCallback := fun callback _ _ _ =>
      if callback = 20 then
        Prog.fileHandleRegister 8 ⟨true, false, false⟩ 23 0 fun _ _ => Prog.ret
      else Prog.ret }

/-- A cycle in which no timer is due and `WSAPoll` reports the first three descriptors
readable, with fuel for a pass over four handles. -/
def registerDuringPassInput : CycleInput :=
  { nowExpired := 0, timerFuel := 1, nowTimeout := 0, poll := ⟨3, [POLLIN, POLLIN, POLLIN]⟩,
    dispatchFuel := 5 }

/-- A cycle in which no timer is due and `WSAPoll` reports four descriptors readable. -/
def fourReadableInput : CycleInput :=
  { nowExpired := 0, timerFuel := 1, nowTimeout := 0,
    poll := ⟨4, [POLLIN, POLLIN, POLLIN, POLLIN]⟩, dispatchFuel := 6 }

/-- Registration of two file handles for the same descriptor `5`, at the addresses `2` and
`3`: the first with the read interest, the second with the write interest. -/
def sharedDescriptorSteps : List Step :=
  [Step.call (Prog.fileHandleRegister 5 ⟨true, false, false⟩ 20 0 fun _ _ => Prog.ret),
   Step.call (Prog.fileHandleRegister 5 ⟨false, true, false⟩ 21 0 fun _ _ => Prog.ret)]

/-- A cycle in which no timer is due and `WSAPoll` reports `POLLIN` in the first entry and
`POLLOUT` in the second. -/
def sharedDescriptorInput : CycleInput :=
  { nowExpired := 0, timerFuel := 1, nowTimeout := 0, poll := ⟨2, [POLLIN, POLLOUT]⟩,
    dispatchFuel := 3 }

/-- Registration of a file handle for the descriptor `5`, at the address `2`, and of a timer
with the deadline `10`. -/
def handleAndTimerSteps : List Step :=
  [Step.call (Prog.fileHandleRegister 5 ⟨true, false, false⟩ 20 0 fun _ _ => Prog.ret),
   Step.call (registerTimer 10 8 0)]

/-- A cycle at time `0` in which no timer is due and `WSAPoll` returns `0`: the timeout passed
and no descriptor is ready. -/
def timedOutInput : CycleInput :=
  { nowExpired := 0, timerFuel := 1, nowTimeout := 0, poll := ⟨0, []⟩, dispatchFuel := 0 }

/-! ## Lists of timers -/

theorem firedTimers_append (a b : List Event) :
    firedTimers (a ++ b) = firedTimers a ++ firedTimers b := by
  induction a with
  | nil => rfl
  | cons e es ih => cases e <;> simp [firedTimers, ih]

theorem mem_firedTimers {t : HAPPlatformTimer} {es : List Event} :
    t ∈ firedTimers es ↔ ∃ rl, Event.timerCallback t rl ∈ es := by
  induction es with
  | nil => simp [firedTimers]
  | cons e es ih =>
    cases e <;> simp [firedTimers, ih]
    rename_i u rl
    constructor
    · rintro (h | ⟨rl', h⟩)
      · exact ⟨rl, Or.inl ⟨h, rfl⟩⟩
      · exact ⟨rl', Or.inr h⟩
    · rintro ⟨rl', (⟨h, _⟩ | h)⟩
      · exact Or.inl h
      · exact Or.inr ⟨rl', h⟩

theorem insertTimer_perm (n : HAPPlatformTimer) (d : Nat) (l : List HAPPlatformTimer) :
    (insertTimer n d l).Perm (n :: l) := by
  induction l with
  | nil => simp [insertTimer]
  | cons t rest ih =>
    unfold insertTimer
    split
    · exact List.Perm.refl _
    · exact (List.Perm.cons t ih).trans (List.Perm.swap n t rest)

theorem mem_insertTimer {x n : HAPPlatformTimer} {d : Nat} {l : List HAPPlatformTimer} :
    x ∈ insertTimer n d l ↔ x = n ∨ x ∈ l := by
  rw [(insertTimer_perm n d l).mem_iff, List.mem_cons]

/-- The insertion loop puts the new node behind the longest prefix of nodes whose stored
deadline is at most the requested deadline. -/
theorem insertTimer_eq_takeWhile (n : HAPPlatformTimer) (d : Nat) (l : List HAPPlatformTimer) :
    insertTimer n d l =
      l.takeWhile (fun t => decide (t.deadline ≤ d)) ++
        n :: l.dropWhile (fun t => decide (t.deadline ≤ d)) := by
  induction l with
  | nil => rfl
  | cons t rest ih =>
    unfold insertTimer
    split
    · rename_i hgt
      rw [List.takeWhile_cons_of_neg (by simpa using hgt),
        List.dropWhile_cons_of_neg (by simpa using hgt)]
      rfl
    · rename_i hle
      rw [List.takeWhile_cons_of_pos (by simpa using hle),
        List.dropWhile_cons_of_pos (by simpa using hle), ih]
      rfl

theorem insertTimer_ordered (n : HAPPlatformTimer) (d : Nat) (l : List HAPPlatformTimer)
    (hn : n.deadline = if d ≠ 0 then d else 1) (hpos : ∀ t ∈ l, 1 ≤ t.deadline)
    (hl : TimersOrdered l) : TimersOrdered (insertTimer n d l) := by
  induction l with
  | nil => simp [insertTimer, TimersOrdered]
  | cons t rest ih =>
    have hrest : TimersOrdered rest := (List.pairwise_cons.mp hl).2
    have ht : ∀ u ∈ rest, t.deadline ≤ u.deadline := (List.pairwise_cons.mp hl).1
    have htpos : 1 ≤ t.deadline := hpos t (List.mem_cons_self _ _)
    unfold insertTimer
    split
    · rename_i hgt
      refine List.pairwise_cons.mpr ⟨?_, hl⟩
      intro u hu
      have hle : n.deadline ≤ t.deadline := by
        rw [hn]; split <;> omega
      rcases List.mem_cons.mp hu with rfl | hu
      · exact hle
      · exact le_trans hle (ht u hu)
    · rename_i hgt
      refine List.pairwise_cons.mpr ⟨?_, ih (fun u hu => hpos u (List.mem_cons_of_mem _ hu)) hrest⟩
      intro u hu
      rcases mem_insertTimer.mp hu with rfl | hu
      · rw [hn]; split <;> omega
      · exact ht u hu

theorem removeTimer_sublist {p : Nat} {l l' : List HAPPlatformTimer}
    (h : removeTimer p l = some l') : l'.Sublist l := by
  induction l generalizing l' with
  | nil => simp [removeTimer] at h
  | cons t rest ih =>
    unfold removeTimer at h
    split at h
    · cases h; exact List.sublist_cons_self _ _
    · split at h
      · cases h
      · rename_i r hr
        cases h
        exact (ih hr).cons₂ t

theorem removeTimer_eq_none {p : Nat} {l : List HAPPlatformTimer} :
    removeTimer p l = none ↔ ∀ t ∈ l, t.ptr ≠ p := by
  induction l with
  | nil => simp [removeTimer]
  | cons t rest ih =>
    unfold removeTimer
    split
    · rename_i heq
      simp [heq]
    · rename_i hne
      split
      · rename_i hr
        simp [hne, ih.mp hr]
        exact ih.mp hr
      · rename_i r hr
        simp only [false_iff, reduceCtorEq]
        intro hall
        have := ih.mpr (fun u hu => hall u (List.mem_cons_of_mem _ hu))
        rw [hr] at this
        cases this

theorem removeTimer_eq_filter {p : Nat} {l l' : List HAPPlatformTimer}
    (hnd : (l.map HAPPlatformTimer.ptr).Nodup) (h : removeTimer p l = some l') :
    l' = l.filter fun t => t.ptr ≠ p := by
  induction l generalizing l' with
  | nil => simp [removeTimer] at h
  | cons t rest ih =>
    rw [List.map_cons, List.nodup_cons] at hnd
    unfold removeTimer at h
    split at h
    · rename_i heq
      cases h
      have hall : ∀ u ∈ rest, u.ptr ≠ p := by
        intro u hu hup
        exact hnd.1 (List.mem_map.mpr ⟨u, hu, by rw [hup, heq]⟩)
      rw [List.filter_cons_of_neg (by simp [heq])]
      exact (List.filter_eq_self.mpr (fun u hu => by simpa using hall u hu)).symm
    · rename_i hne
      split at h
      · cases h
      · rename_i r hr
        cases h
        rw [List.filter_cons_of_pos (by simpa using hne), ih hnd.2 hr]

/-! ## Frame conditions of the API functions -/

theorem TimerFrame.of_trace_eq {w w1 : World} (ht : w1.runLoop.timers = w.runLoop.timers)
    (hn : w.numAllocs ≤ w1.numAllocs) (htr : w1.trace = w.trace) : TimerFrame w w1 :=
  ⟨ht, hn, by rw [htr], by rw [htr]; exact fun _ _ x => x⟩

theorem TimerFrame.refl (w : World) : TimerFrame w w :=
  TimerFrame.of_trace_eq rfl (le_refl _) rfl

theorem TimerFrame.logSchedule (w : World) (cb : Nat) (err : HAPError) :
    TimerFrame w { w with trace := w.trace ++ [Event.scheduleCallback cb err] } :=
  ⟨rfl, le_refl _, by simp [firedTimers_append, firedTimers],
    by intro t rl hm; simpa using hm⟩

theorem HAPPlatformFileHandleRegister_frame {env : Env} {fd : Int}
    {i : HAPPlatformFileHandleEvent} {cb ctx : Nat} {w w1 : World} {err : HAPError} {fh : Nat}
    (h : HAPPlatformFileHandleRegister env fd i cb ctx w = .ok (err, fh, w1)) :
    TimerFrame w w1 := by
  unfold HAPPlatformFileHandleRegister at h
  dsimp only at h
  split at h
  · cases h; exact TimerFrame.of_trace_eq rfl (Nat.le_succ _) rfl
  · split at h
    · cases h
    · split at h
      · cases h
      · split at h
        · cases h
        · cases h; exact TimerFrame.of_trace_eq rfl (Nat.le_succ _) rfl

theorem HAPPlatformFileHandleUpdateInterests_frame {fh : Nat}
    {i : HAPPlatformFileHandleEvent} {cb ctx : Nat} {w w1 : World}
    (h : HAPPlatformFileHandleUpdateInterests fh i cb ctx w = .ok w1) :
    TimerFrame w w1 := by
  unfold HAPPlatformFileHandleUpdateInterests at h
  split at h
  · cases h
  · split at h
    · cases h
    · cases h; exact TimerFrame.of_trace_eq rfl (le_refl _) rfl

theorem HAPPlatformFileHandleDeregister_frame {fh : Nat} {w w1 : World}
    (h : HAPPlatformFileHandleDeregister fh w = .ok w1) :
    TimerFrame w w1 := by
  unfold HAPPlatformFileHandleDeregister at h
  dsimp only at h
  split at h
  · cases h
  · split at h
    · cases h
    · split at h
      · cases h
      · split at h
        · cases h
        · split at h
          · cases h
          · split at h
            · cases h
            · split at h
              · cases h
              · cases h; exact TimerFrame.of_trace_eq rfl (le_refl _) rfl

theorem HAPPlatformRunLoopScheduleCallback_frame {cb : Nat} {ctx : Option (List Nat)}
    {n : Nat} {w w1 : World} {err : HAPError}
    (h : HAPPlatformRunLoopScheduleCallback cb ctx n w = .ok (err, w1)) :
    TimerFrame w w1 := by
  unfold HAPPlatformRunLoopScheduleCallback at h
  dsimp only at h
  split at h
  · cases h
  · split at h
    · cases h
    · split at h
      · cases h
      · split at h
        · cases h; exact TimerFrame.refl _
        · split at h
          · cases h
          · cases h; exact TimerFrame.of_trace_eq rfl (le_refl _) rfl

theorem HAPPlatformRunLoopStop_frame (w : World) : TimerFrame w (HAPPlatformRunLoopStop w) := by
  unfold HAPPlatformRunLoopStop
  split
  · exact TimerFrame.of_trace_eq rfl (le_refl _) rfl
  · exact TimerFrame.refl _

/-- Outcome of a returning `HAPPlatformTimerRegister`. -/
theorem HAPPlatformTimerRegister_ok {env : Env} {d cb ctx : Nat} {w w1 : World}
    {err : HAPError} {t : Nat}
    (h : HAPPlatformTimerRegister env d cb ctx w = .ok (err, t, w1)) :
    w1.trace = w.trace ∧ w1.numAllocs = w.numAllocs + 1 ∧
    ((err = HAPError.kHAPError_OutOfResources ∧ t = NULL ∧ w1.runLoop = w.runLoop) ∨
     (err = HAPError.kHAPError_None ∧ t = allocAddr w.numAllocs ∧
      w1.runLoop.timers =
        insertTimer ⟨allocAddr w.numAllocs, if d ≠ 0 then d else 1, cb, ctx⟩ d
          w.runLoop.timers)) := by
  unfold HAPPlatformTimerRegister at h
  dsimp only at h
  split at h
  · cases h
  · split at h
    · cases h; exact ⟨rfl, rfl, Or.inl ⟨rfl, rfl, rfl⟩⟩
    · cases h; exact ⟨rfl, rfl, Or.inr ⟨rfl, rfl, rfl⟩⟩

/-- Outcome of a returning `HAPPlatformTimerDeregister`. -/
theorem HAPPlatformTimerDeregister_ok {timer : Nat} {w w1 : World}
    (h : HAPPlatformTimerDeregister timer w = .ok w1) :
    ∃ l, removeTimer timer w.runLoop.timers = some l ∧
      w1 = { w with runLoop := { w.runLoop with timers := l } } := by
  unfold HAPPlatformTimerDeregister at h
  split at h
  · cases h
  · split at h
    · rename_i l hl
      cases h; exact ⟨l, hl, rfl⟩
    · cases h

/-! ## The timer invariant along executions -/

theorem TimerInv.init : TimerInv World.init := by
  constructor <;> simp [World.init, RunLoop.init, TimersOrdered, firedTimers]

/-- The invariant depends only on the queue, the allocation count and the timer events. -/
theorem TimerInv.transport {w w1 : World} (h : TimerInv w)
    (ht : w1.runLoop.timers = w.runLoop.timers) (hn : w.numAllocs ≤ w1.numAllocs)
    (hf : firedTimers w1.trace = firedTimers w.trace)
    (hs : ∀ t rl, Event.timerCallback t rl ∈ w1.trace → Event.timerCallback t rl ∈ w.trace) :
    TimerInv w1 := by
  have hmono : allocAddr w.numAllocs ≤ allocAddr w1.numAllocs := by
    unfold allocAddr; omega
  constructor
  · rw [ht]; exact h.ordered
  · rw [ht]; exact h.positive
  · rw [ht]; intro t htm
    exact ⟨(h.bounded t htm).1, lt_of_lt_of_le (h.bounded t htm).2 hmono⟩
  · rw [ht]; exact h.nodup
  · rw [hf]; intro t htm
    exact ⟨(h.firedBounded t htm).1, lt_of_lt_of_le (h.firedBounded t htm).2 hmono⟩
  · rw [hf, ht]; exact h.firedDisjoint
  · rw [hf]; exact h.firedNodup
  · intro t rl hm; exact h.snapshots t rl (hs t rl hm)

theorem TimerInv.of_frame {w w1 : World} (h : TimerInv w) (hfr : TimerFrame w w1) :
    TimerInv w1 :=
  h.transport hfr.timers hfr.allocs hfr.fired hfr.events

theorem TimerInv.of_register {env : Env} {d cb ctx : Nat} {w w1 : World} {err : HAPError}
    {t : Nat} (h : TimerInv w)
    (hr : HAPPlatformTimerRegister env d cb ctx w = .ok (err, t, w1)) : TimerInv w1 := by
  obtain ⟨htr, hna, hcase⟩ := HAPPlatformTimerRegister_ok hr
  rcases hcase with ⟨_, _, hrl⟩ | ⟨_, _, htm⟩
  · exact h.of_frame (TimerFrame.of_trace_eq (by rw [hrl]) (by omega) htr)
  · have hmem : ∀ u, u ∈ w1.runLoop.timers ↔
        u = ⟨allocAddr w.numAllocs, if d ≠ 0 then d else 1, cb, ctx⟩ ∨ u ∈ w.runLoop.timers := by
      intro u; rw [htm]; exact mem_insertTimer
    have hlt : allocAddr w.numAllocs < allocAddr w1.numAllocs := by
      rw [hna]; unfold allocAddr; omega
    constructor
    · rw [htm]
      exact insertTimer_ordered _ d _ rfl h.positive h.ordered
    · intro u hu
      rcases (hmem u).mp hu with rfl | hu
      · show 1 ≤ (if d ≠ 0 then d else 1); split <;> omega
      · exact h.positive u hu
    · intro u hu
      rcases (hmem u).mp hu with rfl | hu
      · exact ⟨by show 2 ≤ allocAddr w.numAllocs; unfold allocAddr; omega, hlt⟩
      · exact ⟨(h.bounded u hu).1, lt_trans (h.bounded u hu).2 hlt⟩
    · rw [htm, ((insertTimer_perm _ d _).map _).nodup_iff, List.map_cons, List.nodup_cons]
      refine ⟨?_, h.nodup⟩
      intro hin
      obtain ⟨u, hu, hup⟩ := List.mem_map.mp hin
      have := (h.bounded u hu).2
      rw [hup] at this
      exact lt_irrefl _ this
    · rw [htr]; intro u hu
      exact ⟨(h.firedBounded u hu).1, lt_trans (h.firedBounded u hu).2 hlt⟩
    · rw [htr]; intro f hf u hu
      rcases (hmem u).mp hu with rfl | hu
      · have := (h.firedBounded f hf).2
        show allocAddr w.numAllocs ≠ f.ptr
        omega
      · exact h.firedDisjoint f hf u hu
    · rw [htr]; exact h.firedNodup
    · rw [htr]; exact h.snapshots

theorem TimerInv.of_deregister {timer : Nat} {w w1 : World} (h : TimerInv w)
    (hr : HAPPlatformTimerDeregister timer w = .ok w1) : TimerInv w1 := by
  obtain ⟨l, hl, rfl⟩ := HAPPlatformTimerDeregister_ok hr
  have hsub := removeTimer_sublist hl
  constructor
  · exact List.Pairwise.sublist hsub h.ordered
  · intro u hu; exact h.positive u (hsub.subset hu)
  · intro u hu; exact h.bounded u (hsub.subset hu)
  · exact List.Nodup.sublist (hsub.map _) h.nodup
  · exact h.firedBounded
  · intro f hf u hu; exact h.firedDisjoint f hf u (hsub.subset hu)
  · exact h.firedNodup
  · exact h.snapshots

/-- Induction principle for callback bodies: a property kept by every API call is kept by the
whole body. -/
theorem runProg_preserves (env : Env) (P : World → Prop)
    (hframe : ∀ w w1, TimerFrame w w1 → P w → P w1)
    (hreg : ∀ d cb ctx w err t w1,
      HAPPlatformTimerRegister env d cb ctx w = .ok (err, t, w1) → P w → P w1)
    (hdereg : ∀ timer w w1, HAPPlatformTimerDeregister timer w = .ok w1 → P w → P w1) :
    ∀ (p : Prog) (w w1 : World), runProg env p w = .ok w1 → P w → P w1 := by
  intro p
  induction p with
  | ret => intro w w1 h hp; simp only [runProg] at h; cases h; exact hp
  | timerRegister d cb ctx k ih =>
    intro w w1 h hp
    simp only [runProg] at h
    split at h
    · cases h
    · rename_i err t w2 heq
      exact ih err t w2 w1 h (hreg _ _ _ _ _ _ _ heq hp)
  | timerDeregister timer k ih =>
    intro w w1 h hp
    simp only [runProg] at h
    split at h
    · cases h
    · rename_i w2 heq
      exact ih w2 w1 h (hdereg _ _ _ heq hp)
  | fileHandleRegister fd i cb ctx k ih =>
    intro w w1 h hp
    simp only [runProg] at h
    split at h
    · cases h
    · rename_i err t w2 heq
      exact ih err t w2 w1 h (hframe _ _ (HAPPlatformFileHandleRegister_frame heq) hp)
  | fileHandleUpdateInterests fh i cb ctx k ih =>
    intro w w1 h hp
    simp only [runProg] at h
    split at h
    · cases h
    · rename_i w2 heq
      exact ih w2 w1 h (hframe _ _ (HAPPlatformFileHandleUpdateInterests_frame heq) hp)
  | fileHandleDeregister fh k ih =>
    intro w w1 h hp
    simp only [runProg] at h
    split at h
    · cases h
    · rename_i w2 heq
      exact ih w2 w1 h (hframe _ _ (HAPPlatformFileHandleDeregister_frame heq) hp)
  | scheduleCallback cb ctx n k ih =>
    intro w w1 h hp
    simp only [runProg] at h
    split at h
    · cases h
    · rename_i err w2 heq
      exact ih err _ w1 h
        (hframe _ _ (TimerFrame.logSchedule _ _ _)
          (hframe _ _ (HAPPlatformRunLoopScheduleCallback_frame heq) hp))
  | runLoopStop k ih =>
    intro w w1 h hp
    simp only [runProg] at h
    exact ih _ w1 h (hframe _ _ (HAPPlatformRunLoopStop_frame w) hp)
  | load k ih =>
    intro w w1 h hp
    simp only [runProg] at h
    exact ih _ w w1 h hp
  | store v k ih =>
    intro w w1 h hp
    simp only [runProg] at h
    exact ih _ w1 h (hframe w _ (TimerFrame.of_trace_eq rfl (le_refl _) rfl) hp)

theorem TimerInv.of_runProg {env : Env} {p : Prog} {w w1 : World} (h : TimerInv w)
    (hr : runProg env p w = .ok w1) : TimerInv w1 :=
  runProg_preserves env TimerInv (fun _ _ hfr hp => hp.of_frame hfr)
    (fun _ _ _ _ _ _ _ heq hp => hp.of_register heq) (fun _ _ _ heq hp => hp.of_deregister heq)
    p w w1 hr h

theorem TimerInv.of_fireHead {w : World} {t : HAPPlatformTimer} {rest : List HAPPlatformTimer}
    (h : TimerInv w) (hq : w.runLoop.timers = t :: rest) : TimerInv (fireHead w t rest) := by
  have hord := h.ordered
  have hpos := h.positive
  have hb := h.bounded
  have hnd := h.nodup
  have hfd := h.firedDisjoint
  rw [hq] at hord hpos hb hnd hfd
  rw [List.map_cons, List.nodup_cons] at hnd
  have hne : ∀ u ∈ rest, u.ptr ≠ t.ptr := fun u hu he =>
    hnd.1 (List.mem_map.mpr ⟨u, hu, he⟩)
  have hrest : TimersOrdered rest := (List.pairwise_cons.mp hord).2
  constructor
  · exact hrest
  · intro u hu; exact hpos u (List.mem_cons_of_mem _ hu)
  · intro u hu; exact hb u (List.mem_cons_of_mem _ hu)
  · exact hnd.2
  · intro f hf
    simp only [fireHead, firedTimers_append, firedTimers, List.mem_append,
      List.mem_singleton] at hf
    rcases hf with hf | rfl
    · exact h.firedBounded f hf
    · exact hb f (List.mem_cons_self _ _)
  · intro f hf u hu
    simp only [fireHead, firedTimers_append, firedTimers, List.mem_append,
      List.mem_singleton] at hf
    rcases hf with hf | rfl
    · exact hfd f hf u (List.mem_cons_of_mem _ hu)
    · exact hne u hu
  · simp only [fireHead, firedTimers_append, firedTimers, List.map_append,
      List.map_cons, List.map_nil]
    rw [List.nodup_append]
    refine ⟨h.firedNodup, List.nodup_singleton _, ?_⟩
    intro a ha hb'
    rw [List.mem_singleton] at hb'
    obtain ⟨f, hf, hfa⟩ := List.mem_map.mp ha
    exact hfd f hf t (List.mem_cons_self _ _) (by rw [hfa, hb'])
  · intro f rl hm
    simp only [fireHead, List.mem_append, List.mem_singleton] at hm
    rcases hm with hm | hm
    · exact h.snapshots f rl hm
    · cases hm
      exact ⟨hrest, hne⟩

/-- Induction principle for `ProcessExpiredTimers`. -/
theorem ProcessExpiredTimers_preserves (env : Env) (now : Nat) (P : World → Prop)
    (hfire : ∀ w t rest, w.runLoop.timers = t :: rest → t.deadline ≤ now → P w →
      P (fireHead w t rest))
    (hprog : ∀ p w w1, runProg env p w = .ok w1 → P w → P w1) :
    ∀ (fuel : Nat) (w w1 : World), ProcessExpiredTimers env now fuel w = .ok w1 → P w → P w1 := by
  intro fuel
  induction fuel with
  | zero => intro w w1 h; simp [ProcessExpiredTimers] at h
  | succ fuel ih =>
    intro w w1 h hp
    simp only [ProcessExpiredTimers] at h
    split at h
    · cases h; exact hp
    · rename_i t rest hq
      split at h
      · cases h; exact hp
      · rename_i hle
        split at h
        · cases h
        · rename_i w2 heq
          exact ih w2 w1 h (hprog _ _ _ heq (hfire w t rest hq (Nat.le_of_not_lt hle) hp))

theorem TimerInv.of_processExpiredTimers {env : Env} {now fuel : Nat} {w w1 : World}
    (h : TimerInv w) (hr : ProcessExpiredTimers env now fuel w = .ok w1) : TimerInv w1 :=
  ProcessExpiredTimers_preserves env now TimerInv (fun _ _ _ hq _ hp => hp.of_fireHead hq)
    (fun _ _ _ heq hp => hp.of_runProg heq) fuel w w1 hr h

/-- Induction principle for `SelfPipeHandleCallback`. -/
theorem SelfPipeHandleCallback_preserves (env : Env) (P : World → Prop)
    (hframe : ∀ w w1, TimerFrame w w1 → P w → P w1)
    (hprog : ∀ p w w1, runProg env p w = .ok w1 → P w → P w1)
    (ev : HAPPlatformFileHandleEvent) (w w1 : World)
    (h : SelfPipeHandleCallback env ev w = .ok w1) (hp : P w) : P w1 := by
  unfold SelfPipeHandleCallback at h
  dsimp only at h
  split at h
  · split at h
    · refine hprog _ _ _ h (hframe w _ ⟨rfl, le_refl _, ?_, ?_⟩ hp)
      · simp [firedTimers_append, firedTimers]
      · intro t rl hm; simpa using hm
    · cases h
      exact hframe w _ (TimerFrame.of_trace_eq rfl (le_refl _) rfl) hp
  · cases h; exact hp

/-- Induction principle for the invocation of a file-handle callback. -/
theorem invokeFileHandleCallback_preserves (env : Env) (P : World → Prop)
    (hframe : ∀ w w1, TimerFrame w w1 → P w → P w1)
    (hprog : ∀ p w w1, runProg env p w = .ok w1 → P w → P w1)
    (fileHandle : Nat) (node : HAPPlatformFileHandle) (ev : HAPPlatformFileHandleEvent)
    (w w1 : World) (h : invokeFileHandleCallback env fileHandle node ev w = .ok w1)
    (hp : P w) : P w1 := by
  unfold invokeFileHandleCallback at h
  dsimp only at h
  have hlog : P { w with trace := w.trace ++
      [Event.fileHandleCallback fileHandle node.callback ev node.context w.runLoop] } := by
    refine hframe w _ ⟨rfl, le_refl _, ?_, ?_⟩ hp
    · simp [firedTimers_append, firedTimers]
    · intro t rl hm; simpa using hm
  split at h
  · exact SelfPipeHandleCallback_preserves env P hframe hprog ev _ w1 h hlog
  · exact hprog _ _ w1 h hlog

/-- Induction principle for the loop of `ProcessSelectedFileHandles`. -/
theorem dispatchLoop_preserves (env : Env) (P : World → Prop)
    (hframe : ∀ w w1, TimerFrame w w1 → P w → P w1)
    (hprog : ∀ p w w1, runProg env p w = .ok w1 → P w → P w1)
    (pollFds : List WSAPOLLFD) :
    ∀ (fuel : Nat) (w w1 : World), dispatchLoop env pollFds fuel w = .ok w1 → P w → P w1 := by
  intro fuel
  induction fuel with
  | zero => intro w w1 h; simp [dispatchLoop] at h
  | succ fuel ih =>
    intro w w1 h hp
    simp only [dispatchLoop] at h
    split at h
    · cases h; exact hp
    · split at h
      · cases h
      · rename_i node hnode
        have hp1 : P { w with runLoop := { w.runLoop with
            fileHandleCursor := node.nextFileHandle } } :=
          hframe w _ (TimerFrame.of_trace_eq rfl (le_refl _) rfl) hp
        split at h
        · split at h
          · cases h
          · have hp2 : P { w with runLoop := { w.runLoop with
                fileHandleCursor := node.nextFileHandle
                fileHandleMem := memStore w.runLoop.fileHandleMem w.runLoop.fileHandleCursor
                  { node with isAwaitingEvents := false } } } :=
              hframe w _ (TimerFrame.of_trace_eq rfl (le_refl _) rfl) hp
            split at h
            · split at h
              · exact ih _ w1 h hp2
              · split at h
                · split at h
                  · cases h
                  · rename_i w3 hinv
                    exact ih w3 w1 h
                      (invokeFileHandleCallback_preserves env P hframe hprog _ _ _ _ w3 hinv hp2)
                · exact ih _ w1 h hp2
            · exact ih _ w1 h hp2
        · exact ih _ w1 h hp1

/-- Induction principle for `ProcessSelectedFileHandles`. -/
theorem ProcessSelectedFileHandles_preserves (env : Env) (P : World → Prop)
    (hframe : ∀ w w1, TimerFrame w w1 → P w → P w1)
    (hprog : ∀ p w w1, runProg env p w = .ok w1 → P w → P w1)
    (pollFds : List WSAPOLLFD) (fuel : Nat) (w w1 : World)
    (h : ProcessSelectedFileHandles env pollFds fuel w = .ok w1) (hp : P w) : P w1 := by
  unfold ProcessSelectedFileHandles at h
  split at h
  · cases h
  · exact dispatchLoop_preserves env P hframe hprog pollFds fuel _ w1 h
      (hframe w _ (TimerFrame.of_trace_eq rfl (le_refl _) rfl) hp)

/-- Induction principle for the first part of a cycle. -/
theorem cycleUntilPoll_preserves (env : Env) (P : World → Prop)
    (hframe : ∀ w w1, TimerFrame w w1 → P w → P w1)
    (hprog : ∀ p w w1, runProg env p w = .ok w1 → P w → P w1)
    (hfire : ∀ w t rest, w.runLoop.timers = t :: rest → P w → P (fireHead w t rest))
    (inp : CycleInput) (w w1 : World) (r : Option (List WSAPOLLFD))
    (h : cycleUntilPoll env inp w = .ok (w1, r)) (hp : P w) : P w1 := by
  unfold cycleUntilPoll at h
  dsimp only at h
  split at h
  · cases h
  · rename_i w2 hexp
    have hp2 : P w2 := ProcessExpiredTimers_preserves env inp.nowExpired P
      (fun w t rest hq _ hp => hfire w t rest hq hp) hprog inp.timerFuel w w2 hexp hp
    split at h
    · cases h
    · split at h
      · cases h
      · split at h
        · cases h
          refine hframe w2 _ ⟨rfl, le_refl _, ?_, ?_⟩ hp2
          · simp [firedTimers_append, firedTimers]
          · intro t rl hm; simpa using hm
        · split at h
          · cases h
            exact hframe w2 _ (TimerFrame.of_trace_eq rfl (Nat.le_succ _) rfl) hp2
          · cases h
            refine hframe w2 _ ⟨rfl, Nat.le_succ _, ?_, ?_⟩ hp2
            · simp [firedTimers_append, firedTimers]
            · intro t rl hm; simpa using hm

/-- Induction principle for one cycle. -/
theorem runLoopCycle_preserves (env : Env) (P : World → Prop)
    (hframe : ∀ w w1, TimerFrame w w1 → P w → P w1)
    (hprog : ∀ p w w1, runProg env p w = .ok w1 → P w → P w1)
    (hfire : ∀ w t rest, w.runLoop.timers = t :: rest → P w → P (fireHead w t rest))
    (inp : CycleInput) (w w1 : World)
    (h : runLoopCycle env inp w = .ok w1) (hp : P w) : P w1 := by
  unfold runLoopCycle at h
  split at h
  · cases h
  · rename_i w2 hc
    cases h
    exact cycleUntilPoll_preserves env P hframe hprog hfire inp w _ none hc hp
  · rename_i w2 pollFds hc
    have hp2 := cycleUntilPoll_preserves env P hframe hprog hfire inp w w2 (some pollFds) hc hp
    split at h
    · cases h; exact hp2
    · split at h
      · exact ProcessSelectedFileHandles_preserves env P hframe hprog _ _ w2 w1 h hp2
      · cases h; exact hp2

/-- Induction principle for the `while` loop of `HAPPlatformRunLoopRun`. -/
theorem runLoopWhile_preserves (env : Env) (P : World → Prop)
    (hframe : ∀ w w1, TimerFrame w w1 → P w → P w1)
    (hprog : ∀ p w w1, runProg env p w = .ok w1 → P w → P w1)
    (hfire : ∀ w t rest, w.runLoop.timers = t :: rest → P w → P (fireHead w t rest)) :
    ∀ (inputs : List CycleInput) (w w1 : World),
      runLoopWhile env inputs w = .ok w1 → P w → P w1 := by
  intro inputs
  induction inputs with
  | nil =>
    intro w w1 h hp
    simp only [runLoopWhile] at h
    split at h
    · cases h
    · cases h; exact hp
  | cons inp rest ih =>
    intro w w1 h hp
    simp only [runLoopWhile] at h
    split at h
    · split at h
      · cases h
      · rename_i w2 hc
        exact ih w2 w1 h (runLoopCycle_preserves env P hframe hprog hfire inp w w2 hc hp)
    · cases h; exact hp

/-- Induction principle for `HAPPlatformRunLoopRun`. -/
theorem HAPPlatformRunLoopRun_preserves (env : Env) (P : World → Prop)
    (hframe : ∀ w w1, TimerFrame w w1 → P w → P w1)
    (hprog : ∀ p w w1, runProg env p w = .ok w1 → P w → P w1)
    (hfire : ∀ w t rest, w.runLoop.timers = t :: rest → P w → P (fireHead w t rest))
    (inputs : List CycleInput) (w w1 : World)
    (h : HAPPlatformRunLoopRun env inputs w = .ok w1) (hp : P w) : P w1 := by
  unfold HAPPlatformRunLoopRun at h
  split at h
  · cases h
  · split at h
    · cases h
    · rename_i w2 hw
      cases h
      refine hframe w2 _ (TimerFrame.of_trace_eq rfl (le_refl _) rfl) ?_
      exact runLoopWhile_preserves env P hframe hprog hfire inputs _ w2 hw
        (hframe w _ (TimerFrame.of_trace_eq rfl (le_refl _) rfl) hp)

/-- Induction principle for executions: a property kept by every API call and by the
unlinking of an expired timer holds along the whole execution. -/
theorem runSteps_preserves (env : Env) (P : World → Prop)
    (hframe : ∀ w w1, TimerFrame w w1 → P w → P w1)
    (hreg : ∀ d cb ctx w err t w1,
      HAPPlatformTimerRegister env d cb ctx w = .ok (err, t, w1) → P w → P w1)
    (hdereg : ∀ timer w w1, HAPPlatformTimerDeregister timer w = .ok w1 → P w → P w1)
    (hfire : ∀ w t rest, w.runLoop.timers = t :: rest → P w → P (fireHead w t rest)) :
    ∀ (steps : List Step) (w w1 : World), runSteps env steps w = .ok w1 → P w → P w1 := by
  have hprog := runProg_preserves env P hframe hreg hdereg
  intro steps
  induction steps with
  | nil => intro w w1 h hp; simp only [runSteps] at h; cases h; exact hp
  | cons s rest ih =>
    intro w w1 h hp
    simp only [runSteps] at h
    split at h
    · cases h
    · rename_i w2 heq
      refine ih w2 w1 h ?_
      cases s with
      | call p => exact hprog p w w2 heq hp
      | processExpiredTimers now fuel =>
        exact ProcessExpiredTimers_preserves env now P
          (fun w t rest hq _ hp => hfire w t rest hq hp) hprog fuel w w2 heq hp
      | selfPipeHandleCallback ev =>
        exact SelfPipeHandleCallback_preserves env P hframe hprog ev w w2 heq hp
      | runLoopRun inputs =>
        exact HAPPlatformRunLoopRun_preserves env P hframe hprog hfire inputs w w2 heq hp

theorem TimerInv.of_runSteps {env : Env} {steps : List Step} {w w1 : World} (h : TimerInv w)
    (hr : runSteps env steps w = .ok w1) : TimerInv w1 :=
  runSteps_preserves env TimerInv (fun _ _ hfr hp => hp.of_frame hfr)
    (fun _ _ _ _ _ _ _ heq hp => hp.of_register heq) (fun _ _ _ heq hp => hp.of_deregister heq)
    (fun _ _ _ hq hp => hp.of_fireHead hq) steps w w1 hr h

/-- Every machine reached from program start satisfies the timer invariant. -/
theorem TimerInv.of_reachable {env : Env} {steps : List Step} {w : World}
    (hr : runSteps env steps World.init = .ok w) : TimerInv w :=
  TimerInv.init.of_runSteps hr

/-! ## Timer queue: order -/

/-- C1. Timer-queue order invariant: after any sequence of API calls (timer registrations and
deregistrations among them), `ProcessExpiredTimers` passes and mailbox deliveries starting from
the empty queue, whatever the callbacks register or deregister, the pending-timer list is in
non-decreasing order of stored deadline; the same holds for the list that each timer callback
found when it was entered. -/
theorem timer_queue_ordered (env : Env) (steps : List Step) (w : World)
    (hreach : runSteps env steps World.init = .ok w) :
    TimersOrdered w.runLoop.timers ∧
    ∀ t rl, Event.timerCallback t rl ∈ w.trace → TimersOrdered rl.timers :=
  ⟨(TimerInv.of_reachable hreach).ordered,
    fun t rl hm => ((TimerInv.of_reachable hreach).snapshots t rl hm).1⟩

/-- Witness for C1: three registrations, one deregistration and a pass whose callback registers
a further timer. -/
theorem timer_queue_ordered_witness :
    ∃ w, runSteps reenterEnv reenterSteps World.init = .ok w ∧
      w.runLoop.timers.map HAPPlatformTimer.deadline = [9, 20] ∧
      TimersOrdered w.runLoop.timers ∧
      ∀ t rl, Event.timerCallback t rl ∈ w.trace → TimersOrdered rl.timers :=
  ⟨_, rfl, rfl, timer_queue_ordered reenterEnv reenterSteps _ rfl⟩

/-- C2 (the code at the failing input). Two timers registered with deadline `0` are both stored
with deadline `1`, but the one registered second is put at the head of the queue, and
`ProcessExpiredTimers` fires it first. -/
theorem register_zero_twice_fires_in_reverse :
    ∃ w w1,
      runSteps idleEnv [Step.call (registerTimer 0 7 100), Step.call (registerTimer 0 7 200)]
        World.init = .ok w ∧
      w.runLoop.timers = [⟨3, 1, 7, 200⟩, ⟨2, 1, 7, 100⟩] ∧
      ProcessExpiredTimers idleEnv 1 3 w = .ok w1 ∧
      firedTimers w1.trace = [⟨3, 1, 7, 200⟩, ⟨2, 1, 7, 100⟩] :=
  ⟨_, _, rfl, rfl, rfl, rfl⟩

/-! ## Timer queue: expiry -/

/-- A callback body never records a timer callback: the fired timers are unchanged. -/
theorem runProg_firedTimers {env : Env} {p : Prog} {w w1 : World}
    (h : runProg env p w = .ok w1) : firedTimers w1.trace = firedTimers w.trace :=
  runProg_preserves env (fun x => firedTimers x.trace = firedTimers w.trace)
    (fun _ _ hfr hp => hfr.fired.trans hp)
    (fun _ _ _ _ _ _ _ heq hp => by
      show firedTimers _ = _
      rw [(HAPPlatformTimerRegister_ok heq).1]; exact hp)
    (fun _ _ _ heq hp => by
      obtain ⟨l, _, rfl⟩ := HAPPlatformTimerDeregister_ok heq
      exact hp)
    p w w1 h rfl

/-- In an ordered list the due timers form a prefix. -/
theorem takeWhile_eq_filter_of_ordered (now : Nat) (l : List HAPPlatformTimer)
    (hl : TimersOrdered l) :
    l.takeWhile (fun t => decide (t.deadline ≤ now)) =
      l.filter (fun t => decide (t.deadline ≤ now)) := by
  induction l with
  | nil => rfl
  | cons t rest ih =>
    have hrest : TimersOrdered rest := (List.pairwise_cons.mp hl).2
    have ht : ∀ u ∈ rest, t.deadline ≤ u.deadline := (List.pairwise_cons.mp hl).1
    by_cases hd : t.deadline ≤ now
    · rw [List.takeWhile_cons_of_pos (by simpa using hd),
        List.filter_cons_of_pos (by simpa using hd), ih hrest]
    · rw [List.takeWhile_cons_of_neg (by simpa using hd),
        List.filter_cons_of_neg (by simpa using hd)]
      symm
      rw [List.filter_eq_nil_iff]
      intro u hu
      have := ht u hu
      simp only [decide_eq_true_eq]
      omega

/-- In an ordered list the timers that are not due form a suffix. -/
theorem dropWhile_eq_filter_of_ordered (now : Nat) (l : List HAPPlatformTimer)
    (hl : TimersOrdered l) :
    l.dropWhile (fun t => decide (t.deadline ≤ now)) =
      l.filter (fun t => decide (now < t.deadline)) := by
  induction l with
  | nil => rfl
  | cons t rest ih =>
    have hrest : TimersOrdered rest := (List.pairwise_cons.mp hl).2
    have ht : ∀ u ∈ rest, t.deadline ≤ u.deadline := (List.pairwise_cons.mp hl).1
    by_cases hd : t.deadline ≤ now
    · rw [List.dropWhile_cons_of_pos (by simpa using hd),
        List.filter_cons_of_neg (by simpa using hd), ih hrest]
    · rw [List.dropWhile_cons_of_neg (by simpa using hd)]
      symm
      rw [List.filter_eq_self]
      intro u hu
      simp only [decide_eq_true_eq]
      rcases List.mem_cons.mp hu with rfl | hu
      · omega
      · have := ht u hu
        omega

/-- When the callbacks of the pending timers leave the queue alone, a pass with enough fuel
returns, having fired the longest due prefix of the queue and left the rest. -/
theorem ProcessExpiredTimers_quiet (env : Env) (now : Nat) :
    ∀ (l : List HAPPlatformTimer) (w : World) (fuel : Nat),
      w.runLoop.timers = l → l.length < fuel →
      (∀ t ∈ l, ∀ w1 : World, ∃ w2,
        runProg env (env.timerCallback t.callback t.ptr t.context) w1 = .ok w2 ∧
        w2.runLoop.timers = w1.runLoop.timers) →
      ∃ w', ProcessExpiredTimers env now fuel w = .ok w' ∧
        w'.runLoop.timers = l.dropWhile (fun t => decide (t.deadline ≤ now)) ∧
        firedTimers w'.trace =
          firedTimers w.trace ++ l.takeWhile (fun t => decide (t.deadline ≤ now)) := by
  intro l
  induction l with
  | nil =>
    intro w fuel hq hf _
    cases fuel with
    | zero => simp at hf
    | succ fuel =>
      refine ⟨w, ?_, by simpa using hq, by simp⟩
      simp only [ProcessExpiredTimers, hq]
  | cons t rest ih =>
    intro w fuel hq hf hcb
    cases fuel with
    | zero => simp at hf
    | succ fuel =>
      by_cases hd : t.deadline ≤ now
      · obtain ⟨w2, hrun, hkeep⟩ := hcb t (List.mem_cons_self _ _) (fireHead w t rest)
        have hq2 : w2.runLoop.timers = rest := by rw [hkeep]; rfl
        obtain ⟨w', hres, htim, hfired⟩ := ih w2 fuel hq2
          (by simp only [List.length_cons] at hf; omega)
          (fun u hu => hcb u (List.mem_cons_of_mem _ hu))
        refine ⟨w', ?_, ?_, ?_⟩
        · simp only [ProcessExpiredTimers, hq]
          rw [if_neg (by omega), hrun]
          exact hres
        · rw [htim, List.dropWhile_cons_of_pos (by simpa using hd)]
        · rw [hfired, runProg_firedTimers hrun, List.takeWhile_cons_of_pos (by simpa using hd)]
          simp [fireHead, firedTimers_append, firedTimers]
      · refine ⟨w, ?_, ?_, ?_⟩
        · simp only [ProcessExpiredTimers, hq]
          rw [if_pos (by omega)]
        · rw [hq, List.dropWhile_cons_of_neg (by simpa using hd)]
        · rw [List.takeWhile_cons_of_neg (by simpa using hd)]
          simp

/-- C3. For every queue reached from program start (in particular every queue built by
`HAPPlatformTimerRegister` calls) and every clock value `now`, when the callbacks of the pending
timers return without changing the queue, `ProcessExpiredTimers` with more fuel than pending
timers returns; it has invoked exactly the timers with deadline `<= now`, each once and in queue
order, which is non-decreasing deadline order; they are the prefix of the queue that ends in
front of the first timer with deadline `> now`; and exactly the timers with deadline `> now` are
left pending, in their previous order. -/
theorem process_expired_fires_exactly_due (env : Env) (steps : List Step) (w : World)
    (now fuel : Nat)
    (hreach : runSteps env steps World.init = .ok w)
    (hfuel : w.runLoop.timers.length < fuel)
    (hquiet : ∀ t ∈ w.runLoop.timers, ∀ w1 : World, ∃ w2,
      runProg env (env.timerCallback t.callback t.ptr t.context) w1 = .ok w2 ∧
      w2.runLoop.timers = w1.runLoop.timers) :
    ∃ w', ProcessExpiredTimers env now fuel w = .ok w' ∧
      firedTimers w'.trace =
        firedTimers w.trace ++ w.runLoop.timers.filter (fun t => decide (t.deadline ≤ now)) ∧
      w.runLoop.timers.filter (fun t => decide (t.deadline ≤ now)) =
        w.runLoop.timers.takeWhile (fun t => decide (t.deadline ≤ now)) ∧
      TimersOrdered (w.runLoop.timers.filter (fun t => decide (t.deadline ≤ now))) ∧
      ((w.runLoop.timers.filter (fun t => decide (t.deadline ≤ now))).map
        HAPPlatformTimer.ptr).Nodup ∧
      w'.runLoop.timers = w.runLoop.timers.filter (fun t => decide (now < t.deadline)) ∧
      w'.runLoop.timers = w.runLoop.timers.dropWhile (fun t => decide (t.deadline ≤ now)) := by
  have hinv := TimerInv.of_reachable hreach
  obtain ⟨w', hres, htim, hfired⟩ :=
    ProcessExpiredTimers_quiet env now w.runLoop.timers w fuel rfl hfuel hquiet
  refine ⟨w', hres, ?_, ?_, ?_, ?_, ?_, htim⟩
  · rw [hfired, takeWhile_eq_filter_of_ordered now _ hinv.ordered]
  · exact (takeWhile_eq_filter_of_ordered now _ hinv.ordered).symm
  · exact List.Pairwise.sublist (List.filter_sublist _) hinv.ordered
  · exact List.Nodup.sublist ((List.filter_sublist _).map _) hinv.nodup
  · rw [htim, dropWhile_eq_filter_of_ordered now _ hinv.ordered]

/-- Witness for C3: five registrations, then a pass at clock value `3`. -/
theorem process_expired_fires_exactly_due_witness :
    ∃ w, runSteps idleEnv dueSteps World.init = .ok w ∧
      w.runLoop.timers.map HAPPlatformTimer.deadline = [1, 1, 3, 5, 5] ∧
      ∃ w', ProcessExpiredTimers idleEnv 3 6 w = .ok w' ∧
        firedTimers w'.trace =
          firedTimers w.trace ++ w.runLoop.timers.filter (fun t => decide (t.deadline ≤ 3)) ∧
        w.runLoop.timers.filter (fun t => decide (t.deadline ≤ 3)) =
          w.runLoop.timers.takeWhile (fun t => decide (t.deadline ≤ 3)) ∧
        TimersOrdered (w.runLoop.timers.filter (fun t => decide (t.deadline ≤ 3))) ∧
        ((w.runLoop.timers.filter (fun t => decide (t.deadline ≤ 3))).map
          HAPPlatformTimer.ptr).Nodup ∧
        w'.runLoop.timers = w.runLoop.timers.filter (fun t => decide (3 < t.deadline)) ∧
        w'.runLoop.timers = w.runLoop.timers.dropWhile (fun t => decide (t.deadline ≤ 3)) :=
  ⟨_, rfl, rfl,
    process_expired_fires_exactly_due idleEnv dueSteps _ 3 6 rfl (by decide)
      (fun _ _ w1 => ⟨w1, rfl, rfl⟩)⟩



/-! ## Timer queue: registrations made during a pass -/

/-- C4 (counterexample). The callback of a timer with deadline `5` registers, during the pass
at clock value `10`, a timer with the same deadline `5` (first case) or with the earlier
deadline `0` (second case): the new timer, at address `3`, is fired by that same pass and is not
pending when the pass returns. -/
theorem reentrant_register_fires_in_same_pass :
    (∃ w w', runSteps reenterEnv [Step.call (registerTimer 5 7 5)] World.init = .ok w ∧
      w.runLoop.timers = [⟨2, 5, 7, 5⟩] ∧
      ProcessExpiredTimers reenterEnv 10 3 w = .ok w' ∧
      firedTimers w'.trace = [⟨2, 5, 7, 5⟩, ⟨3, 5, 8, 0⟩] ∧ w'.runLoop.timers = []) ∧
    (∃ w w', runSteps reenterEnv [Step.call (registerTimer 5 7 0)] World.init = .ok w ∧
      w.runLoop.timers = [⟨2, 5, 7, 0⟩] ∧
      ProcessExpiredTimers reenterEnv 10 3 w = .ok w' ∧
      firedTimers w'.trace = [⟨2, 5, 7, 0⟩, ⟨3, 1, 8, 0⟩] ∧ w'.runLoop.timers = []) :=
  ⟨⟨_, _, rfl, rfl, rfl, rfl, rfl⟩, ⟨_, _, rfl, rfl, rfl, rfl, rfl⟩⟩

/-- A returning pass leaves a queue that is empty or whose head is not due. -/
theorem ProcessExpiredTimers_exit (env : Env) (now : Nat) :
    ∀ (fuel : Nat) (w w' : World), ProcessExpiredTimers env now fuel w = .ok w' →
      ∀ t rest, w'.runLoop.timers = t :: rest → now < t.deadline := by
  intro fuel
  induction fuel with
  | zero => intro w w' h; simp [ProcessExpiredTimers] at h
  | succ fuel ih =>
    intro w w' h
    simp only [ProcessExpiredTimers] at h
    split at h
    · rename_i hq
      cases h
      intro t rest hq'
      rw [hq] at hq'
      cases hq'
    · rename_i t0 rest0 hq
      split at h
      · rename_i hgt
        cases h
        intro t rest hq'
        rw [hq] at hq'
        cases hq'
        exact hgt
      · split at h
        · cases h
        · exact ih _ w' h

/-- C4 (amended). In a `ProcessExpiredTimers` pass with clock value `now` that returns, every
timer whose callback the pass invokes has a stored deadline `<= now`, and every timer pending
when the pass returns has a stored deadline `> now`. So a timer registered from a timer callback
with a deadline later than `now` is not fired by that pass, and one registered with a deadline
equal to or earlier than the callback's own (hence `<= now`) is not left pending by it. -/
theorem process_expired_pass_bounds (env : Env) (steps : List Step) (w w' : World)
    (now fuel : Nat)
    (hreach : runSteps env steps World.init = .ok w)
    (hpass : ProcessExpiredTimers env now fuel w = .ok w') :
    (∃ fired, firedTimers w'.trace = firedTimers w.trace ++ fired ∧
      ∀ t ∈ fired, t.deadline ≤ now) ∧
    ∀ t ∈ w'.runLoop.timers, now < t.deadline := by
  constructor
  · refine ProcessExpiredTimers_preserves env now
      (fun x => ∃ fired, firedTimers x.trace = firedTimers w.trace ++ fired ∧
        ∀ t ∈ fired, t.deadline ≤ now) ?_ ?_ fuel w w' hpass ⟨[], by simp, by simp⟩
    · rintro x t rest _ hd ⟨fired, hf, hall⟩
      refine ⟨fired ++ [t], ?_, ?_⟩
      · simp [fireHead, firedTimers_append, firedTimers, hf]
      · intro u hu
        rcases List.mem_append.mp hu with hu | hu
        · exact hall u hu
        · rw [List.mem_singleton.mp hu]; exact hd
    · rintro p x x1 hrun ⟨fired, hf, hall⟩
      exact ⟨fired, by rw [runProg_firedTimers hrun]; exact hf, hall⟩
  · have hinv := (TimerInv.of_reachable hreach).of_processExpiredTimers hpass
    intro t ht
    have hord := hinv.ordered
    cases hq : w'.runLoop.timers with
    | nil => rw [hq] at ht; cases ht
    | cons t0 rest =>
      have h0 := ProcessExpiredTimers_exit env now fuel w w' hpass t0 rest hq
      rw [hq] at ht hord
      rcases List.mem_cons.mp ht with rfl | ht
      · exact h0
      · exact lt_of_lt_of_le h0 ((List.pairwise_cons.mp hord).1 t ht)

/-- Witness for C4 (amended): the callback of the first timer registers, at clock value `6`, a
timer with deadline `9`, which stays pending. -/
theorem process_expired_pass_bounds_witness :
    ∃ w w', runSteps reenterEnv [Step.call (registerTimer 5 7 9)] World.init = .ok w ∧
      ProcessExpiredTimers reenterEnv 6 3 w = .ok w' ∧
      w'.runLoop.timers = [⟨3, 9, 8, 0⟩] ∧
      (∃ fired, firedTimers w'.trace = firedTimers w.trace ++ fired ∧
        ∀ t ∈ fired, t.deadline ≤ 6) ∧
      ∀ t ∈ w'.runLoop.timers, 6 < t.deadline :=
  ⟨_, _, rfl, rfl, rfl,
    process_expired_pass_bounds reenterEnv [Step.call (registerTimer 5 7 9)] _ _ 6 3 rfl rfl⟩

/-! ## Timer queue: one shot -/

/-- C5. In every execution from program start, whatever the callbacks register or deregister:
the queue that a timer callback finds when it is entered does not contain its own timer (the
node was unlinked before the call), and no timer address occurs twice among the invoked timer
callbacks, so every registered timer fires at most once. -/
theorem timer_unlinked_before_callback (env : Env) (steps : List Step) (w : World)
    (hreach : runSteps env steps World.init = .ok w) :
    (∀ t rl, Event.timerCallback t rl ∈ w.trace →
      t ∉ rl.timers ∧ ∀ u ∈ rl.timers, u.ptr ≠ t.ptr) ∧
    ((firedTimers w.trace).map HAPPlatformTimer.ptr).Nodup := by
  have hinv := TimerInv.of_reachable hreach
  refine ⟨fun t rl hm => ⟨fun hin => ?_, (hinv.snapshots t rl hm).2⟩, hinv.firedNodup⟩
  exact (hinv.snapshots t rl hm).2 t hin rfl

/-- Witness for C5: registrations, a deregistration and two passes, the first of which has a
callback that registers a further timer; three timers fire, each once. -/
theorem timer_unlinked_before_callback_witness :
    ∃ w, runSteps reenterEnv (reenterSteps ++ [Step.processExpiredTimers 30 4]) World.init
        = .ok w ∧
      (firedTimers w.trace).map HAPPlatformTimer.ptr = [2, 5, 4] ∧
      (∀ t rl, Event.timerCallback t rl ∈ w.trace →
        t ∉ rl.timers ∧ ∀ u ∈ rl.timers, u.ptr ≠ t.ptr) ∧
      ((firedTimers w.trace).map HAPPlatformTimer.ptr).Nodup :=
  ⟨_, rfl, rfl,
    timer_unlinked_before_callback reenterEnv
      (reenterSteps ++ [Step.processExpiredTimers 30 4]) _ rfl⟩



/-! ## Timer queue: deregistration -/

theorem Retired.persists {p : Nat} {env : Env} {steps : List Step} {w w1 : World}
    (h : Retired p w) (hr : runSteps env steps w = .ok w1) : Retired p w1 := by
  refine runSteps_preserves env (Retired p) ?_ ?_ ?_ ?_ steps w w1 hr h
  · rintro x x1 hfr ⟨hlt, hq, hf⟩
    refine ⟨lt_of_lt_of_le hlt ?_, by rw [hfr.timers]; exact hq, by rw [hfr.fired]; exact hf⟩
    have := hfr.allocs
    unfold allocAddr; omega
  · rintro d cb ctx x err t x1 heq ⟨hlt, hq, hf⟩
    obtain ⟨htr, hna, hcase⟩ := HAPPlatformTimerRegister_ok heq
    have hlt1 : p < allocAddr x1.numAllocs := by
      rw [hna]; unfold allocAddr at hlt ⊢; omega
    refine ⟨hlt1, ?_, by rw [htr]; exact hf⟩
    rcases hcase with ⟨_, _, hrl⟩ | ⟨_, _, htm⟩
    · rw [hrl]; exact hq
    · intro u hu
      rw [htm] at hu
      rcases mem_insertTimer.mp hu with rfl | hu
      · show allocAddr x.numAllocs ≠ p
        omega
      · exact hq u hu
  · rintro timer x x1 heq ⟨hlt, hq, hf⟩
    obtain ⟨l, hl, rfl⟩ := HAPPlatformTimerDeregister_ok heq
    exact ⟨hlt, fun u hu => hq u ((removeTimer_sublist hl).subset hu), hf⟩
  · rintro x t rest hq' ⟨hlt, hq, hf⟩
    refine ⟨hlt, fun u hu => hq u (by rw [hq']; exact List.mem_cons_of_mem _ hu), ?_⟩
    intro u hu
    simp only [fireHead, firedTimers_append, firedTimers, List.mem_append,
      List.mem_singleton] at hu
    rcases hu with hu | rfl
    · exact hf u hu
    · exact hq u (by rw [hq']; exact List.mem_cons_self _ _)

/-- Among nodes with distinct addresses, comparing addresses is comparing nodes. -/
theorem filter_ptr_eq_filter_ne {l : List HAPPlatformTimer} {T : HAPPlatformTimer}
    (hnd : (l.map HAPPlatformTimer.ptr).Nodup) (hT : T ∈ l) :
    l.filter (fun u => decide (u.ptr ≠ T.ptr)) = l.filter (fun u => decide (u ≠ T)) := by
  apply List.filter_congr
  intro u hu
  have hiff : u.ptr = T.ptr ↔ u = T :=
    ⟨fun h => List.inj_on_of_nodup_map hnd hu hT h, fun h => by rw [h]⟩
  simp only [ne_eq, decide_not, hiff]

/-- C6. For every pending timer `T` of a machine reached from program start,
`HAPPlatformTimerDeregister(T)` returns and changes nothing but the queue, which becomes the
previous queue with `T` deleted (every other node kept, unchanged and in the same relative
order); and in no continuation of the execution is the callback of `T` invoked. -/
theorem deregister_removes_exactly (env : Env) (steps : List Step) (w : World)
    (T : HAPPlatformTimer)
    (hreach : runSteps env steps World.init = .ok w) (hT : T ∈ w.runLoop.timers) :
    ∃ w1, HAPPlatformTimerDeregister T.ptr w = .ok w1 ∧
      w1 = { w with runLoop := { w.runLoop with
               timers := w.runLoop.timers.filter (fun u => decide (u ≠ T)) } } ∧
      w1.runLoop.timers = w.runLoop.timers.erase T ∧
      ∀ (later : List Step) (w2 : World), runSteps env later w1 = .ok w2 →
        ∀ u ∈ firedTimers w2.trace, u.ptr ≠ T.ptr := by
  have hinv := TimerInv.of_reachable hreach
  have hne : T.ptr ≠ NULL := by
    have := (hinv.bounded T hT).1
    unfold NULL; omega
  cases hrm : removeTimer T.ptr w.runLoop.timers with
  | none => exact absurd rfl (removeTimer_eq_none.mp hrm T hT)
  | some l =>
    have hl : l = w.runLoop.timers.filter (fun u => decide (u ≠ T)) := by
      rw [removeTimer_eq_filter hinv.nodup hrm, filter_ptr_eq_filter_ne hinv.nodup hT]
    have hres : HAPPlatformTimerDeregister T.ptr w =
        .ok { w with runLoop := { w.runLoop with timers := l } } := by
      unfold HAPPlatformTimerDeregister
      rw [if_neg hne, hrm]
    refine ⟨_, hres, by rw [hl], ?_, ?_⟩
    · show l = _
      rw [hl, List.Nodup.erase_eq_filter (List.Nodup.of_map _ hinv.nodup)]
      apply List.filter_congr
      intro u _
      by_cases h : u = T <;> simp [h]
    · intro later w2 hlater
      have hret : Retired T.ptr { w with runLoop := { w.runLoop with timers := l } } := by
        refine ⟨(hinv.bounded T hT).2, ?_, ?_⟩
        · intro u hu
          have hu' : u ∈ l := hu
          rw [removeTimer_eq_filter hinv.nodup hrm, List.mem_filter] at hu'
          simpa using hu'.2
        · intro u hu
          exact fun he => hinv.firedDisjoint u hu T hT he.symm
      exact (hret.persists hlater).2.2

/-- Witness for C6: the timer at address `4` of a queue of five is deregistered. -/
theorem deregister_removes_exactly_witness :
    ∃ w, runSteps idleEnv dueSteps World.init = .ok w ∧
      (⟨4, 5, 8, 0⟩ : HAPPlatformTimer) ∈ w.runLoop.timers ∧
      ∃ w1, HAPPlatformTimerDeregister 4 w = .ok w1 ∧
        w1 = { w with runLoop := { w.runLoop with
                 timers := w.runLoop.timers.filter (fun u => decide (u ≠ ⟨4, 5, 8, 0⟩)) } } ∧
        w1.runLoop.timers = w.runLoop.timers.erase ⟨4, 5, 8, 0⟩ ∧
        ∀ (later : List Step) (w2 : World), runSteps idleEnv later w1 = .ok w2 →
          ∀ u ∈ firedTimers w2.trace, u.ptr ≠ 4 :=
  ⟨_, rfl, by decide,
    deregister_removes_exactly idleEnv dueSteps _ ⟨4, 5, 8, 0⟩ rfl (by decide)⟩

/-- C7. On a machine reached from program start, `HAPPlatformTimerDeregister` with a
non-`NULL` handle reaches `HAPFatalError` if and only if no pending timer has that address. In
particular it does so for the handle of every timer whose callback has been invoked, and a pass
of `ProcessExpiredTimers` in which the callback of the head timer starts by deregistering its
own timer ends in `HAPFatalError`. -/
theorem deregister_fatal_iff_not_pending (env : Env) (steps : List Step) (w : World)
    (hreach : runSteps env steps World.init = .ok w) :
    (∀ timer, timer ≠ NULL →
      (HAPPlatformTimerDeregister timer w = .error Fault.fatalError ↔
        ∀ t ∈ w.runLoop.timers, t.ptr ≠ timer)) ∧
    (∀ t ∈ firedTimers w.trace,
      HAPPlatformTimerDeregister t.ptr w = .error Fault.fatalError) ∧
    (∀ t rest now fuel k, w.runLoop.timers = t :: rest → t.deadline ≤ now →
      env.timerCallback t.callback t.ptr t.context = Prog.timerDeregister t.ptr k →
      ProcessExpiredTimers env now (fuel + 1) w = .error Fault.fatalError) := by
  have hinv := TimerInv.of_reachable hreach
  have hiff : ∀ (x : World) (timer : Nat), timer ≠ NULL →
      (HAPPlatformTimerDeregister timer x = .error Fault.fatalError ↔
        ∀ t ∈ x.runLoop.timers, t.ptr ≠ timer) := by
    intro x timer hne
    unfold HAPPlatformTimerDeregister
    rw [if_neg hne, ← removeTimer_eq_none]
    cases removeTimer timer x.runLoop.timers <;> simp
  refine ⟨hiff w, ?_, ?_⟩
  · intro t ht
    have hb := (hinv.firedBounded t ht).1
    refine (hiff w t.ptr (by unfold NULL; omega)).mpr ?_
    intro u hu
    exact hinv.firedDisjoint t ht u hu
  · intro t rest now fuel k hq hd hcb
    have hinv1 := hinv.of_fireHead hq
    have hb := (hinv.bounded t (by rw [hq]; exact List.mem_cons_self _ _)).1
    have hnd := hinv.nodup
    rw [hq, List.map_cons, List.nodup_cons] at hnd
    have hfatal : HAPPlatformTimerDeregister t.ptr (fireHead w t rest)
        = .error Fault.fatalError := by
      refine (hiff _ t.ptr (by unfold NULL; omega)).mpr ?_
      intro u hu he
      exact hnd.1 (List.mem_map.mpr ⟨u, hu, he⟩)
    simp only [ProcessExpiredTimers, hq]
    rw [if_neg (by omega), hcb]
    simp only [runProg, hfatal]

/-- Witness for C7: a timer whose callback deregisters its own timer. -/
theorem deregister_fatal_iff_not_pending_witness :
    ∃ w, runSteps selfDeregisterEnv [Step.call (registerTimer 5 7 0)] World.init = .ok w ∧
      ProcessExpiredTimers selfDeregisterEnv 10 3 w = .error Fault.fatalError ∧
      (∀ timer, timer ≠ NULL →
        (HAPPlatformTimerDeregister timer w = .error Fault.fatalError ↔
          ∀ t ∈ w.runLoop.timers, t.ptr ≠ timer)) ∧
      (∀ t ∈ firedTimers w.trace,
        HAPPlatformTimerDeregister t.ptr w = .error Fault.fatalError) ∧
      (∀ t rest now fuel k, w.runLoop.timers = t :: rest → t.deadline ≤ now →
        selfDeregisterEnv.timerCallback t.callback t.ptr t.context
          = Prog.timerDeregister t.ptr k →
        ProcessExpiredTimers selfDeregisterEnv now (fuel + 1) w = .error Fault.fatalError) :=
  ⟨_, rfl, rfl,
    deregister_fatal_iff_not_pending selfDeregisterEnv [Step.call (registerTimer 5 7 0)] _ rfl⟩

/-! ## Timer queue: stored deadline -/

/-- C8 (counterexample). A timer registered with deadline `5` is stored with deadline `5`, not
`1`, although a pass at clock value `10` finds it already due: the deadline lies in the past of
that clock value and was not coerced. -/
theorem register_past_deadline_not_coerced :
    ∃ w w', HAPPlatformTimerRegister idleEnv 5 7 0 World.init
        = .ok (HAPError.kHAPError_None, 2, w) ∧
      w.runLoop.timers = [⟨2, 5, 7, 0⟩] ∧
      ProcessExpiredTimers idleEnv 10 2 w = .ok w' ∧
      firedTimers w'.trace = [⟨2, 5, 7, 0⟩] :=
  ⟨_, _, rfl, rfl, rfl, rfl⟩

/-- C8 (amended). When the allocation succeeds, `HAPPlatformTimerRegister` stores the requested
deadline `0` as `1`, the smallest positive deadline, and stores every other deadline unchanged,
whatever the clock shows; the new node is in the queue, which contains nothing else new, and
the queue stays ordered when it was ordered with positive deadlines. -/
theorem register_stores_deadline (env : Env) (deadline callback context : Nat) (w : World)
    (hcb : callback ≠ NULL) (halloc : env.callocFails w.numAllocs = false) :
    ∃ w1, HAPPlatformTimerRegister env deadline callback context w
        = .ok (HAPError.kHAPError_None, allocAddr w.numAllocs, w1) ∧
      (∀ u, u ∈ w1.runLoop.timers ↔
        u = ⟨allocAddr w.numAllocs, if deadline = 0 then 1 else deadline, callback, context⟩ ∨
          u ∈ w.runLoop.timers) ∧
      (TimersOrdered w.runLoop.timers → (∀ t ∈ w.runLoop.timers, 1 ≤ t.deadline) →
        TimersOrdered w1.runLoop.timers) := by
  have hd : (if deadline ≠ 0 then deadline else 1) = if deadline = 0 then 1 else deadline := by
    by_cases h : deadline = 0 <;> simp [h]
  refine ⟨{ w with
      numAllocs := w.numAllocs + 1
      runLoop := { w.runLoop with
        timers := insertTimer
          ⟨allocAddr w.numAllocs, if deadline ≠ 0 then deadline else 1, callback, context⟩
          deadline w.runLoop.timers } }, ?_, ?_, ?_⟩
  · unfold HAPPlatformTimerRegister
    rw [if_neg hcb]
    simp only [halloc, Bool.false_eq_true, if_false]
  · intro u
    simp only [hd]
    exact mem_insertTimer
  · intro hord hpos
    exact insertTimer_ordered _ deadline _ rfl hpos hord

/-- Witness for C8 (amended): deadline `0` on the initial machine. -/
theorem register_stores_deadline_witness :
    (7 : Nat) ≠ NULL ∧ idleEnv.callocFails World.init.numAllocs = false ∧
    ∃ w1, HAPPlatformTimerRegister idleEnv 0 7 0 World.init
        = .ok (HAPError.kHAPError_None, allocAddr World.init.numAllocs, w1) ∧
      (∀ u, u ∈ w1.runLoop.timers ↔
        u = ⟨allocAddr World.init.numAllocs, if 0 = 0 then 1 else 0, 7, 0⟩ ∨
          u ∈ World.init.runLoop.timers) ∧
      (TimersOrdered World.init.runLoop.timers →
        (∀ t ∈ World.init.runLoop.timers, 1 ≤ t.deadline) →
        TimersOrdered w1.runLoop.timers) :=
  ⟨by decide, rfl, register_stores_deadline idleEnv 0 7 0 World.init (by decide) rfl⟩



/-! ## Cross-thread mailbox -/

/-- With valid arguments and an empty slot, `HAPPlatformRunLoopScheduleCallback` stores the
message and returns `kHAPError_None`. -/
theorem HAPPlatformRunLoopScheduleCallback_empty {callback : Nat}
    {context : Option (List Nat)} {contextSize : Nat} {w : World}
    (hargs : ScheduleArgsValid callback context contextSize)
    (hempty : w.runLoop.numSelfPipeBytes = 0) :
    ∃ w1, HAPPlatformRunLoopScheduleCallback callback context contextSize w
        = .ok (HAPError.kHAPError_None, w1) ∧
      w1.runLoop.numSelfPipeBytes = sizeofCallback + 1 + contextSize ∧
      w1.selfPipeQueued = w.selfPipeQueued + 1 ∧
      w1.runLoop.timers = w.runLoop.timers ∧ w1.runLoop.state = w.runLoop.state ∧
      w1.trace = w.trace := by
  obtain ⟨hcb, hsize, hctx⟩ := hargs
  have h1 : ¬ (contextSize ≠ 0 ∧ context = none) := by
    rintro ⟨hn, hc⟩
    rcases hctx with h0 | ⟨bytes, hb, _⟩
    · exact hn h0
    · rw [hb] at hc; cases hc
  have h2 : ¬ (contextSize ≠ 0 ∧ (context.getD []).length < contextSize) := by
    rintro ⟨hn, hc⟩
    rcases hctx with h0 | ⟨bytes, hb, hlen⟩
    · exact hn h0
    · rw [hb] at hc
      simp only [Option.getD_some] at hc
      omega
  unfold HAPPlatformRunLoopScheduleCallback
  rw [if_neg hcb, if_neg h1, if_neg (by simpa using hsize), if_neg (by omega)]
  dsimp only
  rw [if_neg h2]
  exact ⟨_, rfl, rfl, rfl, rfl, rfl, rfl⟩

/-- A returning `HAPPlatformRunLoopScheduleCallback` on an empty slot returned
`kHAPError_None`; in every case it leaves the trace alone. -/
theorem HAPPlatformRunLoopScheduleCallback_ok {callback : Nat}
    {context : Option (List Nat)} {contextSize : Nat} {w w1 : World} {err : HAPError}
    (h : HAPPlatformRunLoopScheduleCallback callback context contextSize w = .ok (err, w1)) :
    w1.trace = w.trace ∧
      (w.runLoop.numSelfPipeBytes = 0 →
        err = HAPError.kHAPError_None ∧ 0 < w1.runLoop.numSelfPipeBytes) := by
  unfold HAPPlatformRunLoopScheduleCallback at h
  dsimp only at h
  split at h
  · cases h
  · split at h
    · cases h
    · split at h
      · cases h
      · split at h
        · rename_i hocc
          cases h
          exact ⟨rfl, fun h0 => by omega⟩
        · split at h
          · cases h
          · cases h
            refine ⟨rfl, fun _ => ⟨rfl, ?_⟩⟩
            show 0 < sizeofCallback + 1 + contextSize
            omega

/-- C9. With arguments that satisfy its preconditions,
`HAPPlatformRunLoopScheduleCallback` on an occupied slot (`numSelfPipeBytes > 0`) returns
`kHAPError_OutOfResources` and leaves the whole machine unchanged, in particular the stored
callback, the stored context bytes and the occupancy length; on an empty slot it returns
`kHAPError_None` and the slot is occupied afterwards, so that a second call right after it
returns `kHAPError_OutOfResources`. -/
theorem schedule_callback_single_slot (callback : Nat) (context : Option (List Nat))
    (contextSize : Nat) (w : World)
    (hargs : ScheduleArgsValid callback context contextSize) :
    (0 < w.runLoop.numSelfPipeBytes →
      HAPPlatformRunLoopScheduleCallback callback context contextSize w
        = .ok (HAPError.kHAPError_OutOfResources, w)) ∧
    (w.runLoop.numSelfPipeBytes = 0 →
      ∃ w1, HAPPlatformRunLoopScheduleCallback callback context contextSize w
          = .ok (HAPError.kHAPError_None, w1) ∧
        0 < w1.runLoop.numSelfPipeBytes ∧
        HAPPlatformRunLoopScheduleCallback callback context contextSize w1
          = .ok (HAPError.kHAPError_OutOfResources, w1)) := by
  have hocc : ∀ x : World, 0 < x.runLoop.numSelfPipeBytes →
      HAPPlatformRunLoopScheduleCallback callback context contextSize x
        = .ok (HAPError.kHAPError_OutOfResources, x) := by
    intro x hx
    obtain ⟨hcb, hsize, hctx⟩ := hargs
    have h1 : ¬ (contextSize ≠ 0 ∧ context = none) := by
      rintro ⟨hn, hc⟩
      rcases hctx with h0 | ⟨bytes, hb, _⟩
      · exact hn h0
      · rw [hb] at hc; cases hc
    unfold HAPPlatformRunLoopScheduleCallback
    rw [if_neg hcb, if_neg h1, if_neg (by simpa using hsize), if_pos hx]
  refine ⟨hocc w, fun hempty => ?_⟩
  obtain ⟨w1, hres, hnum, _⟩ := HAPPlatformRunLoopScheduleCallback_empty hargs hempty
  have hpos : 0 < w1.runLoop.numSelfPipeBytes := by rw [hnum]; omega
  exact ⟨w1, hres, hpos, hocc w1 hpos⟩

/-- Witness for C9: a post with three context bytes on the initial machine. -/
theorem schedule_callback_single_slot_witness :
    ScheduleArgsValid 9 (some [1, 2, 3]) 3 ∧
    (0 < World.init.runLoop.numSelfPipeBytes →
      HAPPlatformRunLoopScheduleCallback 9 (some [1, 2, 3]) 3 World.init
        = .ok (HAPError.kHAPError_OutOfResources, World.init)) ∧
    (World.init.runLoop.numSelfPipeBytes = 0 →
      ∃ w1, HAPPlatformRunLoopScheduleCallback 9 (some [1, 2, 3]) 3 World.init
          = .ok (HAPError.kHAPError_None, w1) ∧
        0 < w1.runLoop.numSelfPipeBytes ∧
        HAPPlatformRunLoopScheduleCallback 9 (some [1, 2, 3]) 3 w1
          = .ok (HAPError.kHAPError_OutOfResources, w1)) :=
  have hargs : ScheduleArgsValid 9 (some [1, 2, 3]) 3 :=
    ⟨by decide, by decide, Or.inr ⟨[1, 2, 3], rfl, by decide⟩⟩
  ⟨hargs, schedule_callback_single_slot 9 (some [1, 2, 3]) 3 World.init hargs⟩



theorem HAPPlatformTimerRegister_mailbox {env : Env} {d cb ctx : Nat} {w w1 : World}
    {err : HAPError} {t : Nat}
    (h : HAPPlatformTimerRegister env d cb ctx w = .ok (err, t, w1)) : MailboxFrame w w1 := by
  unfold HAPPlatformTimerRegister at h
  dsimp only at h
  split at h
  · cases h
  · split at h <;> cases h <;> exact ⟨rfl, rfl⟩

theorem HAPPlatformTimerDeregister_mailbox {timer : Nat} {w w1 : World}
    (h : HAPPlatformTimerDeregister timer w = .ok w1) : MailboxFrame w w1 := by
  obtain ⟨l, _, rfl⟩ := HAPPlatformTimerDeregister_ok h
  exact ⟨rfl, rfl⟩

theorem HAPPlatformFileHandleRegister_mailbox {env : Env} {fd : Int}
    {i : HAPPlatformFileHandleEvent} {cb ctx : Nat} {w w1 : World} {err : HAPError} {fh : Nat}
    (h : HAPPlatformFileHandleRegister env fd i cb ctx w = .ok (err, fh, w1)) :
    MailboxFrame w w1 := by
  unfold HAPPlatformFileHandleRegister at h
  dsimp only at h
  split at h
  · cases h; exact ⟨rfl, rfl⟩
  · split at h
    · cases h
    · split at h
      · cases h
      · split at h
        · cases h
        · cases h; exact ⟨rfl, rfl⟩

theorem HAPPlatformFileHandleUpdateInterests_mailbox {fh : Nat}
    {i : HAPPlatformFileHandleEvent} {cb ctx : Nat} {w w1 : World}
    (h : HAPPlatformFileHandleUpdateInterests fh i cb ctx w = .ok w1) :
    MailboxFrame w w1 := by
  unfold HAPPlatformFileHandleUpdateInterests at h
  split at h
  · cases h
  · split at h
    · cases h
    · cases h; exact ⟨rfl, rfl⟩

theorem HAPPlatformFileHandleDeregister_mailbox {fh : Nat} {w w1 : World}
    (h : HAPPlatformFileHandleDeregister fh w = .ok w1) : MailboxFrame w w1 := by
  unfold HAPPlatformFileHandleDeregister at h
  dsimp only at h
  split at h
  · cases h
  · split at h
    · cases h
    · split at h
      · cases h
      · split at h
        · cases h
        · split at h
          · cases h
          · split at h
            · cases h
            · split at h
              · cases h
              · cases h; exact ⟨rfl, rfl⟩

theorem HAPPlatformRunLoopStop_mailbox (w : World) :
    MailboxFrame w (HAPPlatformRunLoopStop w) := by
  unfold HAPPlatformRunLoopStop
  split <;> exact ⟨rfl, rfl⟩

/-- The body of a callback entered with an empty slot: the trace grows by a segment in which
the first recorded post, if there is one, returned `kHAPError_None`; if there is none the slot
is still empty when the callback returns. -/
theorem runProg_first_schedule (env : Env) :
    ∀ (p : Prog) (w w1 : World), runProg env p w = .ok w1 →
      ∃ seg, w1.trace = w.trace ++ seg ∧
        (w.runLoop.numSelfPipeBytes = 0 →
          (∀ r, firstScheduleResult seg = some r → r = HAPError.kHAPError_None) ∧
          (firstScheduleResult seg = none → w1.runLoop.numSelfPipeBytes = 0)) := by
  have step : ∀ (w w2 w1 : World), MailboxFrame w w2 →
      (∃ seg, w1.trace = w2.trace ++ seg ∧
        (w2.runLoop.numSelfPipeBytes = 0 →
          (∀ r, firstScheduleResult seg = some r → r = HAPError.kHAPError_None) ∧
          (firstScheduleResult seg = none → w1.runLoop.numSelfPipeBytes = 0))) →
      ∃ seg, w1.trace = w.trace ++ seg ∧
        (w.runLoop.numSelfPipeBytes = 0 →
          (∀ r, firstScheduleResult seg = some r → r = HAPError.kHAPError_None) ∧
          (firstScheduleResult seg = none → w1.runLoop.numSelfPipeBytes = 0)) := by
    rintro w w2 w1 hfr ⟨seg, htr, hcond⟩
    exact ⟨seg, by rw [htr, hfr.trace], fun h0 => hcond (by rw [hfr.slot]; exact h0)⟩
  intro p
  induction p with
  | ret =>
    intro w w1 h
    simp only [runProg] at h
    cases h
    exact ⟨[], by simp, fun h0 => ⟨by simp [firstScheduleResult], fun _ => h0⟩⟩
  | timerRegister d cb ctx k ih =>
    intro w w1 h
    simp only [runProg] at h
    split at h
    · cases h
    · rename_i err t w2 heq
      exact step w w2 w1 (HAPPlatformTimerRegister_mailbox heq) (ih err t w2 w1 h)
  | timerDeregister timer k ih =>
    intro w w1 h
    simp only [runProg] at h
    split at h
    · cases h
    · rename_i w2 heq
      exact step w w2 w1 (HAPPlatformTimerDeregister_mailbox heq) (ih w2 w1 h)
  | fileHandleRegister fd i cb ctx k ih =>
    intro w w1 h
    simp only [runProg] at h
    split at h
    · cases h
    · rename_i err t w2 heq
      exact step w w2 w1 (HAPPlatformFileHandleRegister_mailbox heq) (ih err t w2 w1 h)
  | fileHandleUpdateInterests fh i cb ctx k ih =>
    intro w w1 h
    simp only [runProg] at h
    split at h
    · cases h
    · rename_i w2 heq
      exact step w w2 w1 (HAPPlatformFileHandleUpdateInterests_mailbox heq) (ih w2 w1 h)
  | fileHandleDeregister fh k ih =>
    intro w w1 h
    simp only [runProg] at h
    split at h
    · cases h
    · rename_i w2 heq
      exact step w w2 w1 (HAPPlatformFileHandleDeregister_mailbox heq) (ih w2 w1 h)
  | scheduleCallback cb ctx n k ih =>
    intro w w1 h
    simp only [runProg] at h
    split at h
    · cases h
    · rename_i err w2 heq
      obtain ⟨seg, htr, _⟩ := ih err _ w1 h
      obtain ⟨htr2, hempty⟩ := HAPPlatformRunLoopScheduleCallback_ok heq
      refine ⟨Event.scheduleCallback cb err :: seg, ?_, fun h0 => ⟨?_, ?_⟩⟩
      · rw [htr]
        show (w2.trace ++ [Event.scheduleCallback cb err]) ++ seg = _
        rw [htr2, List.append_assoc]
        rfl
      · intro r hr
        simp only [firstScheduleResult, Option.some.injEq] at hr
        rw [← hr]
        exact (hempty h0).1
      · intro hnone
        simp [firstScheduleResult] at hnone
  | runLoopStop k ih =>
    intro w w1 h
    simp only [runProg] at h
    exact step w _ w1 (HAPPlatformRunLoopStop_mailbox w) (ih _ w1 h)
  | load k ih =>
    intro w w1 h
    simp only [runProg] at h
    exact ih _ w w1 h
  | store v k ih =>
    intro w w1 h
    simp only [runProg] at h
    exact step w { w with appState := v } w1 ⟨rfl, rfl⟩ (ih _ w1 h)

/-- C10. When `SelfPipeHandleCallback` delivers a pending message and returns, the stored
callback was entered with the slot already marked empty (`numSelfPipeBytes = 0` in the
`runLoop` that the callback found). Whatever the callback does, the first
`HAPPlatformRunLoopScheduleCallback` call made inside it (posting itself again included)
returned `kHAPError_None`; and when it made none, the slot is empty after the delivery, so
that a post with valid arguments made then returns `kHAPError_None`. -/
theorem self_pipe_clears_slot_before_callback (env : Env)
    (fileHandleEvents : HAPPlatformFileHandleEvent) (w w1 : World)
    (hread : fileHandleEvents.isReadyForReading = true)
    (hocc : 0 < w.runLoop.numSelfPipeBytes)
    (hret : SelfPipeHandleCallback env fileHandleEvents w = .ok w1) :
    ∃ callback contextBytes numContextBytes rl seg,
      w1.trace = w.trace ++ Event.runLoopCallback callback contextBytes numContextBytes rl :: seg ∧
      rl.numSelfPipeBytes = 0 ∧
      (∀ r, firstScheduleResult seg = some r → r = HAPError.kHAPError_None) ∧
      (firstScheduleResult seg = none →
        w1.runLoop.numSelfPipeBytes = 0 ∧
        ∀ cb ctx n, ScheduleArgsValid cb ctx n →
          ∃ w2, HAPPlatformRunLoopScheduleCallback cb ctx n w1
            = .ok (HAPError.kHAPError_None, w2)) := by
  unfold SelfPipeHandleCallback at hret
  dsimp only at hret
  rw [if_pos hread, if_pos (by omega)] at hret
  obtain ⟨seg, htr, hcond⟩ := runProg_first_schedule env _ _ w1 hret
  obtain ⟨hfirst, hnone⟩ := hcond rfl
  have htr' : w1.trace = w.trace ++
      Event.runLoopCallback (decodePtr (w.runLoop.selfPipeBytes.take sizeofCallback))
        (if uint8OfChar (charOfByte (w.runLoop.selfPipeBytes.getD sizeofCallback 0)) ≠ 0 then
          (w.runLoop.selfPipeBytes.drop (sizeofCallback + 1)).take
            (uint8OfChar (charOfByte (w.runLoop.selfPipeBytes.getD sizeofCallback 0)))
        else [])
        (uint8OfChar (charOfByte (w.runLoop.selfPipeBytes.getD sizeofCallback 0)))
        { w.runLoop with numSelfPipeBytes := 0 } :: seg := by
    rw [htr, List.append_assoc]
    rfl
  refine ⟨_, _, _, _, seg, htr', rfl, hfirst, fun hn => ⟨hnone hn, ?_⟩⟩
  intro cb ctx n hargs
  obtain ⟨w2, hres, _⟩ := HAPPlatformRunLoopScheduleCallback_empty hargs (hnone hn)
  exact ⟨w2, hres⟩

/-- Witness for C10: a message posted with two context bytes is delivered to a callback that
posts itself again; that post returned `kHAPError_None`. -/
theorem self_pipe_clears_slot_before_callback_witness :
    ∃ w w1,
      HAPPlatformRunLoopScheduleCallback 9 (some [4, 5]) 2 World.init
        = .ok (HAPError.kHAPError_None, w) ∧
      0 < w.runLoop.numSelfPipeBytes ∧
      SelfPipeHandleCallback repostEnv ⟨true, false, false⟩ w = .ok w1 ∧
      w1.trace =
        [Event.runLoopCallback 9 [4, 5] 2 { w.runLoop with numSelfPipeBytes := 0 },
         Event.scheduleCallback 9 HAPError.kHAPError_None] ∧
      ∃ callback contextBytes numContextBytes rl seg,
        w1.trace =
          w.trace ++ Event.runLoopCallback callback contextBytes numContextBytes rl :: seg ∧
        rl.numSelfPipeBytes = 0 ∧
        (∀ r, firstScheduleResult seg = some r → r = HAPError.kHAPError_None) ∧
        (firstScheduleResult seg = none →
          w1.runLoop.numSelfPipeBytes = 0 ∧
          ∀ cb ctx n, ScheduleArgsValid cb ctx n →
            ∃ w2, HAPPlatformRunLoopScheduleCallback cb ctx n w1
              = .ok (HAPError.kHAPError_None, w2)) :=
  ⟨_, _, rfl, by decide, rfl, rfl,
    self_pipe_clears_slot_before_callback repostEnv ⟨true, false, false⟩ _ _ rfl
      (by decide) rfl⟩

/-! ## File-handle memory -/

theorem memLoad_memStore (mem : FileHandleMem) (a b : Nat) (v : HAPPlatformFileHandle) :
    memLoad (memStore mem a v) b = if b = a then some v else memLoad mem b := by
  induction mem with
  | nil =>
    simp only [memStore, memLoad]
    by_cases h : b = a
    · simp [h]
    · simp [h, Ne.symm h]
  | cons e rest ih =>
    obtain ⟨k, u⟩ := e
    simp only [memStore]
    by_cases hk : k = a
    · simp only [hk, if_true, memLoad]
      by_cases h : b = a
      · simp [h]
      · simp [h, Ne.symm h]
    · simp only [hk, if_false, memLoad, ih]
      by_cases h : b = a
      · simp [h, hk]
      · simp [h]

theorem memLoad_memFree (mem : FileHandleMem) (a b : Nat) :
    memLoad (memFree mem a) b = if b = a then none else memLoad mem b := by
  induction mem with
  | nil => simp [memFree, memLoad]
  | cons e rest ih =>
    obtain ⟨k, u⟩ := e
    simp only [memFree]
    by_cases hk : k = a
    · simp only [hk, if_true, ih, memLoad]
      by_cases h : b = a
      · simp [h]
      · simp [h, Ne.symm h]
    · simp only [hk, if_false, memLoad, ih]
      by_cases h : b = a
      · simp [h, hk]
      · simp [h]

/-- A walk depends on the memory only through the links of the cells. -/
theorem walkFileHandles_congr {mem mem' : FileHandleMem} (sentinel : Nat)
    (hnext : ∀ a, (memLoad mem' a).map HAPPlatformFileHandle.nextFileHandle =
      (memLoad mem a).map HAPPlatformFileHandle.nextFileHandle) :
    ∀ (fuel a : Nat), walkFileHandles mem' sentinel fuel a = walkFileHandles mem sentinel fuel a := by
  intro fuel
  induction fuel with
  | zero => intro a; simp [walkFileHandles]
  | succ fuel ih =>
    intro a
    simp only [walkFileHandles]
    by_cases hs : a = sentinel
    · simp [hs]
    · simp only [hs, if_false]
      have h := hnext a
      cases h1 : memLoad mem' a with
      | none =>
        rw [h1] at h
        cases h2 : memLoad mem a with
        | none => rfl
        | some n2 => rw [h2] at h; simp at h
      | some n1 =>
        rw [h1] at h
        cases h2 : memLoad mem a with
        | none => rw [h2] at h; simp at h
        | some n2 =>
          rw [h2] at h
          simp only [Option.map_some', Option.some.injEq] at h
          simp only [h, ih]

/-! ## Executions as sequences of primitive changes -/

theorem Updates.nil {env : Env} (w : World) : Updates env w w := Relation.ReflTransGen.refl

theorem Updates.single {env : Env} {w w1 : World} (h : Update env w w1) : Updates env w w1 :=
  Relation.ReflTransGen.single h

theorem Updates.trans {env : Env} {a b c : World} (h1 : Updates env a b)
    (h2 : Updates env b c) : Updates env a c :=
  Relation.ReflTransGen.trans h1 h2

theorem Updates.head {env : Env} {a b c : World} (h1 : Update env a b)
    (h2 : Updates env b c) : Updates env a c :=
  Relation.ReflTransGen.head h1 h2

/-- A property kept by every primitive change is kept by every sequence of them. -/
theorem Updates.keeps {env : Env} {P : World → Prop}
    (hstep : ∀ w w1, Update env w w1 → P w → P w1) {w w1 : World}
    (h : Updates env w w1) (hp : P w) : P w1 := by
  induction h with
  | refl => exact hp
  | tail _ hlast ih => exact hstep _ _ hlast ih

theorem runProg_apiUpdates (env : Env) :
    ∀ (p : Prog) (w w1 : World), runProg env p w = .ok w1 → ApiUpdates env w w1 := by
  intro p
  induction p with
  | ret => intro w w1 h; simp only [runProg] at h; cases h; exact Relation.ReflTransGen.refl
  | timerRegister d cb ctx k ih =>
    intro w w1 h
    simp only [runProg] at h
    split at h
    · cases h
    · rename_i err t w2 heq
      exact Relation.ReflTransGen.head (ApiUpdate.timerRegister heq) (ih err t w2 w1 h)
  | timerDeregister timer k ih =>
    intro w w1 h
    simp only [runProg] at h
    split at h
    · cases h
    · rename_i w2 heq
      exact Relation.ReflTransGen.head (ApiUpdate.timerDeregister heq) (ih w2 w1 h)
  | fileHandleRegister fd i cb ctx k ih =>
    intro w w1 h
    simp only [runProg] at h
    split at h
    · cases h
    · rename_i err t w2 heq
      exact Relation.ReflTransGen.head (ApiUpdate.fileHandleRegister heq) (ih err t w2 w1 h)
  | fileHandleUpdateInterests fh i cb ctx k ih =>
    intro w w1 h
    simp only [runProg] at h
    split at h
    · cases h
    · rename_i w2 heq
      exact Relation.ReflTransGen.head (ApiUpdate.fileHandleUpdateInterests heq) (ih w2 w1 h)
  | fileHandleDeregister fh k ih =>
    intro w w1 h
    simp only [runProg] at h
    split at h
    · cases h
    · rename_i w2 heq
      exact Relation.ReflTransGen.head (ApiUpdate.fileHandleDeregister heq) (ih w2 w1 h)
  | scheduleCallback cb ctx n k ih =>
    intro w w1 h
    simp only [runProg] at h
    split at h
    · cases h
    · rename_i err w2 heq
      exact Relation.ReflTransGen.head (ApiUpdate.scheduleCallback heq) (ih err _ w1 h)
  | runLoopStop k ih =>
    intro w w1 h
    simp only [runProg] at h
    exact Relation.ReflTransGen.head (ApiUpdate.stop w) (ih _ w1 h)
  | load k ih =>
    intro w w1 h
    simp only [runProg] at h
    exact ih _ w w1 h
  | store v k ih =>
    intro w w1 h
    simp only [runProg] at h
    exact Relation.ReflTransGen.head (ApiUpdate.store w v) (ih _ w1 h)

theorem ApiUpdates.toUpdates {env : Env} {w w1 : World} (h : ApiUpdates env w w1) :
    Updates env w w1 :=
  Relation.ReflTransGen.mono (fun _ _ hab => Update.api hab) h

/-- A property kept by every API call is kept by every sequence of them. -/
theorem ApiUpdates.api_keeps {env : Env} {P : World → Prop}
    (hstep : ∀ w w1, ApiUpdate env w w1 → P w → P w1) {w w1 : World}
    (h : ApiUpdates env w w1) (hp : P w) : P w1 := by
  induction h with
  | refl => exact hp
  | tail _ hlast ih => exact hstep _ _ hlast ih

theorem runProg_updates (env : Env) (p : Prog) (w w1 : World)
    (h : runProg env p w = .ok w1) : Updates env w w1 :=
  (runProg_apiUpdates env p w w1 h).toUpdates

theorem ProcessExpiredTimers_updates (env : Env) (now : Nat) :
    ∀ (fuel : Nat) (w w1 : World), ProcessExpiredTimers env now fuel w = .ok w1 →
      Updates env w w1 := by
  intro fuel
  induction fuel with
  | zero => intro w w1 h; simp [ProcessExpiredTimers] at h
  | succ fuel ih =>
    intro w w1 h
    simp only [ProcessExpiredTimers] at h
    split at h
    · cases h; exact Updates.nil _
    · rename_i t rest hq
      split at h
      · cases h; exact Updates.nil _
      · split at h
        · cases h
        · rename_i w2 heq
          exact Updates.head (Update.fireHead hq)
            ((runProg_updates env _ _ w2 heq).trans (ih w2 w1 h))

theorem SelfPipeHandleCallback_updates (env : Env) (ev : HAPPlatformFileHandleEvent)
    (w w1 : World) (h : SelfPipeHandleCallback env ev w = .ok w1) : Updates env w w1 := by
  unfold SelfPipeHandleCallback at h
  dsimp only at h
  split at h
  · split at h
    · rename_i hocc
      refine Updates.head (Update.selfPipeRecv w) ?_
      exact Updates.head (Update.selfPipeDeliver _ _ _ hocc) (runProg_updates env _ _ w1 h)
    · cases h
      exact Updates.single (Update.selfPipeRecv w)
  · cases h; exact Updates.nil _

theorem invokeFileHandleCallback_updates (env : Env) (fileHandle : Nat)
    (node : HAPPlatformFileHandle) (ev : HAPPlatformFileHandleEvent) (w w1 : World)
    (hnode : memLoad w.runLoop.fileHandleMem fileHandle = some node)
    (h : invokeFileHandleCallback env fileHandle node ev w = .ok w1) : Updates env w w1 := by
  unfold invokeFileHandleCallback at h
  dsimp only at h
  refine Updates.head (Update.enterFileHandleCallback fileHandle ev hnode) ?_
  split at h
  · exact SelfPipeHandleCallback_updates env ev _ w1 h
  · exact runProg_updates env _ _ w1 h

theorem dispatchLoop_updates (env : Env) (pollFds : List WSAPOLLFD) :
    ∀ (fuel : Nat) (w w1 : World), dispatchLoop env pollFds fuel w = .ok w1 →
      Updates env w w1 := by
  intro fuel
  induction fuel with
  | zero => intro w w1 h; simp [dispatchLoop] at h
  | succ fuel ih =>
    intro w w1 h
    simp only [dispatchLoop] at h
    split at h
    · cases h; exact Updates.nil _
    · rename_i hcur
      split at h
      · cases h
      · rename_i node hnode
        split at h
        · rename_i hflag
          split at h
          · cases h
          · have hvisit : Update env _ _ := Update.visitAwaiting hcur hnode hflag
            split at h
            · split at h
              · exact Updates.head hvisit (ih _ w1 h)
              · split at h
                · split at h
                  · cases h
                  · rename_i w3 hinv
                    refine Updates.head hvisit
                      ((invokeFileHandleCallback_updates env _ _ _ _ w3 ?_ hinv).trans
                        (ih w3 w1 h))
                    show memLoad (memStore _ _ _) _ = _
                    rw [memLoad_memStore, if_pos rfl]
                · exact Updates.head hvisit (ih _ w1 h)
            · exact Updates.head hvisit (ih _ w1 h)
        · rename_i hflag
          exact Updates.head (Update.visitIdle hcur hnode (by simpa using hflag)) (ih _ w1 h)

theorem ProcessSelectedFileHandles_updates (env : Env) (pollFds : List WSAPOLLFD) (fuel : Nat)
    (w w1 : World) (h : ProcessSelectedFileHandles env pollFds fuel w = .ok w1) :
    Updates env w w1 := by
  unfold ProcessSelectedFileHandles at h
  split at h
  · cases h
  · rename_i head hhead
    exact Updates.head (Update.dispatchStart hhead) (dispatchLoop_updates env pollFds fuel _ w1 h)

theorem cycleUntilPoll_updates (env : Env) (inp : CycleInput) (w w1 : World)
    (r : Option (List WSAPOLLFD)) (h : cycleUntilPoll env inp w = .ok (w1, r)) :
    Updates env w w1 := by
  unfold cycleUntilPoll at h
  dsimp only at h
  split at h
  · cases h
  · rename_i w2 hexp
    have h2 := ProcessExpiredTimers_updates env _ _ w w2 hexp
    split at h
    · cases h
    · rename_i head hhead
      split at h
      · cases h
      · rename_i handles hwalk
        split at h
        · cases h
          exact h2.trans (Updates.single (Update.sleep w2 _))
        · split at h
          · cases h
            exact h2.trans (Updates.single (Update.pollAllocFails w2))
          · cases h
            exact h2.trans (Updates.single (Update.pollSetup _ hhead hwalk))

theorem runLoopCycle_updates (env : Env) (inp : CycleInput) (w w1 : World)
    (h : runLoopCycle env inp w = .ok w1) : Updates env w w1 := by
  unfold runLoopCycle at h
  split at h
  · cases h
  · rename_i w2 hc
    cases h
    exact cycleUntilPoll_updates env inp w _ none hc
  · rename_i w2 pollFds hc
    have h2 := cycleUntilPoll_updates env inp w w2 (some pollFds) hc
    split at h
    · cases h; exact h2
    · split at h
      · exact h2.trans (ProcessSelectedFileHandles_updates env _ _ w2 w1 h)
      · cases h; exact h2

/-- The `while` loop of `HAPPlatformRunLoopRun` is a sequence of primitive changes, and it is
left in a state other than `Running`. -/
theorem runLoopWhile_updates (env : Env) :
    ∀ (inputs : List CycleInput) (w w1 : World), runLoopWhile env inputs w = .ok w1 →
      Updates env w w1 ∧
      w1.runLoop.state ≠ HAPPlatformRunLoopState.kHAPPlatformRunLoopState_Running := by
  intro inputs
  induction inputs with
  | nil =>
    intro w w1 h
    simp only [runLoopWhile] at h
    split at h
    · cases h
    · rename_i hs
      cases h; exact ⟨Updates.nil _, hs⟩
  | cons inp rest ih =>
    intro w w1 h
    simp only [runLoopWhile] at h
    split at h
    · split at h
      · cases h
      · rename_i w2 hc
        exact ⟨(runLoopCycle_updates env inp w w2 hc).trans (ih w2 w1 h).1, (ih w2 w1 h).2⟩
    · rename_i hs
      cases h; exact ⟨Updates.nil _, hs⟩

/-- A returning `HAPPlatformRunLoopRun` found the state `Idle`, made it `Running`, went through
a sequence of primitive changes that left a state other than `Running`, and made it `Idle`. -/
theorem HAPPlatformRunLoopRun_updates (env : Env) (inputs : List CycleInput) (w w1 : World)
    (h : HAPPlatformRunLoopRun env inputs w = .ok w1) :
    w.runLoop.state = HAPPlatformRunLoopState.kHAPPlatformRunLoopState_Idle ∧
    ∃ w2, Updates env (setState HAPPlatformRunLoopState.kHAPPlatformRunLoopState_Running w) w2 ∧
      w2.runLoop.state ≠ HAPPlatformRunLoopState.kHAPPlatformRunLoopState_Running ∧
      w1 = setState HAPPlatformRunLoopState.kHAPPlatformRunLoopState_Idle w2 := by
  unfold HAPPlatformRunLoopRun at h
  split at h
  · cases h
  · rename_i hidle
    split at h
    · cases h
    · rename_i w2 hw
      cases h
      exact ⟨by simpa using hidle, w2, (runLoopWhile_updates env inputs _ w2 hw).1,
        (runLoopWhile_updates env inputs _ w2 hw).2, rfl⟩

/-- Induction principle for executions: a property kept by every primitive change and by the
two state assignments of `HAPPlatformRunLoopRun` holds along the whole execution. -/
theorem runSteps_invariant (env : Env) (P : World → Prop)
    (hstep : ∀ w w1, Update env w w1 → P w → P w1)
    (hstate : ∀ w state, P w → P (setState state w)) :
    ∀ (steps : List Step) (w w1 : World), runSteps env steps w = .ok w1 → P w → P w1 := by
  intro steps
  induction steps with
  | nil => intro w w1 h hp; simp only [runSteps] at h; cases h; exact hp
  | cons s rest ih =>
    intro w w1 h hp
    simp only [runSteps] at h
    split at h
    · cases h
    · rename_i w2 heq
      refine ih w2 w1 h ?_
      cases s with
      | call p => exact (runProg_updates env p w w2 heq).keeps hstep hp
      | processExpiredTimers now fuel =>
        exact (ProcessExpiredTimers_updates env now fuel w w2 heq).keeps hstep hp
      | selfPipeHandleCallback ev =>
        exact (SelfPipeHandleCallback_updates env ev w w2 heq).keeps hstep hp
      | runLoopRun inputs =>
        obtain ⟨_, w3, hupd, _, rfl⟩ := HAPPlatformRunLoopRun_updates env inputs w w2 heq
        exact hstate _ _ (hupd.keeps hstep (hstate _ _ hp))

/-! ## Stop, update of interests, poll timeout, clock -/

/-- C13. `HAPPlatformRunLoopStop` makes the state `Stopping` when it is `Running` and leaves the
whole machine unchanged otherwise (so in `Idle` and `Stopping` the state stays what it was); in
every state the timer queue, the file-handle memory with the registry links and the cursor, and
the mailbox slot are unchanged. -/
theorem run_loop_stop_frame (w : World) :
    (w.runLoop.state = HAPPlatformRunLoopState.kHAPPlatformRunLoopState_Running →
      (HAPPlatformRunLoopStop w).runLoop.state =
        HAPPlatformRunLoopState.kHAPPlatformRunLoopState_Stopping) ∧
    (w.runLoop.state ≠ HAPPlatformRunLoopState.kHAPPlatformRunLoopState_Running →
      HAPPlatformRunLoopStop w = w) ∧
    ((HAPPlatformRunLoopStop w).runLoop.state ≠ w.runLoop.state ↔
      w.runLoop.state = HAPPlatformRunLoopState.kHAPPlatformRunLoopState_Running) ∧
    (HAPPlatformRunLoopStop w).runLoop.timers = w.runLoop.timers ∧
    (HAPPlatformRunLoopStop w).runLoop.fileHandleMem = w.runLoop.fileHandleMem ∧
    (HAPPlatformRunLoopStop w).runLoop.fileHandles = w.runLoop.fileHandles ∧
    (HAPPlatformRunLoopStop w).runLoop.fileHandleCursor = w.runLoop.fileHandleCursor ∧
    (HAPPlatformRunLoopStop w).runLoop.selfPipeBytes = w.runLoop.selfPipeBytes ∧
    (HAPPlatformRunLoopStop w).runLoop.numSelfPipeBytes = w.runLoop.numSelfPipeBytes ∧
    (HAPPlatformRunLoopStop w).trace = w.trace := by
  unfold HAPPlatformRunLoopStop
  by_cases h : w.runLoop.state = HAPPlatformRunLoopState.kHAPPlatformRunLoopState_Running
  · simp [h]
  · simp [h]

/-- C16. For 64-bit clock values and deadlines, the poll timeout is `-1` when no timer is
pending, and otherwise `min(max(0, deadline - now), INT_MAX)` for the deadline of the head
timer, computed without wrap-around: it lies in `[0, INT_MAX]` and does not exceed the time that
remains to the head deadline, which in an ordered queue is the earliest deadline. -/
theorem poll_timeout_bounds (timers : List HAPPlatformTimer) (now : Nat)
    (hnow : now < 2 ^ 64) (hdl : ∀ t ∈ timers, t.deadline < 2 ^ 64) :
    (timers = [] → pollTimeout timers now = -1) ∧
    ∀ t rest, timers = t :: rest →
      pollTimeout timers now = min (max 0 ((t.deadline : Int) - now)) (INT_MAX : Int) ∧
      0 ≤ pollTimeout timers now ∧ pollTimeout timers now ≤ (INT_MAX : Int) ∧
      pollTimeout timers now ≤ max 0 ((t.deadline : Int) - now) ∧
      (TimersOrdered timers →
        ∀ u ∈ timers, pollTimeout timers now ≤ max 0 ((u.deadline : Int) - now)) := by
  constructor
  · intro h; rw [h]; rfl
  · intro t rest hq
    have ht : t.deadline < 2 ^ 64 := hdl t (by rw [hq]; exact List.mem_cons_self _ _)
    have hval : pollTimeout timers now = min (max 0 ((t.deadline : Int) - now)) (INT_MAX : Int) := by
      rw [hq]
      unfold pollTimeout INT_MAX
      norm_num at ht hnow ⊢
      by_cases hle : t.deadline ≤ now
      · simp only [hle, if_true]
        omega
      · simp only [hle, if_false]
        have hd : (t.deadline + 18446744073709551616 - now) % 18446744073709551616
            = t.deadline - now := by omega
        rw [hd]
        split <;> omega
    have hmax : (0 : Int) ≤ max 0 ((t.deadline : Int) - now) := le_max_left _ _
    have hint : (0 : Int) ≤ (INT_MAX : Int) := by unfold INT_MAX; norm_num
    refine ⟨hval, ?_, ?_, ?_, ?_⟩
    · rw [hval]; exact le_min hmax hint
    · rw [hval]; exact min_le_right _ _
    · rw [hval]; exact min_le_left _ _
    · intro hord u hu
      rw [hval]
      refine le_trans (min_le_left _ _) ?_
      rw [hq] at hu hord
      rcases List.mem_cons.mp hu with rfl | hu
      · exact le_refl _
      · have := (List.pairwise_cons.mp hord).1 u hu
        have h1 : (t.deadline : Int) - now ≤ (u.deadline : Int) - now := by omega
        exact max_le_max (le_refl _) h1

/-- Witness for C16: a head deadline that lies far beyond the clock value. -/
theorem poll_timeout_bounds_witness :
    (1000 : Nat) < 2 ^ 64 ∧
    (∀ t ∈ [(⟨2, 5000000000, 7, 0⟩ : HAPPlatformTimer)], t.deadline < 2 ^ 64) ∧
    pollTimeout [⟨2, 5000000000, 7, 0⟩] 1000 = 2147483647 ∧
    pollTimeout [⟨2, 500, 7, 0⟩] 1000 = 0 ∧
    ((([⟨2, 5000000000, 7, 0⟩] : List HAPPlatformTimer) = [] →
        pollTimeout [⟨2, 5000000000, 7, 0⟩] 1000 = -1) ∧
      ∀ t rest, ([⟨2, 5000000000, 7, 0⟩] : List HAPPlatformTimer) = t :: rest →
        pollTimeout [⟨2, 5000000000, 7, 0⟩] 1000
          = min (max 0 ((t.deadline : Int) - (1000 : Nat))) (INT_MAX : Int) ∧
        0 ≤ pollTimeout [⟨2, 5000000000, 7, 0⟩] 1000 ∧
        pollTimeout [⟨2, 5000000000, 7, 0⟩] 1000 ≤ (INT_MAX : Int) ∧
        pollTimeout [⟨2, 5000000000, 7, 0⟩] 1000 ≤ max 0 ((t.deadline : Int) - (1000 : Nat)) ∧
        (TimersOrdered [⟨2, 5000000000, 7, 0⟩] →
          ∀ u ∈ [(⟨2, 5000000000, 7, 0⟩ : HAPPlatformTimer)],
            pollTimeout [⟨2, 5000000000, 7, 0⟩] 1000
              ≤ max 0 ((u.deadline : Int) - (1000 : Nat)))) :=
  have hdl : ∀ t ∈ [(⟨2, 5000000000, 7, 0⟩ : HAPPlatformTimer)], t.deadline < 2 ^ 64 := by
    intro t ht
    rw [List.mem_singleton.mp ht]
    decide
  ⟨by decide, hdl, by decide, by decide,
    poll_timeout_bounds [⟨2, 5000000000, 7, 0⟩] 1000 (by decide) hdl⟩

/-- C19. On a live handle, `HAPPlatformFileHandleUpdateInterests` returns and replaces exactly
the interests, the callback and the context of that node: its descriptor, its links and its
awaiting-events flag (whatever its value) are kept, every other cell is unchanged, every walk
along the links visits the same handles in the same order, and nothing outside the file-handle
memory (cursor, timers, mailbox, state, trace) changes. -/
theorem update_interests_frame (fileHandle : Nat) (interests : HAPPlatformFileHandleEvent)
    (callback context : Nat) (w : World) (node : HAPPlatformFileHandle)
    (hnn : fileHandle ≠ NULL)
    (hlive : memLoad w.runLoop.fileHandleMem fileHandle = some node) :
    ∃ w1, HAPPlatformFileHandleUpdateInterests fileHandle interests callback context w = .ok w1 ∧
      memLoad w1.runLoop.fileHandleMem fileHandle =
        some { fileDescriptor := node.fileDescriptor
               interests := interests
               callback := callback
               context := context
               prevFileHandle := node.prevFileHandle
               nextFileHandle := node.nextFileHandle
               isAwaitingEvents := node.isAwaitingEvents } ∧
      (∀ a, a ≠ fileHandle →
        memLoad w1.runLoop.fileHandleMem a = memLoad w.runLoop.fileHandleMem a) ∧
      (∀ sentinel fuel a, walkFileHandles w1.runLoop.fileHandleMem sentinel fuel a =
        walkFileHandles w.runLoop.fileHandleMem sentinel fuel a) ∧
      w1 = { w with runLoop := { w.runLoop with fileHandleMem := w1.runLoop.fileHandleMem } } := by
  have hres : HAPPlatformFileHandleUpdateInterests fileHandle interests callback context w =
      .ok { w with runLoop := { w.runLoop with
              fileHandleMem := memStore w.runLoop.fileHandleMem fileHandle
                { node with interests := interests, callback := callback, context := context } } } := by
    unfold HAPPlatformFileHandleUpdateInterests
    rw [if_neg hnn, hlive]
  refine ⟨_, hres, ?_, ?_, ?_, rfl⟩
  · show memLoad (memStore _ _ _) _ = _
    rw [memLoad_memStore, if_pos rfl]
  · intro a ha
    show memLoad (memStore _ _ _) _ = _
    rw [memLoad_memStore, if_neg ha]
  · intro sentinel fuel a
    apply walkFileHandles_congr
    intro b
    show (memLoad (memStore _ _ _) _).map _ = _
    rw [memLoad_memStore]
    by_cases hb : b = fileHandle
    · rw [if_pos hb, hb, hlive]; rfl
    · rw [if_neg hb]

/-- Witness for C19: the interests of the second of two registered handles are updated. -/
theorem update_interests_frame_witness :
    ∃ w node, runSteps idleEnv twoHandlesSteps World.init = .ok w ∧
      (3 : Nat) ≠ NULL ∧ memLoad w.runLoop.fileHandleMem 3 = some node ∧
      ∃ w1, HAPPlatformFileHandleUpdateInterests 3 ⟨false, true, true⟩ 30 40 w = .ok w1 ∧
        memLoad w1.runLoop.fileHandleMem 3 =
          some { fileDescriptor := node.fileDescriptor
                 interests := ⟨false, true, true⟩
                 callback := 30
                 context := 40
                 prevFileHandle := node.prevFileHandle
                 nextFileHandle := node.nextFileHandle
                 isAwaitingEvents := node.isAwaitingEvents } ∧
        (∀ a, a ≠ 3 →
          memLoad w1.runLoop.fileHandleMem a = memLoad w.runLoop.fileHandleMem a) ∧
        (∀ sentinel fuel a, walkFileHandles w1.runLoop.fileHandleMem sentinel fuel a =
          walkFileHandles w.runLoop.fileHandleMem sentinel fuel a) ∧
        w1 = { w with runLoop := { w.runLoop with fileHandleMem := w1.runLoop.fileHandleMem } } :=
  ⟨_, _, rfl, by decide, rfl,
    update_interests_frame 3 ⟨false, true, true⟩ 30 40 _ _ (by decide) rfl⟩

/-- Bit `k` of `n` is clear exactly when masking with `2 ^ k` gives zero. -/
theorem land_two_pow_eq_zero (n k : Nat) : Nat.land n (2 ^ k) = 0 ↔ n.testBit k = false := by
  change n &&& 2 ^ k = 0 ↔ _
  constructor
  · intro h
    have h1 : (n &&& 2 ^ k).testBit k = false := by rw [h]; exact Nat.zero_testBit k
    rw [Nat.testBit_and, Nat.testBit_two_pow_self, Bool.and_true] at h1
    exact h1
  · intro h
    apply Nat.eq_of_testBit_eq
    intro i
    rw [Nat.testBit_and, Nat.testBit_two_pow, Nat.zero_testBit]
    by_cases hki : k = i
    · rw [← hki, h]; rfl
    · simp [hki]

/-- For a 64-bit value, bit 63 is clear exactly when the value is below `2 ^ 63`. -/
theorem land_bit63_eq_zero (n : Nat) (hn : n < 2 ^ 64) :
    Nat.land n (2 ^ 63) = 0 ↔ n < 2 ^ 63 := by
  rw [land_two_pow_eq_zero, Nat.testBit_to_div_mod]
  norm_num at hn ⊢
  omega

theorem elapsedMilliseconds_lt (c s f : Int) : elapsedMilliseconds c s f < 2 ^ 64 := by
  unfold elapsedMilliseconds
  dsimp only
  have h := Int.emod_lt_of_pos (Int.tdiv (wrapInt64 (wrapInt64 (c - s) * 1000)) f)
    (show (0 : Int) < 2 ^ 64 by norm_num)
  have h0 := Int.emod_nonneg (Int.tdiv (wrapInt64 (wrapInt64 (c - s) * 1000)) f)
    (show (2 ^ 64 : Int) ≠ 0 by norm_num)
  omega

/-- C20. The checks of `HAPPlatformClockGetCurrent` accept the newly computed value `now` and
make it the result exactly when it is not below the previously returned value and its bit 63 is
clear, and end in `HAPFatalError` otherwise. A returning call returns the computed value,
records it as the new previous value, and its result is at least the previous value and below
`2 ^ 63`; so of two successive returning calls the second returns at least what the first
returned. -/
theorem clock_never_goes_back :
    (∀ previousNow now, clockCheck previousNow now =
      if previousNow ≤ now ∧ Nat.land now (2 ^ 63) = 0 then .ok now
      else .error Fault.fatalError) ∧
    (∀ inp s currentCounter, s.isInitialized = true → s.frequency ≠ 0 →
      inp.currentCounter = some currentCounter →
      HAPPlatformClockGetCurrent inp s =
        if s.previousNow ≤ elapsedMilliseconds currentCounter s.startCounter s.frequency ∧
            Nat.land (elapsedMilliseconds currentCounter s.startCounter s.frequency) (2 ^ 63) = 0
        then .ok (elapsedMilliseconds currentCounter s.startCounter s.frequency,
          { s with previousNow :=
              elapsedMilliseconds currentCounter s.startCounter s.frequency })
        else .error Fault.fatalError) ∧
    (∀ inp s now s1, HAPPlatformClockGetCurrent inp s = .ok (now, s1) →
      s.previousNow ≤ now ∧ now < 2 ^ 63 ∧ s1.previousNow = now ∧ s1.isInitialized = true) ∧
    (∀ inp1 inp2 s now1 s1 now2 s2, HAPPlatformClockGetCurrent inp1 s = .ok (now1, s1) →
      HAPPlatformClockGetCurrent inp2 s1 = .ok (now2, s2) →
      now1 ≤ now2 ∧ now1 < 2 ^ 63 ∧ now2 < 2 ^ 63) := by
  have hcheck : ∀ previousNow now, clockCheck previousNow now =
      if previousNow ≤ now ∧ Nat.land now (2 ^ 63) = 0 then .ok now
      else .error Fault.fatalError := by
    intro p n
    unfold clockCheck
    by_cases h1 : n < p
    · rw [if_pos h1, if_neg (by omega)]
    · rw [if_neg h1]
      by_cases h2 : Nat.land n (2 ^ 63) = 0
      · rw [if_neg (by simpa using h2), if_pos ⟨by omega, h2⟩]
      · rw [if_pos h2, if_neg (fun h => h2 h.2)]
  have hok : ∀ (p n now : Nat), n < 2 ^ 64 → clockCheck p n = .ok now →
      now = n ∧ p ≤ now ∧ now < 2 ^ 63 := by
    intro p n now hn hc
    rw [hcheck] at hc
    split at hc
    · rename_i hcond
      cases hc
      exact ⟨rfl, hcond.1, (land_bit63_eq_zero _ hn).mp hcond.2⟩
    · cases hc
  have hret : ∀ inp s now s1, HAPPlatformClockGetCurrent inp s = .ok (now, s1) →
      s.previousNow ≤ now ∧ now < 2 ^ 63 ∧ s1.previousNow = now ∧ s1.isInitialized = true := by
    intro inp s now s1 h
    obtain ⟨init, p, f, st⟩ := s
    obtain ⟨qf, qs, qc⟩ := inp
    unfold HAPPlatformClockGetCurrent at h
    dsimp only at h
    cases qc with
    | none =>
      cases init
      · cases qf with
        | none => simp at h
        | some f1 =>
          cases qs with
          | none => simp at h
          | some s1' => simp at h
      · simp at h
    | some c =>
      cases init
      · cases qf with
        | none => simp at h
        | some f1 =>
          cases qs with
          | none => simp at h
          | some st1 =>
            simp only [Bool.false_eq_true, if_false] at h
            split at h
            · cases h
            · split at h
              · cases h
              · rename_i n hc
                cases h
                obtain ⟨_, hle, hlt⟩ := hok _ _ _ (elapsedMilliseconds_lt _ _ _) hc
                exact ⟨hle, hlt, rfl, rfl⟩
      · simp only [if_true] at h
        split at h
        · cases h
        · split at h
          · cases h
          · rename_i n hc
            cases h
            obtain ⟨_, hle, hlt⟩ := hok _ _ _ (elapsedMilliseconds_lt _ _ _) hc
            exact ⟨hle, hlt, rfl, rfl⟩
  refine ⟨hcheck, ?_, hret, ?_⟩
  · intro inp s c hinit hfreq hcur
    unfold HAPPlatformClockGetCurrent
    dsimp only
    simp only [hinit, if_true, hcur, hfreq, if_false, hcheck]
    by_cases hcond : s.previousNow ≤ elapsedMilliseconds c s.startCounter s.frequency ∧
        Nat.land (elapsedMilliseconds c s.startCounter s.frequency) (2 ^ 63) = 0
    · simp only [hcond, and_self, if_true]
    · simp only [hcond, if_false]
  · intro inp1 inp2 s now1 s1 now2 s2 h1 h2
    obtain ⟨_, hlt1, hp1, _⟩ := hret inp1 s now1 s1 h1
    obtain ⟨hle2, hlt2, _, _⟩ := hret inp2 s1 now2 s2 h2
    exact ⟨by rw [← hp1]; exact hle2, hlt1, hlt2⟩

/-! ## What each API function can change -/

theorem HAPPlatformTimerRegister_shape {env : Env} {d cb ctx : Nat} {w w1 : World}
    {err : HAPError} {t : Nat}
    (h : HAPPlatformTimerRegister env d cb ctx w = .ok (err, t, w1)) :
    ∃ l, w1 = { w with numAllocs := w.numAllocs + 1,
                       runLoop := { w.runLoop with timers := l } } := by
  unfold HAPPlatformTimerRegister at h
  dsimp only at h
  split at h
  · cases h
  · split at h
    · cases h; exact ⟨w.runLoop.timers, rfl⟩
    · cases h; exact ⟨_, rfl⟩

theorem HAPPlatformFileHandleRegister_shape {env : Env} {fd : Int}
    {i : HAPPlatformFileHandleEvent} {cb ctx : Nat} {w w1 : World} {err : HAPError} {fh : Nat}
    (h : HAPPlatformFileHandleRegister env fd i cb ctx w = .ok (err, fh, w1)) :
    ∃ mem, w1 = { w with numAllocs := w.numAllocs + 1,
                         runLoop := { w.runLoop with fileHandleMem := mem } } := by
  unfold HAPPlatformFileHandleRegister at h
  dsimp only at h
  split at h
  · cases h; exact ⟨w.runLoop.fileHandleMem, rfl⟩
  · split at h
    · cases h
    · split at h
      · cases h
      · split at h
        · cases h
        · cases h; exact ⟨_, rfl⟩

theorem HAPPlatformFileHandleUpdateInterests_shape {fh : Nat}
    {i : HAPPlatformFileHandleEvent} {cb ctx : Nat} {w w1 : World}
    (h : HAPPlatformFileHandleUpdateInterests fh i cb ctx w = .ok w1) :
    ∃ mem, w1 = { w with runLoop := { w.runLoop with fileHandleMem := mem } } := by
  unfold HAPPlatformFileHandleUpdateInterests at h
  split at h
  · cases h
  · split at h
    · cases h
    · cases h; exact ⟨_, rfl⟩

theorem HAPPlatformFileHandleDeregister_shape {fh : Nat} {w w1 : World}
    (h : HAPPlatformFileHandleDeregister fh w = .ok w1) :
    ∃ mem cursor, w1 = { w with runLoop := { w.runLoop with
        fileHandleMem := mem, fileHandleCursor := cursor } } := by
  unfold HAPPlatformFileHandleDeregister at h
  dsimp only at h
  split at h
  · cases h
  · split at h
    · cases h
    · split at h
      · cases h
      · split at h
        · cases h
        · split at h
          · cases h
          · split at h
            · cases h
            · split at h
              · cases h
              · cases h; exact ⟨_, _, rfl⟩

/-- The two ways in which `HAPPlatformRunLoopScheduleCallback` returns. -/
theorem HAPPlatformRunLoopScheduleCallback_cases {cb : Nat} {ctx : Option (List Nat)}
    {n : Nat} {w w1 : World} {err : HAPError}
    (h : HAPPlatformRunLoopScheduleCallback cb ctx n w = .ok (err, w1)) :
    (err = HAPError.kHAPError_OutOfResources ∧ w1 = w ∧ 0 < w.runLoop.numSelfPipeBytes) ∨
    (err = HAPError.kHAPError_None ∧ w.runLoop.numSelfPipeBytes = 0 ∧ n ≤ UINT8_MAX ∧
      (n = 0 ∨ n ≤ (ctx.getD []).length) ∧
      w1 = { w with
        runLoop := { w.runLoop with
          selfPipeBytes := slotBytes w.runLoop.selfPipeBytes cb ctx n
          numSelfPipeBytes := sizeofCallback + 1 + n }
        selfPipeQueued := w.selfPipeQueued + 1 }) := by
  unfold HAPPlatformRunLoopScheduleCallback at h
  dsimp only at h
  split at h
  · cases h
  · split at h
    · cases h
    · rename_i hsize
      split at h
      · cases h
      · rename_i hsz
        split at h
        · rename_i hocc
          cases h
          exact Or.inl ⟨rfl, rfl, hocc⟩
        · rename_i hocc
          split at h
          · cases h
          · rename_i hacc
            cases h
            refine Or.inr ⟨rfl, by omega, by simpa using hsz, ?_, ?_⟩
            · by_cases h0 : n = 0
              · exact Or.inl h0
              · right
                by_contra hlt
                exact hacc ⟨h0, by omega⟩
            · unfold slotBytes
              rfl

theorem encodePtr_length (p : Nat) : (encodePtr p).length = sizeofCallback := by
  simp [encodePtr]

theorem slotBytes_length {buf : List Nat} (cb : Nat) (ctx : Option (List Nat)) {n : Nat}
    (hbuf : buf.length = selfPipeBytesSize) (hn : n ≤ UINT8_MAX) :
    (slotBytes buf cb ctx n).length = selfPipeBytesSize := by
  unfold slotBytes copyBytes
  unfold selfPipeBytesSize UINT8_MAX at *
  have he := encodePtr_length cb
  unfold sizeofCallback at *
  split
  · rename_i h0
    simp only [List.length_append, List.length_take, List.length_drop, List.length_set, he,
      List.take_zero, List.length_nil]
    omega
  · simp only [List.length_append, List.length_take, List.length_drop, List.length_set, he,
      List.take_zero, List.length_nil]
    omega

theorem SlotSized.slot_of_apiUpdate {env : Env} {w w1 : World} (h : ApiUpdate env w w1)
    (hp : SlotSized w) : SlotSized w1 := by
  cases h with
  | timerRegister heq => obtain ⟨l, rfl⟩ := HAPPlatformTimerRegister_shape heq; exact hp
  | timerDeregister heq => obtain ⟨l, _, rfl⟩ := HAPPlatformTimerDeregister_ok heq; exact hp
  | fileHandleRegister heq =>
    obtain ⟨m, rfl⟩ := HAPPlatformFileHandleRegister_shape heq; exact hp
  | fileHandleUpdateInterests heq =>
    obtain ⟨m, rfl⟩ := HAPPlatformFileHandleUpdateInterests_shape heq; exact hp
  | fileHandleDeregister heq =>
    obtain ⟨m, c, rfl⟩ := HAPPlatformFileHandleDeregister_shape heq; exact hp
  | scheduleCallback heq =>
    rcases HAPPlatformRunLoopScheduleCallback_cases heq with ⟨_, rfl, _⟩ | ⟨_, _, hn, _, rfl⟩
    · exact hp
    · exact slotBytes_length _ _ hp hn
  | stop =>
    unfold HAPPlatformRunLoopStop
    split
    · exact hp
    · exact hp
  | store => exact hp

theorem SlotSized.slot_of_update {env : Env} {w w1 : World} (h : Update env w w1)
    (hp : SlotSized w) : SlotSized w1 := by
  cases h with
  | api h => exact hp.slot_of_apiUpdate h
  | fireHead _ => exact hp
  | selfPipeRecv => exact hp
  | selfPipeDeliver _ _ _ _ => exact hp
  | enterFileHandleCallback _ _ _ => exact hp
  | dispatchStart _ => exact hp
  | visitIdle _ _ _ => exact hp
  | visitAwaiting _ _ _ => exact hp
  | sleep => exact hp
  | pollAllocFails => exact hp
  | pollSetup _ _ _ => exact hp

/-- In every machine reached from program start the slot has the size of the array
`runLoop.selfPipeBytes`. -/
theorem SlotSized.slot_of_reachable {env : Env} {steps : List Step} {w : World}
    (hr : runSteps env steps World.init = .ok w) : SlotSized w :=
  runSteps_invariant env SlotSized (fun _ _ h hp => hp.slot_of_update h) (fun _ _ hp => hp)
    steps World.init w hr (by simp [SlotSized, World.init, RunLoop.init, selfPipeBytesSize])

/-! ## Mailbox: round trip -/

theorem decodePtr_digits (q : Nat) :
    ∀ n : Nat, decodePtr ((List.range n).map fun i => q / 256 ^ i % 256) = q % 256 ^ n := by
  intro n
  induction n generalizing q with
  | zero => simp [decodePtr, Nat.mod_one]
  | succ n ih =>
    rw [List.range_succ_eq_map, List.map_cons, List.map_map, decodePtr]
    have hfun : ((fun i => q / 256 ^ i % 256) ∘ Nat.succ) = fun i => q / 256 / 256 ^ i % 256 := by
      funext i
      simp only [Function.comp, Nat.succ_eq_add_one, pow_succ, Nat.div_div_eq_div_mul]
      rw [Nat.mul_comm]
    rw [hfun, ih (q / 256)]
    simp only [pow_zero, Nat.div_one]
    rw [pow_succ, Nat.mul_comm (256 ^ n) 256, Nat.mod_mul]

theorem decodePtr_encodePtr (p : Nat) (hp : p < 2 ^ 64) : decodePtr (encodePtr p) = p := by
  unfold encodePtr sizeofCallback
  rw [decodePtr_digits p 8]
  apply Nat.mod_eq_of_lt
  norm_num at hp ⊢
  exact hp

/-- The length byte read back as `uint8_t` is the context size, also above `127`, where the
`char` in the slot is negative. -/
theorem lengthByte_round_trip (n : Nat) (hn : n ≤ UINT8_MAX) :
    uint8OfChar (charOfByte (byteOfChar (charOfUInt8 (n % 256)))) = n := by
  unfold UINT8_MAX at hn
  unfold uint8OfChar charOfByte byteOfChar charOfUInt8
  have hmod : n % 256 = n := Nat.mod_eq_of_lt (by omega)
  rw [hmod]
  by_cases h : n < 128
  · have h1 : ((n : Int) % 256).toNat = n := by omega
    simp only [h, if_true, h1]
  · have h1 : (((n : Int) - 256) % 256).toNat = n := by omega
    simp only [h, if_false, h1]

/-- Layout of the slot after a post: callback, length byte, context, old content. -/
theorem slotBytes_layout {buf : List Nat} (cb : Nat) (ctx : Option (List Nat)) (n : Nat)
    (hbuf : buf.length = selfPipeBytesSize) :
    slotBytes buf cb ctx n =
      encodePtr cb ++ byteOfChar (charOfUInt8 (n % 256)) ::
        (((ctx.getD []).take n) ++ buf.drop (sizeofCallback + 1 + min n (ctx.getD []).length)) := by
  have he := encodePtr_length cb
  unfold selfPipeBytesSize UINT8_MAX at hbuf
  unfold slotBytes
  unfold sizeofCallback at *
  have h1 : (copyBytes buf 0 (encodePtr cb)).set 8 (byteOfChar (charOfUInt8 (n % 256))) =
      encodePtr cb ++ byteOfChar (charOfUInt8 (n % 256)) :: buf.drop 9 := by
    unfold copyBytes
    rw [List.take_zero, List.nil_append, he, Nat.zero_add]
    rw [List.set_append_right _ _ (by omega), he, Nat.sub_self]
    have hd : buf.drop 8 = buf[8] :: buf.drop 9 := by
      rw [List.drop_eq_getElem_cons (by omega)]
    rw [hd, List.set_cons_zero]
  rw [h1]
  split
  · unfold copyBytes
    have ht : (encodePtr cb ++ byteOfChar (charOfUInt8 (n % 256)) :: buf.drop 9).take (8 + 1) =
        encodePtr cb ++ [byteOfChar (charOfUInt8 (n % 256))] := by
      rw [List.take_append_eq_append_take, he]
      simp [he]
    have hdrop : (encodePtr cb ++ byteOfChar (charOfUInt8 (n % 256)) :: buf.drop 9).drop
        (8 + 1 + ((ctx.getD []).take n).length) =
        buf.drop (8 + 1 + min n (ctx.getD []).length) := by
      rw [List.drop_append_eq_append_drop, he]
      rw [List.drop_of_length_le (by omega), List.nil_append]
      have : 8 + 1 + ((ctx.getD []).take n).length - 8 = ((ctx.getD []).take n).length + 1 := by
        omega
      rw [this, List.drop_succ_cons, List.drop_drop, List.length_take]
    rw [ht, hdrop]
    simp
  · rename_i h0
    have hn : n = 0 := by simpa using h0
    subst hn
    simp

/-- What `SelfPipeHandleCallback` reads from a slot with the layout of a post. -/
theorem slot_reads {buf : List Nat} (cb : Nat) (ctx : Option (List Nat)) (n : Nat)
    (hbuf : buf.length = selfPipeBytesSize) (hptr : cb < 2 ^ 64) (hn : n ≤ UINT8_MAX)
    (hctx : n = 0 ∨ n ≤ (ctx.getD []).length) :
    decodePtr ((slotBytes buf cb ctx n).take sizeofCallback) = cb ∧
    uint8OfChar (charOfByte ((slotBytes buf cb ctx n).getD sizeofCallback 0)) = n ∧
    ((slotBytes buf cb ctx n).drop (sizeofCallback + 1)).take n = (ctx.getD []).take n ∧
    ((ctx.getD []).take n).length = n := by
  have he := encodePtr_length cb
  rw [slotBytes_layout cb ctx n hbuf]
  refine ⟨?_, ?_, ?_, ?_⟩
  · rw [List.take_append_eq_append_take, he, Nat.sub_self, List.take_zero, List.append_nil,
      List.take_of_length_le (Nat.le_of_eq he), decodePtr_encodePtr cb hptr]
  · rw [List.getD_eq_getElem?_getD, List.getElem?_append_right (Nat.le_of_eq he), he,
      Nat.sub_self]
    simp only [List.getElem?_cons_zero, Option.getD_some]
    exact lengthByte_round_trip n hn
  · rw [List.drop_append_eq_append_drop, he, List.drop_of_length_le (by omega), List.nil_append]
    have : sizeofCallback + 1 - sizeofCallback = 1 := by omega
    rw [this, List.drop_succ_cons, List.drop_zero, List.take_append_eq_append_take,
      List.take_take, Nat.min_self, List.length_take]
    have hz : n - min n (ctx.getD []).length = 0 := by
      rcases hctx with h | h
      · omega
      · omega
    rw [hz, List.take_zero, List.append_nil]
  · rw [List.length_take]
    rcases hctx with h | h
    · omega
    · omega

/-- C11. Mailbox round trip: on a machine reached from program start whose slot is empty, a
post of a callback (a 64-bit function pointer) with `contextSize <= 255` context bytes returns
`kHAPError_None`, and the next `SelfPipeHandleCallback` with a readable wake hands the same
callback the first `contextSize` posted bytes with length argument exactly `contextSize`: it is
the body of that callback run on the machine with the wake bytes received, the slot cleared and
the invocation recorded. -/
theorem mailbox_round_trip (env : Env) (steps : List Step) (w : World)
    (callback : Nat) (context : Option (List Nat)) (contextSize : Nat)
    (fileHandleEvents : HAPPlatformFileHandleEvent)
    (hreach : runSteps env steps World.init = .ok w)
    (hargs : ScheduleArgsValid callback context contextSize) (hptr : callback < 2 ^ 64)
    (hempty : w.runLoop.numSelfPipeBytes = 0)
    (hread : fileHandleEvents.isReadyForReading = true) :
    ∃ w1, HAPPlatformRunLoopScheduleCallback callback context contextSize w
        = .ok (HAPError.kHAPError_None, w1) ∧
      ((context.getD []).take contextSize).length = contextSize ∧
      SelfPipeHandleCallback env fileHandleEvents w1 =
        runProg env
          (env.runLoopCallback callback ((context.getD []).take contextSize) contextSize)
          { w1 with
            selfPipeQueued := w1.selfPipeQueued - min 256 w1.selfPipeQueued
            runLoop := { w1.runLoop with numSelfPipeBytes := 0 }
            trace := w1.trace ++
              [Event.runLoopCallback callback ((context.getD []).take contextSize) contextSize
                { w1.runLoop with numSelfPipeBytes := 0 }] } := by
  have hbuf : w.runLoop.selfPipeBytes.length = selfPipeBytesSize := SlotSized.slot_of_reachable hreach
  obtain ⟨w1, hres, _⟩ := HAPPlatformRunLoopScheduleCallback_empty hargs hempty
  obtain ⟨hcb, hsize, hctx⟩ := hargs
  have hctx' : contextSize = 0 ∨ contextSize ≤ (context.getD []).length := by
    rcases hctx with h | ⟨bytes, hb, hlen⟩
    · exact Or.inl h
    · right; rw [hb]; exact hlen
  obtain ⟨hr1, hr2, hr3, hr4⟩ :=
    @slot_reads w.runLoop.selfPipeBytes callback context contextSize hbuf hptr hsize hctx'
  refine ⟨w1, hres, hr4, ?_⟩
  rcases HAPPlatformRunLoopScheduleCallback_cases hres with ⟨h, _⟩ | ⟨_, _, _, _, rfl⟩
  · cases h
  · unfold SelfPipeHandleCallback
    dsimp only
    rw [if_pos hread, if_pos (by omega)]
    rw [hr1, hr2, hr3]
    by_cases h0 : contextSize = 0
    · subst h0
      simp
    · rw [if_pos h0]

/-- Witness for C11: a post with 255 context bytes on the initial machine; the length byte in
the slot is `255`, the `char` value `-1`, and is read back as `255`. -/
theorem mailbox_round_trip_witness :
    runSteps idleEnv [] World.init = .ok World.init ∧
    ScheduleArgsValid 9 (some (List.replicate 255 7)) 255 ∧ (9 : Nat) < 2 ^ 64 ∧
    World.init.runLoop.numSelfPipeBytes = 0 ∧
    (⟨true, false, false⟩ : HAPPlatformFileHandleEvent).isReadyForReading = true ∧
    charOfUInt8 255 = -1 ∧ byteOfChar (-1) = 255 ∧ uint8OfChar (charOfByte 255) = 255 ∧
    ∃ w1, HAPPlatformRunLoopScheduleCallback 9 (some (List.replicate 255 7)) 255 World.init
        = .ok (HAPError.kHAPError_None, w1) ∧
      ((((some (List.replicate 255 7)) : Option (List Nat)).getD []).take 255).length = 255 ∧
      SelfPipeHandleCallback idleEnv ⟨true, false, false⟩ w1 =
        runProg idleEnv
          (idleEnv.runLoopCallback 9
            ((((some (List.replicate 255 7)) : Option (List Nat)).getD []).take 255) 255)
          { w1 with
            selfPipeQueued := w1.selfPipeQueued - min 256 w1.selfPipeQueued
            runLoop := { w1.runLoop with numSelfPipeBytes := 0 }
            trace := w1.trace ++
              [Event.runLoopCallback 9
                ((((some (List.replicate 255 7)) : Option (List Nat)).getD []).take 255) 255
                { w1.runLoop with numSelfPipeBytes := 0 }] } :=
  have hargs : ScheduleArgsValid 9 (some (List.replicate 255 7)) 255 :=
    ⟨by decide, by decide, Or.inr ⟨List.replicate 255 7, rfl, by rw [List.length_replicate]⟩⟩
  ⟨rfl, hargs, by decide, rfl, rfl, by decide, by decide, by decide,
    mailbox_round_trip idleEnv [] World.init 9 (some (List.replicate 255 7)) 255
      ⟨true, false, false⟩ rfl hargs (by decide) rfl rfl⟩

/-! ## Mailbox: delivery -/

theorem deliveries_append (a b : List Event) :
    deliveries (a ++ b) = deliveries a ++ deliveries b := by
  induction a with
  | nil => rfl
  | cons e es ih => cases e <;> simp [deliveries, ih]

theorem dispatches_append (a b : List Event) :
    dispatches (a ++ b) = dispatches a ++ dispatches b := by
  induction a with
  | nil => rfl
  | cons e es ih => cases e <;> simp [dispatches, ih]

theorem polls_append (a b : List Event) : polls (a ++ b) = polls a ++ polls b := by
  induction a with
  | nil => rfl
  | cons e es ih => cases e <;> simp [polls, ih]

/-- An API call records no callback invocation, no poll and no timer expiry. -/
theorem ApiUpdate.records {env : Env} {w w1 : World} (h : ApiUpdate env w w1) :
    deliveries w1.trace = deliveries w.trace ∧ dispatches w1.trace = dispatches w.trace ∧
    polls w1.trace = polls w.trace ∧ firedTimers w1.trace = firedTimers w.trace := by
  cases h with
  | timerRegister heq =>
    obtain ⟨l, rfl⟩ := HAPPlatformTimerRegister_shape heq; exact ⟨rfl, rfl, rfl, rfl⟩
  | timerDeregister heq =>
    obtain ⟨l, _, rfl⟩ := HAPPlatformTimerDeregister_ok heq; exact ⟨rfl, rfl, rfl, rfl⟩
  | fileHandleRegister heq =>
    obtain ⟨m, rfl⟩ := HAPPlatformFileHandleRegister_shape heq; exact ⟨rfl, rfl, rfl, rfl⟩
  | fileHandleUpdateInterests heq =>
    obtain ⟨m, rfl⟩ := HAPPlatformFileHandleUpdateInterests_shape heq
    exact ⟨rfl, rfl, rfl, rfl⟩
  | fileHandleDeregister heq =>
    obtain ⟨m, c, rfl⟩ := HAPPlatformFileHandleDeregister_shape heq
    exact ⟨rfl, rfl, rfl, rfl⟩
  | scheduleCallback heq =>
    rcases HAPPlatformRunLoopScheduleCallback_cases heq with ⟨_, rfl, _⟩ | ⟨_, _, _, _, rfl⟩
    · simp [deliveries_append, dispatches_append, polls_append, firedTimers_append,
        deliveries, dispatches, polls, firedTimers]
    · simp [deliveries_append, dispatches_append, polls_append, firedTimers_append,
        deliveries, dispatches, polls, firedTimers]
  | stop =>
    unfold HAPPlatformRunLoopStop
    split
    · exact ⟨rfl, rfl, rfl, rfl⟩
    · exact ⟨rfl, rfl, rfl, rfl⟩
  | store => exact ⟨rfl, rfl, rfl, rfl⟩

/-- A callback body records no callback invocation, no poll and no timer expiry. -/
theorem runProg_records {env : Env} {p : Prog} {w w1 : World}
    (h : runProg env p w = .ok w1) :
    deliveries w1.trace = deliveries w.trace ∧ dispatches w1.trace = dispatches w.trace ∧
    polls w1.trace = polls w.trace ∧ firedTimers w1.trace = firedTimers w.trace := by
  refine (runProg_apiUpdates env p w w1 h).api_keeps
    (P := fun x => deliveries x.trace = deliveries w.trace ∧
      dispatches x.trace = dispatches w.trace ∧ polls x.trace = polls w.trace ∧
      firedTimers x.trace = firedTimers w.trace) ?_ ⟨rfl, rfl, rfl, rfl⟩
  intro x x1 hx hp
  obtain ⟨h1, h2, h3, h4⟩ := hx.records
  exact ⟨h1.trans hp.1, h2.trans hp.2.1, h3.trans hp.2.2.1, h4.trans hp.2.2.2⟩

theorem run_loop_stop_frame_aux (w : World) :
    (HAPPlatformRunLoopStop w).runLoop.numSelfPipeBytes = w.runLoop.numSelfPipeBytes ∧
    (HAPPlatformRunLoopStop w).trace = w.trace := by
  unfold HAPPlatformRunLoopStop
  split
  · exact ⟨rfl, rfl⟩
  · exact ⟨rfl, rfl⟩

/-- On an empty slot `SelfPipeHandleCallback` invokes no callback: it only receives the wake
bytes. -/
theorem SelfPipeHandleCallback_empty (env : Env) (ev : HAPPlatformFileHandleEvent) (w : World)
    (hempty : w.runLoop.numSelfPipeBytes = 0) :
    ∃ q, SelfPipeHandleCallback env ev w = .ok { w with selfPipeQueued := q } := by
  unfold SelfPipeHandleCallback
  dsimp only
  split
  · rw [if_neg (by omega)]
    exact ⟨_, rfl⟩
  · exact ⟨w.selfPipeQueued, rfl⟩

/-- C12. Exactly-once delivery: when the slot is occupied, a readable wake handled by
`SelfPipeHandleCallback` that returns has invoked exactly one run-loop callback; and if the slot
is empty afterwards (no post succeeded meanwhile), then every sequence of further wakes, be they
invocations of `SelfPipeHandleCallback` or calls of `HAPPlatformRunLoopStop` with the wake byte
they send, returns having invoked no callback, recorded nothing, and left the slot empty. -/
theorem self_pipe_delivers_once (env : Env) (fileHandleEvents : HAPPlatformFileHandleEvent)
    (w w1 : World)
    (hread : fileHandleEvents.isReadyForReading = true)
    (hocc : 0 < w.runLoop.numSelfPipeBytes)
    (hret : SelfPipeHandleCallback env fileHandleEvents w = .ok w1) :
    (∃ d, deliveries w1.trace = deliveries w.trace ++ [d]) ∧
    (w1.runLoop.numSelfPipeBytes = 0 →
      ∀ wakes : List Step,
        (∀ s ∈ wakes, (∃ ev, s = Step.selfPipeHandleCallback ev) ∨
          s = Step.call (Prog.runLoopStop Prog.ret)) →
        ∃ w2, runSteps env wakes w1 = .ok w2 ∧ w2.trace = w1.trace ∧
          deliveries w2.trace = deliveries w1.trace ∧ w2.runLoop.numSelfPipeBytes = 0) := by
  constructor
  · unfold SelfPipeHandleCallback at hret
    dsimp only at hret
    rw [if_pos hread, if_pos (by omega)] at hret
    have h := (runProg_records hret).1
    rw [h]
    simp only [deliveries_append, deliveries]
    exact ⟨_, rfl⟩
  · intro hempty wakes
    have key : ∀ (l : List Step) (x : World), x.runLoop.numSelfPipeBytes = 0 →
        (∀ s ∈ l, (∃ ev, s = Step.selfPipeHandleCallback ev) ∨
          s = Step.call (Prog.runLoopStop Prog.ret)) →
        ∃ x2, runSteps env l x = .ok x2 ∧ x2.trace = x.trace ∧
          x2.runLoop.numSelfPipeBytes = 0 := by
      intro l
      induction l with
      | nil => intro x hx _; exact ⟨x, rfl, rfl, hx⟩
      | cons s rest ih =>
        intro x hx hall
        have hrest : ∀ s ∈ rest, (∃ ev, s = Step.selfPipeHandleCallback ev) ∨
            s = Step.call (Prog.runLoopStop Prog.ret) :=
          fun s hs => hall s (List.mem_cons_of_mem _ hs)
        rcases hall s (List.mem_cons_self _ _) with ⟨ev, rfl⟩ | rfl
        · obtain ⟨q, hq⟩ := SelfPipeHandleCallback_empty env ev x hx
          obtain ⟨x2, hrun, htr, hnum⟩ := ih { x with selfPipeQueued := q } hx hrest
          exact ⟨x2, by simp only [runSteps, Step.run, hq]; exact hrun, htr, hnum⟩
        · have hstop : (HAPPlatformRunLoopStop x).runLoop.numSelfPipeBytes = 0 := by
            rw [(run_loop_stop_frame_aux x).1]; exact hx
          obtain ⟨x2, hrun, htr, hnum⟩ := ih (HAPPlatformRunLoopStop x) hstop hrest
          exact ⟨x2, by simp only [runSteps, Step.run, runProg]; exact hrun,
            by rw [htr, (run_loop_stop_frame_aux x).2], hnum⟩
    intro hall
    obtain ⟨w2, hrun, htr, hnum⟩ := key wakes w1 hempty hall
    exact ⟨w2, hrun, htr, by rw [htr], hnum⟩

/-- Witness for C12: a posted message is delivered by the first wake; the callback returns at
once. -/
theorem self_pipe_delivers_once_witness :
    ∃ w w1,
      HAPPlatformRunLoopScheduleCallback 9 (some [4, 5]) 2 World.init
        = .ok (HAPError.kHAPError_None, w) ∧
      (⟨true, false, false⟩ : HAPPlatformFileHandleEvent).isReadyForReading = true ∧
      0 < w.runLoop.numSelfPipeBytes ∧
      SelfPipeHandleCallback idleEnv ⟨true, false, false⟩ w = .ok w1 ∧
      deliveries w1.trace = [(9, [4, 5], 2)] ∧
      (∃ d, deliveries w1.trace = deliveries w.trace ++ [d]) ∧
      (w1.runLoop.numSelfPipeBytes = 0 →
        ∀ wakes : List Step,
          (∀ s ∈ wakes, (∃ ev, s = Step.selfPipeHandleCallback ev) ∨
            s = Step.call (Prog.runLoopStop Prog.ret)) →
          ∃ w2, runSteps idleEnv wakes w1 = .ok w2 ∧ w2.trace = w1.trace ∧
            deliveries w2.trace = deliveries w1.trace ∧ w2.runLoop.numSelfPipeBytes = 0) :=
  ⟨_, _, rfl, rfl, by decide, rfl, rfl,
    self_pipe_delivers_once idleEnv ⟨true, false, false⟩ _ _ rfl (by decide) rfl⟩

/-! ## Lifecycle of the run loop -/

/-- An API call leaves the run-loop state alone unless it is the call of
`HAPPlatformRunLoopStop` that finds the state `Running`. -/
theorem ApiUpdate.api_state_step {env : Env} {w w1 : World} (h : ApiUpdate env w w1) :
    w1.runLoop.state = w.runLoop.state ∨
    (w1 = HAPPlatformRunLoopStop w ∧
      w.runLoop.state = HAPPlatformRunLoopState.kHAPPlatformRunLoopState_Running ∧
      w1.runLoop.state = HAPPlatformRunLoopState.kHAPPlatformRunLoopState_Stopping) := by
  cases h with
  | timerRegister heq => obtain ⟨l, rfl⟩ := HAPPlatformTimerRegister_shape heq; exact Or.inl rfl
  | timerDeregister heq =>
    obtain ⟨l, _, rfl⟩ := HAPPlatformTimerDeregister_ok heq; exact Or.inl rfl
  | fileHandleRegister heq =>
    obtain ⟨m, rfl⟩ := HAPPlatformFileHandleRegister_shape heq; exact Or.inl rfl
  | fileHandleUpdateInterests heq =>
    obtain ⟨m, rfl⟩ := HAPPlatformFileHandleUpdateInterests_shape heq; exact Or.inl rfl
  | fileHandleDeregister heq =>
    obtain ⟨m, c, rfl⟩ := HAPPlatformFileHandleDeregister_shape heq; exact Or.inl rfl
  | scheduleCallback heq =>
    rcases HAPPlatformRunLoopScheduleCallback_cases heq with ⟨_, rfl, _⟩ | ⟨_, _, _, _, rfl⟩
    · exact Or.inl rfl
    · exact Or.inl rfl
  | stop =>
    by_cases hs : w.runLoop.state = HAPPlatformRunLoopState.kHAPPlatformRunLoopState_Running
    · exact Or.inr ⟨rfl, hs, (run_loop_stop_frame w).1 hs⟩
    · left; rw [(run_loop_stop_frame w).2.1 hs]
  | store => exact Or.inl rfl

/-- Every primitive change leaves the run-loop state alone unless it is the call of
`HAPPlatformRunLoopStop` that finds the state `Running`. -/
theorem Update.state_step {env : Env} {w w1 : World} (h : Update env w w1) :
    w1.runLoop.state = w.runLoop.state ∨
    (w1 = HAPPlatformRunLoopStop w ∧
      w.runLoop.state = HAPPlatformRunLoopState.kHAPPlatformRunLoopState_Running ∧
      w1.runLoop.state = HAPPlatformRunLoopState.kHAPPlatformRunLoopState_Stopping) := by
  cases h with
  | api h => exact h.api_state_step
  | fireHead _ => exact Or.inl rfl
  | selfPipeRecv => exact Or.inl rfl
  | selfPipeDeliver _ _ _ _ => exact Or.inl rfl
  | enterFileHandleCallback _ _ _ => exact Or.inl rfl
  | dispatchStart _ => exact Or.inl rfl
  | visitIdle _ _ _ => exact Or.inl rfl
  | visitAwaiting _ _ _ => exact Or.inl rfl
  | sleep => exact Or.inl rfl
  | pollAllocFails => exact Or.inl rfl
  | pollSetup _ _ _ => exact Or.inl rfl

/-- Between the entry and the exit of `HAPPlatformRunLoopRun` the state is `Running` or
`Stopping`, and once `Stopping` it stays so. -/
theorem Updates.state_running_or_stopping {env : Env} {w w1 : World} (h : Updates env w w1) :
    (w.runLoop.state = HAPPlatformRunLoopState.kHAPPlatformRunLoopState_Running →
      w1.runLoop.state = HAPPlatformRunLoopState.kHAPPlatformRunLoopState_Running ∨
      w1.runLoop.state = HAPPlatformRunLoopState.kHAPPlatformRunLoopState_Stopping) ∧
    (w.runLoop.state = HAPPlatformRunLoopState.kHAPPlatformRunLoopState_Stopping →
      w1.runLoop.state = HAPPlatformRunLoopState.kHAPPlatformRunLoopState_Stopping) := by
  induction h with
  | refl => exact ⟨fun h => Or.inl h, fun h => h⟩
  | tail _ hlast ih =>
    rcases hlast.state_step with heq | ⟨_, hrun, hstop⟩
    · rw [heq]; exact ih
    · constructor
      · intro _; exact Or.inr hstop
      · intro _; exact hstop

/-- C14. The lifecycle state moves only along `Idle -> Running -> Stopping -> Idle`: every
primitive change made by an API call, a callback or the loop leaves the state alone, except the
call of `HAPPlatformRunLoopStop` that finds `Running` and makes it `Stopping`;
`HAPPlatformRunLoopRun` entered in a state other than `Idle` fails its precondition; and when it
returns it was entered in `Idle`, made the state `Running`, left its loop in `Stopping`, and
returns with the state `Idle`. -/
theorem run_loop_lifecycle (env : Env) :
    (∀ w w1, Update env w w1 →
      w1.runLoop.state = w.runLoop.state ∨
      (w1 = HAPPlatformRunLoopStop w ∧
        w.runLoop.state = HAPPlatformRunLoopState.kHAPPlatformRunLoopState_Running ∧
        w1.runLoop.state = HAPPlatformRunLoopState.kHAPPlatformRunLoopState_Stopping)) ∧
    (∀ inputs w, w.runLoop.state ≠ HAPPlatformRunLoopState.kHAPPlatformRunLoopState_Idle →
      HAPPlatformRunLoopRun env inputs w = .error Fault.preconditionFailure) ∧
    (∀ inputs w w1, HAPPlatformRunLoopRun env inputs w = .ok w1 →
      w.runLoop.state = HAPPlatformRunLoopState.kHAPPlatformRunLoopState_Idle ∧
      w1.runLoop.state = HAPPlatformRunLoopState.kHAPPlatformRunLoopState_Idle ∧
      ∃ w2, runLoopWhile env inputs
            (setState HAPPlatformRunLoopState.kHAPPlatformRunLoopState_Running w) = .ok w2 ∧
        w2.runLoop.state = HAPPlatformRunLoopState.kHAPPlatformRunLoopState_Stopping ∧
        w1 = setState HAPPlatformRunLoopState.kHAPPlatformRunLoopState_Idle w2) := by
  refine ⟨fun w w1 h => h.state_step, ?_, ?_⟩
  · intro inputs w hs
    unfold HAPPlatformRunLoopRun
    rw [if_pos hs]
  · intro inputs w w1 h
    unfold HAPPlatformRunLoopRun at h
    split at h
    · cases h
    · rename_i hidle
      split at h
      · cases h
      · rename_i w2 hw
        cases h
        obtain ⟨hupd, hne⟩ := runLoopWhile_updates env inputs _ w2 hw
        refine ⟨by simpa using hidle, rfl, w2, hw, ?_, rfl⟩
        rcases hupd.state_running_or_stopping.1 rfl with hr | hs
        · exact absurd hr hne
        · exact hs

/-! ## A failed poll -/

/-- A pass of `ProcessExpiredTimers` records no file-handle callback, no run-loop callback and
no poll. -/
theorem ProcessExpiredTimers_records (env : Env) (now : Nat) :
    ∀ (fuel : Nat) (w w1 : World), ProcessExpiredTimers env now fuel w = .ok w1 →
      deliveries w1.trace = deliveries w.trace ∧ dispatches w1.trace = dispatches w.trace ∧
      polls w1.trace = polls w.trace := by
  intro fuel
  induction fuel with
  | zero => intro w w1 h; simp [ProcessExpiredTimers] at h
  | succ fuel ih =>
    intro w w1 h
    simp only [ProcessExpiredTimers] at h
    split at h
    · cases h; exact ⟨rfl, rfl, rfl⟩
    · split at h
      · cases h; exact ⟨rfl, rfl, rfl⟩
      · split at h
        · cases h
        · rename_i w2 heq
          obtain ⟨h1, h2, h3, _⟩ := runProg_records heq
          obtain ⟨i1, i2, i3⟩ := ih w2 w1 h
          rw [i1, i2, i3, h1, h2, h3]
          simp [fireHead, deliveries_append, dispatches_append, polls_append, deliveries,
            dispatches, polls]

/-- The part of a cycle that ends with the call of `WSAPoll` invokes no file-handle callback. -/
theorem cycleUntilPoll_dispatches (env : Env) (inp : CycleInput) (w w1 : World)
    (r : Option (List WSAPOLLFD)) (h : cycleUntilPoll env inp w = .ok (w1, r)) :
    dispatches w1.trace = dispatches w.trace := by
  unfold cycleUntilPoll at h
  dsimp only at h
  split at h
  · cases h
  · rename_i w2 hexp
    have h2 := (ProcessExpiredTimers_records env _ _ w w2 hexp).2.1
    split at h
    · cases h
    · split at h
      · cases h
      · split at h
        · cases h
          simp [dispatches_append, dispatches, h2]
        · split at h
          · cases h
            exact h2
          · cases h
            simp [dispatches_append, dispatches, h2]

/-- C18. When a cycle of the loop in `HAPPlatformRunLoopRun` reaches the call of `WSAPoll` and
that call fails, the cycle ends with the machine exactly as it was when `WSAPoll` was called
(the run-loop state, the registry and the timer queue included), no file-handle callback has
been invoked in the cycle, and the loop goes on: the rest of the run is the run of the remaining
cycles from that machine. -/
theorem poll_failure_continues (env : Env) (inp : CycleInput) (rest : List CycleInput)
    (w w1 : World) (pollFds : List WSAPOLLFD)
    (hrun : w.runLoop.state = HAPPlatformRunLoopState.kHAPPlatformRunLoopState_Running)
    (hpoll : cycleUntilPoll env inp w = .ok (w1, some pollFds))
    (hfail : inp.poll.numReady = SOCKET_ERROR) :
    runLoopCycle env inp w = .ok w1 ∧
    dispatches w1.trace = dispatches w.trace ∧
    runLoopWhile env (inp :: rest) w = runLoopWhile env rest w1 := by
  have hcycle : runLoopCycle env inp w = .ok w1 := by
    unfold runLoopCycle
    rw [hpoll]
    simp only [hfail, if_true]
  refine ⟨hcycle, cycleUntilPoll_dispatches env inp w w1 _ hpoll, ?_⟩
  simp only [runLoopWhile, hrun, if_true, hcycle]

/-- Witness for C18: two registered handles, a running loop, and a poll that fails. -/
theorem poll_failure_continues_witness :
    ∃ w0 w w1 pollFds, runSteps idleEnv twoHandlesSteps World.init = .ok w0 ∧
      w = setState HAPPlatformRunLoopState.kHAPPlatformRunLoopState_Running w0 ∧
      w.runLoop.state = HAPPlatformRunLoopState.kHAPPlatformRunLoopState_Running ∧
      cycleUntilPoll idleEnv failedPollInput w = .ok (w1, some pollFds) ∧
      failedPollInput.poll.numReady = SOCKET_ERROR ∧
      pollFds = [⟨5, POLLIN, 0⟩, ⟨6, Nat.lor POLLIN POLLOUT, 0⟩] ∧
      runLoopCycle idleEnv failedPollInput w = .ok w1 ∧
      dispatches w1.trace = dispatches w.trace ∧
      runLoopWhile idleEnv (failedPollInput :: []) w = runLoopWhile idleEnv [] w1 :=
  ⟨_, _, _, _, rfl, rfl, rfl, rfl, rfl, rfl,
    poll_failure_continues idleEnv failedPollInput [] _ _ _ rfl rfl rfl⟩

/-! ## The registry as a linked list -/

theorem nextOf_memStore (mem : FileHandleMem) (a b : Nat) (v : HAPPlatformFileHandle) :
    nextOf (memStore mem a v) b = if b = a then some v.nextFileHandle else nextOf mem b := by
  unfold nextOf
  rw [memLoad_memStore]
  split <;> rfl

theorem prevOf_memStore (mem : FileHandleMem) (a b : Nat) (v : HAPPlatformFileHandle) :
    prevOf (memStore mem a v) b = if b = a then some v.prevFileHandle else prevOf mem b := by
  unfold prevOf
  rw [memLoad_memStore]
  split <;> rfl

theorem payloadOf_memStore (mem : FileHandleMem) (a b : Nat) (v : HAPPlatformFileHandle) :
    payloadOf (memStore mem a v) b = if b = a then some v.payload else payloadOf mem b := by
  unfold payloadOf
  rw [memLoad_memStore]
  split <;> rfl

theorem lastFrom_mem (a : Nat) (l : List Nat) : lastFrom a l ∈ a :: l := by
  induction l generalizing a with
  | nil => simp [lastFrom]
  | cons h t ih =>
    simp only [lastFrom]
    exact List.mem_cons_of_mem _ (ih h)

theorem lastFrom_append (a : Nat) (l1 l2 : List Nat) :
    lastFrom a (l1 ++ l2) = lastFrom (lastFrom a l1) l2 := by
  induction l1 generalizing a with
  | nil => rfl
  | cons h t ih =>
    show lastFrom h (t ++ l2) = lastFrom (lastFrom h t) l2
    exact ih h

theorem lastFrom_eq_self_or_mem (a : Nat) (l : List Nat) :
    (l = [] ∧ lastFrom a l = a) ∨ lastFrom a l ∈ l := by
  cases l with
  | nil => exact Or.inl ⟨rfl, rfl⟩
  | cons h t => exact Or.inr (lastFrom_mem h t)

theorem Linked.append {mem : FileHandleMem} {a b h : Nat} {l1 l2 : List Nat} :
    Linked mem a (l1 ++ h :: l2) b ↔ Linked mem a l1 h ∧ Linked mem h l2 b := by
  induction l1 generalizing a with
  | nil => simp [Linked]
  | cons x t ih =>
    show Adjacent mem a x ∧ Linked mem x (t ++ h :: l2) b ↔
      (Adjacent mem a x ∧ Linked mem x t h) ∧ Linked mem h l2 b
    rw [ih, and_assoc]

theorem Linked.snoc {mem : FileHandleMem} {a b h : Nat} {l : List Nat} :
    Linked mem a (l ++ [h]) b ↔ Linked mem a l h ∧ Adjacent mem h b :=
  Linked.append

/-- The first link of a segment. -/
theorem Linked.next_start {mem : FileHandleMem} {a b : Nat} {l : List Nat}
    (h : Linked mem a l b) : nextOf mem a = some (l.headD b) := by
  cases l with
  | nil => exact h.1
  | cons x t => exact h.1.1

/-- The last back link of a segment. -/
theorem Linked.prev_end {mem : FileHandleMem} {a b : Nat} {l : List Nat}
    (h : Linked mem a l b) : prevOf mem b = some (lastFrom a l) := by
  induction l generalizing a with
  | nil => exact h.2
  | cons x t ih => exact ih h.2

/-- Every cell of a segment is allocated. -/
theorem Linked.live {mem : FileHandleMem} {a b : Nat} {l : List Nat}
    (h : Linked mem a l b) : ∀ x ∈ a :: l, ∃ node, memLoad mem x = some node := by
  induction l generalizing a with
  | nil =>
    intro x hx
    rw [List.mem_singleton] at hx
    subst hx
    have := h.1
    unfold nextOf at this
    cases hm : memLoad mem x with
    | none => rw [hm] at this; cases this
    | some node => exact ⟨node, rfl⟩
  | cons y t ih =>
    intro x hx
    rcases List.mem_cons.mp hx with rfl | hx
    · have := h.1.1
      unfold nextOf at this
      cases hm : memLoad mem x with
      | none => rw [hm] at this; cases this
      | some node => exact ⟨node, rfl⟩
    · exact ih h.2 x hx

theorem Linked.live_end {mem : FileHandleMem} {a b : Nat} {l : List Nat}
    (h : Linked mem a l b) : ∃ node, memLoad mem b = some node := by
  have := h.prev_end
  unfold prevOf at this
  cases hm : memLoad mem b with
  | none => rw [hm] at this; cases this
  | some node => exact ⟨node, rfl⟩

/-- A segment depends on the memory only through the links of its cells. -/
theorem Linked.congr {mem mem' : FileHandleMem} {a b : Nat} {l : List Nat}
    (h : Linked mem a l b)
    (hnext : ∀ y ∈ a :: l, nextOf mem' y = nextOf mem y)
    (hprev : ∀ y ∈ l ++ [b], prevOf mem' y = prevOf mem y) : Linked mem' a l b := by
  induction l generalizing a with
  | nil =>
    exact ⟨by rw [hnext a (List.mem_singleton.mpr rfl)]; exact h.1,
      by rw [hprev b (by simp)]; exact h.2⟩
  | cons x t ih =>
    refine ⟨⟨by rw [hnext a (List.mem_cons_self _ _)]; exact h.1.1,
      by rw [hprev x (by simp)]; exact h.1.2⟩, ?_⟩
    exact ih h.2 (fun y hy => hnext y (List.mem_cons_of_mem _ hy))
      (fun y hy => hprev y (by
        rw [List.cons_append]; exact List.mem_cons_of_mem _ hy))

/-- A segment whose last link is redirected from `b` to `b'`. -/
theorem Linked.retarget {mem mem' : FileHandleMem} {a b b' : Nat} {l : List Nat}
    (h : Linked mem a l b) (hnd : (a :: l).Nodup)
    (hnext : ∀ y ∈ a :: l, y ≠ lastFrom a l → nextOf mem' y = nextOf mem y)
    (hlast : nextOf mem' (lastFrom a l) = some b')
    (hprev : ∀ y ∈ l, prevOf mem' y = prevOf mem y)
    (hb : prevOf mem' b' = some (lastFrom a l)) : Linked mem' a l b' := by
  induction l generalizing a with
  | nil => exact ⟨hlast, hb⟩
  | cons x t ih =>
    have hax : a ≠ lastFrom x t := by
      intro he
      have hm := lastFrom_mem x t
      rw [← he] at hm
      exact (List.nodup_cons.mp hnd).1 hm
    refine ⟨⟨by rw [hnext a (List.mem_cons_self _ _) hax]; exact h.1.1,
      by rw [hprev x (List.mem_cons_self _ _)]; exact h.1.2⟩, ?_⟩
    exact ih h.2 (List.nodup_cons.mp hnd).2
      (fun y hy hne => hnext y (List.mem_cons_of_mem _ hy) hne) hlast
      (fun y hy => hprev y (List.mem_cons_of_mem _ hy)) hb

theorem awaitingOf_eq_payloadOf (mem : FileHandleMem) (a : Nat) :
    awaitingOf mem a = (payloadOf mem a).map HAPPlatformFileHandle.isAwaitingEvents := by
  unfold awaitingOf payloadOf
  cases memLoad mem a <;> rfl

theorem nextOf_of_load {mem : FileHandleMem} {a : Nat} {node : HAPPlatformFileHandle}
    (h : memLoad mem a = some node) : nextOf mem a = some node.nextFileHandle := by
  unfold nextOf; rw [h]; rfl

theorem prevOf_of_load {mem : FileHandleMem} {a : Nat} {node : HAPPlatformFileHandle}
    (h : memLoad mem a = some node) : prevOf mem a = some node.prevFileHandle := by
  unfold prevOf; rw [h]; rfl

theorem payloadOf_of_load {mem : FileHandleMem} {a : Nat} {node : HAPPlatformFileHandle}
    (h : memLoad mem a = some node) : payloadOf mem a = some node.payload := by
  unfold payloadOf; rw [h]; rfl

/-- The address that the next allocation returns holds no cell. -/
theorem RegistryInv.fresh {w : World} {l : List Nat} (h : RegistryInv w l) :
    memLoad w.runLoop.fileHandleMem (allocAddr w.numAllocs) = none := by
  cases hm : memLoad w.runLoop.fileHandleMem (allocAddr w.numAllocs) with
  | none => rfl
  | some node =>
    rcases h.cells _ _ hm with hs | hl
    · unfold allocAddr sentinelAddr at hs; omega
    · have := (h.bounds _ hl).2; omega

theorem RegistryInv.sentinel_not_mem {w : World} {l : List Nat} (h : RegistryInv w l) :
    sentinelAddr ∉ l := by
  intro hm
  have := (h.bounds _ hm).1
  unfold sentinelAddr at this
  omega

theorem RegistryInv.nodup_cons {w : World} {l : List Nat} (h : RegistryInv w l) :
    (sentinelAddr :: l).Nodup :=
  List.nodup_cons.mpr ⟨h.sentinel_not_mem, h.nodup⟩

/-- Linking a new cell in front of the sentinel, as `HAPPlatformFileHandleRegister` does, puts
it at the end of the list. -/
theorem Linked.insert_last {mem : FileHandleMem} {s : Nat} (new : Nat) {l : List Nat}
    {head last : HAPPlatformFileHandle} (node : HAPPlatformFileHandle)
    (hl : Linked mem s l s) (hnd : (s :: l).Nodup) (hnew : new ∉ s :: l)
    (hhead : memLoad mem s = some head) (hlast : memLoad mem (lastFrom s l) = some last)
    (hprev : node.prevFileHandle = lastFrom s l) (hnext : node.nextFileHandle = s) :
    ∃ head2,
      memLoad (memStore (memStore mem new node) (lastFrom s l)
        { last with nextFileHandle := new }) s = some head2 ∧
      head2.payload = head.payload ∧
      Linked (memStore (memStore (memStore mem new node) (lastFrom s l)
        { last with nextFileHandle := new }) s { head2 with prevFileHandle := new })
        s (l ++ [new]) s := by
  have hsnew : s ≠ new := fun h => hnew (h ▸ List.mem_cons_self _ _)
  have hpnew : lastFrom s l ≠ new := fun h => hnew (h ▸ lastFrom_mem s l)
  have hnl : ∀ y ∈ l, y ≠ new := fun y hy h => hnew (h ▸ List.mem_cons_of_mem _ hy)
  have hsl : ∀ y ∈ l, y ≠ s := fun y hy h => (List.nodup_cons.mp hnd).1 (h ▸ hy)
  by_cases hsp : s = lastFrom s l
  · -- the list is empty or its last cell is the sentinel itself
    have hlh : last = head := by
      rw [← hsp] at hlast; rw [hhead] at hlast; exact (Option.some.inj hlast).symm
    refine ⟨{ last with nextFileHandle := new }, ?_, ?_, ?_⟩
    · rw [memLoad_memStore, if_pos hsp]
    · rw [hlh]; rfl
    · have hN : ∀ a, nextOf (memStore (memStore (memStore mem new node) (lastFrom s l)
          { last with nextFileHandle := new }) s
          { ({ last with nextFileHandle := new } : HAPPlatformFileHandle) with
            prevFileHandle := new }) a =
          if a = s then some new else if a = new then some s else nextOf mem a := by
        intro a
        rw [nextOf_memStore, nextOf_memStore, nextOf_memStore, ← hsp, hnext]
        by_cases h1 : a = s <;> simp [h1]
      have hP : ∀ a, prevOf (memStore (memStore (memStore mem new node) (lastFrom s l)
          { last with nextFileHandle := new }) s
          { ({ last with nextFileHandle := new } : HAPPlatformFileHandle) with
            prevFileHandle := new }) a =
          if a = s then some new else if a = new then some s else prevOf mem a := by
        intro a
        rw [prevOf_memStore, prevOf_memStore, prevOf_memStore, hprev, ← hsp]
        by_cases h1 : a = s <;> simp [h1]
      rw [Linked.snoc]
      refine ⟨hl.retarget hnd ?_ ?_ ?_ ?_, ?_, ?_⟩
      · intro y hy hne
        rw [hN]
        rcases List.mem_cons.mp hy with rfl | hy
        · exact absurd hsp hne
        · rw [if_neg (hsl y hy), if_neg (hnl y hy)]
      · rw [hN, ← hsp, if_pos rfl]
      · intro y hy
        rw [hP, if_neg (hsl y hy), if_neg (hnl y hy)]
      · rw [hP, if_neg (Ne.symm hsnew), if_pos rfl, ← hsp]
      · rw [hN, if_neg (Ne.symm hsnew), if_pos rfl]
      · rw [hP, if_pos rfl]
  · refine ⟨head, ?_, rfl, ?_⟩
    · rw [memLoad_memStore, if_neg hsp, memLoad_memStore, if_neg hsnew, hhead]
    · have hN : ∀ a, nextOf (memStore (memStore (memStore mem new node) (lastFrom s l)
          { last with nextFileHandle := new }) s { head with prevFileHandle := new }) a =
          if a = s then nextOf mem s else if a = lastFrom s l then some new
          else if a = new then some s else nextOf mem a := by
        intro a
        rw [nextOf_memStore, nextOf_memStore, nextOf_memStore, hnext, nextOf_of_load hhead]
      have hP : ∀ a, prevOf (memStore (memStore (memStore mem new node) (lastFrom s l)
          { last with nextFileHandle := new }) s { head with prevFileHandle := new }) a =
          if a = s then some new else if a = lastFrom s l then prevOf mem (lastFrom s l)
          else if a = new then some (lastFrom s l) else prevOf mem a := by
        intro a
        rw [prevOf_memStore, prevOf_memStore, prevOf_memStore, hprev, prevOf_of_load hlast]
      rw [Linked.snoc]
      refine ⟨hl.retarget hnd ?_ ?_ ?_ ?_, ?_, ?_⟩
      · intro y hy hne
        rw [hN]
        rcases List.mem_cons.mp hy with rfl | hy
        · rw [if_pos rfl]
        · rw [if_neg (hsl y hy), if_neg hne, if_neg (hnl y hy)]
      · rw [hN, if_neg (Ne.symm hsp), if_pos rfl]
      · intro y hy
        rw [hP, if_neg (hsl y hy)]
        by_cases hyp : y = lastFrom s l
        · rw [if_pos hyp, hyp]
        · rw [if_neg hyp, if_neg (hnl y hy)]
      · rw [hP, if_neg (Ne.symm hsnew), if_neg (Ne.symm hpnew), if_pos rfl]
      · rw [hN, if_neg (Ne.symm hsnew), if_neg (Ne.symm hpnew), if_pos rfl]
      · rw [hP, if_pos rfl]

theorem RegistryInv.load_sentinel {w : World} {l : List Nat} (h : RegistryInv w l) :
    ∃ head, memLoad w.runLoop.fileHandleMem sentinelAddr = some head ∧
      head.prevFileHandle = lastFrom sentinelAddr l ∧
      head.nextFileHandle = l.headD sentinelAddr := by
  obtain ⟨head, hhead⟩ := h.linked.live_end
  refine ⟨head, hhead, ?_, ?_⟩
  · have := h.linked.prev_end
    rw [prevOf_of_load hhead] at this
    exact Option.some.inj this
  · have := h.linked.next_start
    rw [nextOf_of_load hhead] at this
    exact Option.some.inj this

theorem RegistryInv.load_mem {w : World} {l : List Nat} (h : RegistryInv w l) {a : Nat}
    (ha : a ∈ sentinelAddr :: l) : ∃ node, memLoad w.runLoop.fileHandleMem a = some node :=
  h.linked.live a ha

/-- Effect of `HAPPlatformFileHandleRegister` on the registry: the call does not fault, and
unless the allocation fails the new handle is the fresh address and is put at the end of the
list, not awaiting events; the other handles keep their content. -/
theorem HAPPlatformFileHandleRegister_registry (env : Env) (fd : Int)
    (i : HAPPlatformFileHandleEvent) (cb ctx : Nat) {w : World} {l : List Nat}
    (hinv : RegistryInv w l) :
    ∃ err fh w1, HAPPlatformFileHandleRegister env fd i cb ctx w = .ok (err, fh, w1) ∧
      w1.runLoop.fileHandleCursor = w.runLoop.fileHandleCursor ∧
      ((RegistryInv w1 l ∧ w1.runLoop.fileHandleMem = w.runLoop.fileHandleMem) ∨
       (fh = allocAddr w.numAllocs ∧ RegistryInv w1 (l ++ [fh]) ∧
        (∀ a, a ≠ fh →
          payloadOf w1.runLoop.fileHandleMem a = payloadOf w.runLoop.fileHandleMem a) ∧
        awaitingOf w1.runLoop.fileHandleMem fh = some false)) := by
  obtain ⟨head, hhead, hp, -⟩ := hinv.load_sentinel
  unfold HAPPlatformFileHandleRegister
  dsimp only
  by_cases hc : env.callocFails w.numAllocs = true
  · rw [if_pos hc]
    refine ⟨_, _, _, rfl, rfl, Or.inl ⟨?_, rfl⟩⟩
    exact ⟨hinv.sentinel, hinv.linked,
      fun h hh => ⟨(hinv.bounds h hh).1, by
        have := (hinv.bounds h hh).2
        unfold allocAddr at *
        show h < w.numAllocs + 1 + 2
        omega⟩, hinv.nodup, hinv.cells⟩
  · rw [if_neg hc]
    have hnew : allocAddr w.numAllocs ∉ sentinelAddr :: l := by
      intro hm
      obtain ⟨node, hnode⟩ := hinv.load_mem hm
      rw [hinv.fresh] at hnode
      cases hnode
    have hsnew : sentinelAddr ≠ allocAddr w.numAllocs :=
      fun h => hnew (h ▸ List.mem_cons_self _ _)
    have hpnew : lastFrom sentinelAddr l ≠ allocAddr w.numAllocs :=
      fun h => hnew (h ▸ lastFrom_mem _ l)
    obtain ⟨last, hlast⟩ := hinv.load_mem (lastFrom_mem sentinelAddr l)
    obtain ⟨head2, hhead2, hpay, hlinked⟩ :=
      Linked.insert_last (allocAddr w.numAllocs)
        { fileDescriptor := toSOCKET fd, interests := i, callback := cb, context := ctx,
          prevFileHandle := lastFrom sentinelAddr l, nextFileHandle := sentinelAddr,
          isAwaitingEvents := false }
        hinv.linked hinv.nodup_cons hnew hhead hlast rfl rfl
    have hlast1 : memLoad (memStore w.runLoop.fileHandleMem (allocAddr w.numAllocs)
        { fileDescriptor := toSOCKET fd, interests := i, callback := cb, context := ctx,
          prevFileHandle := lastFrom sentinelAddr l, nextFileHandle := sentinelAddr,
          isAwaitingEvents := false }) (lastFrom sentinelAddr l) = some last := by
      rw [memLoad_memStore, if_neg hpnew, hlast]
    simp only [hinv.sentinel, hhead, hp, hlast1, hhead2]
    refine ⟨_, _, _, rfl, rfl, Or.inr ⟨rfl, ?_, ?_, ?_⟩⟩
    · refine ⟨rfl, hlinked, ?_, ?_, ?_⟩
      · intro h hh
        rcases List.mem_append.mp hh with hh | hh
        · refine ⟨(hinv.bounds h hh).1, ?_⟩
          have := (hinv.bounds h hh).2
          unfold allocAddr at *
          show h < w.numAllocs + 1 + 2
          omega
        · rw [List.mem_singleton] at hh
          subst hh
          unfold allocAddr
          exact ⟨by omega, by show w.numAllocs + 2 < w.numAllocs + 1 + 2; omega⟩
      · rw [List.nodup_append]
        refine ⟨hinv.nodup, List.nodup_singleton _, ?_⟩
        intro a ha hb
        rw [List.mem_singleton] at hb
        subst hb
        exact hnew (List.mem_cons_of_mem _ ha)
      · intro a node hnode
        change memLoad (memStore (memStore (memStore _ _ _) _ _) _ _) a = some node at hnode
        rw [memLoad_memStore] at hnode
        by_cases h1 : a = sentinelAddr
        · exact Or.inl h1
        · rw [if_neg h1, memLoad_memStore] at hnode
          right
          by_cases h2 : a = lastFrom sentinelAddr l
          · rcases List.mem_cons.mp (h2 ▸ lastFrom_mem sentinelAddr l) with h3 | h3
            · exact absurd h3 h1
            · exact List.mem_append_left _ h3
          · rw [if_neg h2, memLoad_memStore] at hnode
            by_cases h3 : a = allocAddr w.numAllocs
            · rw [h3]; exact List.mem_append_right _ (List.mem_singleton.mpr rfl)
            · rw [if_neg h3] at hnode
              rcases hinv.cells a node hnode with h4 | h4
              · exact absurd h4 h1
              · exact List.mem_append_left _ h4
    · intro a ha
      show payloadOf (memStore (memStore (memStore _ _ _) _ _) _ _) a = _
      rw [payloadOf_memStore, payloadOf_memStore, payloadOf_memStore, if_neg ha]
      by_cases h1 : a = sentinelAddr
      · rw [if_pos h1, h1, payloadOf_of_load hhead]
        exact congrArg some (hpay ▸ rfl)
      · rw [if_neg h1]
        by_cases h2 : a = lastFrom sentinelAddr l
        · rw [if_pos h2, h2, payloadOf_of_load hlast]; rfl
        · rw [if_neg h2]
    · show awaitingOf (memStore (memStore (memStore _ _ _) _ _) _ _) _ = _
      unfold awaitingOf
      rw [memLoad_memStore, if_neg (Ne.symm hsnew), memLoad_memStore, if_neg (Ne.symm hpnew),
        memLoad_memStore, if_pos rfl]
      rfl

theorem nextOf_memFree (mem : FileHandleMem) (a b : Nat) :
    nextOf (memFree mem a) b = if b = a then none else nextOf mem b := by
  unfold nextOf
  rw [memLoad_memFree]
  split <;> rfl

theorem prevOf_memFree (mem : FileHandleMem) (a b : Nat) :
    prevOf (memFree mem a) b = if b = a then none else prevOf mem b := by
  unfold prevOf
  rw [memLoad_memFree]
  split <;> rfl

theorem payloadOf_memFree (mem : FileHandleMem) (a b : Nat) :
    payloadOf (memFree mem a) b = if b = a then none else payloadOf mem b := by
  unfold payloadOf
  rw [memLoad_memFree]
  split <;> rfl

theorem nodup_middle_facts {s h : Nat} {l1 l2 : List Nat}
    (hnd : (s :: (l1 ++ h :: l2)).Nodup) :
    (s :: l1).Nodup ∧ (h :: l2).Nodup ∧ s ≠ h ∧ s ∉ l2 ∧ h ∉ l1 ∧
      (∀ y ∈ l1, y ∉ l2) := by
  simp only [List.nodup_cons, List.nodup_append, List.mem_append, List.mem_cons, not_or] at hnd
  obtain ⟨⟨hs1, hsh, hs2⟩, hn1, ⟨hh2, hn2⟩, hdis⟩ := hnd
  refine ⟨List.nodup_cons.mpr ⟨hs1, hn1⟩, List.nodup_cons.mpr ⟨hh2, hn2⟩, hsh, hs2, ?_, ?_⟩
  · intro hm
    exact hdis hm (List.mem_cons_self _ _)
  · intro y hy hy2
    exact hdis hy (List.mem_cons_of_mem _ hy2)

theorem headD_mem_append (l2 : List Nat) (s : Nat) : l2.headD s ∈ l2 ++ [s] := by
  cases l2 with
  | nil => simp
  | cons x t => simp

/-- The two stores of `HAPPlatformFileHandleDeregister`, seen through the links. -/
theorem unlink_links {mem : FileHandleMem} {p n h : Nat} {before nodeN : HAPPlatformFileHandle}
    (hbefore : memLoad mem p = some before) (hnodeN : memLoad mem n = some nodeN) :
    ∃ after,
      memLoad (memStore mem p { before with nextFileHandle := n }) n = some after ∧
      (∀ a, a ≠ h →
        nextOf (memFree (memStore (memStore mem p { before with nextFileHandle := n }) n
          { after with prevFileHandle := p }) h) a =
          if a = p then some n else nextOf mem a) ∧
      (∀ a, a ≠ h →
        prevOf (memFree (memStore (memStore mem p { before with nextFileHandle := n }) n
          { after with prevFileHandle := p }) h) a =
          if a = n then some p else prevOf mem a) ∧
      (∀ a, a ≠ h →
        payloadOf (memFree (memStore (memStore mem p { before with nextFileHandle := n }) n
          { after with prevFileHandle := p }) h) a = payloadOf mem a) ∧
      (∀ a node, memLoad (memFree (memStore (memStore mem p { before with nextFileHandle := n }) n
          { after with prevFileHandle := p }) h) a = some node →
          a ≠ h ∧ ∃ node0, memLoad mem a = some node0) := by
  by_cases hnp : n = p
  · refine ⟨{ before with nextFileHandle := n }, ?_, ?_, ?_, ?_, ?_⟩
    · rw [memLoad_memStore, if_pos hnp]
    · intro a ha
      rw [nextOf_memFree, if_neg ha, nextOf_memStore, nextOf_memStore, hnp]
      by_cases h1 : a = p <;> simp [h1]
    · intro a ha
      rw [prevOf_memFree, if_neg ha, prevOf_memStore, prevOf_memStore, hnp]
      by_cases h1 : a = p <;> simp [h1]
    · intro a ha
      rw [payloadOf_memFree, if_neg ha, payloadOf_memStore, payloadOf_memStore, hnp]
      by_cases h1 : a = p
      · simp only [h1, if_true]; rw [payloadOf_of_load hbefore]; rfl
      · simp only [h1, if_false]
    · intro a node hnode
      rw [memLoad_memFree] at hnode
      by_cases ha : a = h
      · rw [if_pos ha] at hnode; cases hnode
      · refine ⟨ha, ?_⟩
        rw [if_neg ha, memLoad_memStore, memLoad_memStore, hnp] at hnode
        by_cases h1 : a = p
        · exact ⟨before, h1 ▸ hbefore⟩
        · simp only [h1, if_false] at hnode; exact ⟨node, hnode⟩
  · refine ⟨nodeN, ?_, ?_, ?_, ?_, ?_⟩
    · rw [memLoad_memStore, if_neg hnp, hnodeN]
    · intro a ha
      rw [nextOf_memFree, if_neg ha, nextOf_memStore, nextOf_memStore]
      by_cases h1 : a = n
      · rw [if_pos h1, h1, if_neg hnp, nextOf_of_load hnodeN]
      · rw [if_neg h1]
    · intro a ha
      rw [prevOf_memFree, if_neg ha, prevOf_memStore, prevOf_memStore]
      by_cases h1 : a = n
      · rw [if_pos h1, if_pos h1]
      · rw [if_neg h1, if_neg h1]
        by_cases h2 : a = p
        · rw [if_pos h2, h2, prevOf_of_load hbefore]
        · rw [if_neg h2]
    · intro a ha
      rw [payloadOf_memFree, if_neg ha, payloadOf_memStore, payloadOf_memStore]
      by_cases h1 : a = n
      · rw [if_pos h1, h1, payloadOf_of_load hnodeN]; rfl
      · rw [if_neg h1]
        by_cases h2 : a = p
        · rw [if_pos h2, h2, payloadOf_of_load hbefore]; rfl
        · rw [if_neg h2]
    · intro a node hnode
      rw [memLoad_memFree] at hnode
      by_cases ha : a = h
      · rw [if_pos ha] at hnode; cases hnode
      · refine ⟨ha, ?_⟩
        rw [if_neg ha, memLoad_memStore, memLoad_memStore] at hnode
        by_cases h1 : a = n
        · exact ⟨nodeN, h1 ▸ hnodeN⟩
        · rw [if_neg h1] at hnode
          by_cases h2 : a = p
          · exact ⟨before, h2 ▸ hbefore⟩
          · rw [if_neg h2] at hnode; exact ⟨node, hnode⟩

/-- Unlinking a cell of the list removes it and keeps the other cells in order. -/
theorem Linked.remove {mem mem' : FileHandleMem} {s h : Nat} {l1 l2 : List Nat}
    (hl : Linked mem s (l1 ++ h :: l2) s) (hnd : (s :: (l1 ++ h :: l2)).Nodup)
    (hN : ∀ a, a ≠ h →
      nextOf mem' a = if a = lastFrom s l1 then some (l2.headD s) else nextOf mem a)
    (hP : ∀ a, a ≠ h →
      prevOf mem' a = if a = l2.headD s then some (lastFrom s l1) else prevOf mem a) :
    Linked mem' s (l1 ++ l2) s := by
  obtain ⟨hnd1, hnd2, hsh, hs2, hh1, hdis⟩ := nodup_middle_facts hnd
  obtain ⟨h1, h2⟩ := Linked.append.mp hl
  have hph : lastFrom s l1 ≠ h := by
    intro he
    rcases List.mem_cons.mp (lastFrom_mem s l1) with hm | hm
    · exact hsh (hm.symm.trans he)
    · exact hh1 (he ▸ hm)
  have hnh : l2.headD s ≠ h := by
    intro he
    rcases List.mem_append.mp (headD_mem_append l2 s) with hm | hm
    · exact (List.nodup_cons.mp hnd2).1 (he ▸ hm)
    · rw [List.mem_singleton] at hm
      exact hsh (hm.symm.trans he)
  have hy1 : ∀ y ∈ s :: l1, y ≠ h := by
    intro y hy he
    rcases List.mem_cons.mp hy with hm | hm
    · exact hsh (hm.symm.trans he)
    · exact hh1 (he ▸ hm)
  have hy1n : ∀ y ∈ l1, y ≠ l2.headD s := by
    intro y hy he
    rcases List.mem_append.mp (headD_mem_append l2 s) with hm | hm
    · exact hdis y hy (he ▸ hm)
    · rw [List.mem_singleton] at hm
      exact (List.nodup_cons.mp hnd1).1 (hm ▸ he ▸ hy)
  have hfirst : Linked mem' s l1 (l2.headD s) := by
    refine h1.retarget hnd1 ?_ ?_ ?_ ?_
    · intro y hy hne
      rw [hN y (hy1 y hy), if_neg hne]
    · rw [hN _ hph, if_pos rfl]
    · intro y hy
      rw [hP y (hy1 y (List.mem_cons_of_mem _ hy)), if_neg (hy1n y hy)]
    · rw [hP _ hnh, if_pos rfl]
  cases l2 with
  | nil => simpa using hfirst
  | cons n t =>
    rw [Linked.append]
    refine ⟨hfirst, ?_⟩
    have hnt := List.nodup_cons.mp (List.nodup_cons.mp hnd2).2
    have hy2h : ∀ y ∈ n :: t, y ≠ h := fun y hy he => (List.nodup_cons.mp hnd2).1 (he ▸ hy)
    have hy2p : ∀ y ∈ n :: t, y ≠ lastFrom s l1 := by
      intro y hy he
      rcases List.mem_cons.mp (lastFrom_mem s l1) with hm | hm
      · exact hs2 (hm ▸ he ▸ hy)
      · exact hdis _ hm (he ▸ hy)
    refine h2.2.congr ?_ ?_
    · intro y hy
      rw [hN y (hy2h y hy), if_neg (hy2p y hy)]
    · intro y hy
      rcases List.mem_append.mp hy with hm | hm
      · rw [hP y (hy2h y (List.mem_cons_of_mem _ hm)), if_neg]
        intro he
        exact hnt.1 (by simpa [he] using hm)
      · rw [List.mem_singleton] at hm
        rw [hm, hP s hsh, if_neg]
        intro he
        have he2 : s = n := he
        exact hs2 (by rw [he2]; exact List.mem_cons_self _ _)

/-- Effect of `HAPPlatformFileHandleDeregister` on the registry: a registered handle is taken
out of the list, its cell is released, the cursor moves to the next handle when it was at the
removed one, and the other handles keep their place and content. -/
theorem HAPPlatformFileHandleDeregister_registry {w : World} {l1 l2 : List Nat} {h : Nat}
    (hinv : RegistryInv w (l1 ++ h :: l2)) :
    ∃ w1, HAPPlatformFileHandleDeregister h w = .ok w1 ∧
      RegistryInv w1 (l1 ++ l2) ∧
      w1.runLoop.fileHandleCursor =
        (if h = w.runLoop.fileHandleCursor then l2.headD sentinelAddr
         else w.runLoop.fileHandleCursor) ∧
      (∀ a, a ≠ h →
        payloadOf w1.runLoop.fileHandleMem a = payloadOf w.runLoop.fileHandleMem a) ∧
      memLoad w1.runLoop.fileHandleMem h = none := by
  have hhl : h ∈ l1 ++ h :: l2 := List.mem_append_right _ (List.mem_cons_self _ _)
  have hb := hinv.bounds h hhl
  have hnull : h ≠ NULL := by unfold NULL; omega
  have hsent : h ≠ sentinelAddr := by unfold sentinelAddr; omega
  obtain ⟨node, hnode⟩ := hinv.load_mem (List.mem_cons_of_mem _ hhl)
  obtain ⟨h1, h2⟩ := Linked.append.mp hinv.linked
  have hprev : node.prevFileHandle = lastFrom sentinelAddr l1 := by
    have := h1.prev_end
    rw [prevOf_of_load hnode] at this
    exact Option.some.inj this
  have hnext : node.nextFileHandle = l2.headD sentinelAddr := by
    have := h2.next_start
    rw [nextOf_of_load hnode] at this
    exact Option.some.inj this
  have hpmem : lastFrom sentinelAddr l1 ∈ sentinelAddr :: (l1 ++ h :: l2) := by
    rcases List.mem_cons.mp (lastFrom_mem sentinelAddr l1) with hm | hm
    · rw [hm]; exact List.mem_cons_self _ _
    · exact List.mem_cons_of_mem _ (List.mem_append_left _ hm)
  have hnmem : l2.headD sentinelAddr ∈ sentinelAddr :: (l1 ++ h :: l2) := by
    rcases List.mem_append.mp (headD_mem_append l2 sentinelAddr) with hm | hm
    · exact List.mem_cons_of_mem _ (List.mem_append_right _ (List.mem_cons_of_mem _ hm))
    · rw [List.mem_singleton] at hm
      rw [hm]; exact List.mem_cons_self _ _
  have hge : ∀ a ∈ sentinelAddr :: (l1 ++ h :: l2), a ≠ NULL := by
    intro a ha
    rcases List.mem_cons.mp ha with hm | hm
    · rw [hm]; unfold sentinelAddr NULL; omega
    · have := (hinv.bounds a hm).1
      unfold NULL; omega
  obtain ⟨before, hbefore⟩ := hinv.load_mem hpmem
  obtain ⟨nodeN, hnodeN⟩ := hinv.load_mem hnmem
  obtain ⟨after, hafter, hN, hP, hpay, hcells⟩ := unlink_links (h := h) hbefore hnodeN
  unfold HAPPlatformFileHandleDeregister
  simp only [if_neg hnull, hnode, hprev, hnext, if_neg (hge _ hpmem), if_neg (hge _ hnmem),
    hbefore, hafter, if_neg hsent]
  refine ⟨_, rfl, ?_, rfl, hpay, ?_⟩
  · refine ⟨hinv.sentinel, Linked.remove hinv.linked hinv.nodup_cons hN hP, ?_, ?_, ?_⟩
    · intro a ha
      refine hinv.bounds a ?_
      rcases List.mem_append.mp ha with hm | hm
      · exact List.mem_append_left _ hm
      · exact List.mem_append_right _ (List.mem_cons_of_mem _ hm)
    · have := hinv.nodup
      rw [List.nodup_append] at this ⊢
      refine ⟨this.1, (List.nodup_cons.mp this.2.1).2, ?_⟩
      intro a ha hb
      exact this.2.2 ha (List.mem_cons_of_mem _ hb)
    · intro a node1 hnode1
      obtain ⟨hah, node0, hnode0⟩ := hcells a node1 hnode1
      rcases hinv.cells a node0 hnode0 with hm | hm
      · exact Or.inl hm
      · right
        rcases List.mem_append.mp hm with hm | hm
        · exact List.mem_append_left _ hm
        · rcases List.mem_cons.mp hm with hm | hm
          · exact absurd hm hah
          · exact List.mem_append_right _ hm
  · show memLoad (memFree _ _) _ = _
    rw [memLoad_memFree, if_pos rfl]

/-- A successful `HAPPlatformFileHandleDeregister` was given a registered handle. -/
theorem HAPPlatformFileHandleDeregister_mem {w w1 : World} {l : List Nat} {h : Nat}
    (hinv : RegistryInv w l) (hd : HAPPlatformFileHandleDeregister h w = .ok w1) : h ∈ l := by
  unfold HAPPlatformFileHandleDeregister at hd
  dsimp only at hd
  split at hd
  · cases hd
  · split at hd
    · cases hd
    · rename_i node hnode
      split at hd
      · cases hd
      · split at hd
        · cases hd
        · split at hd
          · cases hd
          · split at hd
            · cases hd
            · split at hd
              · cases hd
              · rename_i hs
                rcases hinv.cells _ _ hnode with hm | hm
                · exact absurd hm hs
                · exact hm

/-! ## The registry along executions -/

/-- The registry invariant depends on the machine only through the links of the cells. -/
theorem RegistryInv.registry_of_links {w w1 : World} {l : List Nat} (h : RegistryInv w l)
    (hs : w1.runLoop.fileHandles = w.runLoop.fileHandles) (hn : w.numAllocs ≤ w1.numAllocs)
    (hnext : ∀ a, nextOf w1.runLoop.fileHandleMem a = nextOf w.runLoop.fileHandleMem a)
    (hprev : ∀ a, prevOf w1.runLoop.fileHandleMem a = prevOf w.runLoop.fileHandleMem a) :
    RegistryInv w1 l := by
  refine ⟨hs.trans h.sentinel, h.linked.congr (fun y _ => hnext y) (fun y _ => hprev y), ?_,
    h.nodup, ?_⟩
  · intro a ha
    have := h.bounds a ha
    unfold allocAddr at *
    exact ⟨this.1, by omega⟩
  · intro a node hnode
    have h1 := hnext a
    rw [nextOf_of_load hnode] at h1
    cases hm : memLoad w.runLoop.fileHandleMem a with
    | none => unfold nextOf at h1; rw [hm] at h1; cases h1
    | some node0 => exact h.cells a node0 hm

theorem RegistryInv.registry_of_mem_eq {w w1 : World} {l : List Nat} (h : RegistryInv w l)
    (hm : w1.runLoop.fileHandleMem = w.runLoop.fileHandleMem)
    (hs : w1.runLoop.fileHandles = w.runLoop.fileHandles) (hn : w.numAllocs ≤ w1.numAllocs) :
    RegistryInv w1 l :=
  h.registry_of_links hs hn (fun a => by rw [hm]) (fun a => by rw [hm])

theorem DispatchInv.dispatch_of_links {w w1 : World} {v p : List Nat} (h : DispatchInv w v p)
    (hs : w1.runLoop.fileHandles = w.runLoop.fileHandles)
    (hc : w1.runLoop.fileHandleCursor = w.runLoop.fileHandleCursor)
    (hn : w.numAllocs ≤ w1.numAllocs)
    (hnext : ∀ a, nextOf w1.runLoop.fileHandleMem a = nextOf w.runLoop.fileHandleMem a)
    (hprev : ∀ a, prevOf w1.runLoop.fileHandleMem a = prevOf w.runLoop.fileHandleMem a)
    (haw : ∀ a ∈ v,
      awaitingOf w1.runLoop.fileHandleMem a = awaitingOf w.runLoop.fileHandleMem a) :
    DispatchInv w1 v p :=
  ⟨h.registry.registry_of_links hs hn hnext hprev, hc.trans h.cursor,
    fun a ha => (haw a ha).trans (h.idle a ha)⟩

theorem DispatchInv.dispatch_of_mem_eq {w w1 : World} {v p : List Nat} (h : DispatchInv w v p)
    (hm : w1.runLoop.fileHandleMem = w.runLoop.fileHandleMem)
    (hs : w1.runLoop.fileHandles = w.runLoop.fileHandles)
    (hc : w1.runLoop.fileHandleCursor = w.runLoop.fileHandleCursor)
    (hn : w.numAllocs ≤ w1.numAllocs) : DispatchInv w1 v p :=
  h.dispatch_of_links hs hc hn (fun a => by rw [hm]) (fun a => by rw [hm]) (fun a _ => by rw [hm])

theorem PassInv.pass_of_mem_eq {w w1 : World} {k : Nat} (h : PassInv w k)
    (hm : w1.runLoop.fileHandleMem = w.runLoop.fileHandleMem)
    (hs : w1.runLoop.fileHandles = w.runLoop.fileHandles)
    (hc : w1.runLoop.fileHandleCursor = w.runLoop.fileHandleCursor)
    (hn : w.numAllocs ≤ w1.numAllocs) : PassInv w1 k := by
  obtain ⟨v, p, hd, hk⟩ := h
  exact ⟨v, p, hd.dispatch_of_mem_eq hm hs hc hn, by rw [hm]; exact hk⟩

theorem awaitingCount_congr {mem mem' : FileHandleMem} {l : List Nat}
    (h : ∀ a ∈ l, awaitingOf mem' a = awaitingOf mem a) :
    awaitingCount mem' l = awaitingCount mem l := by
  unfold awaitingCount
  congr 1
  apply List.filter_congr
  intro a ha
  rw [h a ha]

theorem awaitingCount_append (mem : FileHandleMem) (l1 l2 : List Nat) :
    awaitingCount mem (l1 ++ l2) = awaitingCount mem l1 + awaitingCount mem l2 := by
  unfold awaitingCount
  rw [List.filter_append, List.length_append]

theorem awaitingCount_cons (mem : FileHandleMem) (a : Nat) (l : List Nat) :
    awaitingCount mem (a :: l) =
      (if awaitingOf mem a = some true then 1 else 0) + awaitingCount mem l := by
  unfold awaitingCount
  rw [List.filter_cons]
  by_cases h : awaitingOf mem a = some true
  · simp [h]; omega
  · simp [h]

theorem awaitingOf_of_payloadOf {mem mem' : FileHandleMem} {a : Nat}
    (h : payloadOf mem' a = payloadOf mem a) : awaitingOf mem' a = awaitingOf mem a := by
  rw [awaitingOf_eq_payloadOf, awaitingOf_eq_payloadOf, h]

theorem awaitingOf_memStore (mem : FileHandleMem) (a b : Nat) (v : HAPPlatformFileHandle) :
    awaitingOf (memStore mem a v) b =
      if b = a then some v.isAwaitingEvents else awaitingOf mem b := by
  unfold awaitingOf
  rw [memLoad_memStore]
  split <;> rfl

/-- The function `HAPPlatformFileHandleUpdateInterests` leaves the links and the
awaiting-events flags alone. -/
theorem HAPPlatformFileHandleUpdateInterests_links {fh : Nat}
    {i : HAPPlatformFileHandleEvent} {cb ctx : Nat} {w w1 : World}
    (h : HAPPlatformFileHandleUpdateInterests fh i cb ctx w = .ok w1) :
    w1.runLoop.fileHandles = w.runLoop.fileHandles ∧
    w1.runLoop.fileHandleCursor = w.runLoop.fileHandleCursor ∧
    w1.numAllocs = w.numAllocs ∧
    (∀ a, nextOf w1.runLoop.fileHandleMem a = nextOf w.runLoop.fileHandleMem a) ∧
    (∀ a, prevOf w1.runLoop.fileHandleMem a = prevOf w.runLoop.fileHandleMem a) ∧
    (∀ a, awaitingOf w1.runLoop.fileHandleMem a = awaitingOf w.runLoop.fileHandleMem a) := by
  unfold HAPPlatformFileHandleUpdateInterests at h
  split at h
  · cases h
  · split at h
    · cases h
    · rename_i node hnode
      cases h
      refine ⟨rfl, rfl, rfl, ?_, ?_, ?_⟩
      · intro a
        show nextOf (memStore _ _ _) a = _
        rw [nextOf_memStore]
        by_cases ha : a = fh
        · rw [if_pos ha, ha, nextOf_of_load hnode]
        · rw [if_neg ha]
      · intro a
        show prevOf (memStore _ _ _) a = _
        rw [prevOf_memStore]
        by_cases ha : a = fh
        · rw [if_pos ha, ha, prevOf_of_load hnode]
        · rw [if_neg ha]
      · intro a
        show awaitingOf (memStore _ _ _) a = _
        rw [awaitingOf_memStore]
        by_cases ha : a = fh
        · rw [if_pos ha, ha]; unfold awaitingOf; rw [hnode]; rfl
        · rw [if_neg ha]

theorem headD_append_of_ne_nil {p : List Nat} (hp : p ≠ []) (q : List Nat) (s : Nat) :
    (p ++ q).headD s = p.headD s := by
  cases p with
  | nil => exact absurd rfl hp
  | cons x t => rfl

theorem headD_mem_or {p : List Nat} {s : Nat} : p.headD s = s ∨ p.headD s ∈ p := by
  cases p with
  | nil => exact Or.inl rfl
  | cons x t => exact Or.inr (List.mem_cons_self _ _)

/-- A call of an API function from a callback keeps a dispatch pass in order: the handles yet
to be visited are still linked behind the cursor, and no more of them are awaiting events than
before. -/
theorem PassInv.pass_of_apiUpdate {env : Env} {w w1 : World} {k : Nat} (h : ApiUpdate env w w1)
    (hp : PassInv w k) : PassInv w1 k := by
  cases h with
  | timerRegister heq =>
    obtain ⟨l, rfl⟩ := HAPPlatformTimerRegister_shape heq
    exact hp.pass_of_mem_eq rfl rfl rfl (Nat.le_succ _)
  | timerDeregister heq =>
    obtain ⟨l, _, rfl⟩ := HAPPlatformTimerDeregister_ok heq
    exact hp.pass_of_mem_eq rfl rfl rfl (le_refl _)
  | fileHandleRegister heq =>
    rename_i fd i cb ctx err fh
    obtain ⟨v, p, hd, hk⟩ := hp
    obtain ⟨err1, fh1, w2, heq1, hcur, hcases⟩ :=
      HAPPlatformFileHandleRegister_registry env fd i cb ctx hd.registry
    rw [heq] at heq1
    cases heq1
    have hn : w.numAllocs ≤ w1.numAllocs := by
      obtain ⟨m, rfl⟩ := HAPPlatformFileHandleRegister_shape heq
      exact Nat.le_succ _
    rcases hcases with ⟨hreg, hmem⟩ | ⟨hfh, hreg, hpay, hnew⟩
    · exact ⟨v, p, ⟨hreg, hcur.trans hd.cursor, fun a ha => by rw [hmem]; exact hd.idle a ha⟩,
        by rw [hmem]; exact hk⟩
    · have hfresh : fh ∉ v ++ p := by
        intro hm
        have := (hd.registry.bounds fh hm).2
        rw [hfh] at this
        omega
      have hne : ∀ a ∈ v ++ p, a ≠ fh := fun a ha he => hfresh (he ▸ ha)
      by_cases hpe : p = []
      · subst hpe
        refine ⟨v ++ [fh], [], ⟨by simpa using hreg, hcur.trans hd.cursor, ?_⟩, ?_⟩
        · intro a ha
          rcases List.mem_append.mp ha with hm | hm
          · rw [awaitingOf_of_payloadOf (hpay a (hne a (by simpa using hm)))]
            exact hd.idle a hm
          · rw [List.mem_singleton] at hm
            rw [hm]; exact hnew
        · simp [awaitingCount]
      · refine ⟨v, p ++ [fh], ⟨by rw [← List.append_assoc]; exact hreg, ?_, ?_⟩, ?_⟩
        · rw [headD_append_of_ne_nil hpe]
          exact hcur.trans hd.cursor
        · intro a ha
          rw [awaitingOf_of_payloadOf (hpay a (hne a (List.mem_append_left _ ha)))]
          exact hd.idle a ha
        · have h1 : awaitingCount w1.runLoop.fileHandleMem p =
              awaitingCount w.runLoop.fileHandleMem p :=
            awaitingCount_congr fun a ha =>
              awaitingOf_of_payloadOf (hpay a (hne a (List.mem_append_right _ ha)))
          have h0 : awaitingCount w1.runLoop.fileHandleMem [] = 0 := rfl
          rw [awaitingCount_append, awaitingCount_cons, hnew, h1, h0,
            if_neg (by simp)]
          omega
  | fileHandleUpdateInterests heq =>
    obtain ⟨hs, hc, hn, hnext, hprev, haw⟩ := HAPPlatformFileHandleUpdateInterests_links heq
    obtain ⟨v, p, hd, hk⟩ := hp
    exact ⟨v, p, hd.dispatch_of_links hs hc (le_of_eq hn.symm) hnext hprev (fun a _ => haw a),
      by rw [awaitingCount_congr fun a _ => haw a]; exact hk⟩
  | fileHandleDeregister heq =>
    rename_i fh
    obtain ⟨v, p, hd, hk⟩ := hp
    have hmem := HAPPlatformFileHandleDeregister_mem hd.registry heq
    have hnd := hd.registry.nodup
    have hsn := hd.registry.sentinel_not_mem
    rcases List.mem_append.mp hmem with hv | hpm
    · obtain ⟨v1, v2, rfl⟩ := List.append_of_mem hv
      have hreg0 : RegistryInv w (v1 ++ fh :: (v2 ++ p)) := by
        have := hd.registry
        simpa using this
      obtain ⟨w2, heq2, hreg, hcur, hpay, -⟩ := HAPPlatformFileHandleDeregister_registry hreg0
      rw [heq] at heq2
      cases heq2
      have hfp : fh ∉ p := by
        intro hm
        exact (List.nodup_append.mp hnd).2.2 hv hm
      have hcne : fh ≠ w.runLoop.fileHandleCursor := by
        rw [hd.cursor]
        intro he
        rcases headD_mem_or (p := p) (s := sentinelAddr) with h1 | h1
        · exact hsn (by rw [← h1, ← he]; exact hmem)
        · exact hfp (he ▸ h1)
      refine ⟨v1 ++ v2, p, ⟨by simpa using hreg, ?_, ?_⟩, ?_⟩
      · rw [hcur, if_neg hcne]; exact hd.cursor
      · intro a ha
        have hav : a ∈ v1 ++ fh :: v2 := by
          rcases List.mem_append.mp ha with hm | hm
          · exact List.mem_append_left _ hm
          · exact List.mem_append_right _ (List.mem_cons_of_mem _ hm)
        have hne : a ≠ fh := by
          intro he
          have hnv := (List.nodup_append.mp hnd).1
          rw [List.nodup_append] at hnv
          rcases List.mem_append.mp ha with hm | hm
          · exact hnv.2.2 hm (he ▸ List.mem_cons_self _ _)
          · exact (List.nodup_cons.mp hnv.2.1).1 (he ▸ hm)
        rw [awaitingOf_of_payloadOf (hpay a hne)]
        exact hd.idle a hav
      · rw [awaitingCount_congr fun a ha =>
          awaitingOf_of_payloadOf (hpay a (fun he => hfp (he ▸ ha)))]
        exact hk
    · obtain ⟨p1, p2, rfl⟩ := List.append_of_mem hpm
      have hreg0 : RegistryInv w ((v ++ p1) ++ fh :: p2) := by
        have := hd.registry
        simpa using this
      obtain ⟨w2, heq2, hreg, hcur, hpay, -⟩ := HAPPlatformFileHandleDeregister_registry hreg0
      rw [heq] at heq2
      cases heq2
      have hndp := (List.nodup_append.mp hnd).2.1
      rw [List.nodup_append] at hndp
      have hf1 : fh ∉ p1 := fun hm => hndp.2.2 hm (List.mem_cons_self _ _)
      have hf2 : fh ∉ p2 := (List.nodup_cons.mp hndp.2.1).1
      have hfv : fh ∉ v := fun hm => (List.nodup_append.mp hnd).2.2 hm hpm
      refine ⟨v, p1 ++ p2, ⟨by simpa using hreg, ?_, ?_⟩, ?_⟩
      · rw [hcur, hd.cursor]
        cases p1 with
        | nil => simp
        | cons c t =>
          have : fh ≠ c := fun he => hf1 (he ▸ List.mem_cons_self _ _)
          simp [this]
      · intro a ha
        rw [awaitingOf_of_payloadOf (hpay a (fun he => hfv (he ▸ ha)))]
        exact hd.idle a ha
      · have h1 : awaitingCount w1.runLoop.fileHandleMem (p1 ++ p2) =
            awaitingCount w.runLoop.fileHandleMem (p1 ++ p2) :=
          awaitingCount_congr fun a ha => awaitingOf_of_payloadOf (hpay a (fun he => by
            rcases List.mem_append.mp ha with hm | hm
            · exact hf1 (he ▸ hm)
            · exact hf2 (he ▸ hm)))
        rw [h1]
        rw [awaitingCount_append, awaitingCount_cons] at hk
        rw [awaitingCount_append]
        omega
  | scheduleCallback heq =>
    rcases HAPPlatformRunLoopScheduleCallback_cases heq with ⟨_, rfl, _⟩ | ⟨_, _, _, _, rfl⟩
    · exact hp.pass_of_mem_eq rfl rfl rfl (le_refl _)
    · exact hp.pass_of_mem_eq rfl rfl rfl (le_refl _)
  | stop =>
    unfold HAPPlatformRunLoopStop
    split
    · exact hp.pass_of_mem_eq rfl rfl rfl (le_refl _)
    · exact hp
  | store => exact hp.pass_of_mem_eq rfl rfl rfl (le_refl _)

theorem PassInv.pass_of_runProg {env : Env} {p : Prog} {w w1 : World} {k : Nat}
    (h : runProg env p w = .ok w1) (hp : PassInv w k) : PassInv w1 k :=
  (runProg_apiUpdates env p w w1 h).api_keeps (fun _ _ hu hq => PassInv.pass_of_apiUpdate hu hq) hp

theorem PassInv.of_selfPipeHandleCallback {env : Env} {ev : HAPPlatformFileHandleEvent}
    {w w1 : World} {k : Nat} (h : SelfPipeHandleCallback env ev w = .ok w1)
    (hp : PassInv w k) : PassInv w1 k := by
  unfold SelfPipeHandleCallback at h
  dsimp only at h
  split at h
  · split at h
    · exact PassInv.pass_of_runProg h (hp.pass_of_mem_eq rfl rfl rfl (le_refl _))
    · cases h
      exact hp.pass_of_mem_eq rfl rfl rfl (le_refl _)
  · cases h; exact hp

theorem PassInv.of_invokeFileHandleCallback {env : Env} {fileHandle : Nat}
    {node : HAPPlatformFileHandle} {ev : HAPPlatformFileHandleEvent} {w w1 : World} {k : Nat}
    (h : invokeFileHandleCallback env fileHandle node ev w = .ok w1) (hp : PassInv w k) :
    PassInv w1 k := by
  unfold invokeFileHandleCallback at h
  dsimp only at h
  split at h
  · exact PassInv.of_selfPipeHandleCallback h (hp.pass_of_mem_eq rfl rfl rfl (le_refl _))
  · exact PassInv.pass_of_runProg h (hp.pass_of_mem_eq rfl rfl rfl (le_refl _))

/-- What the dispatch loop finds at the cursor. -/
theorem DispatchInv.at_cursor {w : World} {v t : List Nat} {h : Nat}
    (hd : DispatchInv w v (h :: t)) :
    w.runLoop.fileHandleCursor = h ∧ h ≠ w.runLoop.fileHandles ∧ h ∉ v ∧ h ∉ t ∧
    ∃ node, memLoad w.runLoop.fileHandleMem h = some node ∧
      node.nextFileHandle = t.headD sentinelAddr := by
  have hmem : h ∈ v ++ h :: t := List.mem_append_right _ (List.mem_cons_self _ _)
  have hnd := hd.registry.nodup
  obtain ⟨node, hnode⟩ := hd.registry.load_mem (List.mem_cons_of_mem _ hmem)
  refine ⟨hd.cursor, ?_, ?_, ?_, node, hnode, ?_⟩
  · rw [hd.registry.sentinel]
    intro he
    exact hd.registry.sentinel_not_mem (he ▸ hmem)
  · intro hm
    exact (List.nodup_append.mp hnd).2.2 hm (List.mem_cons_self _ _)
  · exact (List.nodup_cons.mp (List.nodup_append.mp hnd).2.1).1
  · have := (Linked.append.mp hd.registry.linked).2.next_start
    rw [nextOf_of_load hnode] at this
    exact Option.some.inj this

/-- The dispatch loop passes a handle that is not awaiting events. -/
theorem DispatchInv.visit_idle {w w1 : World} {v t : List Nat} {h : Nat}
    {node : HAPPlatformFileHandle} (hd : DispatchInv w v (h :: t))
    (hnode : memLoad w.runLoop.fileHandleMem h = some node)
    (hflag : node.isAwaitingEvents = false)
    (hs : w1.runLoop.fileHandles = w.runLoop.fileHandles)
    (hc : w1.runLoop.fileHandleCursor = node.nextFileHandle)
    (hn : w1.numAllocs = w.numAllocs)
    (hm : w1.runLoop.fileHandleMem = w.runLoop.fileHandleMem) :
    DispatchInv w1 (v ++ [h]) t := by
  obtain ⟨_, _, _, _, node1, hnode1, hnext⟩ := hd.at_cursor
  rw [hnode] at hnode1
  cases hnode1
  refine ⟨?_, hc.trans hnext, ?_⟩
  · have := hd.registry.registry_of_mem_eq hm hs (le_of_eq hn.symm)
    simpa using this
  · intro a ha
    rw [hm]
    rcases List.mem_append.mp ha with ha | ha
    · exact hd.idle a ha
    · rw [List.mem_singleton] at ha
      rw [ha]
      unfold awaitingOf
      rw [hnode]
      exact congrArg some hflag

/-- The dispatch loop passes a handle that is awaiting events and clears its flag. -/
theorem DispatchInv.visit_awaiting {w : World} (w1 : World) {v t : List Nat} {h : Nat}
    {node : HAPPlatformFileHandle} (hd : DispatchInv w v (h :: t))
    (hnode : memLoad w.runLoop.fileHandleMem h = some node)
    (hflag : node.isAwaitingEvents = true)
    (hs : w1.runLoop.fileHandles = w.runLoop.fileHandles)
    (hc : w1.runLoop.fileHandleCursor = node.nextFileHandle)
    (hn : w1.numAllocs = w.numAllocs)
    (hm : w1.runLoop.fileHandleMem =
      memStore w.runLoop.fileHandleMem h { node with isAwaitingEvents := false }) :
    DispatchInv w1 (v ++ [h]) t ∧
      awaitingCount w1.runLoop.fileHandleMem t + 1 =
        awaitingCount w.runLoop.fileHandleMem (h :: t) := by
  obtain ⟨_, _, hv, ht, node1, hnode1, hnext⟩ := hd.at_cursor
  rw [hnode] at hnode1
  cases hnode1
  have haw : ∀ a, a ≠ h →
      awaitingOf w1.runLoop.fileHandleMem a = awaitingOf w.runLoop.fileHandleMem a := by
    intro a ha
    rw [hm, awaitingOf_memStore, if_neg ha]
  refine ⟨⟨?_, hc.trans hnext, ?_⟩, ?_⟩
  · have : RegistryInv w1 (v ++ h :: t) := by
      refine hd.registry.registry_of_links hs (le_of_eq hn.symm) ?_ ?_
      · intro a
        rw [hm, nextOf_memStore]
        by_cases ha : a = h
        · rw [if_pos ha, ha, nextOf_of_load hnode]
        · rw [if_neg ha]
      · intro a
        rw [hm, prevOf_memStore]
        by_cases ha : a = h
        · rw [if_pos ha, ha, prevOf_of_load hnode]
        · rw [if_neg ha]
    simpa using this
  · intro a ha
    rcases List.mem_append.mp ha with ha | ha
    · rw [haw a (fun he => hv (he ▸ ha))]
      exact hd.idle a ha
    · rw [List.mem_singleton] at ha
      rw [ha, hm, awaitingOf_memStore, if_pos rfl]
  · rw [awaitingCount_cons, awaitingCount_congr fun a ha => haw a (fun he => ht (he ▸ ha))]
    have : awaitingOf w.runLoop.fileHandleMem h = some true := by
      unfold awaitingOf
      rw [hnode]
      exact congrArg some hflag
    rw [if_pos this]
    omega

/-! ## The dispatch pass -/

/-- One turn of the loop of `ProcessSelectedFileHandles` at a handle that is not awaiting
events. -/
theorem dispatchLoop_idle (env : Env) (pollFds : List WSAPOLLFD) {w : World}
    {node : HAPPlatformFileHandle}
    (hne : w.runLoop.fileHandleCursor ≠ w.runLoop.fileHandles)
    (hnode : memLoad w.runLoop.fileHandleMem w.runLoop.fileHandleCursor = some node)
    (hflag : node.isAwaitingEvents = false) (fuel : Nat) :
    dispatchLoop env pollFds (fuel + 1) w =
      dispatchLoop env pollFds fuel
        { w with runLoop := { w.runLoop with fileHandleCursor := node.nextFileHandle } } := by
  simp only [dispatchLoop, if_neg hne, hnode, hflag]
  rfl

/-- One turn of the loop of `ProcessSelectedFileHandles` at a handle that is awaiting events:
the assertion on the descriptor fails, or the loop goes on after clearing the flag, or it goes
on after the callback, invoked on the machine with the cursor advanced and the flag cleared. -/
theorem dispatchLoop_awaiting (env : Env) (pollFds : List WSAPOLLFD) {w : World}
    {node : HAPPlatformFileHandle}
    (hne : w.runLoop.fileHandleCursor ≠ w.runLoop.fileHandles)
    (hnode : memLoad w.runLoop.fileHandleMem w.runLoop.fileHandleCursor = some node)
    (hflag : node.isAwaitingEvents = true) :
    (∀ fuel, dispatchLoop env pollFds (fuel + 1) w = .error Fault.assertionFailure) ∨
    (∀ fuel, dispatchLoop env pollFds (fuel + 1) w =
      dispatchLoop env pollFds fuel
        { w with runLoop := { w.runLoop with
            fileHandleCursor := node.nextFileHandle
            fileHandleMem := memStore w.runLoop.fileHandleMem w.runLoop.fileHandleCursor
              { node with isAwaitingEvents := false } } }) ∨
    (∃ ev,
      (∃ f, invokeFileHandleCallback env w.runLoop.fileHandleCursor
          { node with isAwaitingEvents := false } ev
          { w with runLoop := { w.runLoop with
              fileHandleCursor := node.nextFileHandle
              fileHandleMem := memStore w.runLoop.fileHandleMem w.runLoop.fileHandleCursor
                { node with isAwaitingEvents := false } } } = .error f ∧
        ∀ fuel, dispatchLoop env pollFds (fuel + 1) w = .error f) ∨
      (∃ w3, invokeFileHandleCallback env w.runLoop.fileHandleCursor
          { node with isAwaitingEvents := false } ev
          { w with runLoop := { w.runLoop with
              fileHandleCursor := node.nextFileHandle
              fileHandleMem := memStore w.runLoop.fileHandleMem w.runLoop.fileHandleCursor
                { node with isAwaitingEvents := false } } } = .ok w3 ∧
        ∀ fuel, dispatchLoop env pollFds (fuel + 1) w = dispatchLoop env pollFds fuel w3)) := by
  by_cases hfd : node.fileDescriptor = INVALID_SOCKET
  · left
    intro fuel
    simp only [dispatchLoop, if_neg hne, hnode, hflag, hfd, if_true]
  · right
    by_cases hcb : node.callback = NULL
    · left
      intro fuel
      simp only [dispatchLoop, if_neg hne, hnode, hflag, hfd, if_true, if_false, hcb, ne_eq,
        not_true_eq_false]
    · cases hfind : findPollFd pollFds node.fileDescriptor with
      | none =>
        left
        intro fuel
        simp only [dispatchLoop, if_neg hne, hnode, hflag, hfd, if_true, if_false, hcb, ne_eq,
          not_false_eq_true, hfind]
      | some entry =>
        by_cases hev : ((fileHandleEventsOf node.interests entry.revents).isReadyForReading ||
            (fileHandleEventsOf node.interests entry.revents).isReadyForWriting ||
            (fileHandleEventsOf node.interests entry.revents).hasErrorConditionPending) = true
        · right
          refine ⟨fileHandleEventsOf node.interests entry.revents, ?_⟩
          cases hinv : invokeFileHandleCallback env w.runLoop.fileHandleCursor
              { node with isAwaitingEvents := false }
              (fileHandleEventsOf node.interests entry.revents)
              { w with runLoop := { w.runLoop with
                  fileHandleCursor := node.nextFileHandle
                  fileHandleMem := memStore w.runLoop.fileHandleMem w.runLoop.fileHandleCursor
                    { node with isAwaitingEvents := false } } } with
          | error f =>
            left
            refine ⟨f, rfl, ?_⟩
            intro fuel
            simp only [dispatchLoop, if_neg hne, hnode, hflag, hfd, if_true, if_false, hcb,
              ne_eq, not_false_eq_true, hfind, hev, hinv]
          | ok w3 =>
            right
            refine ⟨w3, rfl, ?_⟩
            intro fuel
            simp only [dispatchLoop, if_neg hne, hnode, hflag, hfd, if_true, if_false, hcb,
              ne_eq, not_false_eq_true, hfind, hev, hinv]
        · left
          intro fuel
          simp only [dispatchLoop, if_neg hne, hnode, hflag, hfd, if_true, if_false, hcb, ne_eq,
            not_false_eq_true, hfind, hev, Bool.false_eq_true]

/-- Outcome of the loop of `ProcessSelectedFileHandles` when the registry is in order: the loop
ends once it has enough fuel; when it returns, the cursor is at the sentinel and every
registered handle has been passed; when it faults, the fault is the failed assertion on a
descriptor or comes out of a callback. -/
theorem dispatchLoop_total (env : Env) (pollFds : List WSAPOLLFD) :
    ∀ (k n : Nat) (w : World) (v p : List Nat), DispatchInv w v p →
      awaitingCount w.runLoop.fileHandleMem p ≤ k → p.length ≤ n →
      ∃ N, ∀ fuel,
        (∀ w1, dispatchLoop env pollFds fuel w = .ok w1 → ∃ v1, DispatchInv w1 v1 []) ∧
        (∀ f, dispatchLoop env pollFds fuel w = .error f →
          (f = Fault.outOfFuel ∧ fuel < N) ∨ f = Fault.assertionFailure ∨
          ∃ fh node ev w2, invokeFileHandleCallback env fh node ev w2 = .error f) := by
  intro k
  induction k using Nat.strong_induction_on with
  | _ k ihk =>
    intro n
    induction n with
    | zero =>
      intro w v p hd _ hlen
      have hp : p = [] := List.length_eq_zero.mp (Nat.le_zero.mp hlen)
      subst hp
      refine ⟨1, fun fuel => ?_⟩
      cases fuel with
      | zero =>
        refine ⟨fun w1 h => (by simp [dispatchLoop] at h), fun f h => ?_⟩
        simp only [dispatchLoop] at h
        cases h
        exact Or.inl ⟨rfl, Nat.one_pos⟩
      | succ fuel =>
        have hcur : w.runLoop.fileHandleCursor = w.runLoop.fileHandles := by
          rw [hd.cursor, hd.registry.sentinel]; rfl
        refine ⟨fun w1 h => ?_, fun f h => ?_⟩
        · simp only [dispatchLoop, if_pos hcur] at h
          cases h
          exact ⟨v, hd⟩
        · simp only [dispatchLoop, if_pos hcur] at h
          cases h
    | succ n ihn =>
      intro w v p hd hk hlen
      cases p with
      | nil => exact ihn w v [] hd hk (Nat.zero_le _)
      | cons h t =>
        obtain ⟨hcur, hne, -, -, node, hnode, -⟩ := hd.at_cursor
        rw [← hcur] at hne hnode
        have hlen1 : t.length ≤ n := Nat.le_of_succ_le_succ hlen
        cases hflag : node.isAwaitingEvents with
        | false =>
          have hd1 : DispatchInv
              { w with runLoop := { w.runLoop with fileHandleCursor := node.nextFileHandle } }
              (v ++ [h]) t :=
            hd.visit_idle (hcur ▸ hnode) hflag rfl rfl rfl rfl
          have hk1 : awaitingCount w.runLoop.fileHandleMem t ≤ k := by
            rw [awaitingCount_cons] at hk
            omega
          obtain ⟨N, hN⟩ := ihn _ _ _ hd1 hk1 hlen1
          refine ⟨N + 1, fun fuel => ?_⟩
          cases fuel with
          | zero =>
            refine ⟨fun w1 h => (by simp [dispatchLoop] at h), fun f h => ?_⟩
            simp only [dispatchLoop] at h
            cases h
            exact Or.inl ⟨rfl, Nat.succ_pos _⟩
          | succ fuel =>
            rw [dispatchLoop_idle env pollFds hne hnode hflag fuel]
            refine ⟨(hN fuel).1, fun f h => ?_⟩
            rcases (hN fuel).2 f h with ⟨h1, h2⟩ | h1
            · exact Or.inl ⟨h1, Nat.succ_lt_succ h2⟩
            · exact Or.inr h1
        | true =>
          obtain ⟨hd2, hcount⟩ := hd.visit_awaiting
            { w with runLoop := { w.runLoop with
              fileHandleCursor := node.nextFileHandle
              fileHandleMem := memStore w.runLoop.fileHandleMem w.runLoop.fileHandleCursor
                { node with isAwaitingEvents := false } } }
            (hcur ▸ hnode) hflag rfl rfl rfl (by rw [hcur])
          have hk2 : awaitingCount (memStore w.runLoop.fileHandleMem w.runLoop.fileHandleCursor
              { node with isAwaitingEvents := false }) t ≤ k - 1 := by
            have : awaitingCount (memStore w.runLoop.fileHandleMem w.runLoop.fileHandleCursor
              { node with isAwaitingEvents := false }) t + 1 =
                awaitingCount w.runLoop.fileHandleMem (h :: t) := hcount
            omega
          have hkpos : 0 < k := by
            have : awaitingCount (memStore w.runLoop.fileHandleMem w.runLoop.fileHandleCursor
              { node with isAwaitingEvents := false }) t + 1 =
                awaitingCount w.runLoop.fileHandleMem (h :: t) := hcount
            omega
          rcases dispatchLoop_awaiting env pollFds hne hnode hflag with
            hA | hB | ⟨ev, ⟨f0, hinv, hC⟩ | ⟨w3, hinv, hD⟩⟩
          · refine ⟨1, fun fuel => ?_⟩
            cases fuel with
            | zero =>
              refine ⟨fun w1 h => (by simp [dispatchLoop] at h), fun f h => ?_⟩
              simp only [dispatchLoop] at h
              cases h
              exact Or.inl ⟨rfl, Nat.one_pos⟩
            | succ fuel =>
              rw [hA fuel]
              refine ⟨fun w1 h => (by cases h), fun f h => ?_⟩
              cases h
              exact Or.inr (Or.inl rfl)
          · obtain ⟨N, hN⟩ := ihn _ _ _ hd2 (le_trans hk2 (Nat.sub_le _ _)) hlen1
            refine ⟨N + 1, fun fuel => ?_⟩
            cases fuel with
            | zero =>
              refine ⟨fun w1 h => (by simp [dispatchLoop] at h), fun f h => ?_⟩
              simp only [dispatchLoop] at h
              cases h
              exact Or.inl ⟨rfl, Nat.succ_pos _⟩
            | succ fuel =>
              rw [hB fuel]
              refine ⟨(hN fuel).1, fun f h => ?_⟩
              rcases (hN fuel).2 f h with ⟨h1, h2⟩ | h1
              · exact Or.inl ⟨h1, Nat.succ_lt_succ h2⟩
              · exact Or.inr h1
          · refine ⟨1, fun fuel => ?_⟩
            cases fuel with
            | zero =>
              refine ⟨fun w1 h => (by simp [dispatchLoop] at h), fun f h => ?_⟩
              simp only [dispatchLoop] at h
              cases h
              exact Or.inl ⟨rfl, Nat.one_pos⟩
            | succ fuel =>
              rw [hC fuel]
              refine ⟨fun w1 h => (by cases h), fun f h => ?_⟩
              cases h
              exact Or.inr (Or.inr ⟨_, _, _, _, hinv⟩)
          · obtain ⟨v3, p3, hd3, hk3⟩ :=
              PassInv.of_invokeFileHandleCallback hinv ⟨v ++ [h], t, hd2, hk2⟩
            obtain ⟨N, hN⟩ := ihk (k - 1) (by omega) p3.length w3 v3 p3 hd3 hk3 (le_refl _)
            refine ⟨N + 1, fun fuel => ?_⟩
            cases fuel with
            | zero =>
              refine ⟨fun w1 h => (by simp [dispatchLoop] at h), fun f h => ?_⟩
              simp only [dispatchLoop] at h
              cases h
              exact Or.inl ⟨rfl, Nat.succ_pos _⟩
            | succ fuel =>
              rw [hD fuel]
              refine ⟨(hN fuel).1, fun f h => ?_⟩
              rcases (hN fuel).2 f h with ⟨h1, h2⟩ | h1
              · exact Or.inl ⟨h1, Nat.succ_lt_succ h2⟩
              · exact Or.inr h1

theorem fillPollFds_links (handles : List Nat) :
    ∀ (mem : FileHandleMem),
      (∀ a, nextOf (fillPollFds mem handles).1 a = nextOf mem a) ∧
      (∀ a, prevOf (fillPollFds mem handles).1 a = prevOf mem a) := by
  induction handles with
  | nil => intro mem; exact ⟨fun _ => rfl, fun _ => rfl⟩
  | cons h t ih =>
    intro mem
    simp only [fillPollFds]
    cases hnode : memLoad mem h with
    | none => exact ih mem
    | some node =>
      dsimp only
      obtain ⟨h1, h2⟩ := ih (memStore mem h { node with isAwaitingEvents := true })
      refine ⟨fun a => ?_, fun a => ?_⟩
      · rw [h1, nextOf_memStore]
        by_cases ha : a = h
        · rw [if_pos ha, ha, nextOf_of_load hnode]
        · rw [if_neg ha]
      · rw [h2, prevOf_memStore]
        by_cases ha : a = h
        · rw [if_pos ha, ha, prevOf_of_load hnode]
        · rw [if_neg ha]

theorem RegistryInv.at_init : RegistryInv World.init [] := by
  refine ⟨rfl, ⟨rfl, rfl⟩, ?_, List.nodup_nil, ?_⟩
  · intro h hh; cases hh
  · intro a node hnode
    left
    simp only [World.init, RunLoop.init, memLoad] at hnode
    split at hnode
    · rename_i he; exact he.symm
    · cases hnode

/-- A call of an API function keeps the registry a well-formed list, and the only handle that
it can add is the address of the next allocation. -/
theorem RegistryInv.registry_of_apiUpdate {env : Env} {w w1 : World} {l : List Nat}
    (h : ApiUpdate env w w1) (hr : RegistryInv w l) :
    ∃ l1, RegistryInv w1 l1 ∧ (∀ a ∈ l1, a ∈ l ∨ a = allocAddr w.numAllocs) ∧
      w.numAllocs ≤ w1.numAllocs := by
  cases h with
  | timerRegister heq =>
    obtain ⟨t, rfl⟩ := HAPPlatformTimerRegister_shape heq
    exact ⟨l, hr.registry_of_mem_eq rfl rfl (Nat.le_succ _), fun a ha => Or.inl ha, Nat.le_succ _⟩
  | timerDeregister heq =>
    obtain ⟨t, _, rfl⟩ := HAPPlatformTimerDeregister_ok heq
    exact ⟨l, hr.registry_of_mem_eq rfl rfl (le_refl _), fun a ha => Or.inl ha, le_refl _⟩
  | fileHandleRegister heq =>
    rename_i fd i cb ctx err fh
    obtain ⟨err1, fh1, w2, heq1, -, hcases⟩ :=
      HAPPlatformFileHandleRegister_registry env fd i cb ctx hr
    rw [heq] at heq1
    cases heq1
    have hn : w.numAllocs ≤ w1.numAllocs := by
      obtain ⟨m, rfl⟩ := HAPPlatformFileHandleRegister_shape heq
      exact Nat.le_succ _
    rcases hcases with ⟨hreg, -⟩ | ⟨hfh, hreg, -, -⟩
    · exact ⟨l, hreg, fun a ha => Or.inl ha, hn⟩
    · refine ⟨_, hreg, fun a ha => ?_, hn⟩
      rcases List.mem_append.mp ha with hm | hm
      · exact Or.inl hm
      · rw [List.mem_singleton] at hm
        exact Or.inr (hm.trans hfh)
  | fileHandleUpdateInterests heq =>
    obtain ⟨hs, -, hn, hnext, hprev, -⟩ := HAPPlatformFileHandleUpdateInterests_links heq
    exact ⟨l, hr.registry_of_links hs (le_of_eq hn.symm) hnext hprev, fun a ha => Or.inl ha,
      le_of_eq hn.symm⟩
  | fileHandleDeregister heq =>
    rename_i fh
    obtain ⟨l1, l2, rfl⟩ := List.append_of_mem (HAPPlatformFileHandleDeregister_mem hr heq)
    obtain ⟨w2, heq2, hreg, -, -, -⟩ := HAPPlatformFileHandleDeregister_registry hr
    rw [heq] at heq2
    cases heq2
    have hn : w.numAllocs ≤ w1.numAllocs := by
      obtain ⟨m, c, rfl⟩ := HAPPlatformFileHandleDeregister_shape heq
      exact le_refl _
    refine ⟨_, hreg, fun a ha => Or.inl ?_, hn⟩
    rcases List.mem_append.mp ha with hm | hm
    · exact List.mem_append_left _ hm
    · exact List.mem_append_right _ (List.mem_cons_of_mem _ hm)
  | scheduleCallback heq =>
    rcases HAPPlatformRunLoopScheduleCallback_cases heq with ⟨_, rfl, _⟩ | ⟨_, _, _, _, rfl⟩
    · exact ⟨l, hr.registry_of_mem_eq rfl rfl (le_refl _), fun a ha => Or.inl ha, le_refl _⟩
    · exact ⟨l, hr.registry_of_mem_eq rfl rfl (le_refl _), fun a ha => Or.inl ha, le_refl _⟩
  | stop =>
    unfold HAPPlatformRunLoopStop
    split
    · exact ⟨l, hr.registry_of_mem_eq rfl rfl (le_refl _), fun a ha => Or.inl ha, le_refl _⟩
    · exact ⟨l, hr, fun a ha => Or.inl ha, le_refl _⟩
  | store => exact ⟨l, hr.registry_of_mem_eq rfl rfl (le_refl _), fun a ha => Or.inl ha, le_refl _⟩

/-- Every primitive change keeps the registry a well-formed list, and the only handle that it
can add is the address of the next allocation. -/
theorem RegistryInv.registry_of_update {env : Env} {w w1 : World} {l : List Nat}
    (h : Update env w w1) (hr : RegistryInv w l) :
    ∃ l1, RegistryInv w1 l1 ∧ (∀ a ∈ l1, a ∈ l ∨ a = allocAddr w.numAllocs) ∧
      w.numAllocs ≤ w1.numAllocs := by
  cases h with
  | api h => exact RegistryInv.registry_of_apiUpdate h hr
  | fireHead _ =>
    exact ⟨l, hr.registry_of_mem_eq rfl rfl (le_refl _), fun a ha => Or.inl ha, le_refl _⟩
  | selfPipeRecv =>
    exact ⟨l, hr.registry_of_mem_eq rfl rfl (le_refl _), fun a ha => Or.inl ha, le_refl _⟩
  | selfPipeDeliver _ _ _ _ =>
    exact ⟨l, hr.registry_of_mem_eq rfl rfl (le_refl _), fun a ha => Or.inl ha, le_refl _⟩
  | enterFileHandleCallback _ _ _ =>
    exact ⟨l, hr.registry_of_mem_eq rfl rfl (le_refl _), fun a ha => Or.inl ha, le_refl _⟩
  | dispatchStart _ =>
    exact ⟨l, hr.registry_of_mem_eq rfl rfl (le_refl _), fun a ha => Or.inl ha, le_refl _⟩
  | visitIdle _ _ _ =>
    exact ⟨l, hr.registry_of_mem_eq rfl rfl (le_refl _), fun a ha => Or.inl ha, le_refl _⟩
  | visitAwaiting _ hnode _ =>
    refine ⟨l, hr.registry_of_links rfl (le_refl _) ?_ ?_, fun a ha => Or.inl ha, le_refl _⟩
    · intro a
      show nextOf (memStore _ _ _) a = _
      rw [nextOf_memStore]
      by_cases ha : a = w.runLoop.fileHandleCursor
      · rw [if_pos ha, ha, nextOf_of_load hnode]
      · rw [if_neg ha]
    · intro a
      show prevOf (memStore _ _ _) a = _
      rw [prevOf_memStore]
      by_cases ha : a = w.runLoop.fileHandleCursor
      · rw [if_pos ha, ha, prevOf_of_load hnode]
      · rw [if_neg ha]
  | sleep =>
    exact ⟨l, hr.registry_of_mem_eq rfl rfl (le_refl _), fun a ha => Or.inl ha, le_refl _⟩
  | pollAllocFails =>
    exact ⟨l, hr.registry_of_mem_eq rfl rfl (Nat.le_succ _), fun a ha => Or.inl ha, Nat.le_succ _⟩
  | pollSetup _ _ _ =>
    exact ⟨l, hr.registry_of_links rfl (Nat.le_succ _) (fillPollFds_links _ _).1
      (fillPollFds_links _ _).2, fun a ha => Or.inl ha, Nat.le_succ _⟩

/-- In every machine that an execution can be in, the registry is a well-formed list. -/
theorem RegistryInv.of_reach {env : Env} {w : World} (h : Reachable env w) :
    ∃ l, RegistryInv w l := by
  induction h with
  | init => exact ⟨[], RegistryInv.at_init⟩
  | update _ hu ih =>
    obtain ⟨l, hr⟩ := ih
    obtain ⟨l1, hr1, -, -⟩ := RegistryInv.registry_of_update hu hr
    exact ⟨l1, hr1⟩
  | state s _ ih =>
    obtain ⟨l, hr⟩ := ih
    exact ⟨l, hr.registry_of_mem_eq rfl rfl (le_refl _)⟩

theorem Reachable.reach_of_updates {env : Env} {w w1 : World} (hr : Reachable env w)
    (h : Updates env w w1) : Reachable env w1 := by
  induction h with
  | refl => exact hr
  | tail _ hlast ih => exact Reachable.update ih hlast

/-- The machines that `runSteps` produces from program start are among those considered. -/
theorem Reachable.reach_of_runSteps {env : Env} (steps : List Step) {w w1 : World}
    (hr : Reachable env w) (h : runSteps env steps w = .ok w1) : Reachable env w1 :=
  runSteps_invariant env (Reachable env) (fun _ _ hu hq => Reachable.update hq hu)
    (fun _ s hq => Reachable.state s hq) steps w w1 h hr

/-- At the start of `ProcessSelectedFileHandles` the whole registry is yet to be visited. -/
theorem DispatchInv.at_start {w : World} {l : List Nat} {head : HAPPlatformFileHandle}
    (hr : RegistryInv w l)
    (hhead : memLoad w.runLoop.fileHandleMem w.runLoop.fileHandles = some head) :
    DispatchInv
      { w with runLoop := { w.runLoop with fileHandleCursor := head.nextFileHandle } } [] l := by
  obtain ⟨head1, hhead1, -, hnext⟩ := hr.load_sentinel
  rw [hr.sentinel, hhead1] at hhead
  cases hhead
  exact ⟨hr.registry_of_mem_eq rfl rfl (le_refl _), hnext, fun a ha => by cases ha⟩

/-! ## Deregistered handles -/

theorem dispatchesOf_append (h : Nat) (a b : List Event) :
    dispatchesOf h (a ++ b) = dispatchesOf h a ++ dispatchesOf h b := by
  unfold dispatchesOf
  rw [dispatches_append, List.filter_append]

/-- A deregistered handle stays deregistered, and no primitive change records a callback
invocation for it. -/
theorem Gone.gone_of_update {env : Env} {w w1 : World} {l : List Nat} {H : Nat}
    (h : Update env w w1) (hr : RegistryInv w l) (hg : Gone H w) :
    Gone H w1 ∧ dispatchesOf H w1.trace = dispatchesOf H w.trace := by
  constructor
  · obtain ⟨l1, hr1, hsub, hn⟩ := RegistryInv.registry_of_update h hr
    have hHl : H ∉ sentinelAddr :: l := by
      intro hm
      obtain ⟨node, hnode⟩ := hr.load_mem hm
      rw [hg.1] at hnode
      cases hnode
    refine ⟨?_, ?_⟩
    · cases hm : memLoad w1.runLoop.fileHandleMem H with
      | none => rfl
      | some node =>
        exfalso
        rcases hr1.cells H node hm with hs | hl1
        · exact hHl (hs ▸ List.mem_cons_self _ _)
        · rcases hsub H hl1 with h1 | h1
          · exact hHl (List.mem_cons_of_mem _ h1)
          · have := hg.2
            omega
    · have := hg.2
      unfold allocAddr at *
      omega
  · cases h with
    | api h => unfold dispatchesOf; rw [(ApiUpdate.records h).2.1]
    | fireHead _ =>
      show dispatchesOf H (w.trace ++ _) = _
      rw [dispatchesOf_append]
      simp [dispatchesOf, dispatches]
    | selfPipeRecv => rfl
    | selfPipeDeliver _ _ _ _ =>
      show dispatchesOf H (w.trace ++ _) = _
      rw [dispatchesOf_append]
      simp [dispatchesOf, dispatches]
    | enterFileHandleCallback fileHandle _ hnode =>
      show dispatchesOf H (w.trace ++ _) = _
      rw [dispatchesOf_append]
      have hne : fileHandle ≠ H := by
        intro he
        rw [he, hg.1] at hnode
        cases hnode
      simp [dispatchesOf, dispatches, hne]
    | dispatchStart _ => rfl
    | visitIdle _ _ _ => rfl
    | visitAwaiting _ _ _ => rfl
    | sleep =>
      show dispatchesOf H (w.trace ++ _) = _
      rw [dispatchesOf_append]
      simp [dispatchesOf, dispatches]
    | pollAllocFails => rfl
    | pollSetup _ _ _ =>
      show dispatchesOf H (w.trace ++ _) = _
      rw [dispatchesOf_append]
      simp [dispatchesOf, dispatches]

/-- Along any sequence of primitive changes a deregistered handle gets no callback. -/
theorem Gone.gone_of_updates {env : Env} {w w1 : World} {H : Nat} (h : Updates env w w1)
    (hr : ∃ l, RegistryInv w l) (hg : Gone H w) :
    (∃ l, RegistryInv w1 l) ∧ Gone H w1 ∧
      dispatchesOf H w1.trace = dispatchesOf H w.trace := by
  induction h with
  | refl => exact ⟨hr, hg, rfl⟩
  | tail _ hlast ih =>
    obtain ⟨⟨l, hr1⟩, hg1, hd1⟩ := ih
    obtain ⟨l2, hr2, -, -⟩ := RegistryInv.registry_of_update hlast hr1
    obtain ⟨hg2, hd2⟩ := Gone.gone_of_update hlast hr1 hg1
    exact ⟨⟨l2, hr2⟩, hg2, hd2.trans hd1⟩

/-- Along any later steps of an execution a deregistered handle gets no callback. -/
theorem Gone.gone_of_runSteps {env : Env} {steps : List Step} {w w1 : World} {H : Nat}
    (h : runSteps env steps w = .ok w1) (hr : ∃ l, RegistryInv w l) (hg : Gone H w) :
    (∃ l, RegistryInv w1 l) ∧ Gone H w1 ∧
      dispatchesOf H w1.trace = dispatchesOf H w.trace :=
  runSteps_invariant env
    (fun u => (∃ l, RegistryInv u l) ∧ Gone H u ∧
      dispatchesOf H u.trace = dispatchesOf H w.trace)
    (fun u u1 hu hq => by
      obtain ⟨⟨l, hr1⟩, hg1, hd1⟩ := hq
      obtain ⟨l2, hr2, -, -⟩ := RegistryInv.registry_of_update hu hr1
      obtain ⟨hg2, hd2⟩ := Gone.gone_of_update hu hr1 hg1
      exact ⟨⟨l2, hr2⟩, hg2, hd2.trans hd1⟩)
    (fun u s hq => by
      obtain ⟨⟨l, hr1⟩, hg1, hd1⟩ := hq
      exact ⟨⟨l, hr1.registry_of_mem_eq rfl rfl (le_refl _)⟩, hg1, hd1⟩)
    steps w w1 h ⟨hr, hg, rfl⟩

/-- A successful `HAPPlatformFileHandleDeregister` leaves the handle deregistered. -/
theorem Gone.gone_of_deregister {w w1 : World} {l : List Nat} {H : Nat} (hr : RegistryInv w l)
    (hd : HAPPlatformFileHandleDeregister H w = .ok w1) :
    (∃ l1, RegistryInv w1 l1) ∧ Gone H w1 ∧ w1.trace = w.trace := by
  have hmem := HAPPlatformFileHandleDeregister_mem hr hd
  obtain ⟨l1, l2, rfl⟩ := List.append_of_mem hmem
  obtain ⟨w2, heq2, hreg, -, -, hnone⟩ := HAPPlatformFileHandleDeregister_registry hr
  rw [hd] at heq2
  cases heq2
  obtain ⟨m, c, hshape⟩ := HAPPlatformFileHandleDeregister_shape hd
  refine ⟨⟨_, hreg⟩, ⟨hnone, ?_⟩, by rw [hshape]⟩
  have := (hr.bounds H hmem).2
  rw [hshape]
  exact this

/-! ## Deregistration during a dispatch pass -/

/-- C17. In any machine `w` that an execution can be in: (1) when a call
`HAPPlatformFileHandleDeregister(H)` made there returns, no callback invocation is recorded for
`H` afterwards, neither in the rest of the callback and of the dispatch pass under way, nor in
the later cycles of the loop and the later steps of the execution, nor along any other sequence
of primitive changes; (2) a dispatch pass started there, whatever its callbacks register or
deregister, ends once it has enough fuel, and it faults only if the assertion on a descriptor
fails or a callback faults; when it returns, the cursor is back at the sentinel and every
handle that is registered then has been passed by the loop (none is left awaiting events). -/
theorem deregistered_handle_not_dispatched (env : Env) (w : World)
    (hreach : Reachable env w) :
    (∀ H w', HAPPlatformFileHandleDeregister H w = .ok w' →
      (∀ w2, Updates env w' w2 → dispatchesOf H w2.trace = dispatchesOf H w.trace) ∧
      (∀ p pollFds fuel rest steps wa wb wc wd,
        runProg env p w' = .ok wa → dispatchLoop env pollFds fuel wa = .ok wb →
        runLoopWhile env rest wb = .ok wc →
        runSteps env steps
          (setState HAPPlatformRunLoopState.kHAPPlatformRunLoopState_Idle wc) = .ok wd →
        dispatchesOf H wb.trace = dispatchesOf H w.trace ∧
        dispatchesOf H wd.trace = dispatchesOf H w.trace)) ∧
    (∀ pollFds, ∃ N, ∀ fuel,
      (∀ w1, ProcessSelectedFileHandles env pollFds fuel w = .ok w1 →
        w1.runLoop.fileHandleCursor = w1.runLoop.fileHandles ∧
        ∀ h node, memLoad w1.runLoop.fileHandleMem h = some node →
          h ≠ w1.runLoop.fileHandles → node.isAwaitingEvents = false) ∧
      (∀ f, ProcessSelectedFileHandles env pollFds fuel w = .error f →
        (f = Fault.outOfFuel ∧ fuel < N) ∨ f = Fault.assertionFailure ∨
        ∃ fh node ev w2, invokeFileHandleCallback env fh node ev w2 = .error f)) := by
  obtain ⟨l, hr⟩ := RegistryInv.of_reach hreach
  constructor
  · intro H w' hdereg
    obtain ⟨hr', hg', htr⟩ := Gone.gone_of_deregister hr hdereg
    have key : ∀ w2, Updates env w' w2 →
        (∃ l, RegistryInv w2 l) ∧ Gone H w2 ∧
          dispatchesOf H w2.trace = dispatchesOf H w.trace := by
      intro w2 hu
      obtain ⟨h1, h2, h3⟩ := Gone.gone_of_updates hu hr' hg'
      exact ⟨h1, h2, by rw [h3, htr]⟩
    refine ⟨fun w2 hu => (key w2 hu).2.2, ?_⟩
    intro p pollFds fuel rest steps wa wb wc wd hp hl hw hs
    have hub : Updates env w' wb :=
      (runProg_updates env p w' wa hp).trans (dispatchLoop_updates env pollFds fuel wa wb hl)
    have huc : Updates env w' wc := hub.trans (runLoopWhile_updates env rest wb wc hw).1
    obtain ⟨⟨lc, hrc⟩, hgc, hdc⟩ := key wc huc
    obtain ⟨-, -, hdd⟩ := Gone.gone_of_runSteps (H := H) hs
      ⟨lc, hrc.registry_of_mem_eq rfl rfl (le_refl _)⟩ hgc
    exact ⟨(key wb hub).2.2, hdd.trans hdc⟩
  · intro pollFds
    obtain ⟨head, hhead, -, -⟩ := hr.load_sentinel
    rw [← hr.sentinel] at hhead
    have hd := DispatchInv.at_start hr hhead
    obtain ⟨N, hN⟩ := dispatchLoop_total env pollFds _ _ _ _ _ hd (le_refl _) (le_refl _)
    refine ⟨N, fun fuel => ?_⟩
    have hunf : ProcessSelectedFileHandles env pollFds fuel w =
        dispatchLoop env pollFds fuel
          { w with runLoop := { w.runLoop with fileHandleCursor := head.nextFileHandle } } := by
      unfold ProcessSelectedFileHandles
      rw [hhead]
    rw [hunf]
    refine ⟨fun w1 h1 => ?_, (hN fuel).2⟩
    obtain ⟨v1, hd1⟩ := (hN fuel).1 w1 h1
    refine ⟨by rw [hd1.cursor, hd1.registry.sentinel]; rfl, fun h node hnode hne => ?_⟩
    rcases hd1.registry.cells h node hnode with hs | hm
    · exact absurd (hs.trans hd1.registry.sentinel.symm) hne
    · have := hd1.idle h (by simpa using hm)
      unfold awaitingOf at this
      rw [hnode] at this
      exact Option.some.inj this

/-- Witness for C17: the machine with three registered handles is one that an execution can be
in, so both parts hold there. -/
theorem deregistered_handle_not_dispatched_witness :
    ∃ w, runSteps deregisterOtherEnv threeHandlesSteps World.init = .ok w ∧
      Reachable deregisterOtherEnv w ∧
      ((∀ H w', HAPPlatformFileHandleDeregister H w = .ok w' →
        (∀ w2, Updates deregisterOtherEnv w' w2 →
          dispatchesOf H w2.trace = dispatchesOf H w.trace) ∧
        (∀ p pollFds fuel rest steps wa wb wc wd,
          runProg deregisterOtherEnv p w' = .ok wa →
          dispatchLoop deregisterOtherEnv pollFds fuel wa = .ok wb →
          runLoopWhile deregisterOtherEnv rest wb = .ok wc →
          runSteps deregisterOtherEnv steps
            (setState HAPPlatformRunLoopState.kHAPPlatformRunLoopState_Idle wc) = .ok wd →
          dispatchesOf H wb.trace = dispatchesOf H w.trace ∧
          dispatchesOf H wd.trace = dispatchesOf H w.trace)) ∧
      (∀ pollFds, ∃ N, ∀ fuel,
        (∀ w1, ProcessSelectedFileHandles deregisterOtherEnv pollFds fuel w = .ok w1 →
          w1.runLoop.fileHandleCursor = w1.runLoop.fileHandles ∧
          ∀ h node, memLoad w1.runLoop.fileHandleMem h = some node →
            h ≠ w1.runLoop.fileHandles → node.isAwaitingEvents = false) ∧
        (∀ f, ProcessSelectedFileHandles deregisterOtherEnv pollFds fuel w = .error f →
          (f = Fault.outOfFuel ∧ fuel < N) ∨ f = Fault.assertionFailure ∨
          ∃ fh node ev w2,
            invokeFileHandleCallback deregisterOtherEnv fh node ev w2 = .error f))) :=
  ⟨_, rfl, Reachable.reach_of_runSteps threeHandlesSteps Reachable.init rfl,
    deregistered_handle_not_dispatched deregisterOtherEnv _
      (Reachable.reach_of_runSteps threeHandlesSteps Reachable.init rfl)⟩

/-- A cycle in which the callback of the first handle deregisters the second one, which is the
cursor's next node at that time: the pass goes on to the third handle, the second one gets no
callback, and its cell is released. -/
theorem dispatch_pass_skips_deregistered_example :
    ∃ w w1, runSteps deregisterOtherEnv threeHandlesSteps World.init = .ok w ∧
      runLoopCycle deregisterOtherEnv allReadableInput
        (setState HAPPlatformRunLoopState.kHAPPlatformRunLoopState_Running w) = .ok w1 ∧
      dispatches w1.trace = [(2, 20, ⟨true, false, false⟩), (4, 22, ⟨true, false, false⟩)] ∧
      memLoad w1.runLoop.fileHandleMem 3 = none ∧
      w1.runLoop.fileHandleCursor = w1.runLoop.fileHandles :=
  ⟨_, _, rfl, rfl, rfl, rfl, rfl⟩

/-! ## What a dispatch pass does not read -/

/-- Two results with the same image are both the same fault or both values with the same
image. -/
theorem map_eq_cases {α β : Type} {g : α → β} {a b : Except Fault α}
    (h : Except.map g a = Except.map g b) :
    (∃ f, a = .error f ∧ b = .error f) ∨ (∃ x y, a = .ok x ∧ b = .ok y ∧ g x = g y) := by
  cases a with
  | error f =>
    cases b with
    | error f' =>
      simp only [Except.map] at h
      cases h
      exact Or.inl ⟨f, rfl, rfl⟩
    | ok y => simp [Except.map] at h
  | ok x =>
    cases b with
    | error f' => simp [Except.map] at h
    | ok y =>
      simp only [Except.map] at h
      exact Or.inr ⟨x, y, rfl, rfl, Except.ok.inj h⟩

theorem World.eraseStop_fields {w w' : World} (h : w.eraseStop = w'.eraseStop) :
    w.runLoop.fileHandleMem = w'.runLoop.fileHandleMem ∧
    w.runLoop.fileHandles = w'.runLoop.fileHandles ∧
    w.runLoop.fileHandleCursor = w'.runLoop.fileHandleCursor ∧
    w.runLoop.timers = w'.runLoop.timers ∧
    w.runLoop.selfPipeBytes = w'.runLoop.selfPipeBytes ∧
    w.runLoop.numSelfPipeBytes = w'.runLoop.numSelfPipeBytes ∧
    w.numAllocs = w'.numAllocs ∧ w.appState = w'.appState ∧
    w.trace.map Event.eraseState = w'.trace.map Event.eraseState :=
  ⟨congrArg (fun u => u.runLoop.fileHandleMem) h,
   congrArg (fun u => u.runLoop.fileHandles) h,
   congrArg (fun u => u.runLoop.fileHandleCursor) h,
   congrArg (fun u => u.runLoop.timers) h,
   congrArg (fun u => u.runLoop.selfPipeBytes) h,
   congrArg (fun u => u.runLoop.numSelfPipeBytes) h,
   congrArg (fun u => u.numAllocs) h,
   congrArg (fun u => u.appState) h,
   congrArg (fun u => u.trace) h⟩

theorem World.eraseStop_eq_of_fields {w w' : World}
    (h1 : w.runLoop.fileHandleMem = w'.runLoop.fileHandleMem)
    (h2 : w.runLoop.fileHandles = w'.runLoop.fileHandles)
    (h3 : w.runLoop.fileHandleCursor = w'.runLoop.fileHandleCursor)
    (h4 : w.runLoop.timers = w'.runLoop.timers)
    (h5 : w.runLoop.selfPipeBytes = w'.runLoop.selfPipeBytes)
    (h6 : w.runLoop.numSelfPipeBytes = w'.runLoop.numSelfPipeBytes)
    (h7 : w.numAllocs = w'.numAllocs) (h8 : w.appState = w'.appState)
    (h9 : w.trace.map Event.eraseState = w'.trace.map Event.eraseState) :
    w.eraseStop = w'.eraseStop := by
  obtain ⟨⟨a1, a2, a3, a4, a5, a6, a7⟩, b1, b2, b3, b4⟩ := w
  obtain ⟨⟨c1, c2, c3, c4, c5, c6, c7⟩, d1, d2, d3, d4⟩ := w'
  simp only at h1 h2 h3 h4 h5 h6 h7 h8 h9
  subst h1 h2 h3 h4 h5 h6 h7 h8
  simp only [World.eraseStop, RunLoop.eraseState, h9]

theorem RunLoop.eraseState_eq_of_eraseStop {w w' : World} (h : w.eraseStop = w'.eraseStop) :
    w.runLoop.eraseState = w'.runLoop.eraseState :=
  congrArg (fun u => u.runLoop) h

theorem HAPPlatformRunLoopStop_eraseStop (w : World) :
    (HAPPlatformRunLoopStop w).eraseStop = w.eraseStop := by
  unfold HAPPlatformRunLoopStop
  split
  · rfl
  · rfl

theorem HAPPlatformTimerRegister_eraseStop (env : Env) (d cb ctx : Nat) {w w' : World}
    (h : w.eraseStop = w'.eraseStop) :
    Except.map (fun r => (r.1, r.2.1, r.2.2.eraseStop)) (HAPPlatformTimerRegister env d cb ctx w) =
    Except.map (fun r => (r.1, r.2.1, r.2.2.eraseStop))
      (HAPPlatformTimerRegister env d cb ctx w') := by
  obtain ⟨h1, h2, h3, h4, h5, h6, h7, h8, h9⟩ := World.eraseStop_fields h
  unfold HAPPlatformTimerRegister
  dsimp only
  rw [h7, h4]
  split
  · rfl
  · split
    · simp only [Except.map]
      refine congrArg Except.ok (Prod.ext rfl (Prod.ext rfl ?_))
      apply World.eraseStop_eq_of_fields <;> first | rfl | assumption
    · simp only [Except.map]
      refine congrArg Except.ok (Prod.ext rfl (Prod.ext rfl ?_))
      apply World.eraseStop_eq_of_fields <;> first | rfl | assumption

theorem HAPPlatformTimerDeregister_eraseStop (timer : Nat) {w w' : World}
    (h : w.eraseStop = w'.eraseStop) :
    Except.map World.eraseStop (HAPPlatformTimerDeregister timer w) =
    Except.map World.eraseStop (HAPPlatformTimerDeregister timer w') := by
  obtain ⟨h1, h2, h3, h4, h5, h6, h7, h8, h9⟩ := World.eraseStop_fields h
  unfold HAPPlatformTimerDeregister
  rw [h4]
  split
  · rfl
  · split
    · simp only [Except.map]
      exact congrArg Except.ok (by
        apply World.eraseStop_eq_of_fields <;> first | rfl | assumption)
    · rfl

theorem HAPPlatformFileHandleRegister_eraseStop (env : Env) (fd : Int)
    (i : HAPPlatformFileHandleEvent) (cb ctx : Nat) {w w' : World}
    (h : w.eraseStop = w'.eraseStop) :
    Except.map (fun r => (r.1, r.2.1, r.2.2.eraseStop))
      (HAPPlatformFileHandleRegister env fd i cb ctx w) =
    Except.map (fun r => (r.1, r.2.1, r.2.2.eraseStop))
      (HAPPlatformFileHandleRegister env fd i cb ctx w') := by
  obtain ⟨h1, h2, h3, h4, h5, h6, h7, h8, h9⟩ := World.eraseStop_fields h
  unfold HAPPlatformFileHandleRegister
  dsimp only
  rw [h7, h1, h2]
  split
  · simp only [Except.map]
    refine congrArg Except.ok (Prod.ext rfl (Prod.ext rfl ?_))
    apply World.eraseStop_eq_of_fields <;> first | rfl | assumption
  · split
    · rfl
    · split
      · rfl
      · split
        · rfl
        · simp only [Except.map]
          refine congrArg Except.ok (Prod.ext rfl (Prod.ext rfl ?_))
          apply World.eraseStop_eq_of_fields <;> first | rfl | assumption

theorem HAPPlatformFileHandleUpdateInterests_eraseStop (fh : Nat)
    (i : HAPPlatformFileHandleEvent) (cb ctx : Nat) {w w' : World}
    (h : w.eraseStop = w'.eraseStop) :
    Except.map World.eraseStop (HAPPlatformFileHandleUpdateInterests fh i cb ctx w) =
    Except.map World.eraseStop (HAPPlatformFileHandleUpdateInterests fh i cb ctx w') := by
  obtain ⟨h1, h2, h3, h4, h5, h6, h7, h8, h9⟩ := World.eraseStop_fields h
  unfold HAPPlatformFileHandleUpdateInterests
  rw [h1]
  split
  · rfl
  · split
    · rfl
    · simp only [Except.map]
      exact congrArg Except.ok (by
        apply World.eraseStop_eq_of_fields <;> first | rfl | assumption)

theorem HAPPlatformFileHandleDeregister_eraseStop (fh : Nat) {w w' : World}
    (h : w.eraseStop = w'.eraseStop) :
    Except.map World.eraseStop (HAPPlatformFileHandleDeregister fh w) =
    Except.map World.eraseStop (HAPPlatformFileHandleDeregister fh w') := by
  obtain ⟨h1, h2, h3, h4, h5, h6, h7, h8, h9⟩ := World.eraseStop_fields h
  unfold HAPPlatformFileHandleDeregister
  dsimp only
  rw [h1, h3]
  split
  · rfl
  · split
    · rfl
    · split
      · rfl
      · split
        · rfl
        · split
          · rfl
          · split
            · rfl
            · split
              · rfl
              · simp only [Except.map]
                exact congrArg Except.ok
                  (by
        apply World.eraseStop_eq_of_fields <;> first | rfl | assumption)

theorem HAPPlatformRunLoopScheduleCallback_eraseStop (cb : Nat) (ctx : Option (List Nat))
    (n : Nat) {w w' : World} (h : w.eraseStop = w'.eraseStop) :
    Except.map (fun r => (r.1, r.2.eraseStop)) (HAPPlatformRunLoopScheduleCallback cb ctx n w) =
    Except.map (fun r => (r.1, r.2.eraseStop))
      (HAPPlatformRunLoopScheduleCallback cb ctx n w') := by
  obtain ⟨h1, h2, h3, h4, h5, h6, h7, h8, h9⟩ := World.eraseStop_fields h
  unfold HAPPlatformRunLoopScheduleCallback
  dsimp only
  rw [h6, h5]
  split
  · rfl
  · split
    · rfl
    · split
      · rfl
      · split
        · simp only [Except.map]
          exact congrArg Except.ok (Prod.ext rfl h)
        · split
          · rfl
          · simp only [Except.map]
            refine congrArg Except.ok (Prod.ext rfl ?_)
            apply World.eraseStop_eq_of_fields <;> first | rfl | assumption

theorem World.eraseStop_log {w w' : World} (h : w.eraseStop = w'.eraseStop) {e f : Event}
    (he : e.eraseState = f.eraseState) :
    ({ w with trace := w.trace ++ [e] } : World).eraseStop =
      ({ w' with trace := w'.trace ++ [f] } : World).eraseStop := by
  obtain ⟨h1, h2, h3, h4, h5, h6, h7, h8, h9⟩ := World.eraseStop_fields h
  apply World.eraseStop_eq_of_fields <;> first | rfl | assumption | skip
  show (w.trace ++ [e]).map Event.eraseState = (w'.trace ++ [f]).map Event.eraseState
  rw [List.map_append, List.map_append, h9]
  simp only [List.map_cons, List.map_nil, he]

/-- The body of a callback does not read what `HAPPlatformRunLoopStop` writes. -/
theorem runProg_eraseStop (env : Env) :
    ∀ (p : Prog) (w w' : World), w.eraseStop = w'.eraseStop →
      Except.map World.eraseStop (runProg env p w) =
        Except.map World.eraseStop (runProg env p w') := by
  intro p
  induction p with
  | ret =>
    intro w w' h
    simp only [runProg, Except.map]
    exact congrArg Except.ok h
  | timerRegister d cb ctx k ih =>
    intro w w' h
    simp only [runProg]
    rcases map_eq_cases (HAPPlatformTimerRegister_eraseStop env d cb ctx h) with
      ⟨f, h1, h2⟩ | ⟨⟨e1, t1, u1⟩, ⟨e2, t2, u2⟩, h1, h2, h3⟩
    · rw [h1, h2]
    · rw [h1, h2]
      simp only [Prod.mk.injEq] at h3
      obtain ⟨rfl, rfl, h3⟩ := h3
      exact ih _ _ _ _ h3
  | timerDeregister timer k ih =>
    intro w w' h
    simp only [runProg]
    rcases map_eq_cases (HAPPlatformTimerDeregister_eraseStop timer h) with
      ⟨f, h1, h2⟩ | ⟨u1, u2, h1, h2, h3⟩
    · rw [h1, h2]
    · rw [h1, h2]
      exact ih _ _ h3
  | fileHandleRegister fd i cb ctx k ih =>
    intro w w' h
    simp only [runProg]
    rcases map_eq_cases (HAPPlatformFileHandleRegister_eraseStop env fd i cb ctx h) with
      ⟨f, h1, h2⟩ | ⟨⟨e1, t1, u1⟩, ⟨e2, t2, u2⟩, h1, h2, h3⟩
    · rw [h1, h2]
    · rw [h1, h2]
      simp only [Prod.mk.injEq] at h3
      obtain ⟨rfl, rfl, h3⟩ := h3
      exact ih _ _ _ _ h3
  | fileHandleUpdateInterests fh i cb ctx k ih =>
    intro w w' h
    simp only [runProg]
    rcases map_eq_cases (HAPPlatformFileHandleUpdateInterests_eraseStop fh i cb ctx h) with
      ⟨f, h1, h2⟩ | ⟨u1, u2, h1, h2, h3⟩
    · rw [h1, h2]
    · rw [h1, h2]
      exact ih _ _ h3
  | fileHandleDeregister fh k ih =>
    intro w w' h
    simp only [runProg]
    rcases map_eq_cases (HAPPlatformFileHandleDeregister_eraseStop fh h) with
      ⟨f, h1, h2⟩ | ⟨u1, u2, h1, h2, h3⟩
    · rw [h1, h2]
    · rw [h1, h2]
      exact ih _ _ h3
  | scheduleCallback cb ctx n k ih =>
    intro w w' h
    simp only [runProg]
    rcases map_eq_cases (HAPPlatformRunLoopScheduleCallback_eraseStop cb ctx n h) with
      ⟨f, h1, h2⟩ | ⟨⟨e1, u1⟩, ⟨e2, u2⟩, h1, h2, h3⟩
    · rw [h1, h2]
    · rw [h1, h2]
      simp only [Prod.mk.injEq] at h3
      obtain ⟨rfl, h3⟩ := h3
      exact ih _ _ _ (World.eraseStop_log h3 rfl)
  | runLoopStop k ih =>
    intro w w' h
    simp only [runProg]
    refine ih _ _ ?_
    rw [HAPPlatformRunLoopStop_eraseStop, HAPPlatformRunLoopStop_eraseStop, h]
  | load k ih =>
    intro w w' h
    simp only [runProg]
    rw [(World.eraseStop_fields h).2.2.2.2.2.2.2.1]
    exact ih _ _ _ h
  | store v k ih =>
    intro w w' h
    simp only [runProg]
    refine ih _ _ ?_
    obtain ⟨h1, h2, h3, h4, h5, h6, h7, h8, h9⟩ := World.eraseStop_fields h
    apply World.eraseStop_eq_of_fields <;> first | rfl | assumption

theorem SelfPipeHandleCallback_eraseStop (env : Env) (ev : HAPPlatformFileHandleEvent)
    {w w' : World} (h : w.eraseStop = w'.eraseStop) :
    Except.map World.eraseStop (SelfPipeHandleCallback env ev w) =
      Except.map World.eraseStop (SelfPipeHandleCallback env ev w') := by
  obtain ⟨h1, h2, h3, h4, h5, h6, h7, h8, h9⟩ := World.eraseStop_fields h
  unfold SelfPipeHandleCallback
  dsimp only
  rw [h6, h5]
  split
  · split
    · refine runProg_eraseStop env _ _ _ ?_
      apply World.eraseStop_eq_of_fields <;> first | rfl | assumption | skip
      show (w.trace ++ _).map Event.eraseState = (w'.trace ++ _).map Event.eraseState
      rw [List.map_append, List.map_append, h9]
      simp only [List.map_cons, List.map_nil, Event.eraseState, RunLoop.eraseState, h1, h2, h3,
        h4, h5]
    · simp only [Except.map]
      refine congrArg Except.ok ?_
      apply World.eraseStop_eq_of_fields <;> first | rfl | assumption
  · simp only [Except.map]
    exact congrArg Except.ok h

theorem invokeFileHandleCallback_eraseStop (env : Env) {fileHandle fileHandle' : Nat}
    (node : HAPPlatformFileHandle) (ev : HAPPlatformFileHandleEvent) {w w' : World}
    (hfh : fileHandle = fileHandle') (h : w.eraseStop = w'.eraseStop) :
    Except.map World.eraseStop (invokeFileHandleCallback env fileHandle node ev w) =
      Except.map World.eraseStop (invokeFileHandleCallback env fileHandle' node ev w') := by
  subst hfh
  have hlog := World.eraseStop_log h
    (e := Event.fileHandleCallback fileHandle node.callback ev node.context w.runLoop)
    (f := Event.fileHandleCallback fileHandle node.callback ev node.context w'.runLoop)
    (by
      simp only [Event.eraseState]
      rw [RunLoop.eraseState_eq_of_eraseStop h])
  unfold invokeFileHandleCallback
  dsimp only
  split
  · exact SelfPipeHandleCallback_eraseStop env ev hlog
  · exact runProg_eraseStop env _ _ _ hlog

theorem map_bind_congr {α : Type} {g : α → α} {a b : Except Fault α}
    {F : α → Except Fault α} (h : Except.map g a = Except.map g b)
    (hF : ∀ x y, g x = g y → Except.map g (F x) = Except.map g (F y)) :
    Except.map g (a.bind F) = Except.map g (b.bind F) := by
  rcases map_eq_cases h with ⟨f, h1, h2⟩ | ⟨x, y, h1, h2, h3⟩
  · rw [h1, h2]
  · rw [h1, h2]; exact hF x y h3

/-- One turn of the loop of `ProcessSelectedFileHandles` at a registered handle. -/
theorem dispatchLoop_unfold (env : Env) (pollFds : List WSAPOLLFD) {w : World}
    {node : HAPPlatformFileHandle}
    (hne : w.runLoop.fileHandleCursor ≠ w.runLoop.fileHandles)
    (hnode : memLoad w.runLoop.fileHandleMem w.runLoop.fileHandleCursor = some node)
    (fuel : Nat) :
    dispatchLoop env pollFds (fuel + 1) w =
      if node.isAwaitingEvents = true then
        if node.fileDescriptor = INVALID_SOCKET then .error Fault.assertionFailure
        else if node.callback ≠ NULL then
          match findPollFd pollFds node.fileDescriptor with
          | none =>
            dispatchLoop env pollFds fuel
              { w with runLoop := { w.runLoop with
                  fileHandleCursor := node.nextFileHandle
                  fileHandleMem := memStore w.runLoop.fileHandleMem w.runLoop.fileHandleCursor
                    { node with isAwaitingEvents := false } } }
          | some entry =>
            if ((fileHandleEventsOf node.interests entry.revents).isReadyForReading ||
                (fileHandleEventsOf node.interests entry.revents).isReadyForWriting ||
                (fileHandleEventsOf node.interests entry.revents).hasErrorConditionPending) =
                true then
              (invokeFileHandleCallback env w.runLoop.fileHandleCursor
                { node with isAwaitingEvents := false }
                (fileHandleEventsOf node.interests entry.revents)
                { w with runLoop := { w.runLoop with
                    fileHandleCursor := node.nextFileHandle
                    fileHandleMem := memStore w.runLoop.fileHandleMem w.runLoop.fileHandleCursor
                      { node with isAwaitingEvents := false } } }).bind
                (dispatchLoop env pollFds fuel)
            else
              dispatchLoop env pollFds fuel
                { w with runLoop := { w.runLoop with
                    fileHandleCursor := node.nextFileHandle
                    fileHandleMem := memStore w.runLoop.fileHandleMem w.runLoop.fileHandleCursor
                      { node with isAwaitingEvents := false } } }
        else
          dispatchLoop env pollFds fuel
            { w with runLoop := { w.runLoop with
                fileHandleCursor := node.nextFileHandle
                fileHandleMem := memStore w.runLoop.fileHandleMem w.runLoop.fileHandleCursor
                  { node with isAwaitingEvents := false } } }
      else
        dispatchLoop env pollFds fuel
          { w with runLoop := { w.runLoop with fileHandleCursor := node.nextFileHandle } } := by
  simp only [dispatchLoop, if_neg hne, hnode]
  split
  · split
    · rfl
    · split
      · split
        · rfl
        · split
          · rename_i heq
            cases hinv : invokeFileHandleCallback env w.runLoop.fileHandleCursor
                { node with isAwaitingEvents := false }
                (fileHandleEventsOf node.interests (by assumption : WSAPOLLFD).revents)
                { w with runLoop := { w.runLoop with
                    fileHandleCursor := node.nextFileHandle
                    fileHandleMem := memStore w.runLoop.fileHandleMem w.runLoop.fileHandleCursor
                      { node with isAwaitingEvents := false } } } with
            | error f => simp only [hinv]; rfl
            | ok w3 => simp only [hinv]; rfl
          · rfl
      · rfl
  · rfl

/-- The loop of `ProcessSelectedFileHandles` does not read what `HAPPlatformRunLoopStop`
writes: from two machines that differ in nothing else it faults alike or returns two machines
that differ in nothing else. -/
theorem dispatchLoop_eraseStop (env : Env) (pollFds : List WSAPOLLFD) :
    ∀ (fuel : Nat) (w w' : World), w.eraseStop = w'.eraseStop →
      Except.map World.eraseStop (dispatchLoop env pollFds fuel w) =
        Except.map World.eraseStop (dispatchLoop env pollFds fuel w') := by
  intro fuel
  induction fuel with
  | zero => intro w w' _; rfl
  | succ fuel ih =>
    intro w w' h
    obtain ⟨h1, h2, h3, h4, h5, h6, h7, h8, h9⟩ := World.eraseStop_fields h
    by_cases hcur : w.runLoop.fileHandleCursor = w.runLoop.fileHandles
    · have hcur' : w'.runLoop.fileHandleCursor = w'.runLoop.fileHandles := by
        rw [← h2, ← h3]; exact hcur
      simp only [dispatchLoop, if_pos hcur, if_pos hcur', Except.map]
      exact congrArg Except.ok h
    · have hcur' : w'.runLoop.fileHandleCursor ≠ w'.runLoop.fileHandles := by
        rw [← h2, ← h3]; exact hcur
      cases hnode : memLoad w.runLoop.fileHandleMem w.runLoop.fileHandleCursor with
      | none =>
        have hnode' : memLoad w'.runLoop.fileHandleMem w'.runLoop.fileHandleCursor = none := by
          rw [← h1, ← h3]; exact hnode
        simp only [dispatchLoop, if_neg hcur, if_neg hcur', hnode, hnode']
      | some node =>
        have hnode' : memLoad w'.runLoop.fileHandleMem w'.runLoop.fileHandleCursor =
            some node := by
          rw [← h1, ← h3]; exact hnode
        rw [dispatchLoop_unfold env pollFds hcur hnode, dispatchLoop_unfold env pollFds hcur' hnode']
        have hw1 : ({ w with runLoop := { w.runLoop with
              fileHandleCursor := node.nextFileHandle } } : World).eraseStop =
            ({ w' with runLoop := { w'.runLoop with
              fileHandleCursor := node.nextFileHandle } } : World).eraseStop := by
          apply World.eraseStop_eq_of_fields <;> first | rfl | assumption
        have hw2 : ({ w with runLoop := { w.runLoop with
              fileHandleCursor := node.nextFileHandle
              fileHandleMem := memStore w.runLoop.fileHandleMem w.runLoop.fileHandleCursor
                { node with isAwaitingEvents := false } } } : World).eraseStop =
            ({ w' with runLoop := { w'.runLoop with
              fileHandleCursor := node.nextFileHandle
              fileHandleMem := memStore w'.runLoop.fileHandleMem w'.runLoop.fileHandleCursor
                { node with isAwaitingEvents := false } } } : World).eraseStop := by
          apply World.eraseStop_eq_of_fields <;> first | rfl | assumption | skip
          show memStore _ _ _ = memStore _ _ _
          rw [h1, h3]
        split
        · split
          · rfl
          · split
            · split
              · exact ih _ _ hw2
              · split
                · exact map_bind_congr
                    (invokeFileHandleCallback_eraseStop env _ _ h3 hw2) (fun x y hxy => ih x y hxy)
                · exact ih _ _ hw2
            · exact ih _ _ hw2
        · exact ih _ _ hw1

theorem dispatches_map_eraseState (trace : List Event) :
    dispatches (trace.map Event.eraseState) = dispatches trace := by
  induction trace with
  | nil => rfl
  | cons e rest ih =>
    cases e <;> simp only [List.map_cons, Event.eraseState, dispatches, ih]

theorem polls_map_eraseState (trace : List Event) :
    polls (trace.map Event.eraseState) = polls trace := by
  induction trace with
  | nil => rfl
  | cons e rest ih =>
    cases e <;> simp only [List.map_cons, Event.eraseState, polls, ih]

/-- A loop that is no longer `Running` returns at once, whatever cycles could still follow. -/
theorem runLoopWhile_not_running (env : Env) (rest : List CycleInput) {w : World}
    (h : w.runLoop.state ≠ HAPPlatformRunLoopState.kHAPPlatformRunLoopState_Running) :
    runLoopWhile env rest w = .ok w := by
  cases rest with
  | nil => simp only [runLoopWhile, if_neg h]
  | cons inp rest => simp only [runLoopWhile, if_neg h]

/-! ## Stop during a dispatch pass -/

/-- C15. Let a callback invoked by the dispatch pass of a cycle call `HAPPlatformRunLoopStop`
in the machine `w`, with the loop `Running`, let `p` be the rest of its body, and let the rest
of the callback and of the pass return `wb`. Then (1) the rest of the pass is what it would
have been without the call: without it the rest of the callback and of the pass return too,
with the same callback invocations in the same order and the same registry, and the two
machines differ only in what `HAPPlatformRunLoopStop` writes (the field `state` and the bytes
queued on the self pipe), and this holds of any outcome, faults included, and any fuel; (2) the
state is `Stopping` when the pass ends; (3) the loop then returns at once, whatever cycles could
follow: the cycle whose pass this was is the last one, no timer is drained and no poll is
started after it, and `HAPPlatformRunLoopRun` returns that machine with the state `Idle`. -/
theorem stop_during_dispatch (env : Env) (pollFds : List WSAPOLLFD) (p : Prog) (fuel : Nat)
    (w wa wb : World)
    (hrun : w.runLoop.state = HAPPlatformRunLoopState.kHAPPlatformRunLoopState_Running)
    (hrest : runProg env p (HAPPlatformRunLoopStop w) = .ok wa)
    (hpass : dispatchLoop env pollFds fuel wa = .ok wb) :
    (∃ wa' wb', runProg env p w = .ok wa' ∧ dispatchLoop env pollFds fuel wa' = .ok wb' ∧
      wb'.eraseStop = wb.eraseStop ∧ dispatches wb'.trace = dispatches wb.trace ∧
      wb'.runLoop.fileHandleMem = wb.runLoop.fileHandleMem) ∧
    (∀ fuel',
      Except.map World.eraseStop
        ((runProg env p (HAPPlatformRunLoopStop w)).bind (dispatchLoop env pollFds fuel')) =
      Except.map World.eraseStop
        ((runProg env p w).bind (dispatchLoop env pollFds fuel'))) ∧
    wb.runLoop.state = HAPPlatformRunLoopState.kHAPPlatformRunLoopState_Stopping ∧
    (∀ rest, runLoopWhile env rest wb = .ok wb) ∧
    (∀ inp rest u,
      u.runLoop.state = HAPPlatformRunLoopState.kHAPPlatformRunLoopState_Running →
      runLoopCycle env inp u = .ok wb →
      runLoopWhile env (inp :: rest) u = .ok wb ∧
      ∀ u0, u0.runLoop.state = HAPPlatformRunLoopState.kHAPPlatformRunLoopState_Idle →
        u = setState HAPPlatformRunLoopState.kHAPPlatformRunLoopState_Running u0 →
        HAPPlatformRunLoopRun env (inp :: rest) u0 =
          .ok (setState HAPPlatformRunLoopState.kHAPPlatformRunLoopState_Idle wb)) := by
  have heq : ∀ fuel',
      Except.map World.eraseStop
        ((runProg env p (HAPPlatformRunLoopStop w)).bind (dispatchLoop env pollFds fuel')) =
      Except.map World.eraseStop
        ((runProg env p w).bind (dispatchLoop env pollFds fuel')) := fun fuel' =>
    map_bind_congr (runProg_eraseStop env p _ _ (HAPPlatformRunLoopStop_eraseStop w))
      (fun x y hxy => dispatchLoop_eraseStop env pollFds fuel' x y hxy)
  have hstop : wb.runLoop.state = HAPPlatformRunLoopState.kHAPPlatformRunLoopState_Stopping := by
    have hu : Updates env (HAPPlatformRunLoopStop w) wb :=
      (runProg_updates env p _ wa hrest).trans (dispatchLoop_updates env pollFds fuel wa wb hpass)
    refine hu.state_running_or_stopping.2 ?_
    unfold HAPPlatformRunLoopStop
    rw [if_pos hrun]
  have hnr : wb.runLoop.state ≠ HAPPlatformRunLoopState.kHAPPlatformRunLoopState_Running := by
    rw [hstop]; intro h; cases h
  refine ⟨?_, heq, hstop, fun rest => runLoopWhile_not_running env rest hnr, ?_⟩
  · have h1 := heq fuel
    rw [hrest] at h1
    have h2 : (Except.ok wa : Except Fault World).bind (dispatchLoop env pollFds fuel) =
        .ok wb := hpass
    rw [h2] at h1
    cases hp : runProg env p w with
    | error f => rw [hp] at h1; cases h1
    | ok wa' =>
      rw [hp] at h1
      have h3 : (Except.ok wa' : Except Fault World).bind (dispatchLoop env pollFds fuel) =
          dispatchLoop env pollFds fuel wa' := rfl
      rw [h3] at h1
      cases hl : dispatchLoop env pollFds fuel wa' with
      | error f => rw [hl] at h1; cases h1
      | ok wb' =>
        rw [hl] at h1
        have h4 : wb.eraseStop = wb'.eraseStop := Except.ok.inj h1
        refine ⟨wa', wb', rfl, hl, h4.symm, ?_, (World.eraseStop_fields h4).1.symm⟩
        have h5 := (World.eraseStop_fields h4).2.2.2.2.2.2.2.2
        rw [← dispatches_map_eraseState wb'.trace, ← h5, dispatches_map_eraseState]
  · intro inp rest u hu hcycle
    have hwhile : runLoopWhile env (inp :: rest) u = .ok wb := by
      simp only [runLoopWhile, if_pos hu, hcycle]
      exact runLoopWhile_not_running env rest hnr
    refine ⟨hwhile, fun u0 hidle hu0 => ?_⟩
    unfold HAPPlatformRunLoopRun
    rw [if_neg (by rw [hidle]; exact fun h => h rfl)]
    have : ({ u0 with runLoop := { u0.runLoop with
        state := HAPPlatformRunLoopState.kHAPPlatformRunLoopState_Running } } : World) = u :=
      hu0.symm
    rw [this, hwhile]
    rfl

/-- Witness for C15: the callback of the first of three readable handles calls
`HAPPlatformRunLoopStop` and returns; the second and the third handle still get their
callback. -/
theorem stop_during_dispatch_witness :
    ∃ wa wb,
      midPassWorld.runLoop.state = HAPPlatformRunLoopState.kHAPPlatformRunLoopState_Running ∧
      runProg stopFromCallbackEnv Prog.ret (HAPPlatformRunLoopStop midPassWorld) = .ok wa ∧
      dispatchLoop stopFromCallbackEnv threeReadableFds 3 wa = .ok wb ∧
      dispatches wb.trace = [(3, 21, ⟨true, false, false⟩), (4, 22, ⟨true, false, false⟩)] ∧
      ((∃ wa' wb', runProg stopFromCallbackEnv Prog.ret midPassWorld = .ok wa' ∧
        dispatchLoop stopFromCallbackEnv threeReadableFds 3 wa' = .ok wb' ∧
        wb'.eraseStop = wb.eraseStop ∧ dispatches wb'.trace = dispatches wb.trace ∧
        wb'.runLoop.fileHandleMem = wb.runLoop.fileHandleMem) ∧
      (∀ fuel',
        Except.map World.eraseStop
          ((runProg stopFromCallbackEnv Prog.ret (HAPPlatformRunLoopStop midPassWorld)).bind
            (dispatchLoop stopFromCallbackEnv threeReadableFds fuel')) =
        Except.map World.eraseStop
          ((runProg stopFromCallbackEnv Prog.ret midPassWorld).bind
            (dispatchLoop stopFromCallbackEnv threeReadableFds fuel'))) ∧
      wb.runLoop.state = HAPPlatformRunLoopState.kHAPPlatformRunLoopState_Stopping ∧
      (∀ rest, runLoopWhile stopFromCallbackEnv rest wb = .ok wb) ∧
      (∀ inp rest u,
        u.runLoop.state = HAPPlatformRunLoopState.kHAPPlatformRunLoopState_Running →
        runLoopCycle stopFromCallbackEnv inp u = .ok wb →
        runLoopWhile stopFromCallbackEnv (inp :: rest) u = .ok wb ∧
        ∀ u0, u0.runLoop.state = HAPPlatformRunLoopState.kHAPPlatformRunLoopState_Idle →
          u = setState HAPPlatformRunLoopState.kHAPPlatformRunLoopState_Running u0 →
          HAPPlatformRunLoopRun stopFromCallbackEnv (inp :: rest) u0 =
            .ok (setState HAPPlatformRunLoopState.kHAPPlatformRunLoopState_Idle wb))) :=
  ⟨_, _, rfl, rfl, rfl, rfl,
    stop_during_dispatch stopFromCallbackEnv threeReadableFds Prog.ret 3 midPassWorld _ _
      rfl rfl rfl⟩

/-- A call of `HAPPlatformRunLoopRun` with three readable handles in which the callback of the
first handle calls `HAPPlatformRunLoopStop`: the two other handles get their callback in the
same pass, and the call returns after this cycle, with one poll made, although a second cycle
could follow. -/
theorem stop_in_callback_example :
    ∃ w w1, runSteps stopFromCallbackEnv threeHandlesSteps World.init = .ok w ∧
      HAPPlatformRunLoopRun stopFromCallbackEnv [allReadableInput, allReadableInput] w =
        .ok w1 ∧
      dispatches w1.trace =
        [(2, 20, ⟨true, false, false⟩), (3, 21, ⟨true, false, false⟩),
         (4, 22, ⟨true, false, false⟩)] ∧
      (polls w1.trace).length = 1 ∧
      w1.runLoop.state = HAPPlatformRunLoopState.kHAPPlatformRunLoopState_Idle :=
  ⟨_, _, rfl, rfl, rfl, rfl, rfl⟩

/-! ## Timer queue: insertion position -/

theorem takeWhile_le_zero_of_positive (l : List HAPPlatformTimer)
    (hpos : ∀ t ∈ l, 1 ≤ t.deadline) :
    l.takeWhile (fun t => decide (t.deadline ≤ 0)) = [] ∧
      l.dropWhile (fun t => decide (t.deadline ≤ 0)) = l := by
  cases l with
  | nil => exact ⟨rfl, rfl⟩
  | cons t rest =>
    have h1 := hpos t (List.mem_cons_self _ _)
    have h2 : ¬ t.deadline ≤ 0 := by omega
    simp [List.takeWhile, List.dropWhile, h2]

/-- C27. On a machine reached from program start, a successful
`HAPPlatformTimerRegister` with deadline `0` stores the deadline `1` and links the new timer at
the head of the queue, in front of every pending timer (also those stored with deadline `1`);
with a deadline other than `0` it stores the deadline unchanged and links the new timer behind
every pending timer whose deadline is less than or equal to it and in front of every pending
timer whose deadline is greater. -/
theorem register_insertion_position (env : Env) (steps : List Step) (w : World)
    (deadline callback context : Nat)
    (hr : runSteps env steps World.init = .ok w)
    (hcb : callback ≠ NULL) (halloc : env.callocFails w.numAllocs = false) :
    ∃ w1, HAPPlatformTimerRegister env deadline callback context w
        = .ok (HAPError.kHAPError_None, allocAddr w.numAllocs, w1) ∧
      (deadline = 0 →
        w1.runLoop.timers = ⟨allocAddr w.numAllocs, 1, callback, context⟩ :: w.runLoop.timers) ∧
      (deadline ≠ 0 →
        ∃ before after, w.runLoop.timers = before ++ after ∧
          w1.runLoop.timers =
            before ++ ⟨allocAddr w.numAllocs, deadline, callback, context⟩ :: after ∧
          (∀ t ∈ before, t.deadline ≤ deadline) ∧ (∀ t ∈ after, deadline < t.deadline)) := by
  have hinv := TimerInv.of_reachable hr
  refine ⟨{ w with
      numAllocs := w.numAllocs + 1
      runLoop := { w.runLoop with
        timers := insertTimer ⟨allocAddr w.numAllocs, if deadline ≠ 0 then deadline else 1,
          callback, context⟩ deadline w.runLoop.timers } }, ?_, ?_, ?_⟩
  · unfold HAPPlatformTimerRegister
    simp only [if_neg hcb, halloc, Bool.false_eq_true, if_false]
  · intro hd
    subst hd
    show insertTimer _ 0 _ = _
    rw [insertTimer_eq_takeWhile]
    obtain ⟨h1, h2⟩ := takeWhile_le_zero_of_positive w.runLoop.timers hinv.positive
    rw [h1, h2]
    rfl
  · intro hd
    refine ⟨w.runLoop.timers.takeWhile (fun t => decide (t.deadline ≤ deadline)),
      w.runLoop.timers.dropWhile (fun t => decide (t.deadline ≤ deadline)),
      (List.takeWhile_append_dropWhile _ _).symm, ?_, ?_, ?_⟩
    · show insertTimer _ deadline _ = _
      rw [insertTimer_eq_takeWhile, if_pos hd]
    · intro t ht
      have := List.mem_takeWhile_imp ht
      exact of_decide_eq_true this
    · intro t ht
      rw [dropWhile_eq_filter_of_ordered deadline _ hinv.ordered] at ht
      exact of_decide_eq_true (List.mem_filter.mp ht).2

/-- Witness for C27: a registration with deadline `0` and one with deadline `5` on the queue
with the stored deadlines `1`, `1`, `3`, `5`, `5`. -/
theorem register_insertion_position_witness :
    ∃ w w1, runSteps idleEnv dueSteps World.init = .ok w ∧ (8 : Nat) ≠ NULL ∧
      idleEnv.callocFails w.numAllocs = false ∧
      w.runLoop.timers.map HAPPlatformTimer.deadline = [1, 1, 3, 5, 5] ∧
      HAPPlatformTimerRegister idleEnv 0 8 0 w
        = .ok (HAPError.kHAPError_None, allocAddr w.numAllocs, w1) ∧
      ((0 : Nat) = 0 →
        w1.runLoop.timers = ⟨allocAddr w.numAllocs, 1, 8, 0⟩ :: w.runLoop.timers) ∧
      ((0 : Nat) ≠ 0 →
        ∃ before after, w.runLoop.timers = before ++ after ∧
          w1.runLoop.timers = before ++ ⟨allocAddr w.numAllocs, 0, 8, 0⟩ :: after ∧
          (∀ t ∈ before, t.deadline ≤ 0) ∧ (∀ t ∈ after, 0 < t.deadline)) := by
  obtain ⟨w1, h1, h2, h3⟩ :=
    register_insertion_position idleEnv dueSteps _ 0 8 0 rfl (by decide) rfl
  exact ⟨_, w1, rfl, by decide, rfl, rfl, h1, h2, h3⟩

/-! ## The registry as a sequence -/

theorem memLoad_cons (k : Nat) (v : HAPPlatformFileHandle) (m : FileHandleMem) (a : Nat) :
    memLoad ((k, v) :: m) a = if k = a then some v else memLoad m a := rfl

/-- A memory in which distinct addresses are allocated has at least as many cells. -/
theorem length_le_of_loaded :
    ∀ (mem : FileHandleMem) (L : List Nat), L.Nodup →
      (∀ a ∈ L, ∃ v, memLoad mem a = some v) → L.length ≤ mem.length := by
  intro mem
  induction mem with
  | nil =>
    intro L _ hl
    cases L with
    | nil => exact le_refl _
    | cons a t =>
      obtain ⟨v, hv⟩ := hl a (List.mem_cons_self _ _)
      cases hv
  | cons e m ih =>
    obtain ⟨k, v⟩ := e
    intro L hnd hl
    have h1 : (L.erase k).length ≤ m.length := by
      refine ih (L.erase k) (hnd.erase k) ?_
      intro a ha
      have hak := (List.Nodup.mem_erase_iff hnd).mp ha
      obtain ⟨u, hu⟩ := hl a hak.2
      rw [memLoad_cons, if_neg (fun h => hak.1 h.symm)] at hu
      exact ⟨u, hu⟩
    have h2 : L.length ≤ (L.erase k).length + 1 := by
      by_cases hk : k ∈ L
      · rw [List.length_erase_of_mem hk]
        omega
      · rw [List.erase_of_not_mem hk]
        omega
    show L.length ≤ m.length + 1
    omega

/-- A walk along a linked segment that ends at the sentinel returns the segment. -/
theorem walkFileHandles_linked {mem : FileHandleMem} {s : Nat} :
    ∀ (l : List Nat) (a fuel : Nat), Linked mem a l s → s ∉ l → l.length ≤ fuel →
      walkFileHandles mem s fuel (l.headD s) = .ok l := by
  intro l
  induction l with
  | nil =>
    intro a fuel _ _ _
    cases fuel with
    | zero => simp [walkFileHandles]
    | succ f => simp [walkFileHandles]
  | cons h t ih =>
    intro a fuel hl hs hlen
    cases fuel with
    | zero => simp at hlen
    | succ f =>
      have hhs : h ≠ s := fun he => hs (he ▸ List.mem_cons_self _ _)
      obtain ⟨node, hnode⟩ := hl.2.live h (List.mem_cons_self _ _)
      have hnext : node.nextFileHandle = t.headD s := by
        have := hl.2.next_start
        rw [nextOf_of_load hnode] at this
        exact Option.some.inj this
      have hrec := ih h f hl.2 (fun hm => hs (List.mem_cons_of_mem _ hm))
        (Nat.le_of_succ_le_succ hlen)
      simp only [List.headD_cons, walkFileHandles, if_neg hhs, hnode, hnext, hrec]

/-- The traversal of `HAPPlatformRunLoopRun` returns the list of the registry invariant. -/
theorem RegistryInv.registeredHandles_eq {w : World} {l : List Nat} (h : RegistryInv w l) :
    registeredHandles w = .ok l := by
  obtain ⟨head, hhead, -, hnext⟩ := h.load_sentinel
  unfold registeredHandles
  rw [h.sentinel, hhead]
  dsimp only
  rw [hnext]
  refine walkFileHandles_linked l sentinelAddr _ h.linked h.sentinel_not_mem ?_
  have := length_le_of_loaded w.runLoop.fileHandleMem (sentinelAddr :: l) h.nodup_cons
    (fun a ha => h.load_mem ha)
  simp only [List.length_cons] at this
  omega

theorem RegistryInv.unique {w : World} {l l' : List Nat} (h : RegistryInv w l)
    (h' : RegistryInv w l') : l = l' := by
  have h1 := h.registeredHandles_eq
  rw [h'.registeredHandles_eq] at h1
  exact (Except.ok.inj h1).symm

/-- In a machine that an execution can be in, the traversal returns the registry. -/
theorem Reachable.registry {env : Env} {w : World} {l : List Nat} (hr : Reachable env w)
    (hl : registeredHandles w = .ok l) : RegistryInv w l := by
  obtain ⟨l', h'⟩ := RegistryInv.of_reach hr
  rw [h'.registeredHandles_eq] at hl
  cases hl
  exact h'

/-! ## Deregistration of a handle -/

/-- C25. In a machine that an execution can be in, with the registry sequence `l`, the call
`HAPPlatformFileHandleDeregister(H)` for a registered handle `H` returns, and writing
`l = l1 ++ H :: l2`: the registry sequence is then `l1 ++ l2`, which is `l` with `H` erased, the
other handles being in the same order and keeping their content; the cell of `H` is released;
the cursor, when it was at `H`, is at the former successor of `H` (the first handle of `l2`, or
the sentinel when `H` was last), and is unchanged otherwise; in both cases it is not `H`. -/
theorem deregister_removes_handle (env : Env) (w : World) (l : List Nat) (H : Nat)
    (hreach : Reachable env w) (hl : registeredHandles w = .ok l) (hH : H ∈ l) :
    ∃ w1 l1 l2, l = l1 ++ H :: l2 ∧ H ∉ l1 ∧ H ∉ l2 ∧
      HAPPlatformFileHandleDeregister H w = .ok w1 ∧
      registeredHandles w1 = .ok (l1 ++ l2) ∧ l1 ++ l2 = l.erase H ∧
      nextOf w.runLoop.fileHandleMem H = some (l2.headD w.runLoop.fileHandles) ∧
      w1.runLoop.fileHandleCursor =
        (if w.runLoop.fileHandleCursor = H then l2.headD w.runLoop.fileHandles
         else w.runLoop.fileHandleCursor) ∧
      w1.runLoop.fileHandleCursor ≠ H ∧
      memLoad w1.runLoop.fileHandleMem H = none ∧
      (∀ a, a ≠ H →
        payloadOf w1.runLoop.fileHandleMem a = payloadOf w.runLoop.fileHandleMem a) := by
  have hr := hreach.registry hl
  obtain ⟨l1, l2, rfl⟩ := List.append_of_mem hH
  have hnd := hr.nodup
  rw [List.nodup_append] at hnd
  have h1 : H ∉ l1 := fun hm => hnd.2.2 hm (List.mem_cons_self _ _)
  have h2 : H ∉ l2 := (List.nodup_cons.mp hnd.2.1).1
  have hs : H ≠ sentinelAddr := fun he => hr.sentinel_not_mem (he ▸ hH)
  obtain ⟨w1, hd, hr1, hcur, hpay, hnone⟩ := HAPPlatformFileHandleDeregister_registry hr
  have hsucc : l2.headD sentinelAddr ≠ H := by
    intro he
    rcases headD_mem_or (p := l2) (s := sentinelAddr) with h3 | h3
    · exact hs (h3 ▸ he).symm
    · exact h2 (he ▸ h3)
  have hcur' : w1.runLoop.fileHandleCursor =
      if w.runLoop.fileHandleCursor = H then l2.headD sentinelAddr
      else w.runLoop.fileHandleCursor := by
    rw [hcur]
    by_cases hc : H = w.runLoop.fileHandleCursor
    · rw [if_pos hc, if_pos hc.symm]
    · rw [if_neg hc, if_neg (fun h => hc h.symm)]
  refine ⟨w1, l1, l2, rfl, h1, h2, hd, hr1.registeredHandles_eq, ?_, ?_, ?_, ?_, hnone, hpay⟩
  · rw [List.erase_append_right _ h1, List.erase_cons_head]
  · rw [hr.sentinel]
    exact (Linked.append.mp hr.linked).2.next_start
  · rw [hr.sentinel]; exact hcur'
  · rw [hcur']
    by_cases hc : w.runLoop.fileHandleCursor = H
    · rw [if_pos hc]; exact hsucc
    · rw [if_neg hc]; exact hc

/-- Witness for C25: of the three registered handles `2`, `3`, `4`, the second is
deregistered. -/
theorem deregister_removes_handle_witness :
    ∃ w w1 l1 l2, runSteps idleEnv threeHandlesSteps World.init = .ok w ∧
      Reachable idleEnv w ∧ registeredHandles w = .ok [2, 3, 4] ∧ 3 ∈ [2, 3, 4] ∧
      [2, 3, 4] = l1 ++ 3 :: l2 ∧ 3 ∉ l1 ∧ 3 ∉ l2 ∧
      HAPPlatformFileHandleDeregister 3 w = .ok w1 ∧
      registeredHandles w1 = .ok (l1 ++ l2) ∧ l1 ++ l2 = [2, 3, 4].erase 3 ∧
      nextOf w.runLoop.fileHandleMem 3 = some (l2.headD w.runLoop.fileHandles) ∧
      w1.runLoop.fileHandleCursor =
        (if w.runLoop.fileHandleCursor = 3 then l2.headD w.runLoop.fileHandles
         else w.runLoop.fileHandleCursor) ∧
      w1.runLoop.fileHandleCursor ≠ 3 ∧
      memLoad w1.runLoop.fileHandleMem 3 = none ∧
      (∀ a, a ≠ 3 →
        payloadOf w1.runLoop.fileHandleMem a = payloadOf w.runLoop.fileHandleMem a) := by
  have hreach : Reachable idleEnv _ :=
    Reachable.reach_of_runSteps threeHandlesSteps Reachable.init
      (rfl : runSteps idleEnv threeHandlesSteps World.init = .ok _)
  obtain ⟨w1, l1, l2, h⟩ :=
    deregister_removes_handle idleEnv _ [2, 3, 4] 3 hreach rfl (by decide)
  exact ⟨_, w1, l1, l2, rfl, hreach, rfl, by decide, h⟩

/-! ## The link invariant of the registry -/

/-- In a linked segment every cell but the last has its successor pointing back at it, and every
cell but the first has its predecessor pointing forward at it. -/
theorem Linked.neighbours {mem : FileHandleMem} {b : Nat} :
    ∀ (l : List Nat) (a : Nat), Linked mem a l b →
      (∀ x ∈ a :: l, ∃ n, n ∈ l ++ [b] ∧ nextOf mem x = some n ∧ prevOf mem n = some x) ∧
      (∀ x ∈ l ++ [b], ∃ p, p ∈ a :: l ∧ prevOf mem x = some p ∧ nextOf mem p = some x) := by
  intro l
  induction l with
  | nil =>
    intro a h
    constructor
    · intro x hx
      rw [List.mem_singleton] at hx
      subst hx
      exact ⟨b, by simp, h.1, h.2⟩
    · intro x hx
      simp only [List.nil_append, List.mem_singleton] at hx
      subst hx
      exact ⟨a, by simp, h.2, h.1⟩
  | cons h t ih =>
    intro a hl
    obtain ⟨ih1, ih2⟩ := ih h hl.2
    constructor
    · intro x hx
      rcases List.mem_cons.mp hx with rfl | hx
      · exact ⟨h, by simp, hl.1.1, hl.1.2⟩
      · obtain ⟨n, hn, h1, h2⟩ := ih1 x hx
        exact ⟨n, by simp only [List.cons_append]; exact List.mem_cons_of_mem _ hn, h1, h2⟩
    · intro x hx
      simp only [List.cons_append] at hx
      rcases List.mem_cons.mp hx with rfl | hx
      · exact ⟨a, by simp, hl.1.2, hl.1.1⟩
      · obtain ⟨p, hp, h1, h2⟩ := ih2 x hx
        exact ⟨p, List.mem_cons_of_mem _ hp, h1, h2⟩

/-- A call of an API function keeps the cursor at the sentinel or at a registered handle. -/
theorem RegistryInv.cursor_of_apiUpdate {env : Env} {w w1 : World} {l : List Nat}
    (h : ApiUpdate env w w1) (hr : RegistryInv w l)
    (hc : w.runLoop.fileHandleCursor ∈ sentinelAddr :: l) :
    ∃ l1, RegistryInv w1 l1 ∧ w1.runLoop.fileHandleCursor ∈ sentinelAddr :: l1 := by
  cases h with
  | timerRegister heq =>
    obtain ⟨t, rfl⟩ := HAPPlatformTimerRegister_shape heq
    exact ⟨l, hr.registry_of_mem_eq rfl rfl (Nat.le_succ _), hc⟩
  | timerDeregister heq =>
    obtain ⟨t, _, rfl⟩ := HAPPlatformTimerDeregister_ok heq
    exact ⟨l, hr.registry_of_mem_eq rfl rfl (le_refl _), hc⟩
  | fileHandleRegister heq =>
    rename_i fd i cb ctx err fh
    obtain ⟨err1, fh1, w2, heq1, hcur, hcases⟩ :=
      HAPPlatformFileHandleRegister_registry env fd i cb ctx hr
    rw [heq] at heq1
    cases heq1
    rcases hcases with ⟨hreg, -⟩ | ⟨-, hreg, -, -⟩
    · exact ⟨l, hreg, hcur ▸ hc⟩
    · refine ⟨_, hreg, ?_⟩
      rw [hcur]
      rcases List.mem_cons.mp hc with h1 | h1
      · rw [h1]; exact List.mem_cons_self _ _
      · exact List.mem_cons_of_mem _ (List.mem_append_left _ h1)
  | fileHandleUpdateInterests heq =>
    obtain ⟨hs, hcur, hn, hnext, hprev, -⟩ := HAPPlatformFileHandleUpdateInterests_links heq
    exact ⟨l, hr.registry_of_links hs (le_of_eq hn.symm) hnext hprev, hcur ▸ hc⟩
  | fileHandleDeregister heq =>
    rename_i fh
    obtain ⟨l1, l2, rfl⟩ := List.append_of_mem (HAPPlatformFileHandleDeregister_mem hr heq)
    obtain ⟨w2, heq2, hreg, hcur, -, -⟩ := HAPPlatformFileHandleDeregister_registry hr
    rw [heq] at heq2
    cases heq2
    refine ⟨_, hreg, ?_⟩
    rw [hcur]
    by_cases hfc : fh = w.runLoop.fileHandleCursor
    · rw [if_pos hfc]
      rcases headD_mem_or (p := l2) (s := sentinelAddr) with h1 | h1
      · rw [h1]; exact List.mem_cons_self _ _
      · exact List.mem_cons_of_mem _ (List.mem_append_right _ h1)
    · rw [if_neg hfc]
      rcases List.mem_cons.mp hc with h1 | h1
      · rw [h1]; exact List.mem_cons_self _ _
      · refine List.mem_cons_of_mem _ ?_
        rcases List.mem_append.mp h1 with h2 | h2
        · exact List.mem_append_left _ h2
        · rcases List.mem_cons.mp h2 with h3 | h3
          · exact absurd h3.symm hfc
          · exact List.mem_append_right _ h3
  | scheduleCallback heq =>
    rcases HAPPlatformRunLoopScheduleCallback_cases heq with ⟨_, rfl, _⟩ | ⟨_, _, _, _, rfl⟩
    · exact ⟨l, hr.registry_of_mem_eq rfl rfl (le_refl _), hc⟩
    · exact ⟨l, hr.registry_of_mem_eq rfl rfl (le_refl _), hc⟩
  | stop =>
    unfold HAPPlatformRunLoopStop
    split
    · exact ⟨l, hr.registry_of_mem_eq rfl rfl (le_refl _), hc⟩
    · exact ⟨l, hr, hc⟩
  | store => exact ⟨l, hr.registry_of_mem_eq rfl rfl (le_refl _), hc⟩

/-- The successor of a registered handle is a registered handle or the sentinel. -/
theorem RegistryInv.next_mem {w : World} {l : List Nat} (hr : RegistryInv w l) {a : Nat}
    {node : HAPPlatformFileHandle} (ha : a ∈ sentinelAddr :: l)
    (hnode : memLoad w.runLoop.fileHandleMem a = some node) :
    node.nextFileHandle ∈ sentinelAddr :: l := by
  obtain ⟨n, hn, h1, -⟩ := (Linked.neighbours l sentinelAddr hr.linked).1 a ha
  rw [nextOf_of_load hnode] at h1
  cases h1
  rcases List.mem_append.mp hn with h2 | h2
  · exact List.mem_cons_of_mem _ h2
  · rw [List.mem_singleton] at h2
    rw [h2]; exact List.mem_cons_self _ _

/-- Every primitive change keeps the cursor at the sentinel or at a registered handle. -/
theorem RegistryInv.cursor_of_update {env : Env} {w w1 : World} {l : List Nat}
    (h : Update env w w1) (hr : RegistryInv w l)
    (hc : w.runLoop.fileHandleCursor ∈ sentinelAddr :: l) :
    ∃ l1, RegistryInv w1 l1 ∧ w1.runLoop.fileHandleCursor ∈ sentinelAddr :: l1 := by
  cases h with
  | api h => exact RegistryInv.cursor_of_apiUpdate h hr hc
  | fireHead _ => exact ⟨l, hr.registry_of_mem_eq rfl rfl (le_refl _), hc⟩
  | selfPipeRecv => exact ⟨l, hr.registry_of_mem_eq rfl rfl (le_refl _), hc⟩
  | selfPipeDeliver _ _ _ _ => exact ⟨l, hr.registry_of_mem_eq rfl rfl (le_refl _), hc⟩
  | enterFileHandleCallback _ _ _ =>
    exact ⟨l, hr.registry_of_mem_eq rfl rfl (le_refl _), hc⟩
  | dispatchStart hhead =>
    refine ⟨l, hr.registry_of_mem_eq rfl rfl (le_refl _), ?_⟩
    exact hr.next_mem (a := sentinelAddr) (List.mem_cons_self _ _) (hr.sentinel ▸ hhead)
  | visitIdle _ hnode _ =>
    exact ⟨l, hr.registry_of_mem_eq rfl rfl (le_refl _), hr.next_mem hc hnode⟩
  | visitAwaiting _ hnode _ =>
    refine ⟨l, hr.registry_of_links rfl (le_refl _) ?_ ?_, hr.next_mem hc hnode⟩
    · intro a
      show nextOf (memStore _ _ _) a = _
      rw [nextOf_memStore]
      by_cases ha : a = w.runLoop.fileHandleCursor
      · rw [if_pos ha, ha, nextOf_of_load hnode]
      · rw [if_neg ha]
    · intro a
      show prevOf (memStore _ _ _) a = _
      rw [prevOf_memStore]
      by_cases ha : a = w.runLoop.fileHandleCursor
      · rw [if_pos ha, ha, prevOf_of_load hnode]
      · rw [if_neg ha]
  | sleep => exact ⟨l, hr.registry_of_mem_eq rfl rfl (le_refl _), hc⟩
  | pollAllocFails => exact ⟨l, hr.registry_of_mem_eq rfl rfl (Nat.le_succ _), hc⟩
  | pollSetup _ _ _ =>
    exact ⟨l, hr.registry_of_links rfl (Nat.le_succ _) (fillPollFds_links _ _).1
      (fillPollFds_links _ _).2, hc⟩

/-- In every machine that an execution can be in, the registry is a well-formed list and the
cursor is at the sentinel or at a registered handle. -/
theorem Reachable.cursor_mem {env : Env} {w : World} (h : Reachable env w) :
    ∃ l, RegistryInv w l ∧ w.runLoop.fileHandleCursor ∈ sentinelAddr :: l := by
  induction h with
  | init => exact ⟨[], RegistryInv.at_init, List.mem_cons_self _ _⟩
  | update _ hu ih =>
    obtain ⟨l, hr, hc⟩ := ih
    exact RegistryInv.cursor_of_update hu hr hc
  | state s _ ih =>
    obtain ⟨l, hr, hc⟩ := ih
    exact ⟨l, hr.registry_of_mem_eq rfl rfl (le_refl _), hc⟩

/-- C29. In every machine that an execution can be in, so after any sequence of successful
calls of `HAPPlatformFileHandleRegister` and `HAPPlatformFileHandleDeregister` with whatever
else happens in between, the registry is a circular doubly linked list around the sentinel:
the traversal from the successor of the sentinel comes back to the sentinel and returns a list
`l` without repetition, a handle is in `l` exactly if it is an allocated cell other than the
sentinel, for every node `x` of the list, the sentinel included, the predecessor of `x` has `x`
as successor and the successor of `x` has `x` as predecessor, both being nodes of the list, and
the cursor is the sentinel or a handle of `l`. -/
theorem registry_link_invariant (env : Env) (w : World) (hreach : Reachable env w) :
    ∃ l, registeredHandles w = .ok l ∧ l.Nodup ∧ w.runLoop.fileHandles ∉ l ∧
      (∀ h, h ∈ l ↔
        h ≠ w.runLoop.fileHandles ∧ ∃ node, memLoad w.runLoop.fileHandleMem h = some node) ∧
      (∀ x ∈ w.runLoop.fileHandles :: l, ∃ node before after,
        memLoad w.runLoop.fileHandleMem x = some node ∧
        node.prevFileHandle ∈ w.runLoop.fileHandles :: l ∧
        node.nextFileHandle ∈ w.runLoop.fileHandles :: l ∧
        memLoad w.runLoop.fileHandleMem node.prevFileHandle = some before ∧
        before.nextFileHandle = x ∧
        memLoad w.runLoop.fileHandleMem node.nextFileHandle = some after ∧
        after.prevFileHandle = x) ∧
      w.runLoop.fileHandleCursor ∈ w.runLoop.fileHandles :: l := by
  obtain ⟨l, hr, hc⟩ := hreach.cursor_mem
  have hs := hr.sentinel
  rw [hs]
  refine ⟨l, hr.registeredHandles_eq, hr.nodup, hr.sentinel_not_mem, ?_, ?_, hc⟩
  · intro h
    constructor
    · intro hm
      exact ⟨fun he => hr.sentinel_not_mem (he ▸ hm), hr.load_mem (List.mem_cons_of_mem _ hm)⟩
    · rintro ⟨hne, node, hnode⟩
      rcases hr.cells h node hnode with h1 | h1
      · exact absurd h1 hne
      · exact h1
  · intro x hx
    obtain ⟨hN, hP⟩ := Linked.neighbours l sentinelAddr hr.linked
    have hx2 : x ∈ l ++ [sentinelAddr] := by
      rcases List.mem_cons.mp hx with h1 | h1
      · rw [h1]; simp
      · exact List.mem_append_left _ h1
    have back : ∀ y, y ∈ l ++ [sentinelAddr] → y ∈ sentinelAddr :: l := by
      intro y hy
      rcases List.mem_append.mp hy with h1 | h1
      · exact List.mem_cons_of_mem _ h1
      · rw [List.mem_singleton] at h1
        rw [h1]; exact List.mem_cons_self _ _
    obtain ⟨node, hnode⟩ := hr.load_mem hx
    obtain ⟨n, hn, h1, h2⟩ := hN x hx
    obtain ⟨p, hp, h3, h4⟩ := hP x hx2
    rw [nextOf_of_load hnode] at h1
    rw [prevOf_of_load hnode] at h3
    cases h1
    cases h3
    obtain ⟨after, hafter⟩ := hr.load_mem (back _ hn)
    obtain ⟨before, hbefore⟩ := hr.load_mem hp
    rw [prevOf_of_load hafter] at h2
    rw [nextOf_of_load hbefore] at h4
    exact ⟨node, before, after, hnode, hp, back _ hn, hbefore, Option.some.inj h4, hafter,
      Option.some.inj h2⟩

/-- Witness for C29: the machine with three registered handles. -/
theorem registry_link_invariant_witness :
    ∃ w, runSteps idleEnv threeHandlesSteps World.init = .ok w ∧ Reachable idleEnv w ∧
      registeredHandles w = .ok [2, 3, 4] ∧
      ∃ l, registeredHandles w = .ok l ∧ l.Nodup ∧ w.runLoop.fileHandles ∉ l ∧
        (∀ h, h ∈ l ↔
          h ≠ w.runLoop.fileHandles ∧ ∃ node, memLoad w.runLoop.fileHandleMem h = some node) ∧
        (∀ x ∈ w.runLoop.fileHandles :: l, ∃ node before after,
          memLoad w.runLoop.fileHandleMem x = some node ∧
          node.prevFileHandle ∈ w.runLoop.fileHandles :: l ∧
          node.nextFileHandle ∈ w.runLoop.fileHandles :: l ∧
          memLoad w.runLoop.fileHandleMem node.prevFileHandle = some before ∧
          before.nextFileHandle = x ∧
          memLoad w.runLoop.fileHandleMem node.nextFileHandle = some after ∧
          after.prevFileHandle = x) ∧
        w.runLoop.fileHandleCursor ∈ w.runLoop.fileHandles :: l :=
  ⟨_, rfl, Reachable.reach_of_runSteps threeHandlesSteps Reachable.init rfl, rfl,
    registry_link_invariant idleEnv _
      (Reachable.reach_of_runSteps threeHandlesSteps Reachable.init rfl)⟩

/-! ## Registration order and the poll array -/

/-- The node that a successful `HAPPlatformFileHandleRegister` leaves at the new address. -/
theorem HAPPlatformFileHandleRegister_node (env : Env) (fd : Int)
    (i : HAPPlatformFileHandleEvent) (cb ctx : Nat) {w w1 : World} {l : List Nat} {fh : Nat}
    (hinv : RegistryInv w l)
    (h : HAPPlatformFileHandleRegister env fd i cb ctx w =
      .ok (HAPError.kHAPError_None, fh, w1)) :
    fh = allocAddr w.numAllocs ∧
    memLoad w1.runLoop.fileHandleMem fh = some
      { fileDescriptor := toSOCKET fd, interests := i, callback := cb, context := ctx,
        prevFileHandle := lastFrom sentinelAddr l, nextFileHandle := sentinelAddr,
        isAwaitingEvents := false } := by
  obtain ⟨head, hhead, hp, -⟩ := hinv.load_sentinel
  have hnew : allocAddr w.numAllocs ∉ sentinelAddr :: l := by
    intro hm
    obtain ⟨node, hnode⟩ := hinv.load_mem hm
    rw [hinv.fresh] at hnode
    cases hnode
  have hsnew : allocAddr w.numAllocs ≠ sentinelAddr :=
    fun h => hnew (h ▸ List.mem_cons_self _ _)
  have hpnew : allocAddr w.numAllocs ≠ lastFrom sentinelAddr l :=
    fun h => hnew (h ▸ lastFrom_mem _ l)
  unfold HAPPlatformFileHandleRegister at h
  dsimp only at h
  split at h
  · cases h
  · rw [hinv.sentinel, hhead] at h
    dsimp only at h
    rw [hp] at h
    split at h
    · cases h
    · split at h
      · cases h
      · cases h
        refine ⟨rfl, ?_⟩
        show memLoad (memStore (memStore (memStore _ _ _) _ _) _ _) _ = _
        rw [memLoad_memStore, if_neg hsnew, memLoad_memStore, if_neg hpnew, memLoad_memStore,
          if_pos rfl]

theorem pollEntryOf_flag (node : HAPPlatformFileHandle) (b : Bool) :
    pollEntryOf { node with isAwaitingEvents := b } = pollEntryOf node := rfl

/-- The poll array lists the visited handles in visiting order, each with the entry of its
node. -/
theorem fillPollFds_entries (l : List Nat) :
    ∀ (mem : FileHandleMem),
      (fillPollFds mem l).2 = l.filterMap (fun h => (memLoad mem h).map pollEntryOf) := by
  induction l with
  | nil => intro mem; rfl
  | cons h t ih =>
    intro mem
    simp only [fillPollFds, List.filterMap_cons]
    cases hnode : memLoad mem h with
    | none => exact ih mem
    | some node =>
      show _ :: (fillPollFds _ t).2 = pollEntryOf node :: List.filterMap _ t
      rw [ih]
      refine congrArg (List.cons _) (List.filterMap_congr ?_)
      intro a _
      rw [memLoad_memStore]
      by_cases ha : a = h
      · rw [if_pos ha, ha, hnode]; rfl
      · rw [if_neg ha]

/-- The memory after the poll array is built: the visited handles are awaiting events and
nothing else has changed. -/
theorem fillPollFds_mem (l : List Nat) :
    ∀ (mem : FileHandleMem) (a : Nat),
      memLoad (fillPollFds mem l).1 a =
        (memLoad mem a).map fun node =>
          if a ∈ l then { node with isAwaitingEvents := true } else node := by
  induction l with
  | nil =>
    intro mem a
    simp only [fillPollFds, List.not_mem_nil, if_false]
    cases memLoad mem a <;> rfl
  | cons h t ih =>
    intro mem a
    simp only [fillPollFds]
    cases hnode : memLoad mem h with
    | none =>
      dsimp only
      rw [ih]
      by_cases ha : a = h
      · rw [ha, hnode]; rfl
      · simp only [List.mem_cons, ha, false_or]
    | some node =>
      dsimp only
      rw [ih, memLoad_memStore]
      by_cases ha : a = h
      · rw [if_pos ha, ha, hnode]
        simp only [Option.map, List.mem_cons, true_or, if_true]
        by_cases ht : h ∈ t <;> simp [ht]
      · rw [if_neg ha]
        simp only [List.mem_cons, ha, false_or]

theorem pollEventsOf_bits (i : HAPPlatformFileHandleEvent) :
    (Nat.land (pollEventsOf i) POLLIN ≠ 0 ↔ i.isReadyForReading = true) ∧
    (Nat.land (pollEventsOf i) POLLOUT ≠ 0 ↔ i.isReadyForWriting = true) ∧
    pollEventsOf i =
      (if i.isReadyForReading then POLLIN else 0) + (if i.isReadyForWriting then POLLOUT else 0) := by
  obtain ⟨r, w, e⟩ := i
  cases r <;> cases w <;> cases e <;> decide

/-- What `HAPPlatformRunLoopRun` has done when it calls `WSAPoll`: the poll array lists the
registered handles in registry order, each with the entry of its node, and every registered
handle is awaiting events. -/
theorem cycleUntilPoll_pollFds {env : Env} {inp : CycleInput} {w w1 : World}
    {pollFds : List WSAPOLLFD} (hreach : Reachable env w)
    (h : cycleUntilPoll env inp w = .ok (w1, some pollFds)) :
    ∃ l, RegistryInv w1 l ∧ l ≠ [] ∧
      pollFds = l.filterMap (fun a => (memLoad w1.runLoop.fileHandleMem a).map pollEntryOf) ∧
      (∀ a ∈ l, awaitingOf w1.runLoop.fileHandleMem a = some true) := by
  unfold cycleUntilPoll at h
  split at h
  · cases h
  · rename_i wt htimers
    have hreach1 : Reachable env wt :=
      hreach.reach_of_updates (ProcessExpiredTimers_updates env _ _ w wt htimers)
    obtain ⟨l, hr⟩ := RegistryInv.of_reach hreach1
    have hwalk := hr.registeredHandles_eq
    unfold registeredHandles at hwalk
    dsimp only at h
    split at h
    · cases h
    · rename_i head hhead
      rw [hhead] at hwalk
      dsimp only at hwalk
      rw [hwalk] at h
      dsimp only at h
      split at h
      · cases h
      · rename_i hlen
        split at h
        · cases h
        · cases h
          have hmem : ∀ a, memLoad (fillPollFds wt.runLoop.fileHandleMem l).1 a =
              (memLoad wt.runLoop.fileHandleMem a).map fun node =>
                if a ∈ l then { node with isAwaitingEvents := true } else node :=
            fillPollFds_mem l wt.runLoop.fileHandleMem
          refine ⟨l, hr.registry_of_links rfl (Nat.le_succ _) (fillPollFds_links _ _).1
            (fillPollFds_links _ _).2, ?_, ?_, ?_⟩
          · intro he
            exact hlen (by rw [he]; rfl)
          · show (fillPollFds wt.runLoop.fileHandleMem l).2 =
              l.filterMap (fun a =>
                (memLoad (fillPollFds wt.runLoop.fileHandleMem l).1 a).map pollEntryOf)
            rw [fillPollFds_entries]
            refine List.filterMap_congr ?_
            intro a ha
            rw [hmem a]
            cases memLoad wt.runLoop.fileHandleMem a with
            | none => rfl
            | some node => simp only [Option.map, if_pos ha, pollEntryOf_flag]
          · intro a ha
            show awaitingOf (fillPollFds wt.runLoop.fileHandleMem l).1 a = _
            unfold awaitingOf
            rw [hmem a]
            obtain ⟨node, hnode⟩ := hr.load_mem (List.mem_cons_of_mem _ ha)
            rw [hnode]
            simp only [Option.map, if_pos ha]

theorem filterMap_loaded {β : Type} (mem : FileHandleMem) (f : HAPPlatformFileHandle → β) :
    ∀ (l : List Nat), (∀ a ∈ l, ∃ node, memLoad mem a = some node) →
      ∃ nodes : List HAPPlatformFileHandle, l.map (memLoad mem) = nodes.map some ∧
        l.filterMap (fun a => (memLoad mem a).map f) = nodes.map f := by
  intro l
  induction l with
  | nil => intro _; exact ⟨[], rfl, rfl⟩
  | cons h t ih =>
    intro hl
    obtain ⟨nodes, h1, h2⟩ := ih (fun a ha => hl a (List.mem_cons_of_mem _ ha))
    obtain ⟨node, hnode⟩ := hl h (List.mem_cons_self _ _)
    refine ⟨node :: nodes, ?_, ?_⟩
    · simp only [List.map_cons, hnode, h1]
    · rw [List.filterMap_cons, hnode, List.map_cons, ← h2]
      rfl

/-- C24. In a machine that an execution can be in, with the registry sequence `l`: a call of
`HAPPlatformFileHandleRegister` returns, and returns `kHAPError_None` when the allocation
succeeds; when it returns `kHAPError_None` with the handle `fh`, the registry sequence is then
`l` followed by `fh`, the node of `fh` carries the given descriptor, interests, callback and
context and is not awaiting events, and the other nodes keep their content. When
`HAPPlatformRunLoopRun` calls `WSAPoll` in a cycle started there, the poll array lists the
handles registered at that time in registry order, entry `i` being built from the node of
handle `i`: its `fd` is the descriptor, its `revents` are `0`, and its `events` are `POLLIN` if
and only if reading is among the interests plus `POLLOUT` if and only if writing is. -/
theorem register_appends_and_poll_order (env : Env) (w : World) (l : List Nat)
    (hreach : Reachable env w) (hl : registeredHandles w = .ok l) :
    (∀ fd i cb ctx, ∃ err fh w1,
      HAPPlatformFileHandleRegister env fd i cb ctx w = .ok (err, fh, w1) ∧
      (env.callocFails w.numAllocs = false → err = HAPError.kHAPError_None)) ∧
    (∀ fd i cb ctx fh w1,
      HAPPlatformFileHandleRegister env fd i cb ctx w =
        .ok (HAPError.kHAPError_None, fh, w1) →
      registeredHandles w1 = .ok (l ++ [fh]) ∧ fh ∉ l ∧
      (∃ node, memLoad w1.runLoop.fileHandleMem fh = some node ∧
        node.fileDescriptor = toSOCKET fd ∧ node.interests = i ∧ node.callback = cb ∧
        node.context = ctx ∧ node.isAwaitingEvents = false) ∧
      (∀ a, a ≠ fh →
        payloadOf w1.runLoop.fileHandleMem a = payloadOf w.runLoop.fileHandleMem a)) ∧
    (∀ inp w1 pollFds, cycleUntilPoll env inp w = .ok (w1, some pollFds) →
      ∃ (l1 : List Nat) (nodes : List HAPPlatformFileHandle), registeredHandles w1 = .ok l1 ∧
        l1.map (memLoad w1.runLoop.fileHandleMem) = nodes.map some ∧
        pollFds = nodes.map pollEntryOf) ∧
    (∀ node, (pollEntryOf node).fd = node.fileDescriptor ∧ (pollEntryOf node).revents = 0 ∧
      (Nat.land (pollEntryOf node).events POLLIN ≠ 0 ↔
        node.interests.isReadyForReading = true) ∧
      (Nat.land (pollEntryOf node).events POLLOUT ≠ 0 ↔
        node.interests.isReadyForWriting = true) ∧
      (pollEntryOf node).events =
        (if node.interests.isReadyForReading then POLLIN else 0) +
          (if node.interests.isReadyForWriting then POLLOUT else 0)) := by
  have hr := hreach.registry hl
  refine ⟨?_, ?_, ?_, ?_⟩
  · intro fd i cb ctx
    obtain ⟨err, fh, w1, heq, -, -⟩ := HAPPlatformFileHandleRegister_registry env fd i cb ctx hr
    refine ⟨err, fh, w1, heq, fun hc => ?_⟩
    unfold HAPPlatformFileHandleRegister at heq
    dsimp only at heq
    rw [hc] at heq
    simp only [Bool.false_eq_true, if_false] at heq
    split at heq
    · cases heq
    · split at heq
      · cases heq
      · split at heq
        · cases heq
        · cases heq; rfl
  · intro fd i cb ctx fh w1 heq
    obtain ⟨hfh, hnode⟩ := HAPPlatformFileHandleRegister_node env fd i cb ctx hr heq
    obtain ⟨err1, fh1, w2, heq1, -, hcases⟩ :=
      HAPPlatformFileHandleRegister_registry env fd i cb ctx hr
    rw [heq] at heq1
    cases heq1
    have hfresh : fh ∉ l := by
      intro hm
      have := (hr.bounds fh hm).2
      omega
    rcases hcases with ⟨hreg, hmem⟩ | ⟨-, hreg, hpay, -⟩
    · exfalso
      rw [hmem, hfh, hr.fresh] at hnode
      cases hnode
    · exact ⟨hreg.registeredHandles_eq, hfresh, ⟨_, hnode, rfl, rfl, rfl, rfl, rfl⟩, hpay⟩
  · intro inp w1 pollFds hc
    obtain ⟨l1, hr1, -, hfds, -⟩ := cycleUntilPoll_pollFds hreach hc
    obtain ⟨nodes, h1, h2⟩ := filterMap_loaded w1.runLoop.fileHandleMem pollEntryOf l1
      (fun a ha => hr1.load_mem (List.mem_cons_of_mem _ ha))
    exact ⟨l1, nodes, hr1.registeredHandles_eq, h1, hfds.trans h2⟩
  · intro node
    obtain ⟨h1, h2, h3⟩ := pollEventsOf_bits node.interests
    exact ⟨rfl, rfl, h1, h2, h3⟩

/-- Witness for C24: the machine with the two registered handles `2` and `3`. -/
theorem register_appends_and_poll_order_witness :
    ∃ w, runSteps idleEnv twoHandlesSteps World.init = .ok w ∧ Reachable idleEnv w ∧
      registeredHandles w = .ok [2, 3] ∧
      (
      (∀ fd i cb ctx, ∃ err fh w1,
        HAPPlatformFileHandleRegister idleEnv fd i cb ctx w = .ok (err, fh, w1) ∧
        (idleEnv.callocFails w.numAllocs = false → err = HAPError.kHAPError_None)) ∧
      (∀ fd i cb ctx fh w1,
        HAPPlatformFileHandleRegister idleEnv fd i cb ctx w =
          .ok (HAPError.kHAPError_None, fh, w1) →
        registeredHandles w1 = .ok ([2, 3] ++ [fh]) ∧ fh ∉ [2, 3] ∧
        (∃ node, memLoad w1.runLoop.fileHandleMem fh = some node ∧
          node.fileDescriptor = toSOCKET fd ∧ node.interests = i ∧ node.callback = cb ∧
          node.context = ctx ∧ node.isAwaitingEvents = false) ∧
        (∀ a, a ≠ fh →
          payloadOf w1.runLoop.fileHandleMem a = payloadOf w.runLoop.fileHandleMem a)) ∧
      (∀ inp w1 pollFds, cycleUntilPoll idleEnv inp w = .ok (w1, some pollFds) →
        ∃ (l1 : List Nat) (nodes : List HAPPlatformFileHandle), registeredHandles w1 = .ok l1 ∧
          l1.map (memLoad w1.runLoop.fileHandleMem) = nodes.map some ∧
          pollFds = nodes.map pollEntryOf) ∧
      (∀ node, (pollEntryOf node).fd = node.fileDescriptor ∧ (pollEntryOf node).revents = 0 ∧
        (Nat.land (pollEntryOf node).events POLLIN ≠ 0 ↔
          node.interests.isReadyForReading = true) ∧
        (Nat.land (pollEntryOf node).events POLLOUT ≠ 0 ↔
          node.interests.isReadyForWriting = true) ∧
        (pollEntryOf node).events =
          (if node.interests.isReadyForReading then POLLIN else 0) +
            (if node.interests.isReadyForWriting then POLLOUT else 0))) :=
  ⟨_, rfl, Reachable.reach_of_runSteps twoHandlesSteps Reachable.init rfl, rfl,
    register_appends_and_poll_order idleEnv _ [2, 3]
      (Reachable.reach_of_runSteps twoHandlesSteps Reachable.init rfl) rfl⟩

/-- A third registration after those of `twoHandlesSteps`, and the poll array of the next
cycle: the new handle is last in the registry and last in the poll array. -/
theorem register_then_poll_example :
    ∃ w w1 w2 pollFds, runSteps idleEnv twoHandlesSteps World.init = .ok w ∧
      HAPPlatformFileHandleRegister idleEnv 7 ⟨false, true, false⟩ 22 0 w =
        .ok (HAPError.kHAPError_None, 4, w1) ∧
      registeredHandles w1 = .ok [2, 3, 4] ∧
      cycleUntilPoll idleEnv failedPollInput w1 = .ok (w2, some pollFds) ∧
      pollFds = [⟨5, POLLIN, 0⟩, ⟨6, POLLIN + POLLOUT, 0⟩, ⟨7, POLLOUT, 0⟩] :=
  ⟨_, _, _, _, rfl, rfl, rfl, rfl, rfl⟩

/-! ## The dispatch rule -/

/-- What a call of an API function records: nothing, or the result of
`HAPPlatformRunLoopScheduleCallback`. -/
theorem ApiUpdate.trace_shape {env : Env} {w w1 : World} (h : ApiUpdate env w w1) :
    w1.trace = w.trace ∨ ∃ cb err, w1.trace = w.trace ++ [Event.scheduleCallback cb err] := by
  cases h with
  | timerRegister heq => obtain ⟨l, rfl⟩ := HAPPlatformTimerRegister_shape heq; exact Or.inl rfl
  | timerDeregister heq =>
    obtain ⟨l, _, rfl⟩ := HAPPlatformTimerDeregister_ok heq; exact Or.inl rfl
  | fileHandleRegister heq =>
    obtain ⟨m, rfl⟩ := HAPPlatformFileHandleRegister_shape heq; exact Or.inl rfl
  | fileHandleUpdateInterests heq =>
    obtain ⟨m, rfl⟩ := HAPPlatformFileHandleUpdateInterests_shape heq; exact Or.inl rfl
  | fileHandleDeregister heq =>
    obtain ⟨m, c, rfl⟩ := HAPPlatformFileHandleDeregister_shape heq; exact Or.inl rfl
  | scheduleCallback heq =>
    rename_i cb ctx n w2 err
    rcases HAPPlatformRunLoopScheduleCallback_cases heq with ⟨_, rfl, _⟩ | ⟨_, _, _, _, rfl⟩
    · exact Or.inr ⟨cb, err, rfl⟩
    · exact Or.inr ⟨cb, err, rfl⟩
  | stop =>
    unfold HAPPlatformRunLoopStop
    split
    · exact Or.inl rfl
    · exact Or.inl rfl
  | store => exact Or.inl rfl

theorem segment_snoc {α : Type} {t s seg : List α} {x : α} {P : α → Prop}
    (hseg : t = (s ++ [x]) ++ seg) (hp : ∀ e ∈ seg, P e) (hx : P x) :
    ∃ seg1, t = s ++ seg1 ∧ ∀ e ∈ seg1, P e := by
  refine ⟨x :: seg, ?_, ?_⟩
  · rw [hseg, List.append_assoc]; rfl
  · intro e he
    rcases List.mem_cons.mp he with h2 | h2
    · rw [h2]; exact hx
    · exact hp e h2

theorem segment_join {α : Type} {t u s seg0 seg1 : List α} {x : α} {P : α → Prop}
    (h1 : t = u ++ seg1) (h0 : u = s ++ x :: seg0) (hx : P x) (hp0 : ∀ e ∈ seg0, P e)
    (hp1 : ∀ e ∈ seg1, P e) : ∃ seg, t = s ++ seg ∧ ∀ e ∈ seg, P e := by
  refine ⟨x :: seg0 ++ seg1, ?_, ?_⟩
  · rw [h1, h0, List.append_assoc]
  · intro e he
    rcases List.mem_append.mp he with h2 | h2
    · rcases List.mem_cons.mp h2 with h3 | h3
      · rw [h3]; exact hx
      · exact hp0 e h3
    · exact hp1 e h2

/-- The body of a callback records no invocation of a file-handle callback. -/
theorem runProg_trace {env : Env} {p : Prog} {w w1 : World} (h : runProg env p w = .ok w1) :
    ∃ seg, w1.trace = w.trace ++ seg ∧ ∀ e ∈ seg, e.isFileHandleCallback = false := by
  refine (runProg_apiUpdates env p w w1 h).api_keeps
    (P := fun u => ∃ seg, u.trace = w.trace ++ seg ∧ ∀ e ∈ seg, e.isFileHandleCallback = false)
    ?_ ⟨[], (List.append_nil _).symm, fun e he => absurd he (List.not_mem_nil e)⟩
  rintro u u1 hu ⟨seg, hseg, hp⟩
  rcases hu.trace_shape with h1 | ⟨cb, err, h1⟩
  · exact ⟨seg, h1.trans hseg, hp⟩
  · refine ⟨seg ++ [Event.scheduleCallback cb err], ?_, ?_⟩
    · rw [h1, hseg, List.append_assoc]
    · intro e he
      rcases List.mem_append.mp he with h2 | h2
      · exact hp e h2
      · rw [List.mem_singleton] at h2
        rw [h2]; rfl

theorem SelfPipeHandleCallback_trace {env : Env} {ev : HAPPlatformFileHandleEvent}
    {w w1 : World} (h : SelfPipeHandleCallback env ev w = .ok w1) :
    ∃ seg, w1.trace = w.trace ++ seg ∧ ∀ e ∈ seg, e.isFileHandleCallback = false := by
  have hnil : ∃ seg, w.trace = w.trace ++ seg ∧ ∀ e ∈ seg, e.isFileHandleCallback = false :=
    ⟨[], (List.append_nil _).symm, fun e he => absurd he (List.not_mem_nil e)⟩
  unfold SelfPipeHandleCallback at h
  dsimp only at h
  split at h
  · split at h
    · obtain ⟨seg, hseg, hp⟩ := runProg_trace h
      exact segment_snoc hseg hp rfl
    · cases h
      exact hnil
  · cases h
    exact hnil

/-- The invocation of a file-handle callback records the invocation and then no further
invocation of a file-handle callback. -/
theorem invokeFileHandleCallback_trace {env : Env} {fileHandle : Nat}
    {node : HAPPlatformFileHandle} {ev : HAPPlatformFileHandleEvent} {w w1 : World}
    (h : invokeFileHandleCallback env fileHandle node ev w = .ok w1) :
    ∃ seg, w1.trace = w.trace ++
        Event.fileHandleCallback fileHandle node.callback ev node.context w.runLoop :: seg ∧
      ∀ e ∈ seg, e.isFileHandleCallback = false := by
  unfold invokeFileHandleCallback at h
  dsimp only at h
  split at h
  · obtain ⟨seg, hseg, hp⟩ := SelfPipeHandleCallback_trace h
    refine ⟨seg, ?_, hp⟩
    rw [hseg]
    exact List.append_assoc _ [_] seg
  · obtain ⟨seg, hseg, hp⟩ := runProg_trace h
    refine ⟨seg, ?_, hp⟩
    rw [hseg]
    exact List.append_assoc _ [_] seg

/-- The invocation of a file-handle callback keeps every property that the API calls keep and
that depends only on the registry, the cursor and the allocation count. -/
theorem invokeFileHandleCallback_keeps (env : Env) (P : World → Prop)
    (hframe : ∀ w w1 : World, w1.runLoop.fileHandleMem = w.runLoop.fileHandleMem →
      w1.runLoop.fileHandles = w.runLoop.fileHandles →
      w1.runLoop.fileHandleCursor = w.runLoop.fileHandleCursor →
      w1.numAllocs = w.numAllocs → P w → P w1)
    (hapi : ∀ w w1, ApiUpdate env w w1 → P w → P w1)
    {fileHandle : Nat} {node : HAPPlatformFileHandle} {ev : HAPPlatformFileHandleEvent}
    {w w1 : World} (h : invokeFileHandleCallback env fileHandle node ev w = .ok w1)
    (hp : P w) : P w1 := by
  have hprog : ∀ p u u1, runProg env p u = .ok u1 → P u → P u1 :=
    fun p u u1 hu hq => (runProg_apiUpdates env p u u1 hu).api_keeps hapi hq
  unfold invokeFileHandleCallback at h
  dsimp only at h
  split at h
  · unfold SelfPipeHandleCallback at h
    dsimp only at h
    split at h
    · split at h
      · exact hprog _ _ _ h (hframe w _ rfl rfl rfl rfl hp)
      · cases h
        exact hframe w _ rfl rfl rfl rfl hp
    · cases h
      exact hframe w _ rfl rfl rfl rfl hp
  · exact hprog _ _ _ h (hframe w _ rfl rfl rfl rfl hp)

/-- Induction principle for the loop of `ProcessSelectedFileHandles`: a property `P` of the
machine that the loop steps and the callbacks keep holds when the loop returns, and a property
`G` of the recorded interactions that holds of each invocation made by the loop holds of
everything that the loop records. -/
theorem dispatchLoop_rule (env : Env) (pollFds : List WSAPOLLFD) (P : World → Prop)
    (G : Event → Prop)
    (hG : ∀ e, e.isFileHandleCallback = false → G e)
    (hidle : ∀ (w : World) node, P w →
      w.runLoop.fileHandleCursor ≠ w.runLoop.fileHandles →
      memLoad w.runLoop.fileHandleMem w.runLoop.fileHandleCursor = some node →
      node.isAwaitingEvents = false →
      P { w with runLoop := { w.runLoop with fileHandleCursor := node.nextFileHandle } })
    (hclear : ∀ (w : World) node, P w →
      w.runLoop.fileHandleCursor ≠ w.runLoop.fileHandles →
      memLoad w.runLoop.fileHandleMem w.runLoop.fileHandleCursor = some node →
      node.isAwaitingEvents = true →
      P { w with runLoop := { w.runLoop with
            fileHandleCursor := node.nextFileHandle
            fileHandleMem := memStore w.runLoop.fileHandleMem w.runLoop.fileHandleCursor
              { node with isAwaitingEvents := false } } })
    (hcall : ∀ (w : World) node entry, P w →
      w.runLoop.fileHandleCursor ≠ w.runLoop.fileHandles →
      memLoad w.runLoop.fileHandleMem w.runLoop.fileHandleCursor = some node →
      node.isAwaitingEvents = true → node.fileDescriptor ≠ INVALID_SOCKET →
      node.callback ≠ NULL → findPollFd pollFds node.fileDescriptor = some entry →
      ((fileHandleEventsOf node.interests entry.revents).isReadyForReading ||
        (fileHandleEventsOf node.interests entry.revents).isReadyForWriting ||
        (fileHandleEventsOf node.interests entry.revents).hasErrorConditionPending) = true →
      G (Event.fileHandleCallback w.runLoop.fileHandleCursor node.callback
        (fileHandleEventsOf node.interests entry.revents) node.context
        { w.runLoop with
          fileHandleCursor := node.nextFileHandle
          fileHandleMem := memStore w.runLoop.fileHandleMem w.runLoop.fileHandleCursor
            { node with isAwaitingEvents := false } }))
    (hbody : ∀ fh node ev u u1, invokeFileHandleCallback env fh node ev u = .ok u1 →
      P u → P u1) :
    ∀ (fuel : Nat) (w w1 : World), dispatchLoop env pollFds fuel w = .ok w1 → P w →
      P w1 ∧ ∃ seg, w1.trace = w.trace ++ seg ∧ ∀ e ∈ seg, G e := by
  intro fuel
  induction fuel with
  | zero => intro w w1 h; simp [dispatchLoop] at h
  | succ fuel ih =>
    intro w w1 h hp
    by_cases hcur : w.runLoop.fileHandleCursor = w.runLoop.fileHandles
    · simp only [dispatchLoop, if_pos hcur] at h
      cases h
      exact ⟨hp, [], (List.append_nil _).symm, fun e he => absurd he (List.not_mem_nil e)⟩
    · cases hnode : memLoad w.runLoop.fileHandleMem w.runLoop.fileHandleCursor with
      | none => simp only [dispatchLoop, if_neg hcur, hnode] at h; cases h
      | some node =>
        rw [dispatchLoop_unfold env pollFds hcur hnode] at h
        split at h
        · rename_i hflag
          have hp2 := hclear w node hp hcur hnode hflag
          split at h
          · cases h
          · rename_i hfd
            split at h
            · rename_i hcb
              split at h
              · have h3 := ih _ w1 h hp2; exact h3
              · rename_i entry hfind
                split at h
                · rename_i hev
                  cases hinv : invokeFileHandleCallback env w.runLoop.fileHandleCursor
                      { node with isAwaitingEvents := false }
                      (fileHandleEventsOf node.interests entry.revents)
                      { w with runLoop := { w.runLoop with
                          fileHandleCursor := node.nextFileHandle
                          fileHandleMem :=
                            memStore w.runLoop.fileHandleMem w.runLoop.fileHandleCursor
                              { node with isAwaitingEvents := false } } } with
                  | error f => rw [hinv] at h; cases h
                  | ok w3 =>
                    rw [hinv] at h
                    obtain ⟨hp1, seg1, hseg1, hg1⟩ := ih w3 w1 h (hbody _ _ _ _ _ hinv hp2)
                    obtain ⟨seg0, hseg0, hg0⟩ := invokeFileHandleCallback_trace hinv
                    exact ⟨hp1, segment_join hseg1 hseg0
                      (hcall w node entry hp hcur hnode hflag hfd hcb hfind hev)
                      (fun e he => hG e (hg0 e he)) hg1⟩
                · have h3 := ih _ w1 h hp2; exact h3
            · have h3 := ih _ w1 h hp2; exact h3
        · rename_i hflag
          have h3 := ih _ w1 h (hidle w node hp hcur hnode (by simpa using hflag)); exact h3

/-! ## What the API functions leave alone in a node -/

theorem payloadOf_cell {mem mem' : FileHandleMem} {a : Nat} {node' : HAPPlatformFileHandle}
    (hpay : payloadOf mem' a = payloadOf mem a) (hnode : memLoad mem' a = some node') :
    ∃ node, memLoad mem a = some node ∧ node'.payload = node.payload := by
  rw [payloadOf_of_load hnode] at hpay
  unfold payloadOf at hpay
  cases hm : memLoad mem a with
  | none => rw [hm] at hpay; cases hpay
  | some node =>
    rw [hm] at hpay
    exact ⟨node, rfl, Option.some.inj hpay⟩

theorem payload_fields {a b : HAPPlatformFileHandle} (h : a.payload = b.payload) :
    a.fileDescriptor = b.fileDescriptor ∧ a.interests = b.interests ∧
    a.callback = b.callback ∧ a.context = b.context ∧
    a.isAwaitingEvents = b.isAwaitingEvents := by
  have h1 := congrArg HAPPlatformFileHandle.fileDescriptor h
  have h2 := congrArg HAPPlatformFileHandle.interests h
  have h3 := congrArg HAPPlatformFileHandle.callback h
  have h4 := congrArg HAPPlatformFileHandle.context h
  have h5 := congrArg HAPPlatformFileHandle.isAwaitingEvents h
  exact ⟨h1, h2, h3, h4, h5⟩

/-- A call of an API function changes neither the descriptor nor the awaiting-events flag of
a node, and a node that it allocates is at the address of the next allocation and is not
awaiting events. -/
theorem ApiUpdate.cells {env : Env} {w w1 : World} {l : List Nat} (h : ApiUpdate env w w1)
    (hr : RegistryInv w l) :
    ∀ a node', memLoad w1.runLoop.fileHandleMem a = some node' →
      (∃ node, memLoad w.runLoop.fileHandleMem a = some node ∧
        node'.fileDescriptor = node.fileDescriptor ∧
        node'.isAwaitingEvents = node.isAwaitingEvents) ∨
      (a = allocAddr w.numAllocs ∧ node'.isAwaitingEvents = false) := by
  have same : w1.runLoop.fileHandleMem = w.runLoop.fileHandleMem →
      ∀ a node', memLoad w1.runLoop.fileHandleMem a = some node' →
        (∃ node, memLoad w.runLoop.fileHandleMem a = some node ∧
          node'.fileDescriptor = node.fileDescriptor ∧
          node'.isAwaitingEvents = node.isAwaitingEvents) ∨
        (a = allocAddr w.numAllocs ∧ node'.isAwaitingEvents = false) := by
    intro hm a node' hn
    rw [hm] at hn
    exact Or.inl ⟨node', hn, rfl, rfl⟩
  have ofpay : (∀ a, a ≠ allocAddr w.numAllocs →
        memLoad w1.runLoop.fileHandleMem a ≠ none →
        payloadOf w1.runLoop.fileHandleMem a = payloadOf w.runLoop.fileHandleMem a) →
      (∀ node', memLoad w1.runLoop.fileHandleMem (allocAddr w.numAllocs) = some node' →
        node'.isAwaitingEvents = false) →
      ∀ a node', memLoad w1.runLoop.fileHandleMem a = some node' →
        (∃ node, memLoad w.runLoop.fileHandleMem a = some node ∧
          node'.fileDescriptor = node.fileDescriptor ∧
          node'.isAwaitingEvents = node.isAwaitingEvents) ∨
        (a = allocAddr w.numAllocs ∧ node'.isAwaitingEvents = false) := by
    intro hpay hnew a node' hn
    by_cases ha : a = allocAddr w.numAllocs
    · exact Or.inr ⟨ha, hnew node' (ha ▸ hn)⟩
    · obtain ⟨node, h1, h2⟩ := payloadOf_cell (hpay a ha (by rw [hn]; exact fun h => by cases h)) hn
      exact Or.inl ⟨node, h1, (payload_fields h2).1, (payload_fields h2).2.2.2.2⟩
  cases h with
  | timerRegister heq => obtain ⟨t, rfl⟩ := HAPPlatformTimerRegister_shape heq; exact same rfl
  | timerDeregister heq =>
    obtain ⟨t, _, rfl⟩ := HAPPlatformTimerDeregister_ok heq; exact same rfl
  | fileHandleRegister heq =>
    rename_i fd i cb ctx err fh
    obtain ⟨err1, fh1, w2, heq1, -, hcases⟩ :=
      HAPPlatformFileHandleRegister_registry env fd i cb ctx hr
    rw [heq] at heq1
    cases heq1
    rcases hcases with ⟨-, hmem⟩ | ⟨hfh, -, hpay, hnew⟩
    · exact same hmem
    · refine ofpay (fun a ha _ => hpay a (hfh ▸ ha)) ?_
      intro node' hn
      rw [← hfh] at hn
      unfold awaitingOf at hnew
      rw [hn] at hnew
      exact Option.some.inj hnew
  | fileHandleUpdateInterests heq =>
    rename_i fh i cb ctx
    intro a node' hn
    unfold HAPPlatformFileHandleUpdateInterests at heq
    split at heq
    · cases heq
    · split at heq
      · cases heq
      · rename_i node hnode
        cases heq
        change memLoad (memStore _ _ _) a = some node' at hn
        rw [memLoad_memStore] at hn
        by_cases ha : a = fh
        · rw [if_pos ha] at hn
          cases hn
          exact Or.inl ⟨node, ha ▸ hnode, rfl, rfl⟩
        · rw [if_neg ha] at hn
          exact Or.inl ⟨node', hn, rfl, rfl⟩
  | fileHandleDeregister heq =>
    rename_i fh
    obtain ⟨l1, l2, rfl⟩ := List.append_of_mem (HAPPlatformFileHandleDeregister_mem hr heq)
    obtain ⟨w2, heq2, -, -, hpay, hnone⟩ := HAPPlatformFileHandleDeregister_registry hr
    rw [heq] at heq2
    cases heq2
    intro a node' hn
    by_cases ha : a = fh
    · rw [ha, hnone] at hn; cases hn
    · obtain ⟨node, h1, h2⟩ := payloadOf_cell (hpay a ha) hn
      exact Or.inl ⟨node, h1, (payload_fields h2).1, (payload_fields h2).2.2.2.2⟩
  | scheduleCallback heq =>
    rcases HAPPlatformRunLoopScheduleCallback_cases heq with ⟨_, rfl, _⟩ | ⟨_, _, _, _, rfl⟩
    · exact same rfl
    · exact same rfl
  | stop =>
    refine same ?_
    unfold HAPPlatformRunLoopStop
    split <;> rfl
  | store => exact same rfl

/-! ## A dispatch pass relative to its start -/

theorem PassRule.of_other {w0 : World} {pollFds : List WSAPOLLFD} {e : Event}
    (h : e.isFileHandleCallback = false) : PassRule w0 pollFds e := by
  cases e <;> first | exact ⟨trivial, trivial⟩ | cases h

theorem PassFrame.pass_of_frame {w0 w w1 : World} (h : PassFrame w0 w)
    (hm : w1.runLoop.fileHandleMem = w.runLoop.fileHandleMem)
    (hs : w1.runLoop.fileHandles = w.runLoop.fileHandles)
    (hn : w1.numAllocs = w.numAllocs) : PassFrame w0 w1 := by
  obtain ⟨l, hr⟩ := h.registry
  exact ⟨⟨l, hr.registry_of_mem_eq hm hs (le_of_eq hn.symm)⟩, hn ▸ h.allocs,
    fun a node hnode => h.cells a node (hm ▸ hnode)⟩

theorem PassFrame.of_api {env : Env} {w0 w w1 : World} (hu : ApiUpdate env w w1)
    (h : PassFrame w0 w) : PassFrame w0 w1 := by
  obtain ⟨l, hr⟩ := h.registry
  obtain ⟨l1, hr1, -, hn⟩ := RegistryInv.registry_of_apiUpdate hu hr
  refine ⟨⟨l1, hr1⟩, le_trans h.allocs hn, ?_⟩
  intro a node' hnode'
  rcases hu.cells hr a node' hnode' with ⟨node, h1, h2, h3⟩ | ⟨h1, h2⟩
  · rcases h.cells a node h1 with ⟨h4, h5⟩ | ⟨node0, h4, h5⟩
    · exact Or.inl ⟨h4, h3.trans h5⟩
    · exact Or.inr ⟨node0, h4, h2.trans h5⟩
  · refine Or.inl ⟨?_, h2⟩
    rw [h1]
    have := h.allocs
    unfold allocAddr
    omega

theorem PassFrame.start {w0 : World} {l : List Nat} (hr : RegistryInv w0 l) : PassFrame w0 w0 :=
  ⟨⟨l, hr⟩, le_refl _, fun _ node hnode => Or.inr ⟨node, hnode, rfl⟩⟩

/-- What the loop of `ProcessSelectedFileHandles` records, relative to the machine `w0` in
which the pass started. -/
theorem dispatchLoop_pass (env : Env) (pollFds : List WSAPOLLFD) (w0 : World) (fuel : Nat)
    (w w1 : World) (h : dispatchLoop env pollFds fuel w = .ok w1) (hp : PassFrame w0 w) :
    PassFrame w0 w1 ∧ ∃ seg, w1.trace = w.trace ++ seg ∧ ∀ e ∈ seg, PassRule w0 pollFds e := by
  refine dispatchLoop_rule env pollFds (PassFrame w0) (PassRule w0 pollFds)
    (fun e he => PassRule.of_other he) ?_ ?_ ?_ ?_ fuel w w1 h hp
  · intro u node hu _ _ _
    exact hu.pass_of_frame rfl rfl rfl
  · intro u node hu _ hnode _
    obtain ⟨l, hr⟩ := hu.registry
    refine ⟨⟨l, hr.registry_of_links rfl (le_refl _) ?_ ?_⟩, hu.allocs, ?_⟩
    · intro a
      show nextOf (memStore _ _ _) a = _
      rw [nextOf_memStore]
      by_cases ha : a = u.runLoop.fileHandleCursor
      · rw [if_pos ha, ha, nextOf_of_load hnode]
      · rw [if_neg ha]
    · intro a
      show prevOf (memStore _ _ _) a = _
      rw [prevOf_memStore]
      by_cases ha : a = u.runLoop.fileHandleCursor
      · rw [if_pos ha, ha, prevOf_of_load hnode]
      · rw [if_neg ha]
    · intro a node' hnode'
      change memLoad (memStore _ _ _) a = some node' at hnode'
      rw [memLoad_memStore] at hnode'
      by_cases ha : a = u.runLoop.fileHandleCursor
      · rw [if_pos ha] at hnode'
        cases hnode'
        rcases hu.cells _ node hnode with ⟨h4, -⟩ | ⟨node0, h4, h5⟩
        · exact Or.inl ⟨ha ▸ h4, rfl⟩
        · exact Or.inr ⟨node0, ha ▸ h4, h5⟩
      · rw [if_neg ha] at hnode'
        exact hu.cells a node' hnode'
  · intro u node entry hu hcur hnode hflag hfd hcb hfind hev
    obtain ⟨l, hr⟩ := hu.registry
    have hload : memLoad (memStore u.runLoop.fileHandleMem u.runLoop.fileHandleCursor
        { node with isAwaitingEvents := false }) u.runLoop.fileHandleCursor =
        some { node with isAwaitingEvents := false } := by
      rw [memLoad_memStore, if_pos rfl]
    refine ⟨⟨_, entry, hload, rfl, rfl, hcb, rfl, hfd, hfind, rfl, hev⟩, ?_, ?_⟩
    · rw [← hr.sentinel]; exact hcur
    · rcases hu.cells _ node hnode with ⟨-, h5⟩ | ⟨node0, h4, h5⟩
      · rw [hflag] at h5; cases h5
      · exact ⟨node0, _, h4, hload, h5⟩
  · intro fh node ev u u1 hinv hu
    exact invokeFileHandleCallback_keeps env (PassFrame w0)
      (fun a b hm hs _ hn hq => hq.pass_of_frame hm hs hn)
      (fun a b hab hq => hq.of_api hab) hinv hu

/-- What `ProcessSelectedFileHandles` records when it is called in a machine that an execution
can be in. -/
theorem ProcessSelectedFileHandles_pass {env : Env} {pollFds : List WSAPOLLFD} {fuel : Nat}
    {w0 w1 : World} (hreach : Reachable env w0)
    (h : ProcessSelectedFileHandles env pollFds fuel w0 = .ok w1) :
    PassFrame w0 w1 ∧ ∃ seg, w1.trace = w0.trace ++ seg ∧ ∀ e ∈ seg, PassRule w0 pollFds e := by
  obtain ⟨l, hr⟩ := RegistryInv.of_reach hreach
  unfold ProcessSelectedFileHandles at h
  split at h
  · cases h
  · have h3 := dispatchLoop_pass env pollFds w0 fuel _ w1 h
      ((PassFrame.start hr).pass_of_frame rfl rfl rfl)
    exact h3

/-! ## The events handed to a file-handle callback -/

theorem lor_eq_zero_iff (a b : Nat) : Nat.lor a b = 0 ↔ a = 0 ∧ b = 0 := by
  show a ||| b = 0 ↔ _
  constructor
  · intro h
    have ht : ∀ i, (a.testBit i || b.testBit i) = false := by
      intro i
      rw [← Nat.testBit_or, h, Nat.zero_testBit]
    constructor
    · apply Nat.eq_of_testBit_eq
      intro i
      have := ht i
      rw [Nat.zero_testBit]
      cases h1 : a.testBit i
      · rfl
      · rw [h1] at this; simp at this
    · apply Nat.eq_of_testBit_eq
      intro i
      have := ht i
      rw [Nat.zero_testBit]
      cases h1 : b.testBit i
      · rfl
      · rw [h1] at this; simp at this
  · rintro ⟨rfl, rfl⟩
    rfl

/-- The test `revents & (POLLERR | POLLHUP)` succeeds when one of the two flags is reported. -/
theorem land_lor_ne_zero (r a b : Nat) :
    Nat.land r (Nat.lor a b) ≠ 0 ↔ Nat.land r a ≠ 0 ∨ Nat.land r b ≠ 0 := by
  have h : Nat.land r (Nat.lor a b) = Nat.lor (Nat.land r a) (Nat.land r b) :=
    Nat.and_or_distrib_left r a b
  rw [h, ne_eq, lor_eq_zero_iff]
  tauto

theorem fileHandleEventsOf_iff (interests : HAPPlatformFileHandleEvent) (revents : Nat) :
    ((fileHandleEventsOf interests revents).isReadyForReading = true ↔
      interests.isReadyForReading = true ∧ Nat.land revents POLLIN ≠ 0) ∧
    ((fileHandleEventsOf interests revents).isReadyForWriting = true ↔
      interests.isReadyForWriting = true ∧ Nat.land revents POLLOUT ≠ 0) ∧
    ((fileHandleEventsOf interests revents).hasErrorConditionPending = true ↔
      interests.hasErrorConditionPending = true ∧
        (Nat.land revents POLLERR ≠ 0 ∨ Nat.land revents POLLHUP ≠ 0)) := by
  refine ⟨?_, ?_, ?_⟩
  · simp [fileHandleEventsOf]
  · simp [fileHandleEventsOf]
  · rw [← land_lor_ne_zero]
    simp [fileHandleEventsOf]

theorem DispatchedByRule.rule_of_other {pollFds : List WSAPOLLFD} {e : Event}
    (h : e.isFileHandleCallback = false) : DispatchedByRule pollFds e := by
  cases e <;> first | exact trivial | cases h

/-- C21. Everything that a pass of `ProcessSelectedFileHandles` records is appended to the
trace, and every callback invocation in it was made for a node that, in the memory found by the
callback, is no longer awaiting events, has a callback and a valid descriptor, with the events
computed from the first poll entry of that descriptor and the interests stored in the node at
that time, and with at least one event set. At a handle that is awaiting events, has a valid
descriptor, a callback and a poll entry, the loop invokes the callback when the computed events
are not all false and goes on without invoking it otherwise; the invocation is the next
interaction recorded. The computed events are: read when the read interest is set and `POLLIN`
is reported, write when the write interest is set and `POLLOUT` is reported, error when the
error interest is set and `POLLERR` or `POLLHUP` is reported. -/
theorem dispatch_events_rule (env : Env) (pollFds : List WSAPOLLFD) (fuel : Nat) (w w1 : World)
    (h : ProcessSelectedFileHandles env pollFds fuel w = .ok w1) :
    (∃ seg, w1.trace = w.trace ++ seg ∧ ∀ e ∈ seg, DispatchedByRule pollFds e) ∧
    (∀ (u : World) (node : HAPPlatformFileHandle) (entry : WSAPOLLFD) (n : Nat),
      u.runLoop.fileHandleCursor ≠ u.runLoop.fileHandles →
      memLoad u.runLoop.fileHandleMem u.runLoop.fileHandleCursor = some node →
      node.isAwaitingEvents = true → node.fileDescriptor ≠ INVALID_SOCKET →
      node.callback ≠ NULL → findPollFd pollFds node.fileDescriptor = some entry →
      (((fileHandleEventsOf node.interests entry.revents).isReadyForReading ||
          (fileHandleEventsOf node.interests entry.revents).isReadyForWriting ||
          (fileHandleEventsOf node.interests entry.revents).hasErrorConditionPending) = true →
        dispatchLoop env pollFds (n + 1) u =
          (invokeFileHandleCallback env u.runLoop.fileHandleCursor
            { node with isAwaitingEvents := false }
            (fileHandleEventsOf node.interests entry.revents)
            { u with runLoop := { u.runLoop with
                fileHandleCursor := node.nextFileHandle
                fileHandleMem := memStore u.runLoop.fileHandleMem u.runLoop.fileHandleCursor
                  { node with isAwaitingEvents := false } } }).bind
            (dispatchLoop env pollFds n)) ∧
      (((fileHandleEventsOf node.interests entry.revents).isReadyForReading ||
          (fileHandleEventsOf node.interests entry.revents).isReadyForWriting ||
          (fileHandleEventsOf node.interests entry.revents).hasErrorConditionPending) = false →
        dispatchLoop env pollFds (n + 1) u =
          dispatchLoop env pollFds n
            { u with runLoop := { u.runLoop with
                fileHandleCursor := node.nextFileHandle
                fileHandleMem := memStore u.runLoop.fileHandleMem u.runLoop.fileHandleCursor
                  { node with isAwaitingEvents := false } } })) ∧
    (∀ (fileHandle : Nat) (node : HAPPlatformFileHandle) (ev : HAPPlatformFileHandleEvent)
      (u u1 : World), invokeFileHandleCallback env fileHandle node ev u = .ok u1 →
      ∃ seg, u1.trace = u.trace ++
          Event.fileHandleCallback fileHandle node.callback ev node.context u.runLoop :: seg ∧
        ∀ e ∈ seg, e.isFileHandleCallback = false) ∧
    (∀ (interests : HAPPlatformFileHandleEvent) (revents : Nat),
      ((fileHandleEventsOf interests revents).isReadyForReading = true ↔
        interests.isReadyForReading = true ∧ Nat.land revents POLLIN ≠ 0) ∧
      ((fileHandleEventsOf interests revents).isReadyForWriting = true ↔
        interests.isReadyForWriting = true ∧ Nat.land revents POLLOUT ≠ 0) ∧
      ((fileHandleEventsOf interests revents).hasErrorConditionPending = true ↔
        interests.hasErrorConditionPending = true ∧
          (Nat.land revents POLLERR ≠ 0 ∨ Nat.land revents POLLHUP ≠ 0))) := by
  refine ⟨?_, ?_, fun _ _ _ _ _ hinv => invokeFileHandleCallback_trace hinv,
    fileHandleEventsOf_iff⟩
  · unfold ProcessSelectedFileHandles at h
    split at h
    · cases h
    · have h3 := (dispatchLoop_rule env pollFds (fun _ => True) (DispatchedByRule pollFds)
        (fun e he => DispatchedByRule.rule_of_other he) (fun _ _ _ _ _ _ => trivial)
        (fun _ _ _ _ _ _ => trivial) ?_ (fun _ _ _ _ _ _ _ => trivial) fuel _ w1 h trivial).2
      · exact h3
      · intro u node entry _ _ _ _ hfd hcb hfind hev
        have hload : memLoad (memStore u.runLoop.fileHandleMem u.runLoop.fileHandleCursor
            { node with isAwaitingEvents := false }) u.runLoop.fileHandleCursor =
            some { node with isAwaitingEvents := false } := by
          rw [memLoad_memStore, if_pos rfl]
        exact ⟨_, entry, hload, rfl, rfl, hcb, rfl, hfd, hfind, rfl, hev⟩
  · intro u node entry n hcur hnode hflag hfd hcb hfind
    constructor
    · intro hev
      rw [dispatchLoop_unfold env pollFds hcur hnode, if_pos hflag, if_neg hfd, if_pos hcb]
      simp only [hfind]
      rw [if_pos hev]
    · intro hev
      rw [dispatchLoop_unfold env pollFds hcur hnode, if_pos hflag, if_neg hfd, if_pos hcb]
      simp only [hfind]
      rw [if_neg (by rw [hev]; exact Bool.false_ne_true)]

theorem dispatch_events_rule_witness :
    ∃ w1, ProcessSelectedFileHandles updateOtherEnv threeReadableFds 4 allAwaitingWorld =
        .ok w1 ∧
      ∃ seg, w1.trace = allAwaitingWorld.trace ++ seg ∧
        ∀ e ∈ seg, DispatchedByRule threeReadableFds e :=
  ⟨_, rfl,
    And.left (dispatch_events_rule updateOtherEnv threeReadableFds 4 allAwaitingWorld _ rfl)⟩

/-- A cycle in which `WSAPoll` reports all three descriptors readable and the callback of the
first handle withdraws the read interest of the second one: the second handle gets no callback
although its poll entry, built from the earlier interests, reports `POLLIN`. -/
theorem interests_at_dispatch_example :
    ∃ w w1, runSteps updateOtherEnv threeHandlesSteps World.init = .ok w ∧
      runLoopCycle updateOtherEnv allReadableInput
        (setState HAPPlatformRunLoopState.kHAPPlatformRunLoopState_Running w) = .ok w1 ∧
      polls w1.trace = [([⟨5, POLLIN, 0⟩, ⟨6, POLLIN, 0⟩, ⟨7, POLLIN, 0⟩], -1)] ∧
      dispatches w1.trace = [(2, 20, ⟨true, false, false⟩), (4, 22, ⟨true, false, false⟩)] ∧
      (memLoad w1.runLoop.fileHandleMem 3).map (fun node => node.interests) =
        some ⟨false, true, false⟩ :=
  ⟨_, _, rfl, rfl, rfl, rfl, rfl⟩

/-! ## The awaiting-events flag around a callback -/

/-- Everything that `ProcessSelectedFileHandles` records is appended to the trace and obeys the
dispatch rule. -/
theorem ProcessSelectedFileHandles_rule {env : Env} {pollFds : List WSAPOLLFD} {fuel : Nat}
    {w w1 : World} (h : ProcessSelectedFileHandles env pollFds fuel w = .ok w1) :
    ∃ seg, w1.trace = w.trace ++ seg ∧ ∀ e ∈ seg, DispatchedByRule pollFds e := by
  unfold ProcessSelectedFileHandles at h
  split at h
  · cases h
  · have h3 := (dispatchLoop_rule env pollFds (fun _ => True) (DispatchedByRule pollFds)
      (fun e he => DispatchedByRule.rule_of_other he) (fun _ _ _ _ _ _ => trivial)
      (fun _ _ _ _ _ _ => trivial) ?_ (fun _ _ _ _ _ _ _ => trivial) fuel _ w1 h trivial).2
    · exact h3
    · intro u node entry _ _ _ _ hfd hcb hfind hev
      have hload : memLoad (memStore u.runLoop.fileHandleMem u.runLoop.fileHandleCursor
          { node with isAwaitingEvents := false }) u.runLoop.fileHandleCursor =
          some { node with isAwaitingEvents := false } := by
        rw [memLoad_memStore, if_pos rfl]
      exact ⟨_, entry, hload, rfl, rfl, hcb, rfl, hfd, hfind, rfl, hev⟩

/-- The API calls do not set the awaiting-events flag of a node. -/
theorem ApiUpdates.flag_stays_clear {env : Env} {u u1 : World} {fileHandle : Nat}
    (hr : ∃ l, RegistryInv u l)
    (hflag : awaitingOf u.runLoop.fileHandleMem fileHandle ≠ some true)
    (h : ApiUpdates env u u1) :
    awaitingOf u1.runLoop.fileHandleMem fileHandle ≠ some true := by
  refine (h.api_keeps
    (P := fun x => (∃ l, RegistryInv x l) ∧
      awaitingOf x.runLoop.fileHandleMem fileHandle ≠ some true) ?_ ⟨hr, hflag⟩).2
  rintro a b hab ⟨⟨l, hl⟩, hq⟩
  obtain ⟨l1, hl1, -, -⟩ := RegistryInv.registry_of_apiUpdate hab hl
  refine ⟨⟨l1, hl1⟩, ?_⟩
  intro hb
  unfold awaitingOf at hb hq
  cases hnode : memLoad b.runLoop.fileHandleMem fileHandle with
  | none => rw [hnode] at hb; cases hb
  | some node' =>
    rw [hnode] at hb
    have hb1 : node'.isAwaitingEvents = true := Option.some.inj hb
    rcases hab.cells hl fileHandle node' hnode with ⟨node, h1, -, h3⟩ | ⟨-, h2⟩
    · rw [h1] at hq
      exact hq (congrArg some (h3.symm.trans hb1))
    · rw [h2] at hb1
      cases hb1

/-- C23. In a machine that an execution can be in: when `ProcessSelectedFileHandles` returns,
what it has recorded is appended to the trace, every callback invocation in it found the flag
`isAwaitingEvents` of its own handle false in the memory at the call, and every handle of the
registry, those registered during the pass included, has the flag false; the API calls that a
callback makes never set the flag of a node, so a flag found false stays false while the
callback runs; and with enough fuel the pass returns, or fails with the assertion on a
descriptor or with a fault of a callback. -/
theorem flag_cleared_before_callback (env : Env) (w : World) (hreach : Reachable env w)
    (pollFds : List WSAPOLLFD) :
    (∀ fuel w1, ProcessSelectedFileHandles env pollFds fuel w = .ok w1 →
      (∃ seg, w1.trace = w.trace ++ seg ∧
        ∀ fileHandle callback fileHandleEvents context atCall,
          Event.fileHandleCallback fileHandle callback fileHandleEvents context atCall ∈ seg →
          awaitingOf atCall.fileHandleMem fileHandle = some false) ∧
      ∃ l1, registeredHandles w1 = .ok l1 ∧
        (∀ a ∈ l1, awaitingOf w1.runLoop.fileHandleMem a = some false) ∧
        ∀ a node, memLoad w1.runLoop.fileHandleMem a = some node → a ≠ sentinelAddr →
          a ∈ l1) ∧
    (∀ (fileHandle : Nat) (u u1 : World), Reachable env u →
      awaitingOf u.runLoop.fileHandleMem fileHandle ≠ some true → ApiUpdates env u u1 →
      awaitingOf u1.runLoop.fileHandleMem fileHandle ≠ some true) ∧
    (∃ N, ∀ fuel, N ≤ fuel →
      (∃ w1, ProcessSelectedFileHandles env pollFds fuel w = .ok w1) ∨
      ∃ f, ProcessSelectedFileHandles env pollFds fuel w = .error f ∧
        (f = Fault.assertionFailure ∨
          ∃ fh node ev w2, invokeFileHandleCallback env fh node ev w2 = .error f)) := by
  obtain ⟨l, hr⟩ := RegistryInv.of_reach hreach
  obtain ⟨head, hhead, -, -⟩ := hr.load_sentinel
  rw [← hr.sentinel] at hhead
  have hd := DispatchInv.at_start hr hhead
  obtain ⟨N, hN⟩ := dispatchLoop_total env pollFds _ _ _ _ _ hd (le_refl _) (le_refl _)
  have hunf : ∀ fuel, ProcessSelectedFileHandles env pollFds fuel w =
      dispatchLoop env pollFds fuel
        { w with runLoop := { w.runLoop with fileHandleCursor := head.nextFileHandle } } := by
    intro fuel
    unfold ProcessSelectedFileHandles
    rw [hhead]
  refine ⟨fun fuel w1 h1 => ⟨?_, ?_⟩,
    fun fileHandle u u1 hu hflag hapi =>
      ApiUpdates.flag_stays_clear (RegistryInv.of_reach hu) hflag hapi, N, fun fuel hfuel => ?_⟩
  · obtain ⟨seg, hseg, hrule⟩ := ProcessSelectedFileHandles_rule h1
    refine ⟨seg, hseg, fun fileHandle callback ev context atCall he => ?_⟩
    obtain ⟨node, entry, hnode, hflag, -⟩ := hrule _ he
    unfold awaitingOf
    rw [hnode]
    exact congrArg some hflag
  · rw [hunf] at h1
    obtain ⟨v1, hd1⟩ := (hN fuel).1 w1 h1
    have hreg := hd1.registry
    rw [List.append_nil] at hreg
    refine ⟨v1, hreg.registeredHandles_eq, hd1.idle, fun a node hnode hne => ?_⟩
    rcases hreg.cells a node hnode with hs | hm
    · exact absurd hs hne
    · exact hm
  · rw [hunf]
    cases hres : dispatchLoop env pollFds fuel
        { w with runLoop := { w.runLoop with fileHandleCursor := head.nextFileHandle } } with
    | ok w1 => exact Or.inl ⟨w1, rfl⟩
    | error f =>
      refine Or.inr ⟨f, rfl, ?_⟩
      rcases (hN fuel).2 f hres with ⟨-, h2⟩ | h2 | h2
      · omega
      · exact Or.inl h2
      · exact Or.inr h2

theorem flag_cleared_before_callback_witness :
    ∃ w, runSteps registerInCallbackEnv threeHandlesSteps World.init = .ok w ∧
      Reachable registerInCallbackEnv w ∧
      ∃ N, ∀ fuel, N ≤ fuel →
        (∃ w1, ProcessSelectedFileHandles registerInCallbackEnv threeReadableFds fuel w =
          .ok w1) ∨
        ∃ f, ProcessSelectedFileHandles registerInCallbackEnv threeReadableFds fuel w =
            .error f ∧
          (f = Fault.assertionFailure ∨
            ∃ fh node ev w2,
              invokeFileHandleCallback registerInCallbackEnv fh node ev w2 = .error f) :=
  ⟨_, rfl, Reachable.reach_of_runSteps threeHandlesSteps Reachable.init rfl,
    (flag_cleared_before_callback registerInCallbackEnv _
      (Reachable.reach_of_runSteps threeHandlesSteps Reachable.init rfl) threeReadableFds).2.2⟩

/-- A cycle in which the callback of the first of three handles registers a fourth one: the
pass clears the flags of the three handles that the poll array was built from, the new handle
is appended with the flag false, and it gets no callback in this pass. -/
theorem register_during_pass_example :
    ∃ w w1, runSteps registerInCallbackEnv threeHandlesSteps World.init = .ok w ∧
      runLoopCycle registerInCallbackEnv registerDuringPassInput
        (setState HAPPlatformRunLoopState.kHAPPlatformRunLoopState_Running w) = .ok w1 ∧
      registeredHandles w1 = .ok [2, 3, 4, 6] ∧
      [2, 3, 4, 6].map (awaitingOf w1.runLoop.fileHandleMem) =
        [some false, some false, some false, some false] ∧
      dispatches w1.trace = [(2, 20, ⟨true, false, false⟩), (3, 21, ⟨true, false, false⟩),
        (4, 22, ⟨true, false, false⟩)] :=
  ⟨_, _, rfl, rfl, rfl, rfl, rfl⟩

/-! ## Handles registered during a dispatch pass -/

/-- A trace segment without callback invocation for a handle contributes nothing to the
invocations of that handle. -/
theorem dispatchesOf_eq_nil (fileHandle : Nat) (seg : List Event)
    (h : ∀ fh cb ev ctx atCall, Event.fileHandleCallback fh cb ev ctx atCall ∈ seg →
      fh ≠ fileHandle) : dispatchesOf fileHandle seg = [] := by
  induction seg with
  | nil => rfl
  | cons e es ih =>
    have ih1 := ih (fun fh cb ev ctx atCall hm => h fh cb ev ctx atCall (List.mem_cons_of_mem _ hm))
    unfold dispatchesOf at ih1 ⊢
    cases e with
    | fileHandleCallback fh cb ev ctx atCall =>
      have hne := h fh cb ev ctx atCall (List.mem_cons_self _ _)
      simp only [dispatches, List.filter_cons]
      rw [if_neg (by simpa using hne)]
      exact ih1
    | timerCallback _ _ => exact ih1
    | runLoopCallback _ _ _ _ => exact ih1
    | scheduleCallback _ _ => exact ih1
    | poll _ _ => exact ih1
    | sleep _ => exact ih1

/-- No address that is yet to be handed out holds a node. -/
theorem RegistryInv.unallocated {w : World} {l : List Nat} (hr : RegistryInv w l) {a : Nat}
    (ha : allocAddr w.numAllocs ≤ a) : memLoad w.runLoop.fileHandleMem a = none := by
  cases hnode : memLoad w.runLoop.fileHandleMem a with
  | none => rfl
  | some node =>
    exfalso
    rcases hr.cells a node hnode with hs | hm
    · rw [hs] at ha
      unfold allocAddr sentinelAddr at ha
      omega
    · have := (hr.bounds a hm).2
      omega

/-- The allocation count does not decrease along an execution. -/
theorem Updates.allocs_mono {env : Env} {w u : World} (hreach : Reachable env w)
    (h : Updates env w u) : w.numAllocs ≤ u.numAllocs := by
  refine (h.keeps (P := fun x => (∃ l, RegistryInv x l) ∧ w.numAllocs ≤ x.numAllocs) ?_
    ⟨RegistryInv.of_reach hreach, le_refl _⟩).2
  rintro a b hab ⟨⟨l, hl⟩, hq⟩
  obtain ⟨l1, hl1, -, hn⟩ := RegistryInv.registry_of_update hab hl
  exact ⟨⟨l1, hl1⟩, le_trans hq hn⟩

/-- C26. For a pass of `ProcessSelectedFileHandles` that starts in a machine `w0` that an
execution can be in and returns: a successful `HAPPlatformFileHandleRegister` made after the
start of the pass returns an address that had not been handed out at the start, where `w0` has
no node, and leaves the new node with the flag `isAwaitingEvents` false; every callback
invocation of the pass is for a handle of the registry of `w0`, so no invocation is recorded
for an address handed out later; the handles in the registry after the pass that were not in it
before are at such addresses and have the flag false; and when the next cycle reaches
`WSAPoll`, its poll array has one entry per handle of the registry at that time, each of which
is then awaiting events. -/
theorem registered_during_pass_not_dispatched (env : Env) (w0 : World)
    (hreach : Reachable env w0) (pollFds : List WSAPOLLFD) (fuel : Nat) (w1 : World)
    (h : ProcessSelectedFileHandles env pollFds fuel w0 = .ok w1) :
    (∀ u, Updates env w0 u → ∀ fd i cb ctx fh u1,
      HAPPlatformFileHandleRegister env fd i cb ctx u = .ok (HAPError.kHAPError_None, fh, u1) →
      allocAddr w0.numAllocs ≤ fh ∧ memLoad w0.runLoop.fileHandleMem fh = none ∧
      awaitingOf u1.runLoop.fileHandleMem fh = some false) ∧
    (∃ l0 l1 seg, registeredHandles w0 = .ok l0 ∧ registeredHandles w1 = .ok l1 ∧
      w1.trace = w0.trace ++ seg ∧
      (∀ fh cb ev ctx atCall, Event.fileHandleCallback fh cb ev ctx atCall ∈ seg →
        fh ∈ l0 ∧ fh < allocAddr w0.numAllocs) ∧
      (∀ a ∈ l1, a ∉ l0 →
        allocAddr w0.numAllocs ≤ a ∧ awaitingOf w1.runLoop.fileHandleMem a = some false)) ∧
    (∀ fh, allocAddr w0.numAllocs ≤ fh →
      dispatchesOf fh w1.trace = dispatchesOf fh w0.trace) ∧
    (∀ inp w2 pollFds2, cycleUntilPoll env inp w1 = .ok (w2, some pollFds2) →
      ∃ l2, registeredHandles w2 = .ok l2 ∧
        pollFds2 = l2.filterMap (fun a => (memLoad w2.runLoop.fileHandleMem a).map pollEntryOf) ∧
        ∀ a ∈ l2, awaitingOf w2.runLoop.fileHandleMem a = some true) := by
  obtain ⟨l0, hr0⟩ := RegistryInv.of_reach hreach
  obtain ⟨hframe, seg, hseg, hrule⟩ := ProcessSelectedFileHandles_pass hreach h
  obtain ⟨l1, hr1⟩ := hframe.registry
  have hinv : ∀ fh cb ev ctx atCall, Event.fileHandleCallback fh cb ev ctx atCall ∈ seg →
      fh ∈ l0 ∧ fh < allocAddr w0.numAllocs := by
    intro fh cb ev ctx atCall he
    obtain ⟨-, hs, node0, -, hnode0, -⟩ := hrule _ he
    rcases hr0.cells fh node0 hnode0 with h1 | h1
    · exact absurd h1 hs
    · exact ⟨h1, (hr0.bounds fh h1).2⟩
  refine ⟨?_, ⟨l0, l1, seg, hr0.registeredHandles_eq, hr1.registeredHandles_eq, hseg, hinv, ?_⟩,
    ?_, ?_⟩
  · intro u hu fd i cb ctx fh u1 hreg
    obtain ⟨lu, hru⟩ := RegistryInv.of_reach (hreach.reach_of_updates hu)
    obtain ⟨hfh, hnode⟩ := HAPPlatformFileHandleRegister_node env fd i cb ctx hru hreg
    have hle : allocAddr w0.numAllocs ≤ fh := by
      have := Updates.allocs_mono hreach hu
      rw [hfh]
      unfold allocAddr
      omega
    refine ⟨hle, hr0.unallocated hle, ?_⟩
    unfold awaitingOf
    rw [hnode]
    rfl
  · intro a ha hna
    obtain ⟨node, hnode⟩ := hr1.load_mem (List.mem_cons_of_mem _ ha)
    rcases hframe.cells a node hnode with ⟨h1, h2⟩ | ⟨node0, h1, -⟩
    · refine ⟨h1, ?_⟩
      unfold awaitingOf
      rw [hnode]
      exact congrArg some h2
    · exfalso
      rcases hr0.cells a node0 h1 with h3 | h3
      · exact hr1.sentinel_not_mem (h3 ▸ ha)
      · exact hna h3
  · intro fh hfh
    rw [hseg, dispatchesOf_append, dispatchesOf_eq_nil fh seg, List.append_nil]
    intro fh1 cb ev ctx atCall he heq
    have := (hinv fh1 cb ev ctx atCall he).2
    omega
  · intro inp w2 pollFds2 hc
    have hreach1 : Reachable env w1 :=
      hreach.reach_of_updates (ProcessSelectedFileHandles_updates env pollFds fuel w0 w1 h)
    obtain ⟨l2, hr2, -, hp, haw⟩ := cycleUntilPoll_pollFds hreach1 hc
    exact ⟨l2, hr2.registeredHandles_eq, hp, haw⟩

theorem registered_during_pass_not_dispatched_witness :
    ∃ w w0 w1, runSteps registerInCallbackEnv threeHandlesSteps World.init = .ok w ∧
      cycleUntilPoll registerInCallbackEnv registerDuringPassInput
        (setState HAPPlatformRunLoopState.kHAPPlatformRunLoopState_Running w) =
        .ok (w0, some [⟨5, POLLIN, 0⟩, ⟨6, POLLIN, 0⟩, ⟨7, POLLIN, 0⟩]) ∧
      ProcessSelectedFileHandles registerInCallbackEnv threeReadableFds 5 w0 = .ok w1 ∧
      ∀ fh, allocAddr w0.numAllocs ≤ fh →
        dispatchesOf fh w1.trace = dispatchesOf fh w0.trace :=
  ⟨_, _, _, rfl, rfl, rfl,
    And.left (And.right (And.right
      (registered_during_pass_not_dispatched registerInCallbackEnv _
        (Reachable.reach_of_updates
          (Reachable.state HAPPlatformRunLoopState.kHAPPlatformRunLoopState_Running
            (Reachable.reach_of_runSteps threeHandlesSteps Reachable.init rfl))
          (cycleUntilPoll_updates registerInCallbackEnv registerDuringPassInput _ _ _ rfl))
        threeReadableFds 5 _ rfl)))⟩

/-- Two cycles: in the first the callback of the first of three handles registers a fourth
one, which gets no callback in that cycle; the poll array of the second cycle has an entry for
its descriptor, and its callback is invoked in the second cycle. -/
theorem registered_handle_next_cycle_example :
    ∃ w w1 w2, runSteps registerInCallbackEnv threeHandlesSteps World.init = .ok w ∧
      runLoopCycle registerInCallbackEnv registerDuringPassInput
        (setState HAPPlatformRunLoopState.kHAPPlatformRunLoopState_Running w) = .ok w1 ∧
      dispatchesOf 6 w1.trace = [] ∧
      runLoopCycle registerInCallbackEnv fourReadableInput w1 = .ok w2 ∧
      (polls w2.trace).map (fun p => p.1.map (fun entry => entry.fd)) =
        [[5, 6, 7], [5, 6, 7, 8]] ∧
      dispatchesOf 6 w2.trace = [(6, 23, ⟨true, false, false⟩)] :=
  ⟨_, _, _, rfl, rfl, rfl, rfl, rfl, rfl⟩

/-! ## Which poll entry a handle is dispatched from -/

theorem applyRevents_nil (entries : List WSAPOLLFD) : applyRevents entries [] = entries := by
  cases entries <;> rfl

/-- Entry `i` of the poll array after `WSAPoll`: built from node `i`, with the reported events
of position `i`. -/
theorem applyRevents_entry : ∀ (nodes : List HAPPlatformFileHandle) (revents : List Nat)
    (i : Nat) (node : HAPPlatformFileHandle), nodes[i]? = some node →
    (applyRevents (nodes.map pollEntryOf) revents)[i]? =
      some { fd := node.fileDescriptor, events := pollEventsOf node.interests,
             revents := revents.getD i 0 } := by
  intro nodes
  induction nodes with
  | nil => intro revents i node h; simp at h
  | cons n0 rest ih =>
    intro revents i node h
    cases i with
    | zero =>
      have h0 : n0 = node := by simpa using h
      subst h0
      cases revents <;> simp [applyRevents, pollEntryOf]
    | succ i =>
      have h1 : rest[i]? = some node := by simpa using h
      cases revents with
      | nil =>
        have := ih [] i node h1
        rw [applyRevents_nil] at this
        simpa [applyRevents] using this
      | cons r rs =>
        have := ih rs i node h1
        simpa [applyRevents] using this

/-- The search of the poll array by descriptor ends at the entry of the first node with that
descriptor. -/
theorem findPollFd_first : ∀ (nodes : List HAPPlatformFileHandle) (revents : List Nat)
    (i : Nat) (node : HAPPlatformFileHandle), nodes[i]? = some node →
    ∃ k nodek, k ≤ i ∧ nodes[k]? = some nodek ∧
      nodek.fileDescriptor = node.fileDescriptor ∧
      (∀ m nodem, nodes[m]? = some nodem →
        nodem.fileDescriptor = node.fileDescriptor → k ≤ m) ∧
      findPollFd (applyRevents (nodes.map pollEntryOf) revents) node.fileDescriptor =
        some { fd := node.fileDescriptor, events := pollEventsOf nodek.interests,
               revents := revents.getD k 0 } := by
  intro nodes
  induction nodes with
  | nil => intro revents i node h; simp at h
  | cons n0 rest ih =>
    intro revents i node h
    by_cases hfd : n0.fileDescriptor = node.fileDescriptor
    · refine ⟨0, n0, Nat.zero_le _, by simp, hfd, fun m _ _ _ => Nat.zero_le _, ?_⟩
      cases revents <;> simp [applyRevents, findPollFd, pollEntryOf, hfd]
    · cases i with
      | zero =>
        have h0 : n0 = node := by simpa using h
        exact absurd (h0 ▸ rfl) hfd
      | succ i =>
        have h1 : rest[i]? = some node := by simpa using h
        cases revents with
        | nil =>
          obtain ⟨k, nodek, hk, hnk, hfdk, hmin, hfind⟩ := ih [] i node h1
          refine ⟨k + 1, nodek, by omega, by simpa using hnk, hfdk, ?_, ?_⟩
          · intro m nodem hm hfm
            cases m with
            | zero =>
              have h0 : n0 = nodem := by simpa using hm
              exact absurd (h0 ▸ hfm) hfd
            | succ m =>
              have := hmin m nodem (by simpa using hm) hfm
              omega
          · rw [applyRevents_nil] at hfind
            simpa [applyRevents, findPollFd, pollEntryOf, hfd] using hfind
        | cons r rs =>
          obtain ⟨k, nodek, hk, hnk, hfdk, hmin, hfind⟩ := ih rs i node h1
          refine ⟨k + 1, nodek, by omega, by simpa using hnk, hfdk, ?_, ?_⟩
          · intro m nodem hm hfm
            cases m with
            | zero =>
              have h0 : n0 = nodem := by simpa using hm
              exact absurd (h0 ▸ hfm) hfd
            | succ m =>
              have := hmin m nodem (by simpa using hm) hfm
              omega
          · simpa [applyRevents, findPollFd, pollEntryOf, hfd] using hfind

/-- The node at position `i` of the registry. -/
theorem nodes_at {mem : FileHandleMem} {l : List Nat} {nodes : List HAPPlatformFileHandle}
    (h : l.map (memLoad mem) = nodes.map some) {i a : Nat} {node : HAPPlatformFileHandle}
    (hi : l[i]? = some a) (hnode : memLoad mem a = some node) : nodes[i]? = some node := by
  have h1 : (l.map (memLoad mem))[i]? = some (some node) := by
    rw [List.getElem?_map, hi]
    exact congrArg some hnode
  rw [h, List.getElem?_map] at h1
  cases hn : nodes[i]? with
  | none => rw [hn] at h1; cases h1
  | some n =>
    rw [hn] at h1
    exact Option.some.inj h1

/-- C28. When a cycle started in a machine that an execution can be in reaches `WSAPoll`, with
`nodes` the nodes of the registered handles in registry order and `pollFds` the poll array after
`WSAPoll`: entry `i` of `pollFds` is built from node `i` and carries the events reported at
position `i`; the search by the descriptor of node `i` returns entry `k`, where `k` is the first
position whose node has that descriptor, so `k ≤ i` and the `events` of the entry come from the
interests of node `k`; when the descriptors are pairwise distinct the search returns entry `i`
itself; when an earlier node `j < i` has the same descriptor the search returns an entry at a
position `k ≤ j`, not entry `i`; and every callback invocation of the dispatch pass is for a
handle at some position `i` of the registry, with the events computed from the result of that
search for the descriptor of node `i` and the interests of the handle at the call. -/
theorem poll_entry_by_descriptor (env : Env) (inp : CycleInput) (w w0 : World)
    (pollFds0 : List WSAPOLLFD) (hreach : Reachable env w)
    (hc : cycleUntilPoll env inp w = .ok (w0, some pollFds0)) :
    ∃ (l : List Nat) (nodes : List HAPPlatformFileHandle),
      registeredHandles w0 = .ok l ∧
      l.map (memLoad w0.runLoop.fileHandleMem) = nodes.map some ∧
      pollFds0 = nodes.map pollEntryOf ∧
      (∀ (i : Nat) (node : HAPPlatformFileHandle), nodes[i]? = some node →
        (applyRevents pollFds0 inp.poll.revents)[i]? =
          some ({ fd := node.fileDescriptor, events := pollEventsOf node.interests,
                  revents := inp.poll.revents.getD i 0 } : WSAPOLLFD)) ∧
      (∀ (i : Nat) (node : HAPPlatformFileHandle), nodes[i]? = some node →
        ∃ (k : Nat) (nodek : HAPPlatformFileHandle), k ≤ i ∧ nodes[k]? = some nodek ∧
          nodek.fileDescriptor = node.fileDescriptor ∧
          (∀ (m : Nat) (nodem : HAPPlatformFileHandle), nodes[m]? = some nodem →
            nodem.fileDescriptor = node.fileDescriptor → k ≤ m) ∧
          findPollFd (applyRevents pollFds0 inp.poll.revents) node.fileDescriptor =
            (applyRevents pollFds0 inp.poll.revents)[k]? ∧
          (applyRevents pollFds0 inp.poll.revents)[k]? =
            some ({ fd := node.fileDescriptor, events := pollEventsOf nodek.interests,
                    revents := inp.poll.revents.getD k 0 } : WSAPOLLFD)) ∧
      ((nodes.map fun node => node.fileDescriptor).Nodup →
        ∀ (i : Nat) (node : HAPPlatformFileHandle), nodes[i]? = some node →
          findPollFd (applyRevents pollFds0 inp.poll.revents) node.fileDescriptor =
            (applyRevents pollFds0 inp.poll.revents)[i]?) ∧
      (∀ (i j : Nat) (nodei nodej : HAPPlatformFileHandle), j < i → nodes[i]? = some nodei → nodes[j]? = some nodej →
        nodej.fileDescriptor = nodei.fileDescriptor →
        ∃ (k : Nat) (nodek : HAPPlatformFileHandle), k ≤ j ∧ nodes[k]? = some nodek ∧
          findPollFd (applyRevents pollFds0 inp.poll.revents) nodei.fileDescriptor =
            some ({ fd := nodei.fileDescriptor, events := pollEventsOf nodek.interests,
                    revents := inp.poll.revents.getD k 0 } : WSAPOLLFD)) ∧
      (∀ fuel w1,
        ProcessSelectedFileHandles env (applyRevents pollFds0 inp.poll.revents) fuel w0 =
          .ok w1 →
        ∃ seg, w1.trace = w0.trace ++ seg ∧
          ∀ fh cb ev ctx atCall, Event.fileHandleCallback fh cb ev ctx atCall ∈ seg →
            ∃ (i : Nat) (node0 nodeAt : HAPPlatformFileHandle) (entry : WSAPOLLFD), l[i]? = some fh ∧ nodes[i]? = some node0 ∧
              memLoad atCall.fileHandleMem fh = some nodeAt ∧
              findPollFd (applyRevents pollFds0 inp.poll.revents) node0.fileDescriptor =
                some entry ∧
              ev = fileHandleEventsOf nodeAt.interests entry.revents) := by
  obtain ⟨l, hr, -, hp, -⟩ := cycleUntilPoll_pollFds hreach hc
  obtain ⟨nodes, hnodes, hfm⟩ := filterMap_loaded w0.runLoop.fileHandleMem pollEntryOf l
    (fun a ha => hr.load_mem (List.mem_cons_of_mem _ ha))
  have hpoll : pollFds0 = nodes.map pollEntryOf := hp.trans hfm
  have hreach0 : Reachable env w0 :=
    hreach.reach_of_updates (cycleUntilPoll_updates env inp w w0 _ hc)
  subst hpoll
  refine ⟨l, nodes, hr.registeredHandles_eq, hnodes, rfl,
    fun i node hi => applyRevents_entry nodes _ i node hi, ?_, ?_, ?_, ?_⟩
  · intro i node hi
    obtain ⟨k, nodek, hk, hnk, hfdk, hmin, hfind⟩ := findPollFd_first nodes inp.poll.revents i node hi
    have hent := applyRevents_entry nodes inp.poll.revents k nodek hnk
    rw [hfdk] at hent
    exact ⟨k, nodek, hk, hnk, hfdk, hmin, hfind.trans hent.symm, hent⟩
  · intro hnd i node hi
    obtain ⟨k, nodek, hk, hnk, hfdk, hmin, hfind⟩ := findPollFd_first nodes inp.poll.revents i node hi
    have hki : k = i := by
      have hlen : i < nodes.length := by
        by_contra hlt
        rw [List.getElem?_eq_none (Nat.le_of_not_lt hlt)] at hi
        cases hi
      have hklen : k < nodes.length := lt_of_le_of_lt hk hlen
      have hk1 : (nodes.map fun node => node.fileDescriptor)[k]? = some node.fileDescriptor := by
        rw [List.getElem?_map, hnk]
        exact congrArg some hfdk
      have hi1 : (nodes.map fun node => node.fileDescriptor)[i]? = some node.fileDescriptor := by
        rw [List.getElem?_map, hi]
        rfl
      have hk2 : k < (nodes.map fun node => node.fileDescriptor).length := by
        rw [List.length_map]; exact hklen
      have hi2 : i < (nodes.map fun node => node.fileDescriptor).length := by
        rw [List.length_map]; exact hlen
      rw [List.getElem?_eq_getElem hk2] at hk1
      rw [List.getElem?_eq_getElem hi2] at hi1
      exact (List.Nodup.getElem_inj_iff hnd).mp
        ((Option.some.inj hk1).trans (Option.some.inj hi1).symm)
    subst hki
    have hn : nodek = node := Option.some.inj (hnk.symm.trans hi)
    subst hn
    exact hfind.trans (applyRevents_entry nodes inp.poll.revents k nodek hnk).symm
  · intro i j nodei nodej hji hi hj hfd
    obtain ⟨k, nodek, hk, hnk, hfdk, hmin, hfind⟩ :=
      findPollFd_first nodes inp.poll.revents i nodei hi
    exact ⟨k, nodek, hmin j nodej hj hfd, hnk, hfind⟩
  · intro fuel w1 hpass
    obtain ⟨-, seg, hseg, hrule⟩ := ProcessSelectedFileHandles_pass hreach0 hpass
    refine ⟨seg, hseg, fun fh cb ev ctx atCall he => ?_⟩
    obtain ⟨⟨nodeAt, entry, hat, -, -, -, -, -, hfind, hev, -⟩, hs, node0, nodeAt1, hnode0, hat1,
      hfd⟩ := hrule _ he
    rw [hat] at hat1
    cases hat1
    have hmem : fh ∈ l := by
      rcases hr.cells fh node0 hnode0 with h1 | h1
      · exact absurd h1 hs
      · exact h1
    obtain ⟨i, hi⟩ := List.getElem?_of_mem hmem
    refine ⟨i, node0, nodeAt, entry, hi, nodes_at hnodes hi hnode0, hat, ?_, hev⟩
    rw [← hfd]
    exact hfind

theorem poll_entry_by_descriptor_witness :
    ∃ w w0, runSteps idleEnv sharedDescriptorSteps World.init = .ok w ∧
      cycleUntilPoll idleEnv sharedDescriptorInput
        (setState HAPPlatformRunLoopState.kHAPPlatformRunLoopState_Running w) =
        .ok (w0, some [⟨5, POLLIN, 0⟩, ⟨5, POLLOUT, 0⟩]) ∧
      ∃ (l : List Nat) (nodes : List HAPPlatformFileHandle),
        registeredHandles w0 = .ok l ∧
        l.map (memLoad w0.runLoop.fileHandleMem) = nodes.map some ∧
        [⟨5, POLLIN, 0⟩, ⟨5, POLLOUT, 0⟩] = nodes.map pollEntryOf :=
  ⟨_, _, rfl, rfl,
    (poll_entry_by_descriptor idleEnv sharedDescriptorInput _ _ _
      (Reachable.state HAPPlatformRunLoopState.kHAPPlatformRunLoopState_Running
        (Reachable.reach_of_runSteps sharedDescriptorSteps Reachable.init rfl)) rfl).imp
      fun _ hl => hl.imp fun _ hn => ⟨hn.1, hn.2.1, hn.2.2.1⟩⟩

/-- Two handles registered for the same descriptor, the first for reading and the second for
writing, in a cycle in which `WSAPoll` reports `POLLIN` in the first entry and `POLLOUT` in the
second: the second handle is looked up in the first entry, whose reported events do not meet
its write interest, so its callback is not invoked although its own entry reports `POLLOUT`. -/
theorem shared_descriptor_example :
    ∃ w w1, runSteps idleEnv sharedDescriptorSteps World.init = .ok w ∧
      registeredHandles w = .ok [2, 3] ∧
      runLoopCycle idleEnv sharedDescriptorInput
        (setState HAPPlatformRunLoopState.kHAPPlatformRunLoopState_Running w) = .ok w1 ∧
      (polls w1.trace).map (fun p => p.1) = [[⟨5, POLLIN, 0⟩, ⟨5, POLLOUT, 0⟩]] ∧
      findPollFd (applyRevents [⟨5, POLLIN, 0⟩, ⟨5, POLLOUT, 0⟩] [POLLIN, POLLOUT]) 5 =
        some ⟨5, POLLIN, POLLIN⟩ ∧
      dispatches w1.trace = [(2, 20, ⟨true, false, false⟩)] :=
  ⟨_, _, rfl, rfl, rfl, rfl, rfl, rfl⟩

/-! ## When the awaiting-events flag is set -/

/-- Counterexample for C22: a handle and a timer with the deadline `10` are registered. In a
cycle at time `0` the poll array is built, which sets the flag of the handle, and `WSAPoll`
times out with no ready descriptor, so no dispatch pass runs and the flag stays set; when the
timer fires at the start of the next cycle, its callback finds the handle registered with the
flag set. The same holds after a failed `WSAPoll`. -/
theorem awaiting_flag_stale_counterexample :
    ∃ w w1 w2 w3, runSteps idleEnv handleAndTimerSteps World.init = .ok w ∧
      runLoopCycle idleEnv timedOutInput
        (setState HAPPlatformRunLoopState.kHAPPlatformRunLoopState_Running w) = .ok w1 ∧
      registeredHandles w1 = .ok [2] ∧
      dispatches w1.trace = [] ∧
      awaitingOf w1.runLoop.fileHandleMem 2 = some true ∧
      ProcessExpiredTimers idleEnv 10 2 w1 = .ok w2 ∧
      (timerCallbackSnapshots w2.trace).map (fun rl => awaitingOf rl.fileHandleMem 2) =
        [some true] ∧
      runLoopCycle idleEnv failedPollInput
        (setState HAPPlatformRunLoopState.kHAPPlatformRunLoopState_Running w) = .ok w3 ∧
      awaitingOf w3.runLoop.fileHandleMem 2 = some true ∧
      (timerCallbackSnapshots
        (match ProcessExpiredTimers idleEnv 10 2 w3 with
          | .ok w4 => w4.trace
          | .error _ => [])).map (fun rl => awaitingOf rl.fileHandleMem 2) = [some true] :=
  ⟨_, _, _, _, rfl, rfl, rfl, rfl, rfl, rfl, rfl, rfl, rfl, rfl⟩

/-- C22, amended. In a machine that an execution can be in: a primitive change leaves a node
with the flag `isAwaitingEvents` set only where the flag was set before, unless the change is
the construction of the poll array of a cycle; a set flag stays set unless the cell is released
or the dispatch loop visits the node, which clears it; when a cycle reaches `WSAPoll` and
`WSAPoll` returns `0` or `SOCKET_ERROR`, the cycle ends there with every registered handle
still flagged; and after a complete pass of `ProcessSelectedFileHandles` no registered handle
is flagged. -/
theorem awaiting_flag_window (env : Env) (w : World) (hreach : Reachable env w) :
    (∀ w1, Update env w w1 → ∀ a node1, memLoad w1.runLoop.fileHandleMem a = some node1 →
      node1.isAwaitingEvents = true →
      (∃ node, memLoad w.runLoop.fileHandleMem a = some node ∧ node.isAwaitingEvents = true) ∨
      ∃ pollFds timeout, w1.trace = w.trace ++ [Event.poll pollFds timeout]) ∧
    (∀ w1, Update env w w1 → ∀ a node, memLoad w.runLoop.fileHandleMem a = some node →
      node.isAwaitingEvents = true →
      memLoad w1.runLoop.fileHandleMem a = none ∨
      (∃ node1, memLoad w1.runLoop.fileHandleMem a = some node1 ∧
        node1.isAwaitingEvents = true) ∨
      (a = w.runLoop.fileHandleCursor ∧ a ≠ w.runLoop.fileHandles ∧
        awaitingOf w1.runLoop.fileHandleMem a = some false)) ∧
    (∀ inp w0 pollFds, cycleUntilPoll env inp w = .ok (w0, some pollFds) →
      inp.poll.numReady ≤ 0 →
      runLoopCycle env inp w = .ok w0 ∧
      ∃ l, registeredHandles w0 = .ok l ∧ l ≠ [] ∧
        ∀ a ∈ l, awaitingOf w0.runLoop.fileHandleMem a = some true) ∧
    (∀ pollFds fuel w1, ProcessSelectedFileHandles env pollFds fuel w = .ok w1 →
      ∃ l1, registeredHandles w1 = .ok l1 ∧
        ∀ a ∈ l1, awaitingOf w1.runLoop.fileHandleMem a = some false) := by
  obtain ⟨l, hr⟩ := RegistryInv.of_reach hreach
  refine ⟨?_, ?_, ?_, ?_⟩
  · intro w1 hu a node1 hload hflag
    cases hu with
    | api h =>
      rcases h.cells hr a node1 hload with ⟨node, h1, -, h3⟩ | ⟨-, h2⟩
      · exact Or.inl ⟨node, h1, h3.symm.trans hflag⟩
      · rw [h2] at hflag; cases hflag
    | fireHead _ => exact Or.inl ⟨node1, hload, hflag⟩
    | selfPipeRecv => exact Or.inl ⟨node1, hload, hflag⟩
    | selfPipeDeliver _ _ _ _ => exact Or.inl ⟨node1, hload, hflag⟩
    | enterFileHandleCallback _ _ _ => exact Or.inl ⟨node1, hload, hflag⟩
    | dispatchStart _ => exact Or.inl ⟨node1, hload, hflag⟩
    | visitIdle _ _ _ => exact Or.inl ⟨node1, hload, hflag⟩
    | visitAwaiting _ hnode _ =>
      change memLoad (memStore _ _ _) a = some node1 at hload
      rw [memLoad_memStore] at hload
      split at hload
      · cases hload
        cases hflag
      · exact Or.inl ⟨node1, hload, hflag⟩
    | sleep => exact Or.inl ⟨node1, hload, hflag⟩
    | pollAllocFails => exact Or.inl ⟨node1, hload, hflag⟩
    | pollSetup timeout _ _ => exact Or.inr ⟨_, timeout, rfl⟩
  · intro w1 hu a node hload hflag
    have same : w1.runLoop.fileHandleMem = w.runLoop.fileHandleMem →
        memLoad w1.runLoop.fileHandleMem a = none ∨
        (∃ node1, memLoad w1.runLoop.fileHandleMem a = some node1 ∧
          node1.isAwaitingEvents = true) ∨
        (a = w.runLoop.fileHandleCursor ∧ a ≠ w.runLoop.fileHandles ∧
          awaitingOf w1.runLoop.fileHandleMem a = some false) := by
      intro hm
      rw [hm]
      exact Or.inr (Or.inl ⟨node, hload, hflag⟩)
    cases hu with
    | api h =>
      cases h1 : memLoad w1.runLoop.fileHandleMem a with
      | none => exact Or.inl rfl
      | some node1 =>
        refine Or.inr (Or.inl ⟨node1, rfl, ?_⟩)
        rcases h.cells hr a node1 h1 with ⟨node', h2, -, h3⟩ | ⟨h2, -⟩
        · rw [hload] at h2
          cases h2
          exact h3.trans hflag
        · rw [h2, hr.fresh] at hload
          cases hload
    | fireHead _ => exact same rfl
    | selfPipeRecv => exact same rfl
    | selfPipeDeliver _ _ _ _ => exact same rfl
    | enterFileHandleCallback _ _ _ => exact same rfl
    | dispatchStart _ => exact same rfl
    | visitIdle _ _ _ => exact same rfl
    | visitAwaiting hcur hnode _ =>
      by_cases ha : a = w.runLoop.fileHandleCursor
      · refine Or.inr (Or.inr ⟨ha, ha ▸ hcur, ?_⟩)
        show awaitingOf (memStore _ _ _) a = _
        rw [awaitingOf_memStore, if_pos ha]
      · refine Or.inr (Or.inl ⟨node, ?_, hflag⟩)
        show memLoad (memStore _ _ _) a = _
        rw [memLoad_memStore, if_neg ha]
        exact hload
    | sleep => exact same rfl
    | pollAllocFails => exact same rfl
    | pollSetup timeout hhead hwalk =>
      rename_i head handles
      refine Or.inr (Or.inl ?_)
      show ∃ node1, memLoad (fillPollFds w.runLoop.fileHandleMem handles).1 a = some node1 ∧ _
      rw [fillPollFds_mem, hload]
      by_cases hm : a ∈ handles
      · exact ⟨_, by rw [Option.map_some', if_pos hm], rfl⟩
      · exact ⟨_, by rw [Option.map_some', if_neg hm], hflag⟩
  · intro inp w0 pollFds hc hn
    obtain ⟨l0, hr0, hne, -, haw⟩ := cycleUntilPoll_pollFds hreach hc
    refine ⟨?_, l0, hr0.registeredHandles_eq, hne, haw⟩
    unfold runLoopCycle
    rw [hc]
    dsimp only
    split
    · rfl
    · rw [if_neg (by omega)]
  · intro pollFds fuel w1 h1
    obtain ⟨head, hhead, -, -⟩ := hr.load_sentinel
    rw [← hr.sentinel] at hhead
    have hd := DispatchInv.at_start hr hhead
    obtain ⟨N, hN⟩ := dispatchLoop_total env pollFds _ _ _ _ _ hd (le_refl _) (le_refl _)
    unfold ProcessSelectedFileHandles at h1
    rw [hhead] at h1
    obtain ⟨v1, hd1⟩ := (hN fuel).1 w1 h1
    have hreg := hd1.registry
    rw [List.append_nil] at hreg
    exact ⟨v1, hreg.registeredHandles_eq, hd1.idle⟩

theorem awaiting_flag_window_witness :
    ∃ w, runSteps idleEnv handleAndTimerSteps World.init = .ok w ∧
      ∀ inp w0 pollFds,
        cycleUntilPoll idleEnv inp
          (setState HAPPlatformRunLoopState.kHAPPlatformRunLoopState_Running w) =
          .ok (w0, some pollFds) →
        inp.poll.numReady ≤ 0 →
        runLoopCycle idleEnv inp
          (setState HAPPlatformRunLoopState.kHAPPlatformRunLoopState_Running w) = .ok w0 ∧
        ∃ l, registeredHandles w0 = .ok l ∧ l ≠ [] ∧
          ∀ a ∈ l, awaitingOf w0.runLoop.fileHandleMem a = some true :=
  ⟨_, rfl,
    And.left (And.right (And.right
      (awaiting_flag_window idleEnv _
        (Reachable.state HAPPlatformRunLoopState.kHAPPlatformRunLoopState_Running
          (Reachable.reach_of_runSteps handleAndTimerSteps Reachable.init rfl)))))⟩

/-! ## File manager: the split of the file path -/

/-- Outcome of the first `n` rounds of the loop of `splitFilePath`: the last position below `n`
that holds a separator, with the rest of `filePath` after it, or the initial values when there
is none. -/
theorem splitFilePath_rounds (targetDirPath filePath : List Nat) (n : Nat) :
    ((∀ i, i < n → targetDirPath.getD i 0 ≠ 92) ∧
      (List.range n).foldl
        (fun (acc : Nat × List Nat) (i : Nat) =>
          if targetDirPath.getD i 0 = 92 then (i, filePath.drop (i + 1)) else acc)
        (0, filePath) = (0, filePath)) ∨
    ∃ k, k < n ∧ targetDirPath.getD k 0 = 92 ∧
      (∀ i, k < i → i < n → targetDirPath.getD i 0 ≠ 92) ∧
      (List.range n).foldl
        (fun (acc : Nat × List Nat) (i : Nat) =>
          if targetDirPath.getD i 0 = 92 then (i, filePath.drop (i + 1)) else acc)
        (0, filePath) = (k, filePath.drop (k + 1)) := by
  induction n with
  | zero => exact Or.inl ⟨fun i hi => absurd hi (Nat.not_lt_zero i), rfl⟩
  | succ n ih =>
    rw [List.range_succ, List.foldl_append, List.foldl_cons, List.foldl_nil]
    by_cases hn : targetDirPath.getD n 0 = 92
    · rw [if_pos hn]
      exact Or.inr ⟨n, Nat.lt_succ_self n, hn, fun i h1 h2 => by omega, rfl⟩
    · rw [if_neg hn]
      rcases ih with ⟨h1, h2⟩ | ⟨k, hk, hk1, hk2, hk3⟩
      · refine Or.inl ⟨fun i hi => ?_, h2⟩
        rcases Nat.lt_succ_iff_lt_or_eq.mp hi with h | h
        · exact h1 i h
        · rw [h]; exact hn
      · refine Or.inr ⟨k, Nat.lt_succ_of_lt hk, hk1, fun i h3 h4 => ?_, hk3⟩
        rcases Nat.lt_succ_iff_lt_or_eq.mp h4 with h | h
        · exact hk2 i h3 h
        · rw [h]; exact hn

theorem normalizeSeparators_append (a b : List Nat) :
    normalizeSeparators (a ++ b) = normalizeSeparators a ++ normalizeSeparators b :=
  List.map_append _ a b

/-- A string without `'/'` is left alone by the normalisation. -/
theorem normalizeSeparators_id (s : List Nat) (h : ∀ x ∈ s, x ≠ 47) :
    normalizeSeparators s = s := by
  induction s with
  | nil => rfl
  | cons x t ih =>
    show (if x = 47 then 92 else x) :: normalizeSeparators t = x :: t
    rw [if_neg (h x (List.mem_cons_self _ _)),
      ih (fun y hy => h y (List.mem_cons_of_mem _ hy))]

theorem normalizeSeparators_idem (s : List Nat) :
    normalizeSeparators (normalizeSeparators s) = normalizeSeparators s := by
  apply normalizeSeparators_id
  intro x hx
  unfold normalizeSeparators at hx
  obtain ⟨y, -, hy⟩ := List.mem_map.mp hx
  rw [← hy]
  split <;> omega

theorem normalizeSeparators_length (s : List Nat) :
    (normalizeSeparators s).length = s.length := List.length_map _ _

/-- The loop finds the last separator of the path. -/
theorem splitFilePath_last (pre post : List Nat) (c : Nat) (hc : c = 47 ∨ c = 92)
    (hpost : ∀ x ∈ post, x ≠ 47 ∧ x ≠ 92) :
    splitFilePath (normalizeSeparators (pre ++ c :: post)) (pre ++ c :: post) =
      (pre.length, post) := by
  have hcons : normalizeSeparators (c :: post) =
      (if c = 47 then 92 else c) :: normalizeSeparators post := rfl
  have hsep : (normalizeSeparators (pre ++ c :: post)).getD pre.length 0 = 92 := by
    rw [normalizeSeparators_append, List.getD_eq_getElem?_getD,
      List.getElem?_append_right (by rw [normalizeSeparators_length])]
    rw [normalizeSeparators_length, Nat.sub_self, hcons, List.getElem?_cons_zero]
    rcases hc with h | h <;> rw [h] <;> rfl
  have hafter : ∀ i, pre.length < i → i < (pre ++ c :: post).length →
      (normalizeSeparators (pre ++ c :: post)).getD i 0 ≠ 92 := by
    intro i h1 h2
    rw [normalizeSeparators_append, List.getD_eq_getElem?_getD,
      List.getElem?_append_right (by rw [normalizeSeparators_length]; omega),
      normalizeSeparators_length]
    obtain ⟨j, hj⟩ : ∃ j, i - pre.length = j + 1 := ⟨i - pre.length - 1, by omega⟩
    rw [hj, hcons, List.getElem?_cons_succ]
    have hjlt : j < post.length := by
      simp only [List.length_append, List.length_cons] at h2
      omega
    rw [normalizeSeparators_id post (fun x hx => (hpost x hx).1),
      List.getElem?_eq_getElem hjlt]
    exact (hpost _ (List.getElem_mem _)).2
  have hlen : pre.length < (pre ++ c :: post).length := by
    simp only [List.length_append, List.length_cons]
    omega
  unfold splitFilePath
  rcases splitFilePath_rounds (normalizeSeparators (pre ++ c :: post)) (pre ++ c :: post)
    (pre ++ c :: post).length with ⟨h1, -⟩ | ⟨k, hk, hk1, hk2, hk3⟩
  · exact absurd hsep (h1 _ hlen)
  · have hkeq : k = pre.length := by
      rcases Nat.lt_trichotomy k pre.length with h | h | h
      · exact absurd hsep (hk2 _ h hlen)
      · exact h
      · exact absurd hk1 (hafter k h hk)
    rw [hk3, hkeq]
    have hdrop : List.drop (pre.length + 1) (pre ++ c :: post) = post := by
      have h1 : pre ++ c :: post = (pre ++ [c]) ++ post := by simp
      rw [h1]
      exact List.drop_left' (by simp)
    rw [hdrop]

/-- Without separator the loop leaves its initial values. -/
theorem splitFilePath_none (filePath : List Nat) (h : ∀ x ∈ filePath, x ≠ 47 ∧ x ≠ 92) :
    splitFilePath (normalizeSeparators filePath) filePath = (0, filePath) := by
  unfold splitFilePath
  rcases splitFilePath_rounds (normalizeSeparators filePath) filePath filePath.length with
    ⟨-, h2⟩ | ⟨k, hk, hk1, -, -⟩
  · exact h2
  · exfalso
    rw [normalizeSeparators_id filePath (fun x hx => (h x hx).1), List.getD_eq_getElem?_getD,
      List.getElem?_eq_getElem hk] at hk1
    exact (h _ (List.getElem_mem _)).2 hk1

/-- C30. The paths that `HAPPlatformFileManagerWriteFile` computes, for a `HAPStringWithFormat`
that returns the formatted bytes whenever they fit and a path short enough for the three
buffers. When the last separator of the path is not its first character, the target directory
is the normalised prefix before it, the relative file name is the part after it, and the final
path is the path with every `'/'` replaced by `'\\'`. When the last separator is the first
character, the loop records the position `0`, which the test `dirPathLength > 0` takes for
"no separator": the target directory is `"."` and the final path is `".\\"` followed by the
file name, which is not the normalised path. Without separator the target directory is `"."`.
For `"/file"` the final path is `".\\file"`, while the normalised path is `"\\file"`. -/
theorem write_file_split :
    (∀ (withFormat : Nat → List Nat → Except HAPError (List Nat)) (pre post : List Nat)
      (c : Nat), (∀ n s, s.length < n → withFormat n s = .ok s) →
      (c = 47 ∨ c = 92) → (∀ x ∈ post, x ≠ 47 ∧ x ≠ 92) → pre ≠ [] →
      (pre ++ c :: post).length + 4 < MAX_PATH →
      HAPPlatformFileManagerWriteFile withFormat (pre ++ c :: post) =
        .ok (.ok
          { targetDirPath := normalizeSeparators pre
            relativeFilePath := post
            tmpPath := normalizeSeparators (pre ++ c :: post) ++ [45, 116, 109, 112]
            finalPath := normalizeSeparators (pre ++ c :: post) })) ∧
    (∀ (withFormat : Nat → List Nat → Except HAPError (List Nat)) (post : List Nat) (c : Nat),
      (∀ n s, s.length < n → withFormat n s = .ok s) →
      (c = 47 ∨ c = 92) → (∀ x ∈ post, x ≠ 47 ∧ x ≠ 92) →
      post.length + 6 < MAX_PATH →
      HAPPlatformFileManagerWriteFile withFormat (c :: post) =
        .ok (.ok
          { targetDirPath := [46]
            relativeFilePath := post
            tmpPath := 46 :: 92 :: post ++ [45, 116, 109, 112]
            finalPath := 46 :: 92 :: post }) ∧
      46 :: 92 :: post ≠ normalizeSeparators (c :: post)) ∧
    (∀ (withFormat : Nat → List Nat → Except HAPError (List Nat)) (filePath : List Nat),
      (∀ n s, s.length < n → withFormat n s = .ok s) →
      filePath ≠ [] → (∀ x ∈ filePath, x ≠ 47 ∧ x ≠ 92) →
      filePath.length + 6 < MAX_PATH →
      HAPPlatformFileManagerWriteFile withFormat filePath =
        .ok (.ok
          { targetDirPath := [46]
            relativeFilePath := filePath
            tmpPath := 46 :: 92 :: filePath ++ [45, 116, 109, 112]
            finalPath := 46 :: 92 :: filePath })) ∧
    (HAPPlatformFileManagerWriteFile formatWithin [47, 102, 105, 108, 101] =
        .ok (.ok
          { targetDirPath := [46]
            relativeFilePath := [102, 105, 108, 101]
            tmpPath := [46, 92, 102, 105, 108, 101, 45, 116, 109, 112]
            finalPath := [46, 92, 102, 105, 108, 101] }) ∧
      normalizeSeparators [47, 102, 105, 108, 101] = [92, 102, 105, 108, 101]) := by
  refine ⟨?_, ?_, ?_, ⟨rfl, rfl⟩⟩
  · intro withFormat pre post c hfmt hc hpost hpre hlen
    have hpos : 0 < pre.length := List.length_pos.mpr hpre
    have hpostid : normalizeSeparators post = post :=
      normalizeSeparators_id post (fun x hx => (hpost x hx).1)
    have hnorm : normalizeSeparators (pre ++ c :: post) =
        normalizeSeparators pre ++ 92 :: post := by
      rw [normalizeSeparators_append]
      show _ ++ (if c = 47 then 92 else c) :: normalizeSeparators post = _
      rw [hpostid]
      rcases hc with h | h <;> rw [h] <;> rfl
    have htake : (normalizeSeparators (pre ++ c :: post)).take pre.length =
        normalizeSeparators pre := by
      rw [hnorm]
      exact List.take_left' (normalizeSeparators_length pre)
    unfold MAX_PATH at hlen
    simp only [List.length_append, List.length_cons] at hlen
    unfold HAPPlatformFileManagerWriteFile
    rw [hfmt MAX_PATH _ (by unfold MAX_PATH; simp only [List.length_append, List.length_cons]; omega)]
    dsimp only
    rw [if_neg (by simp only [List.length_append, List.length_cons]; omega),
      splitFilePath_last pre post c hc hpost]
    dsimp only
    rw [if_pos hpos, htake,
      hfmt MAX_PATH _ (by
        unfold MAX_PATH
        simp only [List.length_append, List.length_cons, List.length_nil,
          normalizeSeparators_length]
        omega),
      hfmt MAX_PATH _ (by
        unfold MAX_PATH
        simp only [List.length_append, List.length_cons, List.length_nil,
          normalizeSeparators_length]
        omega)]
    dsimp only
    have h1 : normalizeSeparators (normalizeSeparators pre ++ [92] ++ post) =
        normalizeSeparators pre ++ 92 :: post := by
      rw [normalizeSeparators_append, normalizeSeparators_append, normalizeSeparators_idem,
        hpostid, List.append_assoc]
      rfl
    have h2 : normalizeSeparators
        (normalizeSeparators pre ++ [92] ++ post ++ [45, 116, 109, 112]) =
        normalizeSeparators pre ++ 92 :: post ++ [45, 116, 109, 112] := by
      rw [normalizeSeparators_append, h1]
      rfl
    rw [h1, h2, hnorm]
  · intro withFormat post c hfmt hc hpost hlen
    have hpostid : normalizeSeparators post = post :=
      normalizeSeparators_id post (fun x hx => (hpost x hx).1)
    unfold MAX_PATH at hlen
    constructor
    · unfold HAPPlatformFileManagerWriteFile
      rw [hfmt MAX_PATH _ (by unfold MAX_PATH; simp only [List.length_cons]; omega)]
      dsimp only
      rw [if_neg (by simp only [List.length_cons]; omega)]
      have hsplit := splitFilePath_last [] post c hc hpost
      rw [List.nil_append] at hsplit
      rw [hsplit]
      dsimp only
      rw [if_neg (by simp),
        hfmt MAX_PATH _ (by
          unfold MAX_PATH
          simp only [List.length_append, List.length_cons, List.length_nil]
          omega),
        hfmt MAX_PATH _ (by
          unfold MAX_PATH
          simp only [List.length_append, List.length_cons, List.length_nil]
          omega)]
      dsimp only
      have h1 : normalizeSeparators ([46] ++ [92] ++ post) = 46 :: 92 :: post := by
        rw [normalizeSeparators_append, hpostid]
        rfl
      have h2 : normalizeSeparators ([46] ++ [92] ++ post ++ [45, 116, 109, 112]) =
          46 :: 92 :: post ++ [45, 116, 109, 112] := by
        rw [normalizeSeparators_append, h1]
        rfl
      rw [h1, h2]
    · intro h
      have h3 : normalizeSeparators (c :: post) =
          (if c = 47 then 92 else c) :: normalizeSeparators post := rfl
      rw [h3] at h
      have h4 := (List.cons.inj h).1
      rcases hc with hc | hc <;> rw [hc] at h4 <;> simp at h4
  · intro withFormat filePath hfmt hne hsep hlen
    have hid : normalizeSeparators filePath = filePath :=
      normalizeSeparators_id filePath (fun x hx => (hsep x hx).1)
    have hpos : 0 < filePath.length := List.length_pos.mpr hne
    unfold MAX_PATH at hlen
    unfold HAPPlatformFileManagerWriteFile
    rw [hfmt MAX_PATH _ (by unfold MAX_PATH; omega)]
    dsimp only
    rw [if_neg (by omega), splitFilePath_none filePath hsep]
    dsimp only
    rw [if_neg (by simp),
      hfmt MAX_PATH _ (by
        unfold MAX_PATH
        simp only [List.length_append, List.length_cons, List.length_nil]
        omega),
      hfmt MAX_PATH _ (by
        unfold MAX_PATH
        simp only [List.length_append, List.length_cons, List.length_nil]
        omega)]
    dsimp only
    have h1 : normalizeSeparators ([46] ++ [92] ++ filePath) = 46 :: 92 :: filePath := by
      rw [normalizeSeparators_append, hid]
      rfl
    have h2 : normalizeSeparators ([46] ++ [92] ++ filePath ++ [45, 116, 109, 112]) =
        46 :: 92 :: filePath ++ [45, 116, 109, 112] := by
      rw [normalizeSeparators_append, h1]
      rfl
    rw [h1, h2]

end HomeKitADK
